import Mathlib

/-!
# Layout engine of gtirb-pprinter: embedding and verified properties

Shallow embedding of `src/gtirb_layout/gtirb_layout.cpp`.  The GTIRB object graph
(modules, sections, byte intervals, blocks, symbols, CFG edges) belongs to the
external GTIRB library; it is represented here by plain records in which

* every node carries its UUID, used wherever the C++ follows a pointer to a node
  held by the CFG or by a symbol;
* every container is a list in the container's iteration order, and the identity
  of a byte interval inside its section is its position in that list;
* `Addr` and `uint64_t` values are natural numbers, and every addition or
  subtraction performed by the code of the layout engine is reduced modulo `2 ^ 64`;
* `assert` is compiled out (`NDEBUG`), so a failed check is the `return false`
  that follows it.
-/

namespace GtirbLayout

/-! ## 64-bit arithmetic -/

/-- Number of values of an `Addr` or a `uint64_t`. -/
def addrModulus : Nat := 2 ^ 64

/-- Unsigned 64-bit addition. -/
def add64 (a b : Nat) : Nat := (a + b) % addrModulus

/-- Unsigned 64-bit subtraction. -/
def sub64 (a b : Nat) : Nat := (a + (addrModulus - b % addrModulus)) % addrModulus

/-! ## Data model -/

/-- The two kinds of block a byte interval holds. -/
inductive BlockKind where
  | code
  | data
deriving DecidableEq, Repr

/-- A `CodeBlock` or `DataBlock`: a region at `offset` of `size` bytes inside the
byte interval that lists it. -/
structure Block where
  uuid : Nat
  kind : BlockKind
  offset : Nat
  size : Nat
deriving DecidableEq, Repr

/-- A `gtirb::SymbolicExpression`; symbols are named by UUID. -/
inductive SymbolicExpression where
  | SymAddrConst (Offset : Int) (Sym : Nat)
  | SymAddrAddr (Scale : Int) (Offset : Int) (Sym1 Sym2 : Nat)
deriving DecidableEq, Repr

/-- A `gtirb::ByteInterval`.  `blocks` is the block container in iteration order
(ascending offset), `symbolicExpressions` the offset-keyed map of symbolic
expressions in key order, `bytes` the byte vector. -/
structure ByteInterval where
  uuid : Nat
  address : Option Nat
  size : Nat
  bytes : List Nat
  blocks : List Block
  symbolicExpressions : List (Nat × SymbolicExpression)
deriving DecidableEq, Repr

/-- A `gtirb::Section`, with its byte intervals in iteration order. -/
structure Section where
  uuid : Nat
  name : String
  byteIntervals : List ByteInterval
deriving DecidableEq, Repr

/-- The label of a CFG edge. -/
inductive EdgeType where
  | Branch
  | Call
  | Fallthrough
  | Return
  | Syscall
  | Sysret
deriving DecidableEq, Repr

/-- A vertex of the CFG: a code block or a proxy block, named by UUID. -/
inductive CfgNode where
  | codeBlock (uuid : Nat)
  | proxyBlock (uuid : Nat)
deriving DecidableEq, Repr

/-- The `Edge` record of the source. -/
structure Edge where
  Source : CfgNode
  Target : CfgNode
  Type_ : EdgeType
  Conditional : Bool
  Direct : Bool
deriving DecidableEq, Repr

/-- What a symbol stores: nothing, a raw address, or a referent block. -/
inductive SymbolPayload where
  | none
  | address (addr : Nat)
  | referent (block : Nat)
deriving DecidableEq, Repr

/-- A `gtirb::Symbol`. -/
structure Symbol where
  uuid : Nat
  name : String
  payload : SymbolPayload
deriving DecidableEq, Repr

/-- A `gtirb::Module`: its sections in iteration order and its symbol table. -/
structure Module where
  sections : List Section
  symbols : List Symbol
deriving DecidableEq, Repr

/-- A `gtirb::IR`: the modules and the control-flow graph they share. -/
structure IR where
  modules : List Module
  cfg : List Edge
deriving DecidableEq, Repr

/-- A `gtirb::Context`, reduced to the supply of UUIDs for new nodes. -/
structure Context where
  nextUUID : Nat
deriving DecidableEq, Repr

/-! ## The GTIRB accessors the layout code calls -/

/-- The code blocks of an interval, as iterated by `code_blocks()`. -/
def ByteInterval.code_blocks (BI : ByteInterval) : List Block :=
  BI.blocks.filter (fun B => B.kind = BlockKind.code)

/-- The data blocks of an interval, as iterated by `data_blocks()`. -/
def ByteInterval.data_blocks (BI : ByteInterval) : List Block :=
  BI.blocks.filter (fun B => B.kind = BlockKind.data)

/-- Insertion into the offset-ordered block container: after every block whose
offset is not larger. -/
def insertBlock (B : Block) : List Block → List Block
  | [] => [B]
  | X :: Xs => if B.offset < X.offset then B :: X :: Xs else X :: insertBlock B Xs

/-- The call `BI.addBlock(Off, B)` for an existing block `B`: the block is placed
in `BI` at offset `Off`. -/
def ByteInterval.addBlock (BI : ByteInterval) (Off : Nat) (B : Block) : ByteInterval :=
  { BI with blocks := insertBlock { B with offset := Off } BI.blocks }

/-- Insertion into the offset-keyed map of symbolic expressions; an entry with the
same key is overwritten. -/
def insertSymbolicExpression (Off : Nat) (E : SymbolicExpression) :
    List (Nat × SymbolicExpression) → List (Nat × SymbolicExpression)
  | [] => [(Off, E)]
  | X :: Xs =>
    if Off < X.1 then (Off, E) :: X :: Xs
    else if Off = X.1 then (Off, E) :: Xs
    else X :: insertSymbolicExpression Off E Xs

/-- The call `BI.addSymbolicExpression(Off, E)`. -/
def ByteInterval.addSymbolicExpression (BI : ByteInterval) (Off : Nat)
    (E : SymbolicExpression) : ByteInterval :=
  { BI with symbolicExpressions := insertSymbolicExpression Off E BI.symbolicExpressions }

/-- The call `BI.setSize(N)`. -/
def ByteInterval.setSize (BI : ByteInterval) (N : Nat) : ByteInterval :=
  { BI with size := N }

/-- The call `BI.insertBytes(bytes_begin() + Pos, ...)`: splice into the byte vector. -/
def ByteInterval.insertBytes (BI : ByteInterval) (Pos : Nat) (New : List Nat) : ByteInterval :=
  { BI with bytes := BI.bytes.take Pos ++ New ++ BI.bytes.drop Pos }

/-- The call `BI.setAddress(A)`. -/
def ByteInterval.setAddress (BI : ByteInterval) (A : Option Nat) : ByteInterval :=
  { BI with address := A }

/-- Does the interval hold the code block with this UUID? -/
def ByteInterval.hasCodeBlock (BI : ByteInterval) (U : Nat) : Bool :=
  BI.code_blocks.any (fun B => B.uuid = U)

/-- The address of a section: the lowest interval address when every interval has
one and there is at least one interval. -/
def Section.getAddress (S : Section) : Option Nat :=
  if S.byteIntervals.all (fun BI => BI.address.isSome) then
    (S.byteIntervals.filterMap (fun BI => BI.address)).min?
  else none

/-- The address of a module: the lowest section address when every section has
one and there is at least one section. -/
def Module.getAddress (M : Module) : Option Nat :=
  if M.sections.all (fun S => S.getAddress.isSome) then
    (M.sections.filterMap (fun S => S.getAddress)).min?
  else none

/-- The call `getOutgoingEdges(B)` for a code block `B`: the edges that leave its vertex,
in the order the CFG stores them.  Every code block of the IR is a vertex of the CFG,
so `blockToCFGIndex` finds it. -/
def getOutgoingEdges (Cfg : List Edge) (B : Block) : List Edge :=
  Cfg.filter (fun E => E.Source = CfgNode.codeBlock B.uuid)

/-- The address `BI.getAddress() + B.getOffset()` of a block whose interval is at `A`. -/
def blockAddress (A : Nat) (B : Block) : Nat := add64 A B.offset

/-- Does the interval have an address and cover address `X`? -/
def ByteInterval.containsAddr (BI : ByteInterval) (X : Nat) : Bool :=
  match BI.address with
  | none => false
  | some A => decide (A ≤ X ∧ X < A + BI.size)

/-- The call `BI.findBlocksAt(X)`: the blocks that start at address `X`. -/
def ByteInterval.findBlocksAt (BI : ByteInterval) (X : Nat) : List Block :=
  match BI.address with
  | none => []
  | some A => BI.blocks.filter (fun B => blockAddress A B = X)

/-- The call `BI.findBlocksOn(X)`: the blocks whose bytes include address `X`. -/
def ByteInterval.findBlocksOn (BI : ByteInterval) (X : Nat) : List Block :=
  match BI.address with
  | none => []
  | some A => BI.blocks.filter (fun B => blockAddress A B ≤ X ∧ X < blockAddress A B + B.size)

/-- The call `BI.findBlocksAt(Low, High)`: the blocks that start in `[Low, High)`. -/
def ByteInterval.findBlocksAtRange (BI : ByteInterval) (Low High : Nat) : List Block :=
  match BI.address with
  | none => []
  | some A => BI.blocks.filter (fun B => Low ≤ blockAddress A B ∧ blockAddress A B < High)

/-- The call `BI.addBlock<Kind>(Ctx, Off, 0)`: a new zero-length block with a fresh UUID. -/
def ByteInterval.addNewBlock (Ctx : Context) (BI : ByteInterval) (Kind : BlockKind)
    (Off : Nat) : Context × ByteInterval × Nat :=
  let B : Block := { uuid := Ctx.nextUUID, kind := Kind, offset := Off, size := 0 }
  ({ nextUUID := Ctx.nextUUID + 1 }, { BI with blocks := insertBlock B BI.blocks }, Ctx.nextUUID)

/-- The first element of `M.findByteIntervalsOn(X)`: sections in order, intervals in order. -/
def findByteIntervalOn (X : Nat) : List Section → Option ByteInterval
  | [] => none
  | S :: Ss =>
    match S.byteIntervals.find? (fun BI => BI.containsAddr X) with
    | some BI => some BI
    | none => findByteIntervalOn X Ss

/-- Replace the first element satisfying `P` by its image under `F`. -/
def modifyFirst {α : Type} (P : α → Bool) (F : α → α) : List α → List α
  | [] => []
  | X :: Xs => if P X then F X :: Xs else X :: modifyFirst P F Xs

/-- Update in place the interval that `findByteIntervalOn` returns. -/
def modifyByteIntervalOn (X : Nat) (F : ByteInterval → ByteInterval) :
    List Section → List Section
  | [] => []
  | S :: Ss =>
    if S.byteIntervals.any (fun BI => BI.containsAddr X) then
      { S with byteIntervals := modifyFirst (fun BI => BI.containsAddr X) F S.byteIntervals } :: Ss
    else S :: modifyByteIntervalOn X F Ss

/-- Every block of the module paired with its interval, in section, interval and
block order. -/
def allBlocks (Secs : List Section) : List (ByteInterval × Block) :=
  (Secs.map (fun S =>
    (S.byteIntervals.map (fun BI => BI.blocks.map (fun B => (BI, B)))).flatten)).flatten

/-- The address `*B.getAddress()` of a block of the module.  The source dereferences
the optional without a test, where every interval has an address; an interval
without address counts as placed at 0. -/
def blockAddr (P : ByteInterval × Block) : Nat := blockAddress (P.1.address.getD 0) P.2

/-- The range `M.blocks()`: all blocks in ascending address order. -/
def Module.blocks (M : Module) : List (ByteInterval × Block) :=
  (allBlocks M.sections).insertionSort (fun P Q => blockAddr P ≤ blockAddr Q)

/-- The call `M.findSymbols(Block)`: the symbols whose referent is the block. -/
def Module.findSymbols (M : Module) (B : Block) : List Symbol :=
  M.symbols.filter (fun Sym => Sym.payload = SymbolPayload.referent B.uuid)

/-! ## findAndMergeBIs -/

/-- How one execution of the body of `findAndMergeBIs` leaves its loops. -/
inductive MergeScan where
  /-- Both loops ran to completion: `return true`. -/
  | done
  /-- One of the three checks failed, or the target is a proxy block: `return false`. -/
  | failed
  /-- The intervals at positions `Source` and `Target` are merged, then the
  function calls itself. -/
  | merge (Source Target : Nat)
deriving DecidableEq, Repr

/-- The block that `E.Target` points to and the interval `Target->getByteInterval()`
with its position, searched in the intervals of the section. -/
def findCodeBlock (T : Nat) : Nat → List ByteInterval → Option (Nat × ByteInterval × Block)
  | _, [] => none
  | J, BI :: BIs =>
    match BI.code_blocks.find? (fun B => B.uuid = T) with
    | some B => some (J, BI, B)
    | none => findCodeBlock T (J + 1) BIs

/-- The inner loop of `findAndMergeBIs` over the outgoing edges, for the interval
`SourceBI` at position `I` whose last code block is `Source`.  The result is `none`
when the loop ends without a `return`.  A code block that is in no interval of `S`
is in an interval of another section. -/
def scanEdges (S : Section) (I : Nat) (SourceBI : ByteInterval) (Source : Block) :
    List Edge → Option MergeScan
  | [] => none
  | E :: Es =>
    if E.Type_ ≠ EdgeType.Fallthrough then scanEdges S I SourceBI Source Es
    else
      match E.Target with
      | CfgNode.codeBlock T =>
        match findCodeBlock T 0 S.byteIntervals with
        | some (J, _, Target) =>
          if I = J then scanEdges S I SourceBI Source Es
          else if add64 Source.offset Source.size ≠ SourceBI.size then some MergeScan.failed
          else if Target.offset ≠ 0 then some MergeScan.failed
          else some (MergeScan.merge I J)
        | none => some MergeScan.failed
      | CfgNode.proxyBlock _ => some MergeScan.failed

/-- The outer loop of `findAndMergeBIs` over the byte intervals of `S`, from
position `I` on.  `Source` is `code_blocks().back()`, and the edges inspected are
those of `*code_blocks_begin()`. -/
def scanByteIntervals (Cfg : List Edge) (S : Section) : Nat → List ByteInterval → MergeScan
  | _, [] => MergeScan.done
  | I, SourceBI :: BIs =>
    match SourceBI.code_blocks.head?, SourceBI.code_blocks.getLast? with
    | some First, some Source =>
      match scanEdges S I SourceBI Source (getOutgoingEdges Cfg First) with
      | some R => R
      | none => scanByteIntervals Cfg S (I + 1) BIs
    | _, _ => scanByteIntervals Cfg S (I + 1) BIs

/-- The merge proper (lines 129 to 154): `SourceBI` absorbs `TargetBI`. -/
def mergeByteIntervals (SourceBI TargetBI : ByteInterval) : ByteInterval :=
  let BaseOffset := SourceBI.size
  let BI1 := SourceBI.setSize (add64 SourceBI.size TargetBI.size)
  let BI2 := TargetBI.code_blocks.foldl
    (fun BI B => BI.addBlock (add64 BaseOffset B.offset) B) BI1
  let BI3 := TargetBI.data_blocks.foldl
    (fun BI B => BI.addBlock (add64 BaseOffset B.offset) B) BI2
  let BI4 := TargetBI.symbolicExpressions.foldl
    (fun BI SEE => BI.addSymbolicExpression (add64 BaseOffset SEE.1) SEE.2) BI3
  BI4.insertBytes BaseOffset TargetBI.bytes

/-- The section after the interval at position `I` has absorbed the one at position
`J` and `S.removeByteInterval(&TargetBI)` has run. -/
def Section.mergeAt (S : Section) (I J : Nat) : Section :=
  match S.byteIntervals[I]?, S.byteIntervals[J]? with
  | some SourceBI, some TargetBI =>
    { S with byteIntervals :=
        (S.byteIntervals.set I (mergeByteIntervals SourceBI TargetBI)).eraseIdx J }
  | _, _ => S

/-- The recursion of `findAndMergeBIs`, with a bound on the number of calls. -/
def findAndMergeBIsFuel (Cfg : List Edge) : Nat → Section → Bool × Section
  | 0, S => (false, S)
  | Fuel + 1, S =>
    match scanByteIntervals Cfg S 0 S.byteIntervals with
    | MergeScan.done => (true, S)
    | MergeScan.failed => (false, S)
    | MergeScan.merge I J => findAndMergeBIsFuel Cfg Fuel (S.mergeAt I J)

/-- The function `findAndMergeBIs`: the returned flag and the section as it is left.
Every recursive call follows the removal of one interval, so one call more than
the number of intervals is never exceeded. -/
def findAndMergeBIs (Cfg : List Edge) (S : Section) : Bool × Section :=
  findAndMergeBIsFuel Cfg (S.byteIntervals.length + 1) S

/-! ## layoutRequired -/

/-- The function `layoutRequired`. -/
def layoutRequired (ir : IR) : Bool :=
  ir.modules.any (fun M =>
    M.getAddress.isNone ||
    M.sections.any (fun S =>
      S.getAddress.isNone ||
      S.byteIntervals.any (fun BI => BI.address.isNone)))

/-! ## fixIntegralSymbols -/

/-- The body of the first `for` loop over `M.findByteIntervalsOn(Addr)` for the
interval `BI`: the referent chosen and the interval with the block added for it. -/
def resolveInInterval (Ctx : Context) (BI : ByteInterval) (Addr : Nat) :
    Context × ByteInterval × Nat :=
  match (BI.findBlocksAt Addr).head? with
  | some ExactMatch => (Ctx, BI, ExactMatch.uuid)
  | none =>
    match (BI.findBlocksOn Addr).head? with
    | some ApproxMatch =>
      BI.addNewBlock Ctx ApproxMatch.kind (sub64 Addr (BI.address.getD 0))
    | none => BI.addNewBlock Ctx BlockKind.data (sub64 Addr (BI.address.getD 0))

/-- The body of the loop over `IntSyms` for one symbol whose address is `Addr`.  The
interval updated in place by `modifyByteIntervalOn` is the interval `BI` found. -/
def fixIntegralSymbol (Ctx : Context) (Secs : List Section) (Sym : Symbol) (Addr : Nat) :
    Context × List Section × Symbol :=
  match findByteIntervalOn Addr Secs with
  | some BI =>
    let R := resolveInInterval Ctx BI Addr
    (R.1, modifyByteIntervalOn Addr (fun BI1 => (resolveInInterval Ctx BI1 Addr).2.1) Secs,
      { Sym with payload := SymbolPayload.referent R.2.2 })
  | none =>
    match findByteIntervalOn (sub64 Addr 1) Secs with
    | some BI =>
      let R := BI.addNewBlock Ctx BlockKind.data (sub64 Addr (BI.address.getD 0))
      (R.1,
        modifyByteIntervalOn (sub64 Addr 1)
          (fun BI1 => (BI1.addNewBlock Ctx BlockKind.data (sub64 Addr (BI1.address.getD 0))).2.1)
          Secs,
        { Sym with payload := SymbolPayload.referent R.2.2 })
    | none => (Ctx, Secs, Sym)

/-- The loop over `IntSyms`, the symbols with an address and no referent, in symbol
order; the other symbols are passed over. -/
def fixIntegralSymbolsLoop : Context → List Section → List Symbol →
    Context × List Section × List Symbol
  | Ctx, Secs, [] => (Ctx, Secs, [])
  | Ctx, Secs, Sym :: Syms =>
    match Sym.payload with
    | SymbolPayload.address Addr =>
      let R := fixIntegralSymbol Ctx Secs Sym Addr
      let Rest := fixIntegralSymbolsLoop R.1 R.2.1 Syms
      (Rest.1, Rest.2.1, R.2.2 :: Rest.2.2)
    | _ =>
      let Rest := fixIntegralSymbolsLoop Ctx Secs Syms
      (Rest.1, Rest.2.1, Sym :: Rest.2.2)

/-- The function `fixIntegralSymbols`. -/
def fixIntegralSymbols (Ctx : Context) (M : Module) : Context × Module :=
  let R := fixIntegralSymbolsLoop Ctx M.sections M.symbols
  (R.1, { sections := R.2.1, symbols := R.2.2 })

/-! ## addOverlapDisambiguationSymbols -/

/-- The local variables of `addOverlapDisambiguationSymbols`. -/
structure OverlapState where
  Found : Bool
  FoundAt : Nat
  SymsToAdd : List Symbol
  Ctx : Context
deriving DecidableEq, Repr

/-- The name given to the symbol synthesized for address `Addr`. -/
def overlapSymbolName (Addr : Nat) : String := ".gtirb_layout_" ++ toString Addr

/-- The body of the loop over `M.blocks()` for one block. -/
def overlapStep (M : Module) (St : OverlapState) (P : ByteInterval × Block) : OverlapState :=
  let Addr := blockAddr P
  let Size := P.2.size
  if St.Found ∧ St.FoundAt = Addr then St
  else
    let St1 := { St with Found := false }
    let Range :=
      if Size = 0 then P.1.findBlocksAt Addr
      else P.1.findBlocksAtRange Addr (add64 Addr Size)
    if 1 < Range.length then
      if (M.findSymbols P.2).isEmpty then
        { Found := true
          FoundAt := Addr
          SymsToAdd := St.SymsToAdd ++
            [{ uuid := St.Ctx.nextUUID, name := overlapSymbolName Addr,
               payload := SymbolPayload.referent P.2.uuid }]
          Ctx := { nextUUID := St.Ctx.nextUUID + 1 } }
      else St1
    else St1

/-- The function `addOverlapDisambiguationSymbols`. -/
def addOverlapDisambiguationSymbols (Ctx : Context) (M : Module) : Context × Module :=
  let St := M.blocks.foldl (overlapStep M)
    { Found := false, FoundAt := 0, SymsToAdd := [], Ctx := Ctx }
  (St.Ctx, { M with symbols := M.symbols ++ St.SymsToAdd })

/-! ## layoutModule and removeModuleLayout -/

/-- The inner loop of `layoutModule`: every interval receives the cursor `A`, which
then advances by the interval's size.  The result is the final cursor and the
intervals with their addresses. -/
def assignAddresses : Nat → List ByteInterval → Nat × List ByteInterval
  | A, [] => (A, [])
  | A, BI :: BIs =>
    let R := assignAddresses (add64 A BI.size) BIs
    (R.1, BI.setAddress (some A) :: R.2)

/-- The loop of `layoutModule` over the stored sections, from cursor `A`.  When
`findAndMergeBIs` fails the loop stops and the remaining sections are untouched. -/
def layoutSections (Cfg : List Edge) : Nat → List Section → Bool × List Section
  | _, [] => (true, [])
  | A, S :: Ss =>
    match findAndMergeBIs Cfg S with
    | (false, S1) => (false, S1 :: Ss)
    | (true, S1) =>
      let R := assignAddresses A S1.byteIntervals
      let Rest := layoutSections Cfg R.1 Ss
      (Rest.1, { S1 with byteIntervals := R.2 } :: Rest.2)

/-- The function `layoutModule(Ctx, M)`, with the CFG of the IR that owns `M`: the
returned flag, and the context and module as they are left. -/
def layoutModule (Cfg : List Edge) (Ctx : Context) (M : Module) : Bool × Context × Module :=
  let R := fixIntegralSymbols Ctx M
  match layoutSections Cfg 0 R.2.sections with
  | (false, Secs) => (false, R.1, { R.2 with sections := Secs })
  | (true, Secs) =>
    let R2 := addOverlapDisambiguationSymbols R.1 { R.2 with sections := Secs }
    (true, R2.1, R2.2)

/-- The function `removeModuleLayout`. -/
def removeModuleLayout (M : Module) : Bool × Module :=
  (true, { M with sections := M.sections.map (fun S =>
    { S with byteIntervals := S.byteIntervals.map (fun BI => BI.setAddress none) }) })

/-! ## The printing engine: output stream and decoded instruction

The printers write to a `std::ostream`; the stream is the text written so far, and
`os << x` appends the text of `x` (numbers in decimal, the stream's default).  The
instruction decoder is the external capstone library: a decoded instruction is the
record of the fields that the printers read. -/

/-- How a printing function that can end the process comes back: it returns, the
stream being as it has left it, or the process exits with a status, the stream being
as it was when `exit` was called. -/
inductive Run where
  | returned (os : String)
  | exited (os : String) (status : Nat)
deriving DecidableEq, Repr

/-- The enumeration `arm64_op_type` of capstone; `unlisted` stands for a value that is
none of the enumerators, which a `switch` sends to `default`. -/
inductive arm64_op_type where
  | ARM64_OP_INVALID
  | ARM64_OP_REG
  | ARM64_OP_IMM
  | ARM64_OP_MEM
  | ARM64_OP_FP
  | ARM64_OP_CIMM
  | ARM64_OP_REG_MRS
  | ARM64_OP_REG_MSR
  | ARM64_OP_PSTATE
  | ARM64_OP_SYS
  | ARM64_OP_PREFETCH
  | ARM64_OP_BARRIER
  | unlisted (value : Nat)
deriving DecidableEq, Repr

/-- The enumeration `arm64_shifter` of capstone. -/
inductive arm64_shifter where
  | ARM64_SFT_INVALID
  | ARM64_SFT_LSL
  | ARM64_SFT_MSL
  | ARM64_SFT_LSR
  | ARM64_SFT_ASR
  | ARM64_SFT_ROR
  | unlisted (value : Nat)
deriving DecidableEq, Repr

/-- The enumeration `arm64_extender` of capstone. -/
inductive arm64_extender where
  | ARM64_EXT_INVALID
  | ARM64_EXT_UXTB
  | ARM64_EXT_UXTH
  | ARM64_EXT_UXTW
  | ARM64_EXT_UXTX
  | ARM64_EXT_SXTB
  | ARM64_EXT_SXTH
  | ARM64_EXT_SXTW
  | ARM64_EXT_SXTX
  | unlisted (value : Nat)
deriving DecidableEq, Repr

/-- The enumeration `arm64_barrier_op` of capstone. -/
inductive arm64_barrier_op where
  | ARM64_BARRIER_INVALID
  | ARM64_BARRIER_OSHLD
  | ARM64_BARRIER_OSHST
  | ARM64_BARRIER_OSH
  | ARM64_BARRIER_NSHLD
  | ARM64_BARRIER_NSHST
  | ARM64_BARRIER_NSH
  | ARM64_BARRIER_ISHLD
  | ARM64_BARRIER_ISHST
  | ARM64_BARRIER_ISH
  | ARM64_BARRIER_LD
  | ARM64_BARRIER_ST
  | ARM64_BARRIER_SY
  | unlisted (value : Nat)
deriving DecidableEq, Repr

/-- The enumeration `arm64_prefetch_op` of capstone. -/
inductive arm64_prefetch_op where
  | ARM64_PRFM_INVALID
  | ARM64_PRFM_PLDL1KEEP
  | ARM64_PRFM_PLDL1STRM
  | ARM64_PRFM_PLDL2KEEP
  | ARM64_PRFM_PLDL2STRM
  | ARM64_PRFM_PLDL3KEEP
  | ARM64_PRFM_PLDL3STRM
  | ARM64_PRFM_PLIL1KEEP
  | ARM64_PRFM_PLIL1STRM
  | ARM64_PRFM_PLIL2KEEP
  | ARM64_PRFM_PLIL2STRM
  | ARM64_PRFM_PLIL3KEEP
  | ARM64_PRFM_PLIL3STRM
  | ARM64_PRFM_PSTL1KEEP
  | ARM64_PRFM_PSTL1STRM
  | ARM64_PRFM_PSTL2KEEP
  | ARM64_PRFM_PSTL2STRM
  | ARM64_PRFM_PSTL3KEEP
  | ARM64_PRFM_PSTL3STRM
  | unlisted (value : Nat)
deriving DecidableEq, Repr

/-- The register id `ARM64_REG_INVALID`, and `X86_REG_INVALID`: both are 0. -/
def REG_INVALID : Nat := 0

/-- The struct `arm64_op_mem`: base and index register ids and the displacement. -/
structure arm64_op_mem where
  base : Nat
  index : Nat
  disp : Int
deriving DecidableEq, Repr

/-- The struct `cs_arm64_op`.  The members of its union are separate fields here; `fp` is
the bit pattern of the `double`. -/
structure cs_arm64_op where
  type : arm64_op_type
  reg : Nat
  imm : Int
  fp : Nat
  mem : arm64_op_mem
  prefetch : arm64_prefetch_op
  barrier : arm64_barrier_op
  shift_type : arm64_shifter
  shift_value : Nat
  ext : arm64_extender
deriving DecidableEq, Repr

/-- An operand slot that capstone has not filled: all fields zero. -/
def cs_arm64_op.zero : cs_arm64_op :=
  { type := arm64_op_type.ARM64_OP_INVALID, reg := 0, imm := 0, fp := 0,
    mem := { base := 0, index := 0, disp := 0 },
    prefetch := arm64_prefetch_op.ARM64_PRFM_INVALID,
    barrier := arm64_barrier_op.ARM64_BARRIER_INVALID,
    shift_type := arm64_shifter.ARM64_SFT_INVALID, shift_value := 0,
    ext := arm64_extender.ARM64_EXT_INVALID }

/-- A `cs_insn` decoded for AArch64, with its `detail->arm64` part: `operands` are the
slots of the operand array from slot 0 on, `op_count` the number of operands, and
`is_jump` the answer of `cs_insn_group(csHandle, &inst, ARM64_GRP_JUMP)`. -/
structure cs_insn where
  address : Nat
  op_str : String
  op_count : Nat
  operands : List cs_arm64_op
  writeback : Bool
  is_jump : Bool
deriving DecidableEq, Repr

/-- The slot `inst.detail->arm64.operands[index]`; a slot that the list does not give is
an unfilled slot. -/
def cs_insn.operand (inst : cs_insn) (index : Nat) : cs_arm64_op :=
  inst.operands.getD index cs_arm64_op.zero

/-- The enumeration `x86_op_type` of capstone. -/
inductive x86_op_type where
  | X86_OP_INVALID
  | X86_OP_REG
  | X86_OP_IMM
  | X86_OP_MEM
  | unlisted (value : Nat)
deriving DecidableEq, Repr

/-- The struct `x86_op_mem`. -/
structure x86_op_mem where
  segment : Nat
  base : Nat
  index : Nat
  scale : Int
  disp : Int
deriving DecidableEq, Repr

/-- The struct `cs_x86_op`, with the members of its union as separate fields. -/
structure cs_x86_op where
  type : x86_op_type
  reg : Nat
  imm : Int
  mem : x86_op_mem
deriving DecidableEq, Repr

/-- An operand slot that capstone has not filled. -/
def cs_x86_op.zero : cs_x86_op :=
  { type := x86_op_type.X86_OP_INVALID, reg := 0, imm := 0,
    mem := { segment := 0, base := 0, index := 0, scale := 0, disp := 0 } }

/-- A `cs_insn` decoded for x86, with its `detail->x86` part; `is_call` and `is_jump` are
the answers of `cs_insn_group` for `CS_GRP_CALL` and `CS_GRP_JUMP`. -/
structure cs_insn_x86 where
  address : Nat
  operands : List cs_x86_op
  is_call : Bool
  is_jump : Bool
deriving DecidableEq, Repr

/-- The slot `inst.detail->x86.operands[index]`. -/
def cs_insn_x86.operand (inst : cs_insn_x86) (index : Nat) : cs_x86_op :=
  inst.operands.getD index cs_x86_op.zero

/-- A node that `gtirb::Node::getByUUID` can return: a symbol, or a node of another
class. -/
inductive Node where
  | symbol (S : Symbol)
  | other (uuid : Nat)
deriving DecidableEq, Repr

/-- What a pretty printer reads besides the instruction: its module, the auxiliary
tables, and the functions whose code is outside the files embedded here.
`cs_reg_name` is capstone's; `getSymbolicImmediate` and `printSymbolicExpression` are
members of `PrettyPrinterBase` of which only the declarations are at hand, the first
yielding the offset and the symbol of the `SymAddrConst` it returns and the second the
text it writes; `showDouble` is the text `os << d` writes for a `double`;
`getByUUID` is `gtirb::Node::getByUUID(context, _)`; `baseGetRegisterName` is
`PrettyPrinterBase::getRegisterName` and `ascii_str_tolower` the function of
`string_utils.hpp`.  The table `symbolicOperandInfo` is the auxiliary data
`SymbolicOperandInfoAD` as the pairs of an address with an operand index and a text,
and `symbolForwarding` the auxiliary data `SymbolForwarding`, absent or the pairs of a
symbol's UUID with the UUID it is forwarded to.  The table `SymbolicOperandInfoAD` is
there: `printPrefix` reads it without a test. -/
structure PrinterEnv where
  module : Module
  cs_reg_name : Nat → String
  getSymbolicImmediate : Option SymbolicExpression → Option (Int × Nat)
  printSymbolicExpression : Int → Nat → Bool → String
  showDouble : Nat → String
  symbolicOperandInfo : List (Nat × Nat × String)
  symbolForwarding : Option (List (Nat × Nat))
  getByUUID : Nat → Option Node
  baseGetRegisterName : Nat → String
  ascii_str_tolower : String → String

/-- The call `std::get_if<gtirb::SymAddrConst>(symbolic)` on a pointer that can be null:
the offset and the symbol of the expression when it is a `SymAddrConst`. -/
def getIfSymAddrConst : Option SymbolicExpression → Option (Int × Nat)
  | some (SymbolicExpression.SymAddrConst Offset Sym) => some (Offset, Sym)
  | _ => none

/-- The call `module.findSymbolicExpressionsAt(ea)`: the symbolic expressions at address
`ea`, over the sections and their intervals in order. -/
def Module.findSymbolicExpressionsAt (M : Module) (ea : Nat) : List SymbolicExpression :=
  ((M.sections.map (fun S => S.byteIntervals)).flatten.map (fun BI =>
    match BI.address with
    | none => []
    | some A =>
      (BI.symbolicExpressions.filter (fun SEE => add64 A SEE.1 = ea)).map (fun SEE => SEE.2))).flatten

/-! ## AArch64PrettyPrinter -/

/-- The function `AArch64PrettyPrinter::getRegisterName`. -/
def AArch64PrettyPrinter.getRegisterName (env : PrinterEnv) (reg : Nat) : String :=
  if reg = REG_INVALID then "" else env.cs_reg_name reg

/-- The function `AArch64PrettyPrinter::printPrefix`: the loop over the pairs of the
`SymbolicOperandInfoAD` table. -/
def AArch64PrettyPrinter.printPrefix (env : PrinterEnv) (os : String) (inst : cs_insn)
    (index : Nat) : String :=
  env.symbolicOperandInfo.foldl
    (fun os1 pair => if pair.1 = inst.address ∧ index = pair.2.1 then os1 ++ pair.2.2 else os1) os

/-- The function `AArch64PrettyPrinter::printOpRegdirect`. -/
def AArch64PrettyPrinter.printOpRegdirect (env : PrinterEnv) (os : String) (reg : Nat) :
    String :=
  os ++ AArch64PrettyPrinter.getRegisterName env reg

/-- The function `AArch64PrettyPrinter::printShift`; in the `default` case the `assert`
is compiled out and nothing is written for the type. -/
def AArch64PrettyPrinter.printShift (os : String) (type : arm64_shifter) (value : Nat) :
    String :=
  let os1 :=
    match type with
    | arm64_shifter.ARM64_SFT_LSL => os ++ "lsl"
    | arm64_shifter.ARM64_SFT_MSL => os ++ "msl"
    | arm64_shifter.ARM64_SFT_LSR => os ++ "lsr"
    | arm64_shifter.ARM64_SFT_ASR => os ++ "asr"
    | arm64_shifter.ARM64_SFT_ROR => os ++ "ror"
    | _ => os
  os1 ++ " #" ++ toString value

/-- The function `AArch64PrettyPrinter::printExtender`. -/
def AArch64PrettyPrinter.printExtender (os : String) (ext : arm64_extender)
    (shiftType : arm64_shifter) (shiftValue : Nat) : String :=
  let os1 :=
    match ext with
    | arm64_extender.ARM64_EXT_UXTB => os ++ "uxtb"
    | arm64_extender.ARM64_EXT_UXTH => os ++ "uxth"
    | arm64_extender.ARM64_EXT_UXTW => os ++ "uxtw"
    | arm64_extender.ARM64_EXT_UXTX => os ++ "uxtx"
    | arm64_extender.ARM64_EXT_SXTB => os ++ "sxtb"
    | arm64_extender.ARM64_EXT_SXTH => os ++ "sxth"
    | arm64_extender.ARM64_EXT_SXTW => os ++ "sxtw"
    | arm64_extender.ARM64_EXT_SXTX => os ++ "sxtx"
    | _ => os
  if shiftType ≠ arm64_shifter.ARM64_SFT_INVALID then os1 ++ " #" ++ toString shiftValue
  else os1

/-- The function `AArch64PrettyPrinter::printOpImmediate`. -/
def AArch64PrettyPrinter.printOpImmediate (env : PrinterEnv) (os : String)
    (symbolic : Option SymbolicExpression) (inst : cs_insn) (index : Nat) : String :=
  let op := inst.operand index
  let is_jump := inst.is_jump
  match env.getSymbolicImmediate symbolic with
  | some s =>
    let os1 := if !is_jump then os ++ " " else os
    let os2 := AArch64PrettyPrinter.printPrefix env os1 inst index
    os2 ++ env.printSymbolicExpression s.1 s.2 (!is_jump)
  | none =>
    let os1 := os ++ "#" ++ toString op.imm
    if op.shift_type ≠ arm64_shifter.ARM64_SFT_INVALID ∧ op.shift_value ≠ 0 then
      AArch64PrettyPrinter.printShift (os1 ++ ",") op.shift_type op.shift_value
    else os1

/-- The lines 169 to 173 of `printOpIndirect`, "base register": the flag `first` and
the stream as they are left. -/
def AArch64PrettyPrinter.indirectBase (env : PrinterEnv) (op : cs_arm64_op) (first : Bool)
    (os : String) : Bool × String :=
  if op.mem.base ≠ REG_INVALID then
    (false, os ++ AArch64PrettyPrinter.getRegisterName env op.mem.base)
  else (first, os)

/-- The lines 175 to 187 of `printOpIndirect`, "displacement (constant)". -/
def AArch64PrettyPrinter.indirectDisplacement (env : PrinterEnv)
    (symbolic : Option SymbolicExpression) (inst : cs_insn) (index : Nat) (first : Bool)
    (os : String) : Bool × String :=
  let op := inst.operand index
  if op.mem.disp ≠ 0 then
    let os1 := if !first then os ++ "," else os
    match getIfSymAddrConst symbolic with
    | some s =>
      (false, AArch64PrettyPrinter.printPrefix env os1 inst index ++
        env.printSymbolicExpression s.1 s.2 false)
    | none => (false, os1 ++ "#" ++ toString op.mem.disp)
  else (first, os)

/-- The lines 189 to 196 of `printOpIndirect`, "index register". -/
def AArch64PrettyPrinter.indirectIndex (env : PrinterEnv) (op : cs_arm64_op) (first : Bool)
    (os : String) : String :=
  if op.mem.index ≠ REG_INVALID then
    let os1 := if !first then os ++ "," else os
    os1 ++ AArch64PrettyPrinter.getRegisterName env op.mem.index
  else os

/-- The lines 198 to 203 of `printOpIndirect`, "add shift". -/
def AArch64PrettyPrinter.indirectShift (op : cs_arm64_op) (os : String) : String :=
  if op.shift_type ≠ arm64_shifter.ARM64_SFT_INVALID ∧ op.shift_value ≠ 0 then
    AArch64PrettyPrinter.printShift (os ++ ",") op.shift_type op.shift_value
  else os

/-- The function `AArch64PrettyPrinter::printOpIndirect`, its four parts in order between
the brackets.  The flag `first` is read by the tests that precede a comma and by the
`assert` of the shift, which is compiled out. -/
def AArch64PrettyPrinter.printOpIndirect (env : PrinterEnv) (os : String)
    (symbolic : Option SymbolicExpression) (inst : cs_insn) (index : Nat) : String :=
  let op := inst.operand index
  let R1 := AArch64PrettyPrinter.indirectBase env op true (os ++ "[")
  let R2 := AArch64PrettyPrinter.indirectDisplacement env symbolic inst index R1.1 R1.2
  let os3 := AArch64PrettyPrinter.indirectIndex env op R2.1 R2.2
  let os4 := AArch64PrettyPrinter.indirectShift op os3
  let os5 := os4 ++ "]"
  if inst.writeback ∧ add64 index 1 = inst.op_count then os5 ++ "!" else os5

/-- The characters of a C string: those before the first NUL. -/
def cString (s : String) : List Char := s.toList.takeWhile (fun c => c ≠ Char.ofNat 0)

/-- The function `isspace` of the C library in the "C" locale. -/
def isspace (c : Char) : Bool := c = ' ' ∨ (9 ≤ c.toNat ∧ c.toNat ≤ 13)

/-- The first loop of `printOpRawValue`, from the position whose remaining characters
are `cs`: the flag `inBlock` and the remaining characters when the loop ends. -/
def rawValueSkip (index : Nat) : Nat → Bool → List Char → Bool × List Char
  | _, inBlock, [] => (inBlock, [])
  | currOperand, inBlock, cur :: rest =>
    if currOperand = index then (inBlock, cur :: rest)
    else if cur = '[' then rawValueSkip index currOperand true rest
    else if cur = ']' then rawValueSkip index currOperand false rest
    else if !inBlock ∧ cur = ',' then rawValueSkip index (currOperand + 1) inBlock rest
    else rawValueSkip index currOperand inBlock rest

/-- The second loop of `printOpRawValue`: the number of characters from `operandStart`
to `operandEnd`. -/
def rawValueLength : Bool → List Char → Nat
  | _, [] => 0
  | inBlock, cur :: rest =>
    if cur = '[' then rawValueLength true rest + 1
    else if cur = ']' then rawValueLength false rest + 1
    else if !inBlock ∧ cur = ',' then 0
    else rawValueLength inBlock rest + 1

/-- The function `AArch64PrettyPrinter::printOpRawValue`.  The `assert`s are compiled
out; the counter `currOperand` is an `unsigned int` and is compared with the 64-bit
index, so the comparison is that of the numbers as long as the counter has not wrapped,
which an operand string of 160 characters excludes. -/
def AArch64PrettyPrinter.printOpRawValue (os : String) (inst : cs_insn) (index : Nat) :
    String :=
  let R := rawValueSkip index 0 false (cString inst.op_str)
  let fromStart := R.2
  let len := rawValueLength R.1 fromStart
  let skipped := (fromStart.takeWhile isspace).length
  os ++ String.mk ((fromStart.take len).drop skipped)

/-- The function `AArch64PrettyPrinter::printOpBarrier`. -/
def AArch64PrettyPrinter.printOpBarrier (os : String) (barrier : arm64_barrier_op) : Run :=
  match barrier with
  | arm64_barrier_op.ARM64_BARRIER_OSHLD => Run.returned (os ++ "oshld")
  | arm64_barrier_op.ARM64_BARRIER_OSHST => Run.returned (os ++ "oshst")
  | arm64_barrier_op.ARM64_BARRIER_OSH => Run.returned (os ++ "osh")
  | arm64_barrier_op.ARM64_BARRIER_NSHLD => Run.returned (os ++ "nshld")
  | arm64_barrier_op.ARM64_BARRIER_NSHST => Run.returned (os ++ "nshst")
  | arm64_barrier_op.ARM64_BARRIER_NSH => Run.returned (os ++ "nsh")
  | arm64_barrier_op.ARM64_BARRIER_ISHLD => Run.returned (os ++ "ishld")
  | arm64_barrier_op.ARM64_BARRIER_ISHST => Run.returned (os ++ "ishst")
  | arm64_barrier_op.ARM64_BARRIER_ISH => Run.returned (os ++ "ish")
  | arm64_barrier_op.ARM64_BARRIER_LD => Run.returned (os ++ "ld")
  | arm64_barrier_op.ARM64_BARRIER_ST => Run.returned (os ++ "st")
  | arm64_barrier_op.ARM64_BARRIER_SY => Run.returned (os ++ "sy")
  | _ => Run.exited os 1

/-- The function `AArch64PrettyPrinter::printOpPrefetch`. -/
def AArch64PrettyPrinter.printOpPrefetch (os : String) (prefetch : arm64_prefetch_op) : Run :=
  match prefetch with
  | arm64_prefetch_op.ARM64_PRFM_PLDL1KEEP => Run.returned (os ++ "pldl1keep")
  | arm64_prefetch_op.ARM64_PRFM_PLDL1STRM => Run.returned (os ++ "pldl1strm")
  | arm64_prefetch_op.ARM64_PRFM_PLDL2KEEP => Run.returned (os ++ "pldl2keep")
  | arm64_prefetch_op.ARM64_PRFM_PLDL2STRM => Run.returned (os ++ "pldl2strm")
  | arm64_prefetch_op.ARM64_PRFM_PLDL3KEEP => Run.returned (os ++ "pldl3keep")
  | arm64_prefetch_op.ARM64_PRFM_PLDL3STRM => Run.returned (os ++ "pldl3strm")
  | arm64_prefetch_op.ARM64_PRFM_PLIL1KEEP => Run.returned (os ++ "plil1keep")
  | arm64_prefetch_op.ARM64_PRFM_PLIL1STRM => Run.returned (os ++ "plil1strm")
  | arm64_prefetch_op.ARM64_PRFM_PLIL2KEEP => Run.returned (os ++ "plil2keep")
  | arm64_prefetch_op.ARM64_PRFM_PLIL2STRM => Run.returned (os ++ "plil2strm")
  | arm64_prefetch_op.ARM64_PRFM_PLIL3KEEP => Run.returned (os ++ "plil3keep")
  | arm64_prefetch_op.ARM64_PRFM_PLIL3STRM => Run.returned (os ++ "plil3strm")
  | arm64_prefetch_op.ARM64_PRFM_PSTL1KEEP => Run.returned (os ++ "pstl1keep")
  | arm64_prefetch_op.ARM64_PRFM_PSTL1STRM => Run.returned (os ++ "pstl1strm")
  | arm64_prefetch_op.ARM64_PRFM_PSTL2KEEP => Run.returned (os ++ "pstl2keep")
  | arm64_prefetch_op.ARM64_PRFM_PSTL2STRM => Run.returned (os ++ "pstl2strm")
  | arm64_prefetch_op.ARM64_PRFM_PSTL3KEEP => Run.returned (os ++ "pstl3keep")
  | arm64_prefetch_op.ARM64_PRFM_PSTL3STRM => Run.returned (os ++ "pstl3strm")
  | _ => Run.exited os 1

/-- The lines of `printOperand` that look up the symbolic expression of the last
operand: `symbolic` stays null unless `finalOp` holds and an expression is found at
the address of the instruction, of which the first is taken. -/
def AArch64PrettyPrinter.operandSymbolic (env : PrinterEnv) (inst : cs_insn) (index : Nat) :
    Option SymbolicExpression :=
  let finalOp := decide (add64 index 1 = inst.op_count)
  if finalOp then (env.module.findSymbolicExpressionsAt inst.address).head? else none

/-- The function `AArch64PrettyPrinter::printOperand`.  The text written to `std::cerr`
before `exit(1)` is not part of the stream `os`. -/
def AArch64PrettyPrinter.printOperand (env : PrinterEnv) (os : String) (inst : cs_insn)
    (index : Nat) : Run :=
  let op := inst.operand index
  match op.type with
  | arm64_op_type.ARM64_OP_REG =>
    let os1 := AArch64PrettyPrinter.printOpRegdirect env os op.reg
    -- add extender if needed
    if op.ext ≠ arm64_extender.ARM64_EXT_INVALID then
      Run.returned
        (AArch64PrettyPrinter.printExtender (os1 ++ ", ") op.ext op.shift_type op.shift_value)
    else Run.returned os1
  | arm64_op_type.ARM64_OP_IMM =>
    Run.returned (AArch64PrettyPrinter.printOpImmediate env os
      (AArch64PrettyPrinter.operandSymbolic env inst index) inst index)
  | arm64_op_type.ARM64_OP_MEM =>
    Run.returned (AArch64PrettyPrinter.printOpIndirect env os
      (AArch64PrettyPrinter.operandSymbolic env inst index) inst index)
  | arm64_op_type.ARM64_OP_FP => Run.returned (os ++ "#" ++ env.showDouble op.fp)
  | arm64_op_type.ARM64_OP_CIMM
  | arm64_op_type.ARM64_OP_REG_MRS
  | arm64_op_type.ARM64_OP_REG_MSR
  | arm64_op_type.ARM64_OP_PSTATE
  | arm64_op_type.ARM64_OP_SYS =>
    -- print the operand directly
    Run.returned (AArch64PrettyPrinter.printOpRawValue os inst index)
  | arm64_op_type.ARM64_OP_PREFETCH => AArch64PrettyPrinter.printOpPrefetch os op.prefetch
  | arm64_op_type.ARM64_OP_BARRIER => AArch64PrettyPrinter.printOpBarrier os op.barrier
  | _ => Run.exited os 1

/-- The loop of `printOperandList` from operand `i` on, with `n` operands to go. -/
def AArch64PrettyPrinter.printOperandListFrom (env : PrinterEnv) (inst : cs_insn) :
    Nat → Nat → String → Run
  | 0, _, os => Run.returned os
  | n + 1, i, os =>
    let os1 := if i ≠ 0 then os ++ "," else os
    match AArch64PrettyPrinter.printOperand env os1 inst i with
    | Run.returned os2 => AArch64PrettyPrinter.printOperandListFrom env inst n (i + 1) os2
    | Run.exited os2 status => Run.exited os2 status

/-- The function `AArch64PrettyPrinter::printOperandList`. -/
def AArch64PrettyPrinter.printOperandList (env : PrinterEnv) (os : String) (inst : cs_insn) :
    Run :=
  AArch64PrettyPrinter.printOperandListFrom env inst inst.op_count 0 os

/-- The function `AArch64PrettyPrinter::getForwardedSymbolName`.  The result is `none`
where the source dereferences what is not a symbol: `getByUUID` has found no node, or
a node of another class, and `cast<gtirb::Symbol>` has no symbol to give. -/
def AArch64PrettyPrinter.getForwardedSymbolName (env : PrinterEnv) (symbol : Symbol) :
    Option (Option String) :=
  match env.symbolForwarding with
  | some table =>
    match table.find? (fun entry => entry.1 = symbol.uuid) with
    | some found =>
      match env.getByUUID found.2 with
      | some (Node.symbol destSymbol) => some (some destSymbol.name)
      | _ => none
    | none => some none
  | none => some none

/-! ## AttPrettyPrinter -/

/-- The value of an `int64_t` converted to `uint64_t`, as the stream does before it
writes an integer in base 16. -/
def toUnsigned64 (v : Int) : Nat := (v % (2 ^ 64 : Int)).toNat

/-- The digits that `os << std::hex << v` writes for a 64-bit integer. -/
def showHex (v : Int) : String := String.mk (Nat.toDigits 16 (toUnsigned64 v))

/-- The text that `os << std::setbase(16) << std::showbase << v` writes: the digits
after `0x`, and a plain `0` for zero. -/
def showHexBase (v : Int) : String :=
  if toUnsigned64 v = 0 then "0" else "0x" ++ showHex v

/-- The function `AttPrettyPrinter::getRegisterName`. -/
def AttPrettyPrinter.getRegisterName (env : PrinterEnv) (reg : Nat) : String :=
  "%" ++ env.ascii_str_tolower (env.baseGetRegisterName reg)

/-- The function `AttPrettyPrinter::printOpImmediate`.  The flags of the stream are
restored after the number is written. -/
def AttPrettyPrinter.printOpImmediate (env : PrinterEnv) (os : String)
    (symbolic : Option SymbolicExpression) (inst : cs_insn_x86) (index : Nat) : String :=
  let op := inst.operand index
  let is_call := inst.is_call
  let is_jump := inst.is_jump
  let os1 := if !is_call && !is_jump then os ++ "$" else os
  match env.getSymbolicImmediate symbolic with
  | some s => os1 ++ env.printSymbolicExpression s.1 s.2 (!is_call && !is_jump)
  | none =>
    if is_call || is_jump then os1 ++ showHexBase op.imm
    else os1 ++ toString op.imm

/-- The function `AttPrettyPrinter::printOpIndirect`. -/
def AttPrettyPrinter.printOpIndirect (env : PrinterEnv) (os : String)
    (symbolic : Option SymbolicExpression) (inst : cs_insn_x86) (index : Nat) : String :=
  let op := inst.operand index
  let has_segment := decide (op.mem.segment ≠ REG_INVALID)
  let has_base := decide (op.mem.base ≠ REG_INVALID)
  let has_index := decide (op.mem.index ≠ REG_INVALID)
  let os1 := if inst.is_call || inst.is_jump then os ++ "*" else os
  let os2 :=
    if has_segment then os1 ++ AttPrettyPrinter.getRegisterName env op.mem.segment ++ ":"
    else os1
  let os3 :=
    match getIfSymAddrConst symbolic with
    | some s =>
      -- Displacement is symbolic.
      os2 ++ env.printSymbolicExpression s.1 s.2 false
    | none =>
      -- Displacement is numeric.
      if !has_segment && !has_base && !has_index then os2 ++ "0x" ++ showHex op.mem.disp
      else if op.mem.disp ≠ 0 ∨ has_segment then os2 ++ toString op.mem.disp
      else os2
  -- Print base, index, and scale.
  if has_base || has_index then
    let osA := os3 ++ "("
    let osB := if has_base then osA ++ AttPrettyPrinter.getRegisterName env op.mem.base else osA
    let osC :=
      if has_index then
        let osD := osB ++ "," ++ AttPrettyPrinter.getRegisterName env op.mem.index
        if op.mem.scale ≠ 1 then osD ++ "," ++ toString op.mem.scale else osD
      else osB
    osC ++ ")"
  else os3

/-! ## PrettyPrinterBase::printBlockOrWarning -/

/-- Modelled from the spec: the body of `PrettyPrinterBase::printBlockOrWarning` is in
`PrettyPrinter.cpp`, which is not among the source files; `PrettyPrinter.hpp` has the
declaration and its comment only (lines 217 to 223).  The block `x` starts at address
`addr`; `printBlock` and `printOverlapWarning` are the members of these names, as the
stream they leave.  A block that starts below the cursor `last` is answered with the
warning and the cursor unchanged; any other block is printed and the cursor returned is
the address at which the block ends. -/
def printBlockOrWarning (printBlock : String → Nat → Block → String)
    (printOverlapWarning : String → Nat → String)
    (os : String) (addr : Nat) (x : Block) (last : Nat) : String × Nat :=
  if addr < last then (printOverlapWarning os addr, last)
  else (printBlock os addr x, addr + x.size)

/-! ## The driver: binary_printer.cpp -/

/-- The values `EXIT_SUCCESS` and `EXIT_FAILURE` of the C library. -/
def EXIT_SUCCESS : Nat := 0

/-- The value `EXIT_FAILURE`. -/
def EXIT_FAILURE : Nat := 1

/-- The variables map `vm` after `po::store`: for each option whether it was given and
with which value.  The field `syntaxOpt` is the option `syntax`. -/
structure ProgramOptions where
  help : Bool
  ir : Option String
  binary : Option String
  keep_functions : Option (List String)
  skip_functions : Option (List String)
  compiler_args : Option (List String)
  library_paths : Option (List String)
  syntaxOpt : Option String
deriving DecidableEq, Repr

/-- What is inserted in a log stream: a text, a path, or a manipulator. -/
inductive LogItem where
  | text (s : String)
  | path (p : String)
  | setw (n : Nat)
  | left
  | endl
deriving DecidableEq, Repr

/-- What the driver does that is visible from outside: what it writes and which
functions of the layout, the pretty printer and the binary printer it calls.  The
event `layoutModule` carries the module as it is passed and the flag returned;
`link` carries the IR as it is passed. -/
inductive DriverEvent where
  | cout (text : String)
  | cerr (text : String)
  | logInfo (items : List LogItem)
  | logError (items : List LogItem)
  | layoutModule (M : Module) (result : Bool)
  | setDebug (count : Nat)
  | setTarget (format : String) (syntaxName : String)
  | keepFunction (name : String)
  | skipFunction (name : String)
  | link (binaryPath : String) (extraCompilerArgs : List String)
      (libraryPaths : List String) (ir : IR)
deriving DecidableEq, Repr

/-- What `main` reads from outside: the outcome of parsing the command line (the
variables map, or the text of the exception), the files, the IR that `IR::load`
yields, the static context of `gtirb_layout`, and the functions of the pretty printer
library whose code is outside the files embedded here. -/
structure DriverWorld where
  parse : Except String ProgramOptions
  argv0 : String
  desc : String
  fileExists : String → Bool
  loadFile : String → IR
  loadStdin : IR
  Ctx : Context
  getUUIDText : Module → String
  getModuleFileFormat : Module → String
  getDefaultSyntax : String → Option String
  getRegisteredTargets : List (String × String)

/-- What a run of `main` leaves: the exit status and the events in order. -/
structure DriverOutcome where
  status : Nat
  events : List DriverEvent
deriving DecidableEq, Repr

/-- The loop of lines 84 to 93 over the modules of the IR: the events, the static
context and the modules as they are left.  The flag that `layoutModule` returns is not
read. -/
def layoutModules (w : DriverWorld) (Cfg : List Edge) :
    Context → List Module → List DriverEvent × Context × List Module
  | Ctx, [] => ([], Ctx, [])
  | Ctx, M :: Ms =>
    if M.getAddress.isNone then
      let R := layoutModule Cfg Ctx M
      let Rest := layoutModules w Cfg R.2.1 Ms
      (DriverEvent.logInfo [LogItem.text "Module ", LogItem.text (w.getUUIDText M),
          LogItem.text " has invalid layout; laying out module automatically...",
          LogItem.endl] ::
        DriverEvent.layoutModule M R.1 :: Rest.1, Rest.2.1, R.2.2 :: Rest.2.2)
    else
      let Rest := layoutModules w Cfg Ctx Ms
      (Rest.1, Rest.2.1, M :: Rest.2.2)

/-- The width of the first column of the table of combinations (lines 107 to 110). -/
def columnWidth (targets : List (String × String)) : Nat :=
  targets.foldl (fun width t => max (max width t.1.utf8ByteSize) t.2.utf8ByteSize) 0 + 2

/-- The lines 105 to 115: the report of an unsupported combination. -/
def reportUnsupported (w : DriverWorld) (format syntaxName : String) : List DriverEvent :=
  let width := columnWidth w.getRegisteredTargets
  [DriverEvent.logError [LogItem.text "Unsupported combination: format \x27",
      LogItem.text format, LogItem.text "\x27 and syntax \x27", LogItem.text syntaxName,
      LogItem.text "\x27\n"],
    DriverEvent.logError [LogItem.text "Available combinations:\n"],
    DriverEvent.logError [LogItem.text "    ", LogItem.setw width, LogItem.text "format",
      LogItem.text "syntax\n"]] ++
  w.getRegisteredTargets.map (fun t =>
    DriverEvent.logError [LogItem.text "    ", LogItem.setw width, LogItem.text t.1,
      LogItem.text t.2, LogItem.text "\n"])

/-- The lines 118 to 149 of `main`: the target is set, the functions to keep and to
skip are passed on, and the binary is linked when its name was given. -/
def printAndLink (vm : ProgramOptions) (ir : IR) (format syntaxName : String) :
    DriverOutcome :=
  let keeps := (vm.keep_functions.getD []).map DriverEvent.keepFunction
  let skips := (vm.skip_functions.getD []).map DriverEvent.skipFunction
  let last :=
    match vm.binary with
    | some binaryPath =>
      DriverEvent.link binaryPath (vm.compiler_args.getD []) (vm.library_paths.getD []) ir
    | none => DriverEvent.logInfo [LogItem.text "Please specify a binary name", LogItem.endl]
  { status := EXIT_SUCCESS,
    events := DriverEvent.setTarget format syntaxName :: (keeps ++ skips ++ [last]) }

/-- The lines 98 to 103 of `main`: the format of the first module of the IR and the
syntax asked for, which is the one of the command line or else the default syntax of
the format, or else the empty text. -/
def requestedTarget (w : DriverWorld) (vm : ProgramOptions) (ir : IR) : String × String :=
  let format :=
    match ir.modules.head? with
    | some M => w.getModuleFileFormat M
    | none => ""
  let syntaxName :=
    match vm.syntaxOpt with
    | some s => s
    | none => (w.getDefaultSyntax format).getD ""
  (format, syntaxName)

/-- The lines 77 to 149 of `main`, once the IR is loaded; `before` are the events so
far.  No option `debug` is declared, so `vm.count("debug")` is 0. -/
def mainLoaded (w : DriverWorld) (vm : ProgramOptions) (ir : IR) (before : List DriverEvent) :
    DriverOutcome :=
  if ir.modules.isEmpty then
    { status := EXIT_FAILURE,
      events := before ++ [DriverEvent.logError [LogItem.text "IR has no modules"]] }
  else
    -- Layout the modules so that everything has nonoverlapping addresses if needed.
    let L := layoutModules w ir.cfg w.Ctx ir.modules
    let ir1 : IR := { ir with modules := L.2.2 }
    -- Perform the Pretty Printing step.
    let target := requestedTarget w vm ir1
    if target ∉ w.getRegisteredTargets then
      { status := EXIT_FAILURE,
        events := before ++ L.1 ++ [DriverEvent.setDebug 0] ++
          reportUnsupported w target.1 target.2 }
    else
      let P := printAndLink vm ir1 target.1 target.2
      { status := P.status, events := before ++ L.1 ++ [DriverEvent.setDebug 0] ++ P.events }

/-- The function `main` of the driver. -/
def main (w : DriverWorld) : DriverOutcome :=
  match w.parse with
  | Except.error what =>
    { status := 1,
      events := [DriverEvent.cerr ("Error: " ++ what ++ "\nTry \x27" ++ w.argv0 ++
        " --help\x27 for more information.\n")] }
  | Except.ok vm =>
    if vm.help then { status := 1, events := [DriverEvent.cout (w.desc ++ "\n")] }
    else
      match vm.ir with
      | some irPath =>
        if w.fileExists irPath then
          mainLoaded w vm (w.loadFile irPath)
            [DriverEvent.logInfo [LogItem.setw 24, LogItem.left, LogItem.text "Reading IR: ",
              LogItem.path irPath, LogItem.endl]]
        else
          { status := EXIT_FAILURE,
            events := [DriverEvent.logError [LogItem.text "IR not found: \x22",
              LogItem.path irPath, LogItem.text "\x22."]] }
      | none => mainLoaded w vm w.loadStdin []

/-! ## The calls of findAndMergeBIs, counted -/

/-- The recursion of `findAndMergeBIs` with its invocations and its merges counted:
the number of invocations, the number of merges, and what the first invocation
returns.  The result is `none` when the bound on the invocations is used up before an
invocation returns without calling itself. -/
def findAndMergeBIsCounted (Cfg : List Edge) : Nat → Section → Option (Nat × Nat × Bool × Section)
  | 0, _ => none
  | Fuel + 1, S =>
    match scanByteIntervals Cfg S 0 S.byteIntervals with
    | MergeScan.done => some (1, 0, true, S)
    | MergeScan.failed => some (1, 0, false, S)
    | MergeScan.merge I J =>
      match findAndMergeBIsCounted Cfg Fuel (S.mergeAt I J) with
      | some R => some (R.1 + 1, R.2.1 + 1, R.2.2)
      | none => none

/-! ## The format flags of a stream -/

/-- The field `basefield` of the format flags: one of `dec`, `oct` and `hex`, or
another setting of its bits, under which integers are written in decimal. -/
inductive Basefield where
  | dec
  | oct
  | hex
  | other
deriving DecidableEq, Repr

/-- The format flags `std::ios_base::fmtflags` of a stream: the flags that bear on an
integer written with width 0, and the remaining flags as a number. -/
structure fmtflags where
  basefield : Basefield
  showbase : Bool
  showpos : Bool
  uppercase : Bool
  rest : Nat
deriving DecidableEq, Repr

/-- A `std::ostream` with its format flags: the text written so far and the flags. -/
structure ostream where
  text : String
  flags : fmtflags
deriving DecidableEq, Repr

/-- The flags of a stream on which no manipulator has been used: decimal, no base
prefix, no plus sign, lower case. -/
def fmtflags.initial : fmtflags :=
  { basefield := Basefield.dec, showbase := false, showpos := false, uppercase := false,
    rest := 0 }

/-- The text that `os << v` writes for a 64-bit signed integer under the flags `fl`, as
the facet `num_put` of the C++ library determines it: in base 16 and in base 8 the
value is converted to unsigned, the prefix of `showbase` is written for a value other
than zero, and in decimal the sign `+` of `showpos` is written for a value that is
not negative. -/
def putInteger (fl : fmtflags) (v : Int) : String :=
  match fl.basefield with
  | Basefield.hex =>
    let digits := Nat.toDigits 16 (toUnsigned64 v)
    (if fl.showbase ∧ toUnsigned64 v ≠ 0 then (if fl.uppercase then "0X" else "0x") else "") ++
      String.mk (if fl.uppercase then digits.map Char.toUpper else digits)
  | Basefield.oct =>
    (if fl.showbase ∧ toUnsigned64 v ≠ 0 then "0" else "") ++
      String.mk (Nat.toDigits 8 (toUnsigned64 v))
  | _ => (if fl.showpos ∧ 0 ≤ v then "+" else "") ++ toString v

/-- The function `AttPrettyPrinter::printOpImmediate` on a stream with its format
flags.  The member `printSymbolicExpression`, whose code is not at hand, is the
function from the stream it receives to the stream it leaves. -/
def AttPrettyPrinter.printOpImmediateOn (env : PrinterEnv)
    (printSymbolicExpression : ostream → Int → Nat → Bool → ostream) (os : ostream)
    (symbolic : Option SymbolicExpression) (inst : cs_insn_x86) (index : Nat) : ostream :=
  let op := inst.operand index
  let is_call := inst.is_call
  let is_jump := inst.is_jump
  let os1 := if !is_call && !is_jump then { os with text := os.text ++ "$" } else os
  match env.getSymbolicImmediate symbolic with
  | some s => printSymbolicExpression os1 s.1 s.2 (!is_call && !is_jump)
  | none =>
    let flags := os1.flags
    let os2 :=
      if is_call || is_jump then
        { os1 with flags := { os1.flags with basefield := Basefield.hex, showbase := true } }
      else os1
    let os3 := { os2 with text := os2.text ++ putInteger os2.flags op.imm }
    { os3 with flags := flags }

/-! ## ElfPrettyPrinter::printSectionProperties -/

/-- The constants of `<elf.h>` that `printSectionProperties` reads; the header is a
system header and not among the source files. -/
structure ElfConstants where
  SHF_WRITE : Nat
  SHF_ALLOC : Nat
  SHF_EXECINSTR : Nat
  SHT_PROGBITS : Nat
  SHT_NOBITS : Nat
deriving DecidableEq, Repr

/-- The function `ElfPrettyPrinter::printSectionProperties` of `ElfPrinter.cpp`.
`elfSectionProperties` is the auxiliary table of that name of the first module of the
IR, absent or the pairs of a section's UUID with the type and the flags of the
section; `K` are the constants of `<elf.h>`. -/
def ElfPrettyPrinter.printSectionProperties (K : ElfConstants)
    (elfSectionProperties : Option (List (Nat × Nat × Nat))) (os : String) (S : Section) :
    String :=
  match elfSectionProperties with
  | none => os
  | some table =>
    match table.find? (fun entry => entry.1 = S.uuid) with
    | none => os
    | some sectionProperties =>
      let type := sectionProperties.2.1
      let flags := sectionProperties.2.2
      let os1 := os ++ " ,\x22"
      let os2 := if flags &&& K.SHF_WRITE ≠ 0 then os1 ++ "w" else os1
      let os3 := if flags &&& K.SHF_ALLOC ≠ 0 then os2 ++ "a" else os2
      let os4 := if flags &&& K.SHF_EXECINSTR ≠ 0 then os3 ++ "x" else os3
      let os5 := os4 ++ "\x22"
      let os6 := if type = K.SHT_PROGBITS then os5 ++ ",@progbits" else os5
      if type = K.SHT_NOBITS then os6 ++ ",@nobits" else os6

/-! ## Scenarios -/

/-- Scenario A of the specification: code block `a` fills the first interval
(4 bytes) and falls through to code block `b`, which fills the second (6 bytes). -/
def scenarioA : Module :=
  { sections := [
      { uuid := 1, name := ".text", byteIntervals := [
          { uuid := 10, address := none, size := 4, bytes := [1, 2, 3, 4],
            blocks := [{ uuid := 100, kind := BlockKind.code, offset := 0, size := 4 }],
            symbolicExpressions := [] },
          { uuid := 11, address := none, size := 6, bytes := [5, 6, 7, 8, 9, 10],
            blocks := [{ uuid := 101, kind := BlockKind.code, offset := 0, size := 6 }],
            symbolicExpressions := [] }] }],
    symbols := [] }

/-- The CFG of scenario A: one fallthrough edge from `a` to `b`. -/
def scenarioACfg : List Edge :=
  [{ Source := CfgNode.codeBlock 100, Target := CfgNode.codeBlock 101,
     Type_ := EdgeType.Fallthrough, Conditional := false, Direct := true }]

/-- A module whose layout fails: code block `a` of section `.text` falls through to
code block `b`, which lies in section `.init`. -/
def crossSectionModule : Module :=
  { sections := [
      { uuid := 1, name := ".text", byteIntervals := [
          { uuid := 10, address := none, size := 4, bytes := [1, 2, 3, 4],
            blocks := [{ uuid := 100, kind := BlockKind.code, offset := 0, size := 4 }],
            symbolicExpressions := [] }] },
      { uuid := 2, name := ".init", byteIntervals := [
          { uuid := 11, address := none, size := 6, bytes := [5, 6, 7, 8, 9, 10],
            blocks := [{ uuid := 101, kind := BlockKind.code, offset := 0, size := 6 }],
            symbolicExpressions := [] }] }],
    symbols := [] }

/-- The module `scenarioA` after `layoutModule`: one interval of size 10 at address 0. -/
def scenarioALaidOut : Module :=
  { sections := [
      { uuid := 1, name := ".text", byteIntervals := [
          { uuid := 10, address := some 0, size := 10, bytes := [1, 2, 3, 4, 5, 6, 7, 8, 9, 10],
            blocks := [{ uuid := 100, kind := BlockKind.code, offset := 0, size := 4 },
                       { uuid := 101, kind := BlockKind.code, offset := 4, size := 6 }],
            symbolicExpressions := [] }] }],
    symbols := [] }

/-- A module of two sections and three unaddressed intervals, without CFG edges. -/
def twoSectionModule : Module :=
  { sections := [
      { uuid := 1, name := ".text", byteIntervals := [
          { uuid := 10, address := none, size := 4, bytes := [1, 2, 3, 4],
            blocks := [{ uuid := 100, kind := BlockKind.code, offset := 0, size := 4 }],
            symbolicExpressions := [] },
          { uuid := 11, address := none, size := 6, bytes := [5, 6, 7, 8, 9, 10],
            blocks := [{ uuid := 101, kind := BlockKind.code, offset := 0, size := 6 }],
            symbolicExpressions := [] }] },
      { uuid := 2, name := ".data", byteIntervals := [
          { uuid := 12, address := none, size := 3, bytes := [7, 7, 7],
            blocks := [{ uuid := 102, kind := BlockKind.data, offset := 0, size := 3 }],
            symbolicExpressions := [] }] }],
    symbols := [] }

/-- The module `twoSectionModule` after `layoutModule`: intervals at 0, 4 and 10. -/
def twoSectionLaidOut : Module :=
  { sections := [
      { uuid := 1, name := ".text", byteIntervals := [
          { uuid := 10, address := some 0, size := 4, bytes := [1, 2, 3, 4],
            blocks := [{ uuid := 100, kind := BlockKind.code, offset := 0, size := 4 }],
            symbolicExpressions := [] },
          { uuid := 11, address := some 4, size := 6, bytes := [5, 6, 7, 8, 9, 10],
            blocks := [{ uuid := 101, kind := BlockKind.code, offset := 0, size := 6 }],
            symbolicExpressions := [] }] },
      { uuid := 2, name := ".data", byteIntervals := [
          { uuid := 12, address := some 10, size := 3, bytes := [7, 7, 7],
            blocks := [{ uuid := 102, kind := BlockKind.data, offset := 0, size := 3 }],
            symbolicExpressions := [] }] }],
    symbols := [] }

/-- The interval that absorbs `mergeTarget`: code block `a` fills its 4 bytes and a
symbolic expression sits at offset 1. -/
def mergeSource : ByteInterval :=
  { uuid := 10, address := none, size := 4, bytes := [1, 2, 3, 4],
    blocks := [{ uuid := 100, kind := BlockKind.code, offset := 0, size := 4 }],
    symbolicExpressions := [(1, SymbolicExpression.SymAddrConst 0 500)] }

/-- The interval absorbed: code block `b` at offset 0, a data block at offset 2 and a
symbolic expression at offset 2. -/
def mergeTarget : ByteInterval :=
  { uuid := 11, address := none, size := 6, bytes := [5, 6, 7, 8, 9, 10],
    blocks := [{ uuid := 101, kind := BlockKind.code, offset := 0, size := 6 },
               { uuid := 102, kind := BlockKind.data, offset := 2, size := 2 }],
    symbolicExpressions := [(2, SymbolicExpression.SymAddrConst 8 501)] }

/-- An interval that takes no part in the merge. -/
def mergeBystander : ByteInterval :=
  { uuid := 12, address := none, size := 3, bytes := [7, 7, 7],
    blocks := [{ uuid := 103, kind := BlockKind.data, offset := 0, size := 3 }],
    symbolicExpressions := [] }

/-- A section made of `mergeSource`, `mergeTarget` and `mergeBystander`. -/
def mergeSection : Section :=
  { uuid := 1, name := ".text", byteIntervals := [mergeSource, mergeTarget, mergeBystander] }

/-- A fallthrough edge between two code blocks. -/
def fallthroughEdge (From To : Nat) : Edge :=
  { Source := CfgNode.codeBlock From, Target := CfgNode.codeBlock To,
    Type_ := EdgeType.Fallthrough, Conditional := false, Direct := true }

/-- An interval of 4 bytes with two code blocks: `a` (UUID 100) at `[0, 2)` and `b`
(UUID 103) at `[2, 4)`. -/
def twoBlockInterval : ByteInterval :=
  { uuid := 10, address := none, size := 4, bytes := [1, 2, 3, 4],
    blocks := [{ uuid := 100, kind := BlockKind.code, offset := 0, size := 2 },
               { uuid := 103, kind := BlockKind.code, offset := 2, size := 2 }],
    symbolicExpressions := [] }

/-- An interval of 4 bytes whose last code block `b` (UUID 103) ends at offset 3, one
byte before the end of the interval. -/
def shortBlockInterval : ByteInterval :=
  { uuid := 10, address := none, size := 4, bytes := [1, 2, 3, 4],
    blocks := [{ uuid := 100, kind := BlockKind.code, offset := 0, size := 2 },
               { uuid := 103, kind := BlockKind.code, offset := 2, size := 1 }],
    symbolicExpressions := [] }

/-- An interval of 6 bytes filled by the code block `c` (UUID 101). -/
def targetInterval : ByteInterval :=
  { uuid := 11, address := none, size := 6, bytes := [5, 6, 7, 8, 9, 10],
    blocks := [{ uuid := 101, kind := BlockKind.code, offset := 0, size := 6 }],
    symbolicExpressions := [] }

/-- Both intervals in one section. -/
def twoBlockSection : Section :=
  { uuid := 1, name := ".text", byteIntervals := [twoBlockInterval, targetInterval] }

/-- The two intervals in two sections. -/
def twoBlockModule : Module :=
  { sections := [
      { uuid := 1, name := ".text", byteIntervals := [twoBlockInterval] },
      { uuid := 2, name := ".init", byteIntervals := [targetInterval] }],
    symbols := [] }

/-- A module with one unaddressed interval of 10 bytes, a data block at `[3, 8)` that
no symbol refers to, and a symbol that has the address 5 and no referent. -/
def lateSymbolModule : Module :=
  { sections := [
      { uuid := 1, name := ".data", byteIntervals := [
          { uuid := 10, address := none, size := 10, bytes := [0, 1, 2, 3, 4, 5, 6, 7, 8, 9],
            blocks := [{ uuid := 100, kind := BlockKind.data, offset := 3, size := 5 }],
            symbolicExpressions := [] }] }],
    symbols := [{ uuid := 200, name := "s", payload := SymbolPayload.address 5 }] }

/-- The module `lateSymbolModule` after one `layoutModule`: the interval is at address
0, the blocks and the symbols are as before. -/
def lateSymbolLaidOut : Module :=
  { sections := [
      { uuid := 1, name := ".data", byteIntervals := [
          { uuid := 10, address := some 0, size := 10, bytes := [0, 1, 2, 3, 4, 5, 6, 7, 8, 9],
            blocks := [{ uuid := 100, kind := BlockKind.data, offset := 3, size := 5 }],
            symbolicExpressions := [] }] }],
    symbols := [{ uuid := 200, name := "s", payload := SymbolPayload.address 5 }] }

/-- The module `lateSymbolLaidOut` after a second `layoutModule`: a block of length 0 at
offset 5 for the symbol, and a symbol for the block at address 3. -/
def lateSymbolLaidOutTwice : Module :=
  { sections := [
      { uuid := 1, name := ".data", byteIntervals := [
          { uuid := 10, address := some 0, size := 10, bytes := [0, 1, 2, 3, 4, 5, 6, 7, 8, 9],
            blocks := [{ uuid := 100, kind := BlockKind.data, offset := 3, size := 5 },
                       { uuid := 1000, kind := BlockKind.data, offset := 5, size := 0 }],
            symbolicExpressions := [] }] }],
    symbols := [{ uuid := 200, name := "s", payload := SymbolPayload.referent 1000 },
                { uuid := 1001, name := ".gtirb_layout_3",
                  payload := SymbolPayload.referent 100 }] }

/-- A module of three sections whose intervals have the sizes `2 ^ 63`, `2 ^ 63` and 1;
the byte vectors are empty, as those of uninitialized storage are. -/
def wrapModule : Module :=
  { sections := [
      { uuid := 1, name := ".bss", byteIntervals := [
          { uuid := 10, address := none, size := 2 ^ 63, bytes := [],
            blocks := [{ uuid := 100, kind := BlockKind.data, offset := 0, size := 2 ^ 63 }],
            symbolicExpressions := [] }] },
      { uuid := 2, name := ".bss2", byteIntervals := [
          { uuid := 11, address := none, size := 2 ^ 63, bytes := [],
            blocks := [{ uuid := 101, kind := BlockKind.data, offset := 0, size := 2 ^ 63 }],
            symbolicExpressions := [] }] },
      { uuid := 3, name := ".data", byteIntervals := [
          { uuid := 12, address := none, size := 1, bytes := [7],
            blocks := [{ uuid := 102, kind := BlockKind.data, offset := 0, size := 1 }],
            symbolicExpressions := [] }] }],
    symbols := [] }

/-- The module `wrapModule` after `layoutModule`: the third interval is at address 0. -/
def wrapLaidOut : Module :=
  { sections := [
      { uuid := 1, name := ".bss", byteIntervals := [
          { uuid := 10, address := some 0, size := 2 ^ 63, bytes := [],
            blocks := [{ uuid := 100, kind := BlockKind.data, offset := 0, size := 2 ^ 63 }],
            symbolicExpressions := [] }] },
      { uuid := 2, name := ".bss2", byteIntervals := [
          { uuid := 11, address := some (2 ^ 63), size := 2 ^ 63, bytes := [],
            blocks := [{ uuid := 101, kind := BlockKind.data, offset := 0, size := 2 ^ 63 }],
            symbolicExpressions := [] }] },
      { uuid := 3, name := ".data", byteIntervals := [
          { uuid := 12, address := some 0, size := 1, bytes := [7],
            blocks := [{ uuid := 102, kind := BlockKind.data, offset := 0, size := 1 }],
            symbolicExpressions := [] }] }],
    symbols := [] }

/-- A section of two intervals of size `2 ^ 63`: code block `a` (UUID 100) fills the
first and falls through to code block `b` (UUID 101), which fills the second; a data
block of length 0 (UUID 102) marks the end of the second interval. -/
def wrapSection : Section :=
  { uuid := 1, name := ".text", byteIntervals := [
      { uuid := 10, address := none, size := 2 ^ 63, bytes := [],
        blocks := [{ uuid := 100, kind := BlockKind.code, offset := 0, size := 2 ^ 63 }],
        symbolicExpressions := [] },
      { uuid := 11, address := none, size := 2 ^ 63, bytes := [],
        blocks := [{ uuid := 101, kind := BlockKind.code, offset := 0, size := 2 ^ 63 },
                   { uuid := 102, kind := BlockKind.data, offset := 2 ^ 63, size := 0 }],
        symbolicExpressions := [] }] }

/-- A section with one interval at `0x1000` of 8 bytes: a data block fills it and a
zero-length data block sits at its end, at address `0x1008`.  The symbol `end` has the
address `0x1008` and no referent. -/
def endBlockModule : Module :=
  { sections := [
      { uuid := 1, name := ".data", byteIntervals := [
          { uuid := 10, address := some 0x1000, size := 8, bytes := [0, 0, 0, 0, 0, 0, 0, 0],
            blocks := [{ uuid := 100, kind := BlockKind.data, offset := 0, size := 8 },
                       { uuid := 101, kind := BlockKind.data, offset := 8, size := 0 }],
            symbolicExpressions := [] }] }],
    symbols := [{ uuid := 200, name := "end", payload := SymbolPayload.address 0x1008 }] }

/-- A section with one interval at `0x1000` of 8 bytes, a data block in its first half
and a code block in its second half.  The symbol `mid` has the address `0x1002`, inside
the data block, and the symbol `entry` has the address `0x1004`, where the code block
starts. -/
def exactMatchModule : Module :=
  { sections := [
      { uuid := 1, name := ".text", byteIntervals := [
          { uuid := 10, address := some 0x1000, size := 8, bytes := [0, 0, 0, 0, 0, 0, 0, 0],
            blocks := [{ uuid := 100, kind := BlockKind.data, offset := 0, size := 4 },
                       { uuid := 101, kind := BlockKind.code, offset := 4, size := 4 }],
            symbolicExpressions := [] }] }],
    symbols := [{ uuid := 200, name := "mid", payload := SymbolPayload.address 0x1002 },
                { uuid := 201, name := "entry", payload := SymbolPayload.address 0x1004 }] }

/-- Scenario B of the specification: a data block occupies `[0x1000, 0x1008)`, and the
symbol `S` has the address `0x1004` and no referent. -/
def scenarioB : Module :=
  { sections := [
      { uuid := 1, name := ".data", byteIntervals := [
          { uuid := 10, address := some 0x1000, size := 8, bytes := [0, 0, 0, 0, 0, 0, 0, 0],
            blocks := [{ uuid := 100, kind := BlockKind.data, offset := 0, size := 8 }],
            symbolicExpressions := [] }] }],
    symbols := [{ uuid := 200, name := "S", payload := SymbolPayload.address 0x1004 }] }

/-- Two intervals that overlap: the first, at `[0x1000, 0x1010)`, holds no block; the
second, at `[0x1002, 0x100A)`, is filled by a code block.  The symbol `S` has the
address `0x1004`, inside the code block. -/
def overlapIntervalsModule : Module :=
  { sections := [
      { uuid := 1, name := ".text", byteIntervals := [
          { uuid := 10, address := some 0x1000, size := 16, bytes := [],
            blocks := [], symbolicExpressions := [] },
          { uuid := 11, address := some 0x1002, size := 8, bytes := [0, 0, 0, 0, 0, 0, 0, 0],
            blocks := [{ uuid := 100, kind := BlockKind.code, offset := 0, size := 8 }],
            symbolicExpressions := [] }] }],
    symbols := [{ uuid := 200, name := "S", payload := SymbolPayload.address 0x1004 }] }

/-- A section with one interval at `0x1000` of 8 bytes whose only block is a data block
in its first half.  The symbol `gap` has the address `0x1006`, inside the interval and
in no block, and the symbol `end` has the address `0x1008`, the end of the interval. -/
def gapModule : Module :=
  { sections := [
      { uuid := 1, name := ".data", byteIntervals := [
          { uuid := 10, address := some 0x1000, size := 8, bytes := [0, 0, 0, 0, 0, 0, 0, 0],
            blocks := [{ uuid := 100, kind := BlockKind.data, offset := 0, size := 4 }],
            symbolicExpressions := [] }] }],
    symbols := [{ uuid := 200, name := "gap", payload := SymbolPayload.address 0x1006 },
                { uuid := 201, name := "end", payload := SymbolPayload.address 0x1008 }] }

/-- A section whose only interval, at `0x1000`, has size 0 and no block; the symbol `S`
has the address `0x1000`, which is the start and the end of the interval. -/
def emptyIntervalModule : Module :=
  { sections := [
      { uuid := 1, name := ".bss", byteIntervals := [
          { uuid := 10, address := some 0x1000, size := 0, bytes := [],
            blocks := [], symbolicExpressions := [] }] }],
    symbols := [{ uuid := 200, name := "S", payload := SymbolPayload.address 0x1000 }] }

/-- A module whose only symbol has the address `0x5000`, which lies in no interval and
is the end of none. -/
def strayModule : Module :=
  { sections := [
      { uuid := 1, name := ".data", byteIntervals := [
          { uuid := 10, address := some 0x1000, size := 8, bytes := [0, 0, 0, 0, 0, 0, 0, 0],
            blocks := [{ uuid := 100, kind := BlockKind.data, offset := 0, size := 8 }],
            symbolicExpressions := [] }] }],
    symbols := [{ uuid := 200, name := "stray", payload := SymbolPayload.address 0x5000 }] }

/-- Scenario C of the specification: code block `c` and data block `d`, both of size 8,
start at address `0x2000` in one interval, and the module has no symbol. -/
def scenarioC : Module :=
  { sections := [
      { uuid := 1, name := ".text", byteIntervals := [
          { uuid := 10, address := some 0x2000, size := 8, bytes := [0, 0, 0, 0, 0, 0, 0, 0],
            blocks := [{ uuid := 100, kind := BlockKind.code, offset := 0, size := 8 },
                       { uuid := 101, kind := BlockKind.data, offset := 0, size := 8 }],
            symbolicExpressions := [] }] }],
    symbols := [] }

/-- Scenario C with a symbol `c` attached to the code block. -/
def scenarioCWithSymbol : Module :=
  { sections := scenarioC.sections,
    symbols := [{ uuid := 200, name := "c", payload := SymbolPayload.referent 100 }] }

/-- Two intervals that follow one another, at `[0, 4)` and `[4, 8)`.  The first holds a
zero-length data block at its end, address 4, and the second a code block at its
start, address 4.  The module has no symbol. -/
def adjacentIntervalsModule : Module :=
  { sections := [
      { uuid := 1, name := ".text", byteIntervals := [
          { uuid := 10, address := some 0, size := 4, bytes := [0, 0, 0, 0],
            blocks := [{ uuid := 100, kind := BlockKind.code, offset := 0, size := 4 },
                       { uuid := 101, kind := BlockKind.data, offset := 4, size := 0 }],
            symbolicExpressions := [] },
          { uuid := 11, address := some 4, size := 4, bytes := [0, 0, 0, 0],
            blocks := [{ uuid := 102, kind := BlockKind.code, offset := 0, size := 4 }],
            symbolicExpressions := [] }] }],
    symbols := [] }

/-- Scenario C moved to the last 8 bytes of the address space: both blocks start at
`2 ^ 64 - 8` and end at `2 ^ 64`. -/
def topOfMemoryModule : Module :=
  { sections := [
      { uuid := 1, name := ".text", byteIntervals := [
          { uuid := 10, address := some (2 ^ 64 - 8), size := 8,
            bytes := [0, 0, 0, 0, 0, 0, 0, 0],
            blocks := [{ uuid := 100, kind := BlockKind.code, offset := 0, size := 8 },
                       { uuid := 101, kind := BlockKind.data, offset := 0, size := 8 }],
            symbolicExpressions := [] }] }],
    symbols := [] }

/-- The CFG edge with which the layout of `crossSectionModule` fails at its second
section: code block `b` of section `.init` falls through to code block `a`, which lies
in section `.text`. -/
def backwardEdgeCfg : List Edge := [fallthroughEdge 101 100]

/-! ### Instructions, printer environments and driver worlds -/

/-- A module for the printer examples: one interval at `0x1000` that carries, at its
first byte, a symbolic expression for symbol 7 with addend 0. -/
def printerModule : Module :=
  { sections := [
      { uuid := 1, name := ".text", byteIntervals := [
          { uuid := 10, address := some 0x1000, size := 8, bytes := [0, 0, 0, 0, 0, 0, 0, 0],
            blocks := [{ uuid := 100, kind := BlockKind.code, offset := 0, size := 8 }],
            symbolicExpressions := [(0, SymbolicExpression.SymAddrConst 0 7)] }] }],
    symbols := [{ uuid := 7, name := "foo", payload := SymbolPayload.none },
                { uuid := 8, name := "foo@PLT", payload := SymbolPayload.none }] }

/-- The symbol `foo` of the printer examples. -/
def fooSymbol : Symbol := { uuid := 7, name := "foo", payload := SymbolPayload.none }

/-- The symbol `foo@PLT`, to which `foo` is forwarded. -/
def fooPltSymbol : Symbol := { uuid := 8, name := "foo@PLT", payload := SymbolPayload.none }

/-- An environment for the printer examples: register `n` is named `xn`, every symbol
is printed, a symbolic expression is written as `sym` with the UUID of its symbol, the
operand 1 of the instruction at `0x1000` has the prefix `:lo12:`, and symbol 7 is
forwarded to symbol 8. -/
def sampleEnv : PrinterEnv :=
  { module := printerModule,
    cs_reg_name := fun reg => "x" ++ toString reg,
    getSymbolicImmediate := getIfSymAddrConst,
    printSymbolicExpression := fun Offset Sym _ =>
      if Offset = 0 then "sym" ++ toString Sym else "sym" ++ toString Sym ++ "+" ++ toString Offset,
    showDouble := fun bits => toString bits,
    symbolicOperandInfo := [(0x1000, 1, ":lo12:")],
    symbolForwarding := some [(7, 8)],
    getByUUID := fun uuid =>
      if uuid = 7 then some (Node.symbol fooSymbol)
      else if uuid = 8 then some (Node.symbol fooPltSymbol)
      else none,
    baseGetRegisterName := fun reg => "R" ++ toString reg,
    ascii_str_tolower := fun s => String.mk (s.toList.map Char.toLower) }

/-- The environment `sampleEnv` without the table `SymbolForwarding`. -/
def sampleEnvNoForwarding : PrinterEnv := { sampleEnv with symbolForwarding := none }

/-- A register operand of AArch64. -/
def regOperand (reg : Nat) : cs_arm64_op :=
  { cs_arm64_op.zero with type := arm64_op_type.ARM64_OP_REG, reg := reg }

/-- A memory operand of AArch64 with a base register and a displacement. -/
def memOperand (base : Nat) (disp : Int) : cs_arm64_op :=
  { cs_arm64_op.zero with type := arm64_op_type.ARM64_OP_MEM,
                          mem := { base := base, index := 0, disp := disp } }

/-- An immediate operand of AArch64. -/
def immOperand (imm : Int) : cs_arm64_op :=
  { cs_arm64_op.zero with type := arm64_op_type.ARM64_OP_IMM, imm := imm }

/-- The instruction `ldr x2, [x1, :lo12:foo]` at `0x1000`, decoded where the low 12 bits
of the address of `foo` are 0: the displacement of the memory operand is 0. -/
def ldrLo12Zero : cs_insn :=
  { address := 0x1000, op_str := "x2, [x1]", op_count := 2,
    operands := [regOperand 2, memOperand 1 0], writeback := false, is_jump := false }

/-- The same instruction decoded where the low 12 bits of the address of `foo` are 16. -/
def ldrLo12Sixteen : cs_insn :=
  { address := 0x1000, op_str := "x2, [x1, #16]", op_count := 2,
    operands := [regOperand 2, memOperand 1 16], writeback := false, is_jump := false }

/-- The instruction `add x2, x1, #4` at `0x2000`, where no symbolic expression is. -/
def addImmediate : cs_insn :=
  { address := 0x2000, op_str := "x2, x1, #4", op_count := 3,
    operands := [regOperand 2, regOperand 1, immOperand 4], writeback := false,
    is_jump := false }

/-- The instruction `add x2, x1, :lo12:foo` at `0x1000`, whose immediate is decoded as 4. -/
def addLo12 : cs_insn :=
  { address := 0x1000, op_str := "x2, x1, #4", op_count := 3,
    operands := [regOperand 2, regOperand 1, immOperand 4], writeback := false,
    is_jump := false }

/-- An instruction without operands, `ret`. -/
def retInstruction : cs_insn :=
  { address := 0x2000, op_str := "", op_count := 0, operands := [], writeback := false,
    is_jump := false }

/-- A prefetch instruction whose prefetch operand carries `ARM64_PRFM_INVALID`. -/
def prfmInvalid : cs_insn :=
  { address := 0x2000, op_str := "#0x18, [x1]", op_count := 2,
    operands := [{ cs_arm64_op.zero with type := arm64_op_type.ARM64_OP_PREFETCH },
                 memOperand 1 0],
    writeback := false, is_jump := false }

/-- The instruction `dmb ish`, with a barrier operand. -/
def dmbIsh : cs_insn :=
  { address := 0x2000, op_str := "ish", op_count := 1,
    operands := [{ cs_arm64_op.zero with type := arm64_op_type.ARM64_OP_BARRIER,
                                         barrier := arm64_barrier_op.ARM64_BARRIER_ISH }],
    writeback := false, is_jump := false }

/-- A barrier instruction whose barrier operand carries the value 4, which is none of
the enumerators that `printOpBarrier` lists. -/
def dsbUnlisted : cs_insn :=
  { address := 0x2000, op_str := "#0x4", op_count := 1,
    operands := [{ cs_arm64_op.zero with type := arm64_op_type.ARM64_OP_BARRIER,
                                         barrier := arm64_barrier_op.unlisted 4 }],
    writeback := false, is_jump := false }

/-- The instruction `mrs x2, nzcv`: a register and a system register printed from the
operand string. -/
def mrsInstruction : cs_insn :=
  { address := 0x2000, op_str := "x2, nzcv", op_count := 2,
    operands := [regOperand 2, { cs_arm64_op.zero with type := arm64_op_type.ARM64_OP_REG_MRS }],
    writeback := false, is_jump := false }

/-- An immediate operand of x86. -/
def x86ImmOperand (imm : Int) : cs_x86_op :=
  { cs_x86_op.zero with type := x86_op_type.X86_OP_IMM, imm := imm }

/-- A register operand of x86. -/
def x86RegOperand (reg : Nat) : cs_x86_op :=
  { cs_x86_op.zero with type := x86_op_type.X86_OP_REG, reg := reg }

/-- A memory operand of x86 with a base register and a displacement. -/
def x86MemOperand (base : Nat) (disp : Int) : cs_x86_op :=
  { cs_x86_op.zero with type := x86_op_type.X86_OP_MEM,
                        mem := { segment := 0, base := base, index := 0, scale := 1, disp := disp } }

/-- The x86 instruction `mov $4, %eax` at `0x1000`, whose immediate carries the symbolic
expression of `printerModule`. -/
def movImmediate : cs_insn_x86 :=
  { address := 0x1000, operands := [x86ImmOperand 4, x86RegOperand 19],
    is_call := false, is_jump := false }

/-- The x86 instruction `call 0x401000`. -/
def callImmediate : cs_insn_x86 :=
  { address := 0x1000, operands := [x86ImmOperand 0x401000],
    is_call := true, is_jump := false }

/-- The x86 instruction `mov foo(%rbx), %rax` with displacement 0 in the decoded
memory operand. -/
def movIndirectZero : cs_insn_x86 :=
  { address := 0x1000, operands := [x86MemOperand 3 0, x86RegOperand 35],
    is_call := false, is_jump := false }

/-- A section without byte intervals. -/
def emptySection : Section := { uuid := 3, name := ".bss", byteIntervals := [] }

/-- Command-line options: only the name of the binary is given. -/
def sampleOptions : ProgramOptions :=
  { help := false, ir := none, binary := some "a.out", keep_functions := none,
    skip_functions := none, compiler_args := none, library_paths := none, syntaxOpt := none }

/-- A world in which the command line parses to `vm` and the IR `ir` arrives on the
standard input; the registered targets are those of `AArch64PrettyPrinter.cpp` and
`AttPrettyPrinter.cpp`. -/
def sampleWorld (vm : ProgramOptions) (ir : IR) : DriverWorld :=
  { parse := Except.ok vm, argv0 := "gtirb-binary-printer", desc := "Allowed options",
    fileExists := fun _ => false, loadFile := fun _ => { modules := [], cfg := [] },
    loadStdin := ir, Ctx := { nextUUID := 1000 },
    getUUIDText := fun _ => "00000000-0000-0000-0000-000000000001",
    getModuleFileFormat := fun _ => "elf",
    getDefaultSyntax := fun format => if format = "elf" then some "aarch64" else none,
    getRegisteredTargets := [("elf", "aarch64"), ("elf", "att")] }

/-- An IR whose only module cannot be laid out: `crossSectionModule` with the
fallthrough edge from `a` to `b`. -/
def crossSectionIR : IR := { modules := [crossSectionModule], cfg := [fallthroughEdge 100 101] }

/-- The IR of scenario A. -/
def scenarioAIR : IR := { modules := [scenarioA], cfg := scenarioACfg }

/-- The IR of scenario A with its module laid out. -/
def scenarioALaidOutIR : IR := { modules := [scenarioALaidOut], cfg := scenarioACfg }

/-! ### Examples for the operand formats, the section properties and the symbol passes -/

/-- The instruction `ldr x2, [x1, x3, lsl #3]`: a memory operand with a base register,
an index register and a shift. -/
def ldrIndexShift : cs_insn :=
  { address := 0x2000, op_str := "x2, [x1, x3, lsl #3]", op_count := 2,
    operands := [regOperand 2,
      { cs_arm64_op.zero with type := arm64_op_type.ARM64_OP_MEM,
                              mem := { base := 1, index := 3, disp := 0 },
                              shift_type := arm64_shifter.ARM64_SFT_LSL,
                              shift_value := 3 }],
    writeback := false, is_jump := false }

/-- The instruction `ldr x2, [x1, #16]!`: a displacement and writeback. -/
def ldrWriteback : cs_insn :=
  { address := 0x2000, op_str := "x2, [x1, #16]!", op_count := 2,
    operands := [regOperand 2, memOperand 1 16], writeback := true, is_jump := false }

/-- The instruction `ldp x2, x3, [x1], #16`: writeback, and the memory operand is not
the last one. -/
def ldpPostIndex : cs_insn :=
  { address := 0x2000, op_str := "x2, x3, [x1], #16", op_count := 4,
    operands := [regOperand 2, regOperand 3, memOperand 1 0, immOperand 16],
    writeback := true, is_jump := false }

/-- The instruction `add x2, x1, #4, lsl #12`: an immediate with a shift. -/
def addShifted : cs_insn :=
  { address := 0x2000, op_str := "x2, x1, #4, lsl #12", op_count := 3,
    operands := [regOperand 2, regOperand 1,
      { cs_arm64_op.zero with type := arm64_op_type.ARM64_OP_IMM,
                              imm := 4,
                              shift_type := arm64_shifter.ARM64_SFT_LSL,
                              shift_value := 12 }],
    writeback := false, is_jump := false }

/-- The instruction `ccmp x1, #4, #0, eq` at `0x1000`, where `printerModule` has a
symbolic expression: two immediates, of which the second is the last operand. -/
def ccmpImmediates : cs_insn :=
  { address := 0x1000, op_str := "x1, #4, #0, eq", op_count := 3,
    operands := [regOperand 1, immOperand 4, immOperand 0], writeback := false,
    is_jump := false }

/-- The instruction `ldr x2, [x1], #16` at `0x1000`, where `printerModule` has a symbolic
expression: the memory operand is followed by the immediate of the post-index. -/
def ldrPostIndex : cs_insn :=
  { address := 0x1000, op_str := "x2, [x1], #16", op_count := 3,
    operands := [regOperand 2, memOperand 1 0, immOperand 16], writeback := true,
    is_jump := false }

/-- The constants of `<elf.h>` as the System V ABI fixes them. -/
def elfConstants : ElfConstants :=
  { SHF_WRITE := 1, SHF_ALLOC := 2, SHF_EXECINSTR := 4, SHT_PROGBITS := 1, SHT_NOBITS := 8 }

/-- The x86 instruction `jmp 0`: a jump whose immediate is 0. -/
def jmpZero : cs_insn_x86 :=
  { address := 0x1000, operands := [x86ImmOperand 0], is_call := false, is_jump := true }

/-- The x86 instruction `mov $-4, %eax`. -/
def movNegative : cs_insn_x86 :=
  { address := 0x2000, operands := [x86ImmOperand (-4), x86RegOperand 19],
    is_call := false, is_jump := false }

/-- A module in which no interval has an address; two symbols have addresses. -/
def unaddressedModule : Module :=
  { sections := scenarioA.sections,
    symbols := [{ uuid := 200, name := "first", payload := SymbolPayload.address 0 },
                { uuid := 201, name := "S", payload := SymbolPayload.address 0x1004 }] }

/-- Three blocks at `0x2000` in one interval, of which the first has a symbol, and two
blocks at `0x2008`; the module has the symbol of the first block only. -/
def threeAtOneAddress : Module :=
  { sections := [
      { uuid := 1, name := ".text", byteIntervals := [
          { uuid := 10, address := some 0x2000, size := 16, bytes := [],
            blocks := [{ uuid := 100, kind := BlockKind.code, offset := 0, size := 8 },
                       { uuid := 101, kind := BlockKind.data, offset := 0, size := 8 },
                       { uuid := 102, kind := BlockKind.data, offset := 0, size := 4 },
                       { uuid := 103, kind := BlockKind.code, offset := 8, size := 8 },
                       { uuid := 104, kind := BlockKind.data, offset := 8, size := 0 }],
            symbolicExpressions := [] }] }],
    symbols := [{ uuid := 200, name := "c", payload := SymbolPayload.referent 100 }] }

/-! ### An IR of several modules -/

/-- A module without addresses in which a code block and a data block start at the
same place: its layout adds a symbol, for which the context supplies the UUID. -/
def sharedStartModule (sectionId intervalId blockId : Nat) : Module :=
  { sections := [
      { uuid := sectionId, name := ".text", byteIntervals := [
          { uuid := intervalId, address := none, size := 8, bytes := [0, 0, 0, 0, 0, 0, 0, 0],
            blocks := [{ uuid := blockId, kind := BlockKind.code, offset := 0, size := 8 },
                       { uuid := blockId + 1, kind := BlockKind.data, offset := 0, size := 8 }],
            symbolicExpressions := [] }] }],
    symbols := [] }

/-- An IR of three modules: two modules without addresses, each with two blocks at one
place, and between them the laid out module of scenario A. -/
def threeModuleIR : IR :=
  { modules := [sharedStartModule 3 30 300, scenarioALaidOut, sharedStartModule 4 40 400],
    cfg := scenarioACfg }

/-- The module `sharedStartModule` after `layoutModule`: the interval is at address 0,
and the code block, the first of the two blocks at the address, has the new symbol. -/
def sharedStartLaidOut (sectionId intervalId blockId symbolId : Nat) : Module :=
  { sections := [
      { uuid := sectionId, name := ".text", byteIntervals := [
          { uuid := intervalId, address := some 0, size := 8, bytes := [0, 0, 0, 0, 0, 0, 0, 0],
            blocks := [{ uuid := blockId, kind := BlockKind.code, offset := 0, size := 8 },
                       { uuid := blockId + 1, kind := BlockKind.data, offset := 0, size := 8 }],
            symbolicExpressions := [] }] }],
    symbols := [{ uuid := symbolId, name := ".gtirb_layout_0",
                  payload := SymbolPayload.referent blockId }] }

/-! ## Notions used to state the properties -/

/-- The byte intervals of a list of sections in the order `layoutModule` visits them. -/
def intervalsOf (Secs : List Section) : List ByteInterval :=
  (Secs.map (fun S => S.byteIntervals)).flatten

/-- The sum of the sizes of a list of byte intervals. -/
def totalSize (BIs : List ByteInterval) : Nat := (BIs.map (fun BI => BI.size)).sum

/-- The address ranges `[A, A + size)` of two byte intervals have no address in common;
an interval without an address occupies no address. -/
def rangesDisjoint (X Y : ByteInterval) : Prop :=
  ∀ A B, X.address = some A → Y.address = some B →
    ∀ N, ¬ ((A ≤ N ∧ N < A + X.size) ∧ (B ≤ N ∧ N < B + Y.size))

/-- The intervals are addressed by a cursor that starts at `A`: each interval sits at
the cursor, which then advances by the interval's size. -/
def laidOutFrom : Nat → List ByteInterval → Prop
  | _, [] => True
  | A, BI :: BIs => BI.address = some A ∧ laidOutFrom (add64 A BI.size) BIs

/-- The first interval ends at or before the start of the second. -/
def rangeBefore (X Y : ByteInterval) : Prop :=
  ∀ A B, X.address = some A → Y.address = some B → A + X.size ≤ B

/-- The lowest address of the intervals of a section. -/
def Section.lowAddress (S : Section) : Option Nat :=
  (S.byteIntervals.filterMap (fun BI => BI.address)).min?

/-- The highest end `address + size` of the intervals of a section. -/
def Section.highEnd (S : Section) : Option Nat :=
  (S.byteIntervals.filterMap (fun BI => BI.address.map (fun A => A + BI.size))).max?

/-- The spans `[lowAddress, highEnd)` of two sections have no address in common. -/
def sectionsDisjoint (S T : Section) : Prop :=
  ∀ Lo Hi Lo1 Hi1, S.lowAddress = some Lo → S.highEnd = some Hi →
    T.lowAddress = some Lo1 → T.highEnd = some Hi1 →
    ∀ N, ¬ ((Lo ≤ N ∧ N < Hi) ∧ (Lo1 ≤ N ∧ N < Hi1))

/-- A byte interval with its blocks forgotten. -/
def ByteInterval.withoutBlocks (BI : ByteInterval) : ByteInterval := { BI with blocks := [] }

/-- A section with the blocks of its intervals forgotten. -/
def Section.withoutBlocks (S : Section) : Section :=
  { S with byteIntervals := S.byteIntervals.map ByteInterval.withoutBlocks }

/-- The position of the surviving interval once the interval at position `J` has been
removed from the section. -/
def survivorIndex (I J : Nat) : Nat := if J < I then I - 1 else I

/-- The interval at position `I` gives `findAndMergeBIs` nothing to do: every
fallthrough edge that leaves the first code block of the interval leads to a code
block that is found in the same interval. -/
def stableInterval (Cfg : List Edge) (BIs : List ByteInterval) (I : Nat)
    (BI : ByteInterval) : Prop :=
  ∀ First, BI.code_blocks.head? = some First →
    ∀ E ∈ getOutgoingEdges Cfg First, E.Type_ = EdgeType.Fallthrough →
      ∃ T, E.Target = CfgNode.codeBlock T ∧
        ∃ X B, findCodeBlock T 0 BIs = some (I, X, B)

/-- The UUID of a CFG node. -/
def CfgNode.uuid : CfgNode → Nat
  | CfgNode.codeBlock U => U
  | CfgNode.proxyBlock U => U

/-- Every node of the CFG has a UUID below `N`: the UUIDs from `N` on are new. -/
def cfgBelow (Cfg : List Edge) (N : Nat) : Prop :=
  ∀ E ∈ Cfg, E.Source.uuid < N ∧ E.Target.uuid < N

/-- The block list `L1` is `L` with blocks added whose UUIDs are `N` or more; the first
code block is the same or is one of the added blocks. -/
def blocksExtend (N : Nat) (L L1 : List Block) : Prop :=
  (∀ C ∈ L, C ∈ L1) ∧ (∀ C ∈ L1, C ∈ L ∨ N ≤ C.uuid) ∧
  ((L1.filter (fun B => B.kind = BlockKind.code)).head? =
      (L.filter (fun B => B.kind = BlockKind.code)).head? ∨
    ∃ F, (L1.filter (fun B => B.kind = BlockKind.code)).head? = some F ∧ N ≤ F.uuid)

/-- The interval `BI1` is `BI` with new blocks added and nothing else changed. -/
def intervalExtends (N : Nat) (BI BI1 : ByteInterval) : Prop :=
  BI1.withoutBlocks = BI.withoutBlocks ∧ blocksExtend N BI.blocks BI1.blocks

/-- The sections `Ss1` are the sections `Ss` with new blocks added to their intervals
and nothing else changed. -/
def sectionsExtend (N : Nat) (Ss Ss1 : List Section) : Prop :=
  List.Forall₂ (fun S S1 => S1.uuid = S.uuid ∧ S1.name = S.name ∧
    List.Forall₂ (intervalExtends N) S.byteIntervals S1.byteIntervals) Ss Ss1

/-- The context and the sections as they are when the loop of `fixIntegralSymbols`
reaches the symbol at position `K` of the symbol table. -/
def fixIntegralSymbolsUpTo (Ctx : Context) (M : Module) (K : Nat) : Context × List Section :=
  ((fixIntegralSymbolsLoop Ctx M.sections (M.symbols.take K)).1,
   (fixIntegralSymbolsLoop Ctx M.sections (M.symbols.take K)).2.1)

/-- The interval with the block `N` added to its blocks. -/
def ByteInterval.withBlock (BI : ByteInterval) (N : Block) : ByteInterval :=
  { BI with blocks := insertBlock N BI.blocks }

/-- The sections with the block `N` added to the first interval that covers address `X`. -/
def insertBlockOn (X : Nat) (N : Block) (Secs : List Section) : List Section :=
  modifyByteIntervalOn X (fun BI => BI.withBlock N) Secs

/-- The range of blocks that the loop body of `addOverlapDisambiguationSymbols` counts
for the block `P`: the blocks of its interval that start at its address when its size
is 0, and those that start in `[Addr, Addr + Size)` otherwise. -/
def overlapRange (P : ByteInterval × Block) : List Block :=
  if P.2.size = 0 then P.1.findBlocksAt (blockAddr P)
  else P.1.findBlocksAtRange (blockAddr P) (add64 (blockAddr P) P.2.size)

/-- The symbol that the loop body of `addOverlapDisambiguationSymbols` creates for the
block `P`, with the UUID `U`. -/
def overlapSymbol (U : Nat) (P : ByteInterval × Block) : Symbol :=
  { uuid := U, name := overlapSymbolName (blockAddr P),
    payload := SymbolPayload.referent P.2.uuid }

/-- The symbols that `addOverlapDisambiguationSymbols` adds to the module. -/
def addedSymbols (Ctx : Context) (M : Module) : List Symbol :=
  (addOverlapDisambiguationSymbols Ctx M).2.symbols.drop M.symbols.length

/-- The specification's step "fallthrough merging of every section": the sections are
merged one after the other, and the first failure ends the step. -/
def mergeSections (Cfg : List Edge) : List Section → Bool × List Section
  | [] => (true, [])
  | S :: Ss =>
    match findAndMergeBIs Cfg S with
    | (false, S1) => (false, S1 :: Ss)
    | (true, S1) =>
      let Rest := mergeSections Cfg Ss
      (Rest.1, S1 :: Rest.2)

/-- The specification's step "address assignment over all sections": the cursor starts
at `A` and runs through the intervals of every section in section order. -/
def assignSections : Nat → List Section → List Section
  | _, [] => []
  | A, S :: Ss =>
    let R := assignAddresses A S.byteIntervals
    { S with byteIntervals := R.2 } :: assignSections R.1 Ss

/-- The specification's `layoutModule`: the sequential composition of
`fixIntegralSymbols`, the merging of every section, the address assignment over all
sections, and `addOverlapDisambiguationSymbols`.  A failure of the merging ends the
composition with the result `false`. -/
def layoutModuleComposed (Cfg : List Edge) (Ctx : Context) (M : Module) :
    Bool × Context × Module :=
  let R := fixIntegralSymbols Ctx M
  match mergeSections Cfg R.2.sections with
  | (false, Secs) => (false, R.1, { R.2 with sections := Secs })
  | (true, Secs) =>
    let R2 := addOverlapDisambiguationSymbols R.1
      { R.2 with sections := assignSections 0 Secs }
    (true, R2.1, R2.2)

/-- The section with the address of every interval cleared, as `removeModuleLayout`
leaves it. -/
def Section.clearAddresses (S : Section) : Section :=
  { S with byteIntervals := S.byteIntervals.map (fun BI => BI.setAddress none) }

/-- The identity of a symbol: its UUID and its name. -/
def Symbol.key (S : Symbol) : Nat × String := (S.uuid, S.name)

/-- What `fixIntegralSymbols` finds at the address `A` in the sections `Secs`: the first
interval that contains `A` is the interval `BI0` but for its blocks, the blocks of it
whose range contains `A` are those of `BI0`, and the blocks of it that start at `A`
are the blocks `L`. -/
def viewAt (A : Nat) (BI0 : ByteInterval) (L : List Block) (Secs : List Section) : Prop :=
  ∃ BI1, findByteIntervalOn A Secs = some BI1 ∧ BI1.withoutBlocks = BI0.withoutBlocks ∧
    BI1.findBlocksOn A = BI0.findBlocksOn A ∧ BI1.findBlocksAt A = L

/-- The update `F` of an interval changes nothing but the blocks, and neither the blocks
that start at `A` nor the blocks whose range contains `A`. -/
def keepsViewAt (A : Nat) (F : ByteInterval → ByteInterval) : Prop :=
  ∀ BI1, (F BI1).withoutBlocks = BI1.withoutBlocks ∧
    (F BI1).findBlocksAt A = BI1.findBlocksAt A ∧ (F BI1).findBlocksOn A = BI1.findBlocksOn A

/-- The address of the symbol, when it has one and no referent, is below `2 ^ 64`. -/
def Symbol.addressIn64 (S : Symbol) : Bool :=
  match S.payload with
  | SymbolPayload.address A => decide (A < addrModulus)
  | _ => true

/-- Every symbol with an address and no referent has an address below `2 ^ 64`: the
addresses are values of the 64-bit type `Addr`. -/
def addressesIn64 (Syms : List Symbol) : Prop :=
  ∀ S ∈ Syms, S.addressIn64 = true

/-- The kind of the block that `fixIntegralSymbols` makes in the interval `BI` for the
address `A` when no block of `BI` starts at `A`: the kind of the first block of `BI`
whose range contains `A`, and data when there is none. -/
def kindAt (BI : ByteInterval) (A : Nat) : BlockKind :=
  ((BI.findBlocksOn A).head?.map (fun B => B.kind)).getD BlockKind.data

/-! ### Notions for the printers and the driver -/

/-- The text that `printOperand` writes for operand `i` of `inst` on an empty stream;
`none` when it ends the process instead of returning. -/
def AArch64PrettyPrinter.rendering (env : PrinterEnv) (inst : cs_insn) (i : Nat) :
    Option String :=
  match AArch64PrettyPrinter.printOperand env "" inst i with
  | Run.returned r => some r
  | Run.exited _ _ => none

/-- Every operand of `inst` has a rendering. -/
def AArch64PrettyPrinter.rendersAll (env : PrinterEnv) (inst : cs_insn) : Bool :=
  (List.range inst.op_count).all (fun i => (AArch64PrettyPrinter.rendering env inst i).isSome)

/-- The renderings of the operands `0 .. op_count - 1` of `inst`, in index order. -/
def AArch64PrettyPrinter.renderings (env : PrinterEnv) (inst : cs_insn) : List String :=
  (List.range inst.op_count).map (fun i => (AArch64PrettyPrinter.rendering env inst i).getD "")

/-- The operand kinds for which `printOperand` has a formatter: register, immediate,
memory, floating point, the five raw-value kinds, prefetch and barrier. -/
def arm64_op_type.formatted : arm64_op_type → Bool
  | arm64_op_type.ARM64_OP_INVALID => false
  | arm64_op_type.unlisted _ => false
  | _ => true

/-- The prefetch operations that have a name: all but `ARM64_PRFM_INVALID` and the
values that are no enumerator. -/
def arm64_prefetch_op.named : arm64_prefetch_op → Bool
  | arm64_prefetch_op.ARM64_PRFM_INVALID => false
  | arm64_prefetch_op.unlisted _ => false
  | _ => true

/-- The barrier operations that have a name. -/
def arm64_barrier_op.named : arm64_barrier_op → Bool
  | arm64_barrier_op.ARM64_BARRIER_INVALID => false
  | arm64_barrier_op.unlisted _ => false
  | _ => true

/-- The IR that `main` has loaded when it reaches line 77: the one of the file named by
the option `ir` when the file exists, the one of the standard input when the option
is not given. -/
def loadedIR (w : DriverWorld) (vm : ProgramOptions) : Option IR :=
  match vm.ir with
  | some irPath => if w.fileExists irPath then some (w.loadFile irPath) else none
  | none => some w.loadStdin

/-- The IR as the loop of lines 84 to 93 leaves it. -/
def laidOutIR (w : DriverWorld) (ir : IR) : IR :=
  { ir with modules := (layoutModules w ir.cfg w.Ctx ir.modules).2.2 }

/-- The event is a call of `ElfBinaryPrinter::link`, the print and link step. -/
def DriverEvent.isLink : DriverEvent → Bool
  | DriverEvent.link _ _ _ _ => true
  | _ => false

/-- The event is a call of `PrettyPrinter::setTarget`. -/
def DriverEvent.isSetTarget : DriverEvent → Bool
  | DriverEvent.setTarget _ _ => true
  | _ => false

/-- The line of the table of combinations that `main` writes for a registered target. -/
def combinationLine (w : DriverWorld) (t : String × String) : DriverEvent :=
  DriverEvent.logError [LogItem.text "    ", LogItem.setw (columnWidth w.getRegisteredTargets),
    LogItem.text t.1, LogItem.text t.2, LogItem.text "\n"]

/-- The first line of the report of an unsupported combination. -/
def unsupportedLine (format syntaxName : String) : DriverEvent :=
  DriverEvent.logError [LogItem.text "Unsupported combination: format \x27",
    LogItem.text format, LogItem.text "\x27 and syntax \x27", LogItem.text syntaxName,
    LogItem.text "\x27\n"]

/-- The event is neither a call of `setTarget` nor a call of `link`. -/
def DriverEvent.beforePrinting (e : DriverEvent) : Bool := !e.isSetTarget && !e.isLink

/-! ### Notions for the operand formats and the symbol passes -/

/-- The value is one of the enumerators of `arm64_shifter`. -/
def arm64_shifter.isEnumerator : arm64_shifter → Bool
  | arm64_shifter.unlisted _ => false
  | _ => true

/-- The mnemonic of a shift: `lsl`, `msl`, `lsr`, `asr` or `ror` for the five valid
shift types, none for `ARM64_SFT_INVALID`. -/
def arm64_shifter.mnemonic : arm64_shifter → Option String
  | arm64_shifter.ARM64_SFT_LSL => some "lsl"
  | arm64_shifter.ARM64_SFT_MSL => some "msl"
  | arm64_shifter.ARM64_SFT_LSR => some "lsr"
  | arm64_shifter.ARM64_SFT_ASR => some "asr"
  | arm64_shifter.ARM64_SFT_ROR => some "ror"
  | _ => none

/-- The text of the shift of an operand: a comma, the mnemonic, a blank, `#` and the
amount when the shift type is valid and the amount is not 0, and nothing otherwise. -/
def shiftText (op : cs_arm64_op) : String :=
  match op.shift_type.mnemonic with
  | some m => if op.shift_value ≠ 0 then "," ++ m ++ " #" ++ toString op.shift_value else ""
  | none => ""

/-- The text of the displacement of an AArch64 memory operand: the prefix of the
operand and the symbolic expression when a `SymAddrConst` is supplied, `#` and the
number otherwise. -/
def AArch64PrettyPrinter.displacementText (env : PrinterEnv)
    (symbolic : Option SymbolicExpression) (inst : cs_insn) (index : Nat) : String :=
  match getIfSymAddrConst symbolic with
  | some s =>
    AArch64PrettyPrinter.printPrefix env "" inst index ++ env.printSymbolicExpression s.1 s.2 false
  | none => "#" ++ toString (inst.operand index).mem.disp

/-- The components of an AArch64 memory operand that are present, in the order base
register, displacement, index register: the base and the index register when they are
not `ARM64_REG_INVALID`, the displacement when the number is not 0. -/
def AArch64PrettyPrinter.indirectComponents (env : PrinterEnv)
    (symbolic : Option SymbolicExpression) (inst : cs_insn) (index : Nat) : List String :=
  (if (inst.operand index).mem.base ≠ REG_INVALID then
    [AArch64PrettyPrinter.getRegisterName env (inst.operand index).mem.base] else []) ++
  (if (inst.operand index).mem.disp ≠ 0 then
    [AArch64PrettyPrinter.displacementText env symbolic inst index] else []) ++
  (if (inst.operand index).mem.index ≠ REG_INVALID then
    [AArch64PrettyPrinter.getRegisterName env (inst.operand index).mem.index] else [])

/-- The flags under which an integer is written as a plain decimal number and in base
16 with lower-case digits: `basefield` is not `oct` or `hex`, and `showpos` and
`uppercase` are not set.  These are the flags of a stream on which no manipulator has
been left in force. -/
def fmtflags.plain (fl : fmtflags) : Bool :=
  (fl.basefield = Basefield.dec || fl.basefield = Basefield.other) && !fl.showpos &&
    !fl.uppercase

/-- The character `c` put in front of the first of the pieces `l`. -/
def consHead (c : Char) : List (List Char) → List (List Char)
  | [] => [[c]]
  | x :: xs => (c :: x) :: xs

/-- The top-level operands of an operand string, in the words of the property: the
string is cut at every comma that is not inside a group `[...]`, where a character is
inside a group when a `[` comes before it with no `]` in between; the commas at which
it is cut belong to no operand.  The flag says whether the characters start inside a
group. -/
def topLevelOperandsFrom : Bool → List Char → List (List Char)
  | _, [] => [[]]
  | inGroup, c :: cs =>
    if c = ',' ∧ inGroup = false then [] :: topLevelOperandsFrom false cs
    else if c = '[' then consHead c (topLevelOperandsFrom true cs)
    else if c = ']' then consHead c (topLevelOperandsFrom false cs)
    else consHead c (topLevelOperandsFrom inGroup cs)

/-- The top-level operands of the operand string of an instruction. -/
def topLevelOperands (inst : cs_insn) : List (List Char) :=
  topLevelOperandsFrom false (cString inst.op_str)

/-- An operand with the whitespace at its start removed. -/
def trimStart (l : List Char) : List Char := l.dropWhile isspace

/-- The interval `BI1` is the interval `BI` with blocks added: nothing but the blocks
differs, the blocks of `BI` are blocks of `BI1`, unchanged and in their order, and every
other block of `BI1` has size 0 and a UUID from `N` on, that is a new one. -/
def intervalGrows (N : Nat) (BI BI1 : ByteInterval) : Prop :=
  BI1.withoutBlocks = BI.withoutBlocks ∧ BI.blocks.Sublist BI1.blocks ∧
    ∀ C ∈ BI1.blocks, C ∈ BI.blocks ∨ (C.size = 0 ∧ N ≤ C.uuid)

/-- The sections `Ss1` are the sections `Ss`, with the same intervals in the same
order, to which blocks of size 0 have been added. -/
def sectionsGrow (N : Nat) (Ss Ss1 : List Section) : Prop :=
  List.Forall₂ (fun S S1 => S1.uuid = S.uuid ∧ S1.name = S.name ∧
    List.Forall₂ (intervalGrows N) S.byteIntervals S1.byteIntervals) Ss Ss1

/-- The symbol `Sym1` is the symbol `Sym` as it was, or `Sym` had an address and no
referent and `Sym1` is `Sym` with a referent in the place of the address. -/
def symbolResolved (Sym Sym1 : Symbol) : Prop :=
  Sym1 = Sym ∨ ∃ A B, Sym.payload = SymbolPayload.address A ∧
    Sym1 = { Sym with payload := SymbolPayload.referent B }

/-- The number that a list of decimal digits stands for. -/
def digitsValue (l : List Char) : Nat := l.foldl (fun a c => a * 10 + (c.toNat - 48)) 0

/-- The block `B` of the interval of `P` starts in the lookup range of the block `P`:
at the address of `P` when the size of `P` is 0, and in `[start, start + size)`
otherwise. -/
def startsInLookupRange (P : ByteInterval × Block) (B : Block) : Bool :=
  match P.1.address with
  | none => false
  | some A =>
    if P.2.size = 0 then decide (blockAddress A B = blockAddr P)
    else decide (blockAddr P ≤ blockAddress A B ∧ blockAddress A B < blockAddr P + P.2.size)

/-- The symbol `S` was made for the block `P`: its referent is `P` and its name is the
one made from the address of `P`. -/
def symbolMadeFor (S : Symbol) (P : ByteInterval × Block) : Prop :=
  S.payload = SymbolPayload.referent P.2.uuid ∧ S.name = overlapSymbolName (blockAddr P)

/-- The static context of `gtirb_layout` when the loop of the driver has passed the
modules `Ms`, starting with the context `Ctx`: every module without an address has
been laid out, one after the other, and the others have been passed over. -/
def contextAfter (Cfg : List Edge) (Ctx : Context) (Ms : List Module) : Context :=
  Ms.foldl (fun C X => if X.getAddress.isNone then (layoutModule Cfg C X).2.1 else C) Ctx

/-! # Verified properties -/

/-! ## layoutRequired -/

/-- C10: `layoutRequired` returns true exactly when some module has no address, or some
section has no address, or some byte interval has no address; so it returns false
when all of them have one.  It is a function of the IR alone and returns only the
flag: the source calls nothing but getters. -/
theorem layoutRequired_iff (ir : IR) :
    layoutRequired ir = true ↔
      (∃ M ∈ ir.modules, M.getAddress = none) ∨
      (∃ M ∈ ir.modules, ∃ S ∈ M.sections, S.getAddress = none) ∨
      (∃ M ∈ ir.modules, ∃ S ∈ M.sections, ∃ BI ∈ S.byteIntervals, BI.address = none) := by
  unfold layoutRequired
  simp only [List.any_eq_true, Bool.or_eq_true, Option.isNone_iff_eq_none]
  constructor
  · rintro ⟨M, hM, h | ⟨S, hS, h | ⟨BI, hBI, h⟩⟩⟩
    · exact Or.inl ⟨M, hM, h⟩
    · exact Or.inr (Or.inl ⟨M, hM, S, hS, h⟩)
    · exact Or.inr (Or.inr ⟨M, hM, S, hS, BI, hBI, h⟩)
  · rintro (⟨M, hM, h⟩ | ⟨M, hM, S, hS, h⟩ | ⟨M, hM, S, hS, BI, hBI, h⟩)
    · exact ⟨M, hM, Or.inl h⟩
    · exact ⟨M, hM, Or.inr ⟨S, hS, Or.inl h⟩⟩
    · exact ⟨M, hM, Or.inr ⟨S, hS, Or.inr ⟨BI, hBI, h⟩⟩⟩

/-! ## 64-bit arithmetic -/

theorem addrModulus_pos : 0 < addrModulus := by unfold addrModulus; norm_num

theorem add64_le (a b : Nat) : add64 a b ≤ a + b := Nat.mod_le _ _

theorem add64_lt (a b : Nat) : add64 a b < addrModulus := Nat.mod_lt _ addrModulus_pos

theorem add64_eq {a b : Nat} (h : a + b < addrModulus) : add64 a b = a + b :=
  Nat.mod_eq_of_lt h

/-! ## The address cursor -/

theorem totalSize_nil : totalSize [] = 0 := rfl

theorem totalSize_cons (BI : ByteInterval) (BIs : List ByteInterval) :
    totalSize (BI :: BIs) = BI.size + totalSize BIs := by
  simp [totalSize]

theorem totalSize_append (Xs Ys : List ByteInterval) :
    totalSize (Xs ++ Ys) = totalSize Xs + totalSize Ys := by
  simp [totalSize]

theorem intervalsOf_nil : intervalsOf [] = [] := rfl

theorem intervalsOf_cons (S : Section) (Ss : List Section) :
    intervalsOf (S :: Ss) = S.byteIntervals ++ intervalsOf Ss := by
  simp [intervalsOf]

/-- What `assignAddresses` leaves untouched: everything but the address. -/
theorem assignAddresses_map_setAddress (A : Nat) (BIs : List ByteInterval) :
    (assignAddresses A BIs).2.map (fun BI => BI.setAddress none) =
      BIs.map (fun BI => BI.setAddress none) := by
  induction BIs generalizing A with
  | nil => rfl
  | cons BI BIs ih =>
    simp only [assignAddresses, List.map_cons, ih]
    rfl

theorem assignAddresses_sizes (A : Nat) (BIs : List ByteInterval) :
    (assignAddresses A BIs).2.map (fun BI => BI.size) = BIs.map (fun BI => BI.size) := by
  induction BIs generalizing A with
  | nil => rfl
  | cons BI BIs ih =>
    simp only [assignAddresses, List.map_cons, ih]
    rfl

theorem assignAddresses_totalSize (A : Nat) (BIs : List ByteInterval) :
    totalSize (assignAddresses A BIs).2 = totalSize BIs := by
  unfold totalSize
  rw [assignAddresses_sizes]

theorem assignAddresses_length (A : Nat) (BIs : List ByteInterval) :
    (assignAddresses A BIs).2.length = BIs.length := by
  have h := congrArg List.length (assignAddresses_sizes A BIs)
  simpa using h

/-- The cursor that `assignAddresses` returns, modulo `2 ^ 64`. -/
theorem assignAddresses_cursor (A : Nat) (BIs : List ByteInterval) :
    (assignAddresses A BIs).1 % addrModulus = (A + totalSize BIs) % addrModulus := by
  induction BIs generalizing A with
  | nil => simp [assignAddresses, totalSize]
  | cons BI BIs ih =>
    simp only [assignAddresses, ih, totalSize_cons]
    unfold add64
    rw [Nat.add_mod, Nat.mod_mod, ← Nat.add_mod, Nat.add_assoc]

theorem assignAddresses_cursor_lt (A : Nat) (hA : A < addrModulus) (BIs : List ByteInterval) :
    (assignAddresses A BIs).1 < addrModulus := by
  induction BIs generalizing A with
  | nil => simpa [assignAddresses] using hA
  | cons BI BIs ih =>
    simp only [assignAddresses]
    exact ih _ (add64_lt _ _)

theorem assignAddresses_laidOutFrom (A : Nat) (BIs : List ByteInterval) :
    laidOutFrom A (assignAddresses A BIs).2 := by
  induction BIs generalizing A with
  | nil => simp [assignAddresses, laidOutFrom]
  | cons BI BIs ih =>
    simp only [assignAddresses, laidOutFrom]
    exact ⟨rfl, ih _⟩

theorem laidOutFrom_append (A B : Nat) (Xs Ys : List ByteInterval)
    (hX : laidOutFrom A Xs)
    (hAB : B = (A + totalSize Xs) % addrModulus) (hY : laidOutFrom B Ys) (hA : A < addrModulus) :
    laidOutFrom A (Xs ++ Ys) := by
  induction Xs generalizing A with
  | nil =>
    simp only [totalSize_nil, Nat.add_zero, Nat.mod_eq_of_lt hA] at hAB
    subst hAB
    simpa using hY
  | cons X Xs ih =>
    obtain ⟨h1, h2⟩ := hX
    refine ⟨h1, ih _ h2 ?_ (add64_lt _ _)⟩
    rw [hAB, totalSize_cons]
    unfold add64
    rw [Nat.add_mod (((A + X.size) % addrModulus)), Nat.mod_mod, ← Nat.add_mod, Nat.add_assoc]

/-- Without wrap-around the intervals of a laid-out list follow one another. -/
theorem laidOutFrom_pairwise (A : Nat) (BIs : List ByteInterval)
    (h : laidOutFrom A BIs) (hFit : A + totalSize BIs < addrModulus) :
    BIs.Pairwise rangeBefore ∧
      ∀ BI ∈ BIs, ∃ a, BI.address = some a ∧ A ≤ a ∧ a + BI.size ≤ A + totalSize BIs := by
  induction BIs generalizing A with
  | nil => simp
  | cons BI BIs ih =>
    obtain ⟨h1, h2⟩ := h
    rw [totalSize_cons] at hFit
    have hadd : add64 A BI.size = A + BI.size := add64_eq (by omega)
    rw [hadd] at h2
    obtain ⟨ihP, ihB⟩ := ih _ h2 (by omega)
    refine ⟨List.pairwise_cons.mpr ⟨?_, ihP⟩, ?_⟩
    · intro Y hY a b ha hb
      obtain ⟨c, hc, hc1, _⟩ := ihB Y hY
      rw [h1] at ha
      rw [hc] at hb
      cases ha
      cases hb
      exact hc1
    · intro Y hY
      rw [totalSize_cons]
      rcases List.mem_cons.mp hY with rfl | hY
      · exact ⟨A, h1, le_refl _, by omega⟩
      · obtain ⟨c, hc, hc1, hc2⟩ := ihB Y hY
        exact ⟨c, hc, by omega, by omega⟩

theorem rangeBefore_disjoint {X Y : ByteInterval} (h : rangeBefore X Y) :
    rangesDisjoint X Y := by
  intro A B hA hB N hN
  have := h A B hA hB
  omega

theorem rangesDisjoint_symm {X Y : ByteInterval} (h : rangesDisjoint X Y) :
    rangesDisjoint Y X := by
  intro A B hA hB N hN
  exact h B A hB hA N ⟨hN.2, hN.1⟩

/-! ## The merge of two intervals -/

theorem foldl_invariant {α β : Type} (f : β → α → β) (Q : β → Prop)
    (h : ∀ b a, Q b → Q (f b a)) (l : List α) (b : β) (hb : Q b) : Q (l.foldl f b) := by
  induction l generalizing b with
  | nil => exact hb
  | cons a l ih => exact ih _ (h _ _ hb)

theorem mergeByteIntervals_size (X Y : ByteInterval) :
    (mergeByteIntervals X Y).size = add64 X.size Y.size := by
  unfold mergeByteIntervals
  simp only [ByteInterval.insertBytes]
  apply foldl_invariant _ (fun BI : ByteInterval => BI.size = add64 X.size Y.size)
  · intro b a hb; exact hb
  apply foldl_invariant _ (fun BI : ByteInterval => BI.size = add64 X.size Y.size)
  · intro b a hb; exact hb
  apply foldl_invariant _ (fun BI : ByteInterval => BI.size = add64 X.size Y.size)
  · intro b a hb; exact hb
  rfl

theorem mergeByteIntervals_uuid (X Y : ByteInterval) :
    (mergeByteIntervals X Y).uuid = X.uuid := by
  unfold mergeByteIntervals
  simp only [ByteInterval.insertBytes]
  apply foldl_invariant _ (fun BI : ByteInterval => BI.uuid = X.uuid)
  · intro b a hb; exact hb
  apply foldl_invariant _ (fun BI : ByteInterval => BI.uuid = X.uuid)
  · intro b a hb; exact hb
  apply foldl_invariant _ (fun BI : ByteInterval => BI.uuid = X.uuid)
  · intro b a hb; exact hb
  rfl

theorem mergeByteIntervals_address (X Y : ByteInterval) :
    (mergeByteIntervals X Y).address = X.address := by
  unfold mergeByteIntervals
  simp only [ByteInterval.insertBytes]
  apply foldl_invariant _ (fun BI : ByteInterval => BI.address = X.address)
  · intro b a hb; exact hb
  apply foldl_invariant _ (fun BI : ByteInterval => BI.address = X.address)
  · intro b a hb; exact hb
  apply foldl_invariant _ (fun BI : ByteInterval => BI.address = X.address)
  · intro b a hb; exact hb
  rfl

theorem totalSize_set (BIs : List ByteInterval) (I : Nat) (X : ByteInterval)
    (hI : I < BIs.length) :
    totalSize (BIs.set I X) + (BIs[I]).size = totalSize BIs + X.size := by
  induction BIs generalizing I with
  | nil => simp at hI
  | cons B BIs ih =>
    cases I with
    | zero => simp only [List.set_cons_zero, totalSize_cons, List.getElem_cons_zero]; omega
    | succ I =>
      have hI1 : I < BIs.length := by simpa using hI
      have := ih I hI1
      simp only [List.set_cons_succ, totalSize_cons, List.getElem_cons_succ]
      omega

theorem totalSize_eraseIdx (BIs : List ByteInterval) (J : Nat) (hJ : J < BIs.length) :
    totalSize (BIs.eraseIdx J) + (BIs[J]).size = totalSize BIs := by
  induction BIs generalizing J with
  | nil => simp at hJ
  | cons B BIs ih =>
    cases J with
    | zero => simp only [List.eraseIdx_cons_zero, totalSize_cons, List.getElem_cons_zero]; omega
    | succ J =>
      have hJ1 : J < BIs.length := by simpa using hJ
      have := ih J hJ1
      simp only [List.eraseIdx_cons_succ, totalSize_cons, List.getElem_cons_succ]
      omega

theorem mergeAt_byteIntervals (S : Section) (I J : Nat) (hI : I < S.byteIntervals.length)
    (hJ : J < S.byteIntervals.length) :
    (S.mergeAt I J).byteIntervals =
      (S.byteIntervals.set I
        (mergeByteIntervals (S.byteIntervals[I]) (S.byteIntervals[J]))).eraseIdx J := by
  unfold Section.mergeAt
  rw [List.getElem?_eq_getElem hI, List.getElem?_eq_getElem hJ]

theorem mergeAt_length (S : Section) (I J : Nat) (hI : I < S.byteIntervals.length)
    (hJ : J < S.byteIntervals.length) :
    (S.mergeAt I J).byteIntervals.length + 1 = S.byteIntervals.length := by
  rw [mergeAt_byteIntervals S I J hI hJ, List.length_eraseIdx, List.length_set, if_pos hJ]
  omega

theorem mergeAt_totalSize (S : Section) (I J : Nat) :
    totalSize (S.mergeAt I J).byteIntervals ≤ totalSize S.byteIntervals := by
  by_cases hI : I < S.byteIntervals.length
  · by_cases hJ : J < S.byteIntervals.length
    · rw [mergeAt_byteIntervals S I J hI hJ]
      have h1 := totalSize_set S.byteIntervals I
        (mergeByteIntervals (S.byteIntervals[I]) (S.byteIntervals[J])) hI
      have hJ1 : J < (S.byteIntervals.set I
        (mergeByteIntervals (S.byteIntervals[I]) (S.byteIntervals[J]))).length := by
        simpa using hJ
      have h2 := totalSize_eraseIdx _ J hJ1
      rw [List.getElem_set] at h2
      have h3 := mergeByteIntervals_size (S.byteIntervals[I]) (S.byteIntervals[J])
      have h4 := add64_le (S.byteIntervals[I]).size (S.byteIntervals[J]).size
      split at h2
      · omega
      · omega
    · have hnone : S.byteIntervals[J]? = none := List.getElem?_eq_none (by omega)
      simp [Section.mergeAt, hnone]
  · have hnone : S.byteIntervals[I]? = none := List.getElem?_eq_none (by omega)
    simp [Section.mergeAt, hnone]

/-! ## The scan of findAndMergeBIs -/

theorem findCodeBlock_some (T : Nat) (K : Nat) (BIs : List ByteInterval) (J : Nat)
    (BI : ByteInterval) (B : Block) (h : findCodeBlock T K BIs = some (J, BI, B)) :
    K ≤ J ∧ J < K + BIs.length ∧ BIs[J - K]? = some BI ∧ B ∈ BI.code_blocks ∧ B.uuid = T := by
  induction BIs generalizing K with
  | nil => simp [findCodeBlock] at h
  | cons X Xs ih =>
    simp only [findCodeBlock] at h
    split at h
    · rename_i B1 hB1
      simp only [Option.some.injEq, Prod.mk.injEq] at h
      obtain ⟨rfl, rfl, rfl⟩ := h
      have hm := List.mem_of_find?_eq_some hB1
      have hp := List.find?_some hB1
      simp only [decide_eq_true_eq] at hp
      simp [hm, hp]
    · obtain ⟨h1, h2, h3, h4⟩ := ih (K + 1) h
      refine ⟨by omega, by simp only [List.length_cons]; omega, ?_, h4⟩
      have : J - K = (J - (K + 1)) + 1 := by omega
      rw [this, List.getElem?_cons_succ]
      exact h3

theorem scanEdges_merge (S : Section) (I : Nat) (SourceBI : ByteInterval) (Source : Block)
    (Es : List Edge) (A B : Nat)
    (h : scanEdges S I SourceBI Source Es = some (MergeScan.merge A B)) :
    A = I ∧ B < S.byteIntervals.length ∧ A ≠ B := by
  induction Es with
  | nil => simp [scanEdges] at h
  | cons E Es ih =>
    simp only [scanEdges] at h
    split at h
    · exact ih h
    · split at h
      · split at h
        · rename_i J X Target hfind
          have hJ := findCodeBlock_some _ _ _ _ _ _ hfind
          split at h
          · exact ih h
          · split at h
            · simp at h
            · split at h
              · simp at h
              · simp only [Option.some.injEq, MergeScan.merge.injEq] at h
                obtain ⟨rfl, rfl⟩ := h
                refine ⟨rfl, by omega, by assumption⟩
        · simp at h
      · simp at h

theorem scanByteIntervals_merge (Cfg : List Edge) (S : Section) (K : Nat)
    (BIs : List ByteInterval) (A B : Nat)
    (h : scanByteIntervals Cfg S K BIs = MergeScan.merge A B) :
    K ≤ A ∧ A < K + BIs.length ∧ B < S.byteIntervals.length ∧ A ≠ B := by
  induction BIs generalizing K with
  | nil => simp [scanByteIntervals] at h
  | cons X Xs ih =>
    simp only [scanByteIntervals] at h
    split at h
    · split at h
      · rename_i R hR
        subst h
        obtain ⟨h1, h2, h3⟩ := scanEdges_merge _ _ _ _ _ _ _ hR
        subst h1
        exact ⟨le_refl _, by simp, h2, h3⟩
      · obtain ⟨h1, h2, h3⟩ := ih _ h
        exact ⟨by omega, by simp only [List.length_cons]; omega, h3⟩
    · obtain ⟨h1, h2, h3⟩ := ih _ h
      exact ⟨by omega, by simp only [List.length_cons]; omega, h3⟩

/-- The number of calls allowed never runs out: any bound above the number of
intervals gives the same result. -/
theorem findAndMergeBIsFuel_stable (Cfg : List Edge) (N M : Nat) (S : Section)
    (hN : S.byteIntervals.length < N) (hM : S.byteIntervals.length < M) :
    findAndMergeBIsFuel Cfg N S = findAndMergeBIsFuel Cfg M S := by
  induction N generalizing M S with
  | zero => omega
  | succ N ih =>
    cases M with
    | zero => omega
    | succ M =>
      simp only [findAndMergeBIsFuel]
      split
      · rfl
      · rfl
      · rename_i I J hscan
        obtain ⟨_, hI, hJ, _⟩ := scanByteIntervals_merge _ _ _ _ _ _ hscan
        have hlen := mergeAt_length S I J (by omega) hJ
        exact ih M (S.mergeAt I J) (by omega) (by omega)

/-- The recursion equation of `findAndMergeBIs`, as the source writes it. -/
theorem findAndMergeBIs_eq (Cfg : List Edge) (S : Section) :
    findAndMergeBIs Cfg S =
      match scanByteIntervals Cfg S 0 S.byteIntervals with
      | MergeScan.done => (true, S)
      | MergeScan.failed => (false, S)
      | MergeScan.merge I J => findAndMergeBIs Cfg (S.mergeAt I J) := by
  unfold findAndMergeBIs
  simp only [findAndMergeBIsFuel]
  split
  · rfl
  · rfl
  · rename_i I J hscan
    obtain ⟨_, hI, hJ, _⟩ := scanByteIntervals_merge _ _ _ _ _ _ hscan
    have hlen := mergeAt_length S I J (by omega) hJ
    exact findAndMergeBIsFuel_stable Cfg S.byteIntervals.length
      ((S.mergeAt I J).byteIntervals.length + 1) (S.mergeAt I J) (by omega) (by omega)

/-- An induction principle for `findAndMergeBIs`: a property of sections that every
merge step preserves holds of the section that is left. -/
theorem findAndMergeBIs_invariant (Cfg : List Edge) (Q : Section → Prop)
    (hstep : ∀ S I J, Q S → scanByteIntervals Cfg S 0 S.byteIntervals = MergeScan.merge I J →
      Q (S.mergeAt I J))
    (S : Section) (hS : Q S) : Q (findAndMergeBIs Cfg S).2 := by
  unfold findAndMergeBIs
  generalize S.byteIntervals.length + 1 = N
  induction N generalizing S with
  | zero => exact hS
  | succ N ih =>
    simp only [findAndMergeBIsFuel]
    split
    · exact hS
    · exact hS
    · rename_i I J hscan
      exact ih _ (hstep S I J hS hscan)

theorem findAndMergeBIs_totalSize (Cfg : List Edge) (S : Section) :
    totalSize (findAndMergeBIs Cfg S).2.byteIntervals ≤ totalSize S.byteIntervals := by
  apply findAndMergeBIs_invariant Cfg
    (fun S1 => totalSize S1.byteIntervals ≤ totalSize S.byteIntervals)
  · intro S1 I J h _
    exact le_trans (mergeAt_totalSize S1 I J) h
  · exact le_refl _

theorem layoutSections_laidOutFrom (Cfg : List Edge) (A : Nat) (hA : A < addrModulus)
    (Ss Ss1 : List Section) (h : layoutSections Cfg A Ss = (true, Ss1)) :
    laidOutFrom A (intervalsOf Ss1) := by
  induction Ss generalizing A Ss1 with
  | nil =>
    simp only [layoutSections, Prod.mk.injEq, true_and] at h
    subst h
    trivial
  | cons S Ss ih =>
    simp only [layoutSections] at h
    split at h
    · simp at h
    · rename_i S1 hS1
      simp only [Prod.mk.injEq] at h
      obtain ⟨h1, h2⟩ := h
      subst h2
      rw [intervalsOf_cons]
      have hrest : layoutSections Cfg (assignAddresses A S1.byteIntervals).1 Ss =
          (true, (layoutSections Cfg (assignAddresses A S1.byteIntervals).1 Ss).2) := by
        rw [← h1]
      have hlt := assignAddresses_cursor_lt A hA S1.byteIntervals
      refine laidOutFrom_append A _ _ _ (assignAddresses_laidOutFrom A _) ?_
        (ih _ hlt _ hrest) hA
      rw [assignAddresses_totalSize, ← assignAddresses_cursor, Nat.mod_eq_of_lt hlt]

theorem layoutSections_totalSize (Cfg : List Edge) (A : Nat) (Ss : List Section) :
    totalSize (intervalsOf (layoutSections Cfg A Ss).2) ≤ totalSize (intervalsOf Ss) := by
  induction Ss generalizing A with
  | nil => simp [layoutSections]
  | cons S Ss ih =>
    simp only [layoutSections]
    have hS := findAndMergeBIs_totalSize Cfg S
    split
    · rename_i S1 hS1
      rw [hS1] at hS
      simp only [intervalsOf_cons, totalSize_append] at hS ⊢
      omega
    · rename_i S1 hS1
      rw [hS1] at hS
      simp only [intervalsOf_cons, totalSize_append, assignAddresses_totalSize] at hS ⊢
      have := ih (assignAddresses A S1.byteIntervals).1
      omega

theorem modifyFirst_map {α β : Type} (P : α → Bool) (F : α → α) (g : α → β)
    (h : ∀ x, g (F x) = g x) (l : List α) : (modifyFirst P F l).map g = l.map g := by
  induction l with
  | nil => rfl
  | cons X Xs ih =>
    simp only [modifyFirst]
    split
    · simp [h]
    · simp [ih]

theorem modifyByteIntervalOn_withoutBlocks (X : Nat) (F : ByteInterval → ByteInterval)
    (h : ∀ BI, (F BI).withoutBlocks = BI.withoutBlocks) (Secs : List Section) :
    (modifyByteIntervalOn X F Secs).map Section.withoutBlocks =
      Secs.map Section.withoutBlocks := by
  induction Secs with
  | nil => rfl
  | cons S Ss ih =>
    simp only [modifyByteIntervalOn]
    split
    · simp [Section.withoutBlocks, modifyFirst_map _ _ _ h]
    · simp [ih]

theorem addNewBlock_withoutBlocks (Ctx : Context) (BI : ByteInterval) (K : BlockKind)
    (Off : Nat) : (BI.addNewBlock Ctx K Off).2.1.withoutBlocks = BI.withoutBlocks := rfl

theorem resolveInInterval_withoutBlocks (Ctx : Context) (BI : ByteInterval) (Addr : Nat) :
    (resolveInInterval Ctx BI Addr).2.1.withoutBlocks = BI.withoutBlocks := by
  unfold resolveInInterval
  split
  · rfl
  · split <;> rfl

theorem fixIntegralSymbol_withoutBlocks (Ctx : Context) (Secs : List Section) (Sym : Symbol)
    (Addr : Nat) :
    (fixIntegralSymbol Ctx Secs Sym Addr).2.1.map Section.withoutBlocks =
      Secs.map Section.withoutBlocks := by
  unfold fixIntegralSymbol
  split
  · exact modifyByteIntervalOn_withoutBlocks _ _
      (fun BI => resolveInInterval_withoutBlocks Ctx BI Addr) _
  · split
    · exact modifyByteIntervalOn_withoutBlocks _ _
        (fun BI => addNewBlock_withoutBlocks Ctx BI _ _) _
    · rfl

theorem fixIntegralSymbolsLoop_withoutBlocks (Ctx : Context) (Secs : List Section)
    (Syms : List Symbol) :
    (fixIntegralSymbolsLoop Ctx Secs Syms).2.1.map Section.withoutBlocks =
      Secs.map Section.withoutBlocks := by
  induction Syms generalizing Ctx Secs with
  | nil => rfl
  | cons Sym Syms ih =>
    simp only [fixIntegralSymbolsLoop]
    split
    · simp only [ih, fixIntegralSymbol_withoutBlocks]
    · simp only [ih]

theorem fixIntegralSymbols_withoutBlocks (Ctx : Context) (M : Module) :
    (fixIntegralSymbols Ctx M).2.sections.map Section.withoutBlocks =
      M.sections.map Section.withoutBlocks :=
  fixIntegralSymbolsLoop_withoutBlocks Ctx M.sections M.symbols

theorem totalSize_withoutBlocks (BIs : List ByteInterval) :
    totalSize (BIs.map ByteInterval.withoutBlocks) = totalSize BIs := by
  induction BIs with
  | nil => rfl
  | cons BI BIs ih =>
    simp only [List.map_cons, totalSize_cons, ih]
    rfl

theorem totalSize_intervalsOf_withoutBlocks (Secs : List Section) :
    totalSize (intervalsOf (Secs.map Section.withoutBlocks)) = totalSize (intervalsOf Secs) := by
  induction Secs with
  | nil => rfl
  | cons S Ss ih =>
    simp only [List.map_cons, intervalsOf_cons, totalSize_append, ih]
    simp [Section.withoutBlocks, totalSize_withoutBlocks]

theorem fixIntegralSymbols_totalSize (Ctx : Context) (M : Module) :
    totalSize (intervalsOf (fixIntegralSymbols Ctx M).2.sections) =
      totalSize (intervalsOf M.sections) := by
  rw [← totalSize_intervalsOf_withoutBlocks, fixIntegralSymbols_withoutBlocks,
    totalSize_intervalsOf_withoutBlocks]

/-- The sections of a successful `layoutModule` are those that `layoutSections` returns on
the sections that `fixIntegralSymbols` leaves. -/
theorem layoutModule_true_sections (Cfg : List Edge) (Ctx Ctx1 : Context) (M M1 : Module)
    (h : layoutModule Cfg Ctx M = (true, Ctx1, M1)) :
    layoutSections Cfg 0 (fixIntegralSymbols Ctx M).2.sections = (true, M1.sections) := by
  unfold layoutModule at h
  simp only at h
  split at h
  · simp at h
  · rename_i Secs hSecs
    simp only [Prod.mk.injEq, true_and] at h
    rw [hSecs, ← h.2]
    rfl

theorem layoutModule_true_laidOutFrom (Cfg : List Edge) (Ctx Ctx1 : Context) (M M1 : Module)
    (h : layoutModule Cfg Ctx M = (true, Ctx1, M1)) :
    laidOutFrom 0 (intervalsOf M1.sections) :=
  layoutSections_laidOutFrom Cfg 0 addrModulus_pos _ _
    (layoutModule_true_sections Cfg Ctx Ctx1 M M1 h)

theorem layoutModule_true_totalSize (Cfg : List Edge) (Ctx Ctx1 : Context) (M M1 : Module)
    (h : layoutModule Cfg Ctx M = (true, Ctx1, M1)) :
    totalSize (intervalsOf M1.sections) ≤ totalSize (intervalsOf M.sections) := by
  have h1 := layoutModule_true_sections Cfg Ctx Ctx1 M M1 h
  have h2 := layoutSections_totalSize Cfg 0 (fixIntegralSymbols Ctx M).2.sections
  rw [h1, fixIntegralSymbols_totalSize] at h2
  exact h2

theorem scenarioA_layout :
    layoutModule scenarioACfg { nextUUID := 1000 } scenarioA =
      (true, { nextUUID := 1000 }, scenarioALaidOut) := by
  decide

theorem twoSection_layout :
    layoutModule [] { nextUUID := 1000 } twoSectionModule =
      (true, { nextUUID := 1000 }, twoSectionLaidOut) := by
  decide

theorem pairwise_getElem_ne {α : Type} (R : α → α → Prop) (hsymm : ∀ x y, R x y → R y x)
    (l : List α) (h : l.Pairwise R) (I J : Nat) (hI : I < l.length) (hJ : J < l.length)
    (hne : I ≠ J) : R l[I] l[J] := by
  rw [List.pairwise_iff_getElem] at h
  rcases Nat.lt_or_gt_of_ne hne with hlt | hgt
  · exact h I J hI hJ hlt
  · exact hsymm _ _ (h J I hJ hI hgt)

theorem layoutModule_true_pairwise (Cfg : List Edge) (Ctx Ctx1 : Context) (M M1 : Module)
    (h : layoutModule Cfg Ctx M = (true, Ctx1, M1))
    (hFit : totalSize (intervalsOf M.sections) < addrModulus) :
    (intervalsOf M1.sections).Pairwise rangeBefore := by
  have hlaid := layoutModule_true_laidOutFrom Cfg Ctx Ctx1 M M1 h
  have hle := layoutModule_true_totalSize Cfg Ctx Ctx1 M M1 h
  exact (laidOutFrom_pairwise 0 _ hlaid (by omega)).1

theorem lowAddress_mem (S : Section) (Lo : Nat) (h : S.lowAddress = some Lo) :
    ∃ BI ∈ S.byteIntervals, BI.address = some Lo := by
  unfold Section.lowAddress at h
  have hm := List.min?_mem (fun a b => min_choice a b) h
  exact List.mem_filterMap.mp hm

theorem highEnd_mem (S : Section) (Hi : Nat) (h : S.highEnd = some Hi) :
    ∃ BI ∈ S.byteIntervals, ∃ A, BI.address = some A ∧ Hi = A + BI.size := by
  unfold Section.highEnd at h
  have hm := List.max?_mem (fun a b => max_choice a b) h
  obtain ⟨BI, hBI, hE⟩ := List.mem_filterMap.mp hm
  refine ⟨BI, hBI, ?_⟩
  cases hA : BI.address with
  | none => simp [hA] at hE
  | some A =>
    simp only [hA, Option.map_some', Option.some.injEq] at hE
    exact ⟨A, rfl, hE.symm⟩

theorem sectionsDisjoint_of_rangeBefore (S T : Section)
    (h : ∀ X ∈ S.byteIntervals, ∀ Y ∈ T.byteIntervals, rangeBefore X Y) :
    sectionsDisjoint S T := by
  intro Lo Hi Lo1 Hi1 _ hHi hLo1 _ N hN
  obtain ⟨X, hX, A, hA, hHiA⟩ := highEnd_mem S Hi hHi
  obtain ⟨Y, hY, hB⟩ := lowAddress_mem T Lo1 hLo1
  have := h X hX Y hY A Lo1 hA hB
  omega

theorem sectionsDisjoint_symm (S T : Section) (h : sectionsDisjoint S T) :
    sectionsDisjoint T S := by
  intro Lo Hi Lo1 Hi1 h1 h2 h3 h4 N hN
  exact h Lo1 Hi1 Lo Hi h3 h4 h1 h2 N ⟨hN.2, hN.1⟩

/-- C9, amended: after a successful `layoutModule` of a module whose interval sizes total
less than `2 ^ 64` (so that the 64-bit address cursor does not wrap), the address spans
of any two distinct sections, each from the lowest interval address to the highest
interval end, have no address in common. -/
theorem layoutModule_sections_disjoint (Cfg : List Edge) (Ctx Ctx1 : Context) (M M1 : Module)
    (h : layoutModule Cfg Ctx M = (true, Ctx1, M1))
    (hFit : totalSize (intervalsOf M.sections) < addrModulus)
    (I J : Nat) (hI : I < M1.sections.length) (hJ : J < M1.sections.length) (hne : I ≠ J) :
    sectionsDisjoint M1.sections[I] M1.sections[J] := by
  have hp := layoutModule_true_pairwise Cfg Ctx Ctx1 M M1 h hFit
  unfold intervalsOf at hp
  have hp2 := (List.pairwise_flatten.mp hp).2
  rw [List.pairwise_map] at hp2
  have hp3 : M1.sections.Pairwise sectionsDisjoint :=
    hp2.imp (fun {S T} hST => sectionsDisjoint_of_rangeBefore S T hST)
  exact pairwise_getElem_ne sectionsDisjoint sectionsDisjoint_symm _ hp3 I J hI hJ hne

/-- The two sections of `twoSectionModule` after layout: `[0, 10)` and `[10, 13)`. -/
theorem layoutModule_sections_disjoint_witness :
    sectionsDisjoint twoSectionLaidOut.sections[0] twoSectionLaidOut.sections[1] :=
  layoutModule_sections_disjoint [] { nextUUID := 1000 } { nextUUID := 1000 }
    twoSectionModule twoSectionLaidOut twoSection_layout (by decide) 0 1 (by decide) (by decide)
    (by decide)

/-- C1, as stated, fails: on `crossSectionModule` the call returns false and leaves byte
intervals without an address. -/
theorem layoutModule_failure_leaves_unaddressed :
    (layoutModule [fallthroughEdge 100 101] { nextUUID := 1000 } crossSectionModule).1 = false ∧
    ∃ S ∈ (layoutModule [fallthroughEdge 100 101] { nextUUID := 1000 }
        crossSectionModule).2.2.sections,
      ∃ BI ∈ S.byteIntervals, BI.address = none := by
  decide

/-- C1, amended: for every module on which `layoutModule` succeeds and whose interval
sizes total less than `2 ^ 64`, afterwards every byte interval has an address and the
address ranges `[address, address + size)` of any two distinct byte intervals of the
same section have no address in common. -/
theorem layoutModule_addressed_disjoint (Cfg : List Edge) (Ctx Ctx1 : Context) (M M1 : Module)
    (h : layoutModule Cfg Ctx M = (true, Ctx1, M1))
    (hFit : totalSize (intervalsOf M.sections) < addrModulus) :
    (∀ S ∈ M1.sections, ∀ BI ∈ S.byteIntervals, ∃ A, BI.address = some A) ∧
    (∀ S ∈ M1.sections, ∀ (I J : Nat) (hI : I < S.byteIntervals.length)
      (hJ : J < S.byteIntervals.length), I ≠ J →
      rangesDisjoint S.byteIntervals[I] S.byteIntervals[J]) := by
  have hlaid := layoutModule_true_laidOutFrom Cfg Ctx Ctx1 M M1 h
  have hle := layoutModule_true_totalSize Cfg Ctx Ctx1 M M1 h
  obtain ⟨hp, hb⟩ := laidOutFrom_pairwise 0 _ hlaid (by omega)
  unfold intervalsOf at hp hb
  have hp1 := (List.pairwise_flatten.mp hp).1
  refine ⟨?_, ?_⟩
  · intro S hS BI hBI
    obtain ⟨A, hA, _⟩ := hb BI (List.mem_flatten.mpr ⟨_, List.mem_map_of_mem _ hS, hBI⟩)
    exact ⟨A, hA⟩
  · intro S hS I J hI hJ hne
    have hp2 : S.byteIntervals.Pairwise rangesDisjoint :=
      (hp1 _ (List.mem_map_of_mem _ hS)).imp (fun {X Y} hXY => rangeBefore_disjoint hXY)
    exact pairwise_getElem_ne rangesDisjoint (fun _ _ hxy => rangesDisjoint_symm hxy) _ hp2
      I J hI hJ hne

/-- The three intervals of `twoSectionModule` after layout. -/
theorem layoutModule_addressed_disjoint_witness :
    (∀ S ∈ twoSectionLaidOut.sections, ∀ BI ∈ S.byteIntervals, ∃ A, BI.address = some A) ∧
    (∀ S ∈ twoSectionLaidOut.sections, ∀ (I J : Nat) (hI : I < S.byteIntervals.length)
      (hJ : J < S.byteIntervals.length), I ≠ J →
      rangesDisjoint S.byteIntervals[I] S.byteIntervals[J]) :=
  layoutModule_addressed_disjoint [] { nextUUID := 1000 } { nextUUID := 1000 }
    twoSectionModule twoSectionLaidOut twoSection_layout (by decide)

/-! ## The contents of a merged interval -/

theorem mem_insertBlock (B C : Block) (l : List Block) :
    C ∈ insertBlock B l ↔ C = B ∨ C ∈ l := by
  induction l with
  | nil => simp [insertBlock]
  | cons X Xs ih =>
    simp only [insertBlock]
    split
    · simp
    · simp only [List.mem_cons, ih]
      tauto

theorem mem_foldl_addBlock (f : Block → Nat) (l : List Block) (BI : ByteInterval) (C : Block) :
    C ∈ (l.foldl (fun BI B => BI.addBlock (f B) B) BI).blocks ↔
      C ∈ BI.blocks ∨ ∃ B ∈ l, C = { B with offset := f B } := by
  induction l generalizing BI with
  | nil => simp
  | cons X Xs ih =>
    rw [List.foldl_cons, ih]
    have hX : ∀ D : Block, D ∈ (BI.addBlock (f X) X).blocks ↔
        D = { X with offset := f X } ∨ D ∈ BI.blocks := fun D => mem_insertBlock _ _ _
    rw [hX]
    simp only [List.mem_cons, exists_eq_or_imp]
    tauto

theorem foldl_addSymbolicExpression_blocks (f : Nat → Nat) (l : List (Nat × SymbolicExpression))
    (BI : ByteInterval) :
    (l.foldl (fun BI SEE => BI.addSymbolicExpression (f SEE.1) SEE.2) BI).blocks = BI.blocks := by
  induction l generalizing BI with
  | nil => rfl
  | cons X Xs ih => simp only [List.foldl_cons, ih]; rfl

theorem foldl_addBlock_symbolicExpressions (f : Block → Nat) (l : List Block)
    (BI : ByteInterval) :
    (l.foldl (fun BI B => BI.addBlock (f B) B) BI).symbolicExpressions =
      BI.symbolicExpressions := by
  induction l generalizing BI with
  | nil => rfl
  | cons X Xs ih => simp only [List.foldl_cons, ih]; rfl

theorem foldl_addBlock_bytes (f : Block → Nat) (l : List Block) (BI : ByteInterval) :
    (l.foldl (fun BI B => BI.addBlock (f B) B) BI).bytes = BI.bytes := by
  induction l generalizing BI with
  | nil => rfl
  | cons X Xs ih => simp only [List.foldl_cons, ih]; rfl

theorem foldl_addSymbolicExpression_bytes (f : Nat → Nat) (l : List (Nat × SymbolicExpression))
    (BI : ByteInterval) :
    (l.foldl (fun BI SEE => BI.addSymbolicExpression (f SEE.1) SEE.2) BI).bytes = BI.bytes := by
  induction l generalizing BI with
  | nil => rfl
  | cons X Xs ih => simp only [List.foldl_cons, ih]; rfl

/-- The blocks of a merged interval are the blocks of the source and the blocks of the
target moved up by the size of the source. -/
theorem mem_mergeByteIntervals_blocks (X Y : ByteInterval) (C : Block) :
    C ∈ (mergeByteIntervals X Y).blocks ↔
      C ∈ X.blocks ∨ ∃ B ∈ Y.blocks, C = { B with offset := add64 X.size B.offset } := by
  unfold mergeByteIntervals
  simp only [ByteInterval.insertBytes, foldl_addSymbolicExpression_blocks, mem_foldl_addBlock,
    ByteInterval.setSize, ByteInterval.code_blocks, ByteInterval.data_blocks, List.mem_filter,
    decide_eq_true_eq]
  constructor
  · rintro ((h | ⟨B, ⟨hB, _⟩, rfl⟩) | ⟨B, ⟨hB, _⟩, rfl⟩)
    · exact Or.inl h
    · exact Or.inr ⟨B, hB, rfl⟩
    · exact Or.inr ⟨B, hB, rfl⟩
  · rintro (h | ⟨B, hB, rfl⟩)
    · exact Or.inl (Or.inl h)
    · by_cases hk : B.kind = BlockKind.code
      · exact Or.inl (Or.inr ⟨B, ⟨hB, hk⟩, rfl⟩)
      · have hd : B.kind = BlockKind.data := by
          cases hB2 : B.kind with
          | code => exact absurd hB2 hk
          | data => rfl
        exact Or.inr ⟨B, ⟨hB, hd⟩, rfl⟩

theorem mergeByteIntervals_bytes (X Y : ByteInterval) :
    (mergeByteIntervals X Y).bytes = X.bytes.take X.size ++ Y.bytes ++ X.bytes.drop X.size := by
  unfold mergeByteIntervals
  simp only [ByteInterval.insertBytes, foldl_addSymbolicExpression_bytes, foldl_addBlock_bytes,
    ByteInterval.setSize]

theorem mem_insertSymbolicExpression_self (Off : Nat) (E : SymbolicExpression)
    (l : List (Nat × SymbolicExpression)) : (Off, E) ∈ insertSymbolicExpression Off E l := by
  induction l with
  | nil => simp [insertSymbolicExpression]
  | cons X Xs ih =>
    simp only [insertSymbolicExpression]
    split
    · simp
    · split
      · simp
      · exact List.mem_cons_of_mem _ ih

theorem mem_insertSymbolicExpression_of_ne (Off : Nat) (E : SymbolicExpression)
    (l : List (Nat × SymbolicExpression)) (P : Nat × SymbolicExpression) (hP : P ∈ l)
    (hne : P.1 ≠ Off) : P ∈ insertSymbolicExpression Off E l := by
  induction l with
  | nil => simp at hP
  | cons X Xs ih =>
    simp only [insertSymbolicExpression]
    split
    · exact List.mem_cons_of_mem _ hP
    · split
      · rename_i heq
        rcases List.mem_cons.mp hP with rfl | hP
        · exact absurd heq.symm hne
        · exact List.mem_cons_of_mem _ hP
      · rcases List.mem_cons.mp hP with rfl | hP
        · exact List.mem_cons_self _ _
        · exact List.mem_cons_of_mem _ (ih hP)

theorem mem_insertSymbolicExpression (Off : Nat) (E : SymbolicExpression)
    (l : List (Nat × SymbolicExpression)) (P : Nat × SymbolicExpression)
    (hP : P ∈ insertSymbolicExpression Off E l) : P = (Off, E) ∨ P ∈ l := by
  induction l with
  | nil => simpa [insertSymbolicExpression] using hP
  | cons X Xs ih =>
    simp only [insertSymbolicExpression] at hP
    split at hP
    · simpa using hP
    · split at hP
      · rcases List.mem_cons.mp hP with h | h
        · exact Or.inl h
        · exact Or.inr (List.mem_cons_of_mem _ h)
      · rcases List.mem_cons.mp hP with h | h
        · exact Or.inr (h ▸ List.mem_cons_self _ _)
        · rcases ih h with h1 | h1
          · exact Or.inl h1
          · exact Or.inr (List.mem_cons_of_mem _ h1)

/-- Entries already present survive the insertion of entries under other keys. -/
theorem mem_foldl_addSymbolicExpression_old (f : Nat → Nat)
    (l : List (Nat × SymbolicExpression)) (BI : ByteInterval) (P : Nat × SymbolicExpression)
    (hP : P ∈ BI.symbolicExpressions) (hne : ∀ Q ∈ l, P.1 ≠ f Q.1) :
    P ∈ (l.foldl (fun BI SEE => BI.addSymbolicExpression (f SEE.1) SEE.2) BI).symbolicExpressions := by
  induction l generalizing BI with
  | nil => exact hP
  | cons X Xs ih =>
    simp only [List.foldl_cons]
    refine ih _ ?_ (fun Q hQ => hne Q (List.mem_cons_of_mem _ hQ))
    exact mem_insertSymbolicExpression_of_ne _ _ _ _ hP (hne X (List.mem_cons_self _ _))

/-- Every entry of a map with distinct keys arrives under its image key when the
images of the keys are distinct as well. -/
theorem mem_foldl_addSymbolicExpression_new (f : Nat → Nat)
    (l : List (Nat × SymbolicExpression)) (BI : ByteInterval)
    (hnodup : (l.map (fun Q => f Q.1)).Nodup) (Q : Nat × SymbolicExpression) (hQ : Q ∈ l) :
    (f Q.1, Q.2) ∈
      (l.foldl (fun BI SEE => BI.addSymbolicExpression (f SEE.1) SEE.2) BI).symbolicExpressions := by
  induction l generalizing BI with
  | nil => simp at hQ
  | cons X Xs ih =>
    simp only [List.foldl_cons]
    simp only [List.map_cons, List.nodup_cons, List.mem_map, not_exists, not_and] at hnodup
    rcases List.mem_cons.mp hQ with rfl | hQ
    · refine mem_foldl_addSymbolicExpression_old f Xs _ _ ?_ ?_
      · exact mem_insertSymbolicExpression_self _ _ _
      · intro R hR heq
        exact hnodup.1 R hR heq.symm
    · exact ih _ hnodup.2 hQ

theorem mem_foldl_addSymbolicExpression (f : Nat → Nat)
    (l : List (Nat × SymbolicExpression)) (BI : ByteInterval) (P : Nat × SymbolicExpression)
    (hP : P ∈
      (l.foldl (fun BI SEE => BI.addSymbolicExpression (f SEE.1) SEE.2) BI).symbolicExpressions) :
    P ∈ BI.symbolicExpressions ∨ ∃ Q ∈ l, P = (f Q.1, Q.2) := by
  induction l generalizing BI with
  | nil => exact Or.inl hP
  | cons X Xs ih =>
    simp only [List.foldl_cons] at hP
    rcases ih _ hP with h | ⟨Q, hQ, rfl⟩
    · rcases mem_insertSymbolicExpression _ _ _ _ h with h1 | h1
      · exact Or.inr ⟨X, List.mem_cons_self _ _, h1⟩
      · exact Or.inl h1
    · exact Or.inr ⟨Q, List.mem_cons_of_mem _ hQ, rfl⟩

theorem mergeByteIntervals_symbolicExpressions (X Y : ByteInterval) :
    (mergeByteIntervals X Y).symbolicExpressions =
      (Y.symbolicExpressions.foldl
        (fun BI SEE => BI.addSymbolicExpression (add64 X.size SEE.1) SEE.2)
        X).symbolicExpressions := by
  unfold mergeByteIntervals
  simp only [ByteInterval.insertBytes]
  generalize Y.symbolicExpressions = l
  have key : ∀ (BI1 BI2 : ByteInterval), BI1.symbolicExpressions = BI2.symbolicExpressions →
      (l.foldl (fun BI SEE => BI.addSymbolicExpression (add64 X.size SEE.1) SEE.2)
        BI1).symbolicExpressions =
      (l.foldl (fun BI SEE => BI.addSymbolicExpression (add64 X.size SEE.1) SEE.2)
        BI2).symbolicExpressions := by
    induction l with
    | nil => intro BI1 BI2 h; exact h
    | cons Q Qs ih =>
      intro BI1 BI2 h
      simp only [List.foldl_cons]
      apply ih
      show insertSymbolicExpression _ _ BI1.symbolicExpressions =
        insertSymbolicExpression _ _ BI2.symbolicExpressions
      rw [h]
  apply key
  simp only [foldl_addBlock_symbolicExpressions, ByteInterval.setSize]

/-! ## The merge step: C6 and C7 -/

theorem getElem?_set_eraseIdx {α : Type} (l : List α) (I J : Nat) (x : α)
    (hI : I < l.length) (hne : I ≠ J) :
    ((l.set I x).eraseIdx J)[survivorIndex I J]? = some x := by
  unfold survivorIndex
  rw [List.getElem?_eraseIdx]
  by_cases hJI : J < I
  · have h1 : ¬ (I - 1 < J) := by omega
    have h2 : I - 1 + 1 = I := by omega
    simp only [if_pos hJI, if_neg h1, h2, List.getElem?_set, if_pos hI, if_true]
  · have h1 : I < J := by omega
    simp only [if_neg hJI, if_pos h1, List.getElem?_set, if_pos hI, if_true]

theorem mem_set_eraseIdx {α : Type} (l : List α) (I J : Nat) (x y : α)
    (h : y ∈ (l.set I x).eraseIdx J) :
    y = x ∨ ∃ K, ∃ (hK : K < l.length), K ≠ I ∧ K ≠ J ∧ l[K] = y := by
  rw [List.mem_eraseIdx_iff_getElem] at h
  obtain ⟨K, hK, hKJ, hy⟩ := h
  rw [List.getElem_set] at hy
  split at hy
  · exact Or.inl hy.symm
  · rename_i hIK
    exact Or.inr ⟨K, by simpa using hK, fun h => hIK h.symm, hKJ, hy⟩

theorem mem_set_eraseIdx_of_ne {α : Type} (l : List α) (I J K : Nat) (x : α)
    (hK : K < l.length) (hKI : K ≠ I) (hKJ : K ≠ J) : l[K] ∈ (l.set I x).eraseIdx J := by
  rw [List.mem_eraseIdx_iff_getElem]
  refine ⟨K, by simpa using hK, hKJ, ?_⟩
  rw [List.getElem_set, if_neg (fun h => hKI h.symm)]

/-- The facts that the scan provides when it finds a merge. -/
theorem scan_merge_facts (Cfg : List Edge) (S : Section) (I J : Nat)
    (hscan : scanByteIntervals Cfg S 0 S.byteIntervals = MergeScan.merge I J) :
    I < S.byteIntervals.length ∧ J < S.byteIntervals.length ∧ I ≠ J := by
  obtain ⟨_, hI, hJ, hne⟩ := scanByteIntervals_merge _ _ _ _ _ _ hscan
  exact ⟨by omega, hJ, hne⟩

/-- The section after a merge: one interval fewer, the merged interval in the place of
the source. -/
theorem mergeAt_survivor (S : Section) (I J : Nat) (X Y : ByteInterval)
    (hX : S.byteIntervals[I]? = some X) (hY : S.byteIntervals[J]? = some Y) (hne : I ≠ J) :
    (S.mergeAt I J).byteIntervals =
      (S.byteIntervals.set I (mergeByteIntervals X Y)).eraseIdx J ∧
    (S.mergeAt I J).byteIntervals.length + 1 = S.byteIntervals.length ∧
    (S.mergeAt I J).byteIntervals[survivorIndex I J]? = some (mergeByteIntervals X Y) := by
  obtain ⟨hI, hXe⟩ := List.getElem?_eq_some.mp hX
  obtain ⟨hJ, hYe⟩ := List.getElem?_eq_some.mp hY
  have hE := mergeAt_byteIntervals S I J hI hJ
  rw [hXe, hYe] at hE
  refine ⟨hE, mergeAt_length S I J hI hJ, ?_⟩
  rw [hE]
  exact getElem?_set_eraseIdx _ _ _ _ hI hne

/-- C6, amended: when `findAndMergeBIs` merges the interval `X` at position `I` (size `s`)
with the interval `Y` at position `J` (size `t`), where `s + t` is below `2 ^ 64` and the
byte vector of `X` holds all the `s` bytes of `X`, the function goes on with the
section in which `Y` is gone and the surviving interval, in the place of `X`, has size
exactly `s + t` and as bytes those of `X` followed by those of `Y`. -/
theorem merge_size_and_bytes (Cfg : List Edge) (S : Section) (I J : Nat)
    (hscan : scanByteIntervals Cfg S 0 S.byteIntervals = MergeScan.merge I J)
    (X Y : ByteInterval) (hX : S.byteIntervals[I]? = some X) (hY : S.byteIntervals[J]? = some Y)
    (hFit : X.size + Y.size < addrModulus) (hBytes : X.bytes.length = X.size) :
    findAndMergeBIs Cfg S = findAndMergeBIs Cfg (S.mergeAt I J) ∧
    (S.mergeAt I J).byteIntervals.length + 1 = S.byteIntervals.length ∧
    ∃ Z, (S.mergeAt I J).byteIntervals[survivorIndex I J]? = some Z ∧
      Z.uuid = X.uuid ∧ Z.size = X.size + Y.size ∧ Z.bytes = X.bytes ++ Y.bytes := by
  obtain ⟨_, _, hne⟩ := scan_merge_facts Cfg S I J hscan
  obtain ⟨_, hlen, hsurv⟩ := mergeAt_survivor S I J X Y hX hY hne
  refine ⟨?_, hlen, mergeByteIntervals X Y, hsurv, mergeByteIntervals_uuid X Y, ?_, ?_⟩
  · rw [findAndMergeBIs_eq Cfg S, hscan]
  · rw [mergeByteIntervals_size, add64_eq hFit]
  · rw [mergeByteIntervals_bytes, List.take_of_length_le (le_of_eq hBytes),
      List.drop_of_length_le (le_of_eq hBytes), List.append_nil]

/-- Scenario A as an instance of C6: the interval of size 4 absorbs the one of size 6,
and the whole `layoutModule` leaves one interval of size 10 with `a` at `[0, 4)` and
`b` at `[4, 10)`. -/
theorem merge_size_and_bytes_witness :
    (findAndMergeBIs scenarioACfg mergeSection =
        findAndMergeBIs scenarioACfg (mergeSection.mergeAt 0 1) ∧
      (mergeSection.mergeAt 0 1).byteIntervals.length + 1 = mergeSection.byteIntervals.length ∧
      ∃ Z, (mergeSection.mergeAt 0 1).byteIntervals[survivorIndex 0 1]? = some Z ∧
        Z.uuid = mergeSource.uuid ∧ Z.size = mergeSource.size + mergeTarget.size ∧
        Z.bytes = mergeSource.bytes ++ mergeTarget.bytes) ∧
    layoutModule scenarioACfg { nextUUID := 1000 } scenarioA =
      (true, { nextUUID := 1000 }, scenarioALaidOut) :=
  ⟨merge_size_and_bytes scenarioACfg mergeSection 0 1 (by decide) mergeSource mergeTarget
      (by decide) (by decide) (by decide) (by decide),
    scenarioA_layout⟩

/-- C7, amended: when `findAndMergeBIs` merges the interval `X` at position `I` (size `s`)
with the interval `Y` at position `J`, where `s` plus the size of `Y` is below `2 ^ 64`,
the blocks and symbolic expressions of `Y` lie within `Y`, the symbolic expressions of
`X` lie within `X`, those of `Y` have distinct offsets and the intervals of the
section distinct UUIDs, then in the surviving interval `Z` every block of `Y` is found
with its offset raised by `s` and every block of `X` as it was, and `Z` has no other
block; the same holds of the symbolic expressions; no interval of the section carries
the UUID of `Y` any more, and the other intervals of the section are still there. -/
theorem merge_rebases_target (Cfg : List Edge) (S : Section) (I J : Nat)
    (hscan : scanByteIntervals Cfg S 0 S.byteIntervals = MergeScan.merge I J)
    (X Y : ByteInterval) (hX : S.byteIntervals[I]? = some X) (hY : S.byteIntervals[J]? = some Y)
    (hFit : X.size + Y.size < addrModulus)
    (hYblocks : ∀ B ∈ Y.blocks, B.offset ≤ Y.size)
    (hYsym : ∀ P ∈ Y.symbolicExpressions, P.1 ≤ Y.size)
    (hYkeys : (Y.symbolicExpressions.map Prod.fst).Nodup)
    (hXsym : ∀ P ∈ X.symbolicExpressions, P.1 < X.size)
    (hUuid : (S.byteIntervals.map (fun BI => BI.uuid)).Nodup) :
    ∃ Z, (S.mergeAt I J).byteIntervals[survivorIndex I J]? = some Z ∧ Z.uuid = X.uuid ∧
      (∀ B ∈ Y.blocks, { B with offset := X.size + B.offset } ∈ Z.blocks) ∧
      (∀ B ∈ X.blocks, B ∈ Z.blocks) ∧
      (∀ C ∈ Z.blocks,
        C ∈ X.blocks ∨ ∃ B ∈ Y.blocks, C = { B with offset := X.size + B.offset }) ∧
      (∀ P ∈ Y.symbolicExpressions, (X.size + P.1, P.2) ∈ Z.symbolicExpressions) ∧
      (∀ P ∈ X.symbolicExpressions, P ∈ Z.symbolicExpressions) ∧
      (∀ P ∈ Z.symbolicExpressions,
        P ∈ X.symbolicExpressions ∨ ∃ Q ∈ Y.symbolicExpressions, P = (X.size + Q.1, Q.2)) ∧
      (∀ BI ∈ (S.mergeAt I J).byteIntervals, BI.uuid ≠ Y.uuid) ∧
      (∀ K (hK : K < S.byteIntervals.length), K ≠ I → K ≠ J →
        S.byteIntervals[K] ∈ (S.mergeAt I J).byteIntervals) := by
  obtain ⟨_, _, hne⟩ := scan_merge_facts Cfg S I J hscan
  obtain ⟨hE, _, hsurv⟩ := mergeAt_survivor S I J X Y hX hY hne
  obtain ⟨hI, hXe⟩ := List.getElem?_eq_some.mp hX
  obtain ⟨hJ, hYe⟩ := List.getElem?_eq_some.mp hY
  have hoffB : ∀ B ∈ Y.blocks, add64 X.size B.offset = X.size + B.offset := by
    intro B hB
    have := hYblocks B hB
    exact add64_eq (by omega)
  have hoffP : ∀ P ∈ Y.symbolicExpressions, add64 X.size P.1 = X.size + P.1 := by
    intro P hP
    have := hYsym P hP
    exact add64_eq (by omega)
  have hnodup : (Y.symbolicExpressions.map (fun Q => add64 X.size Q.1)).Nodup := by
    have : Y.symbolicExpressions.map (fun Q => add64 X.size Q.1) =
        (Y.symbolicExpressions.map Prod.fst).map (add64 X.size) := by
      rw [List.map_map]; rfl
    rw [this]
    refine List.Nodup.map_on ?_ hYkeys
    intro a ha b hb hab
    obtain ⟨P, hP, rfl⟩ := List.mem_map.mp ha
    obtain ⟨Q, hQ, rfl⟩ := List.mem_map.mp hb
    rw [hoffP P hP, hoffP Q hQ] at hab
    omega
  have huuid : ∀ K (hK : K < S.byteIntervals.length), K ≠ J →
      (S.byteIntervals[K]).uuid ≠ Y.uuid := by
    intro K hK hKJ heq
    apply hKJ
    have hK1 : K < (S.byteIntervals.map (fun BI => BI.uuid)).length := by simpa using hK
    have hJ1 : J < (S.byteIntervals.map (fun BI => BI.uuid)).length := by simpa using hJ
    have h1 : (S.byteIntervals.map (fun BI => BI.uuid))[K] =
        (S.byteIntervals.map (fun BI => BI.uuid))[J] := by
      simp only [List.getElem_map, heq, hYe]
    exact (List.Nodup.getElem_inj_iff hUuid).mp h1
  refine ⟨mergeByteIntervals X Y, hsurv, mergeByteIntervals_uuid X Y, ?_, ?_, ?_, ?_, ?_, ?_,
    ?_, ?_⟩
  · intro B hB
    rw [mem_mergeByteIntervals_blocks]
    exact Or.inr ⟨B, hB, by rw [hoffB B hB]⟩
  · intro B hB
    rw [mem_mergeByteIntervals_blocks]
    exact Or.inl hB
  · intro C hC
    rw [mem_mergeByteIntervals_blocks] at hC
    rcases hC with h | ⟨B, hB, rfl⟩
    · exact Or.inl h
    · exact Or.inr ⟨B, hB, by rw [hoffB B hB]⟩
  · intro P hP
    rw [mergeByteIntervals_symbolicExpressions, ← hoffP P hP]
    exact mem_foldl_addSymbolicExpression_new (add64 X.size) _ X hnodup P hP
  · intro P hP
    rw [mergeByteIntervals_symbolicExpressions]
    refine mem_foldl_addSymbolicExpression_old (add64 X.size) _ X P hP ?_
    intro Q hQ
    have := hXsym P hP
    rw [hoffP Q hQ]
    omega
  · intro P hP
    rw [mergeByteIntervals_symbolicExpressions] at hP
    rcases mem_foldl_addSymbolicExpression (add64 X.size) _ X P hP with h | ⟨Q, hQ, rfl⟩
    · exact Or.inl h
    · exact Or.inr ⟨Q, hQ, by rw [hoffP Q hQ]⟩
  · intro BI hBI
    rw [hE] at hBI
    rcases mem_set_eraseIdx _ _ _ _ _ hBI with rfl | ⟨K, hK, _, hKJ, rfl⟩
    · rw [mergeByteIntervals_uuid, ← hXe]
      exact huuid I hI hne
    · exact huuid K hK hKJ
  · intro K hK hKI hKJ
    rw [hE]
    exact mem_set_eraseIdx_of_ne _ _ _ _ _ hK hKI hKJ

/-- The merge of `mergeSource` and `mergeTarget` in `mergeSection`. -/
theorem merge_rebases_target_witness :
    ∃ Z, (mergeSection.mergeAt 0 1).byteIntervals[survivorIndex 0 1]? = some Z ∧
      Z.uuid = mergeSource.uuid ∧
      (∀ B ∈ mergeTarget.blocks, { B with offset := mergeSource.size + B.offset } ∈ Z.blocks) ∧
      (∀ B ∈ mergeSource.blocks, B ∈ Z.blocks) ∧
      (∀ C ∈ Z.blocks, C ∈ mergeSource.blocks ∨
        ∃ B ∈ mergeTarget.blocks, C = { B with offset := mergeSource.size + B.offset }) ∧
      (∀ P ∈ mergeTarget.symbolicExpressions,
        (mergeSource.size + P.1, P.2) ∈ Z.symbolicExpressions) ∧
      (∀ P ∈ mergeSource.symbolicExpressions, P ∈ Z.symbolicExpressions) ∧
      (∀ P ∈ Z.symbolicExpressions, P ∈ mergeSource.symbolicExpressions ∨
        ∃ Q ∈ mergeTarget.symbolicExpressions, P = (mergeSource.size + Q.1, Q.2)) ∧
      (∀ BI ∈ (mergeSection.mergeAt 0 1).byteIntervals, BI.uuid ≠ mergeTarget.uuid) ∧
      (∀ K (hK : K < mergeSection.byteIntervals.length), K ≠ 0 → K ≠ 1 →
        mergeSection.byteIntervals[K] ∈ (mergeSection.mergeAt 0 1).byteIntervals) :=
  merge_rebases_target scenarioACfg mergeSection 0 1 (by decide) mergeSource mergeTarget
    (by decide) (by decide) (by decide) (by decide) (by decide) (by decide) (by decide)
    (by decide)

/-! ## The edges that findAndMergeBIs inspects: C3, C4, C5 -/

/-- C3 on the failing input: `b` is the last code block of the first interval and falls
through to `c` in the second interval, yet `findAndMergeBIs` succeeds and leaves the
section as it was, the two intervals unmerged: the edges read are those of the first
code block `a`. -/
theorem findAndMergeBIs_skips_last_block :
    twoBlockInterval.code_blocks.getLast? =
      some { uuid := 103, kind := BlockKind.code, offset := 2, size := 2 } ∧
    targetInterval.hasCodeBlock 101 = true ∧
    findAndMergeBIs [fallthroughEdge 103 101] twoBlockSection = (true, twoBlockSection) := by
  decide

/-- C4 on the failing input: the fallthrough edge leaves `a`, which ends at offset 2 of an
interval of size 4, yet `findAndMergeBIs` succeeds and merges the two intervals: the
position that is checked is that of the last code block `b`.  And when the edge leaves
the last code block `b` of `shortBlockInterval`, which ends one byte before the end of
its interval, `findAndMergeBIs` succeeds as well, without a merge: the edges of `b` are
not read. -/
theorem findAndMergeBIs_checks_other_block :
    twoBlockInterval.code_blocks.head? =
      some { uuid := 100, kind := BlockKind.code, offset := 0, size := 2 } ∧
    add64 0 2 ≠ twoBlockInterval.size ∧
    findAndMergeBIs [fallthroughEdge 103 101]
        { uuid := 1, name := ".text", byteIntervals := [shortBlockInterval, targetInterval] } =
      (true,
        { uuid := 1, name := ".text", byteIntervals := [shortBlockInterval, targetInterval] }) ∧
    findAndMergeBIs [fallthroughEdge 100 101] twoBlockSection =
      (true,
        { uuid := 1, name := ".text", byteIntervals := [
          { uuid := 10, address := none, size := 10, bytes := [1, 2, 3, 4, 5, 6, 7, 8, 9, 10],
            blocks := [{ uuid := 100, kind := BlockKind.code, offset := 0, size := 2 },
                       { uuid := 103, kind := BlockKind.code, offset := 2, size := 2 },
                       { uuid := 101, kind := BlockKind.code, offset := 4, size := 6 }],
            symbolicExpressions := [] }] }) := by
  decide

/-- C5 on the failing input: `b`, the last code block of the interval of `.text`, falls
through to `c` in section `.init`, yet `layoutModule` returns true. -/
theorem layoutModule_accepts_cross_section_edge :
    (layoutModule [fallthroughEdge 103 101] { nextUUID := 1000 } twoBlockModule).1 = true ∧
    (layoutModule [fallthroughEdge 103 101] { nextUUID := 1000 } twoBlockModule).2.2.sections.map
        (fun S => S.byteIntervals.map (fun BI => (BI.uuid, BI.address, BI.size))) =
      [[(10, some 0, 4)], [(11, some 4, 6)]] := by
  decide

/-! ## Sections on which findAndMergeBIs has nothing to do -/

theorem scanEdges_none_iff (S : Section) (I : Nat) (SourceBI : ByteInterval) (Source : Block)
    (Es : List Edge) :
    scanEdges S I SourceBI Source Es = none ↔
      ∀ E ∈ Es, E.Type_ = EdgeType.Fallthrough →
        ∃ T, E.Target = CfgNode.codeBlock T ∧
          ∃ X B, findCodeBlock T 0 S.byteIntervals = some (I, X, B) := by
  induction Es with
  | nil => simp [scanEdges]
  | cons E Es ih =>
    simp only [scanEdges, List.mem_cons, forall_eq_or_imp]
    split
    · rename_i hT
      rw [ih]
      constructor
      · intro h
        exact ⟨fun hE => absurd hE hT, h⟩
      · intro h
        exact h.2
    · rename_i hT
      have hT1 : E.Type_ = EdgeType.Fallthrough := by
        by_contra hne
        exact hT hne
      split
      · rename_i T hTarget
        split
        · rename_i J X Target hfind
          split
          · rename_i hIJ
            subst hIJ
            rw [ih]
            constructor
            · intro h
              exact ⟨fun _ => ⟨T, hTarget, X, Target, hfind⟩, h⟩
            · intro h
              exact h.2
          · rename_i hIJ
            constructor
            · intro h
              split at h
              · simp at h
              · split at h <;> simp at h
            · intro h
              exfalso
              obtain ⟨T1, hT1e, X1, B1, hf⟩ := h.1 hT1
              rw [hTarget] at hT1e
              cases hT1e
              rw [hfind] at hf
              simp only [Option.some.injEq, Prod.mk.injEq] at hf
              exact hIJ hf.1.symm
        · rename_i hfind
          constructor
          · intro h
            simp at h
          · intro h
            exfalso
            obtain ⟨T1, hT1e, X1, B1, hf⟩ := h.1 hT1
            rw [hTarget] at hT1e
            cases hT1e
            rw [hfind] at hf
            simp at hf
      · rename_i U hTarget
        constructor
        · intro h
          simp at h
        · intro h
          exfalso
          obtain ⟨T1, hT1e, _⟩ := h.1 hT1
          rw [hTarget] at hT1e
          cases hT1e

theorem scanEdges_ne_done (S : Section) (I : Nat) (SourceBI : ByteInterval) (Source : Block)
    (Es : List Edge) : scanEdges S I SourceBI Source Es ≠ some MergeScan.done := by
  induction Es with
  | nil => simp [scanEdges]
  | cons E Es ih =>
    simp only [scanEdges]
    split
    · exact ih
    · split
      · split
        · split
          · exact ih
          · split
            · simp
            · split <;> simp
        · simp
      · simp

theorem head?_isSome_getLast? {α : Type} (l : List α) (a : α) (h : l.head? = some a) :
    ∃ b, l.getLast? = some b := by
  cases l with
  | nil => simp at h
  | cons x xs => exact ⟨_, List.getLast?_eq_getLast _ (List.cons_ne_nil _ _)⟩

theorem scanByteIntervals_done_iff (Cfg : List Edge) (S : Section) (K : Nat)
    (BIs : List ByteInterval) :
    scanByteIntervals Cfg S K BIs = MergeScan.done ↔
      ∀ (i : Nat) (hi : i < BIs.length), stableInterval Cfg S.byteIntervals (K + i) BIs[i] := by
  induction BIs generalizing K with
  | nil => simp [scanByteIntervals]
  | cons X Xs ih =>
    have hsplit : (∀ (i : Nat) (hi : i < (X :: Xs).length),
        stableInterval Cfg S.byteIntervals (K + i) (X :: Xs)[i]) ↔
        stableInterval Cfg S.byteIntervals K X ∧
        ∀ (i : Nat) (hi : i < Xs.length),
          stableInterval Cfg S.byteIntervals (K + 1 + i) Xs[i] := by
      constructor
      · intro h
        refine ⟨h 0 (by simp), fun i hi => ?_⟩
        have := h (i + 1) (by simpa using hi)
        simpa [Nat.add_assoc, Nat.add_comm 1 i] using this
      · intro h i hi
        cases i with
        | zero => exact h.1
        | succ i =>
          have := h.2 i (by simpa using hi)
          simpa [Nat.add_assoc, Nat.add_comm 1 i] using this
    rw [hsplit]
    simp only [scanByteIntervals]
    split
    · rename_i First Source hFirst hSource
      have hX : stableInterval Cfg S.byteIntervals K X ↔
          scanEdges S K X Source (getOutgoingEdges Cfg First) = none := by
        rw [scanEdges_none_iff]
        unfold stableInterval
        constructor
        · intro h
          exact h First hFirst
        · intro h F hF
          rw [hFirst] at hF
          cases hF
          exact h
      rw [hX]
      split
      · rename_i R hR
        constructor
        · intro h
          subst h
          exact absurd hR (scanEdges_ne_done S K X Source _)
        · intro h
          rw [hR] at h
          simp at h
      · rename_i hR
        rw [ih]
        simp [hR]
    · rename_i hno
      have hX : stableInterval Cfg S.byteIntervals K X := by
        intro First hFirst
        obtain ⟨b, hb⟩ := head?_isSome_getLast? _ _ hFirst
        exact absurd hb (fun hb => hno First b hFirst hb)
      rw [ih]
      simp [hX]

theorem findAndMergeBIs_true_done (Cfg : List Edge) (S S1 : Section)
    (h : findAndMergeBIs Cfg S = (true, S1)) :
    scanByteIntervals Cfg S1 0 S1.byteIntervals = MergeScan.done := by
  unfold findAndMergeBIs at h
  revert h
  generalize S.byteIntervals.length + 1 = N
  induction N generalizing S with
  | zero => intro h; simp [findAndMergeBIsFuel] at h
  | succ N ih =>
    intro h
    simp only [findAndMergeBIsFuel] at h
    split at h
    · rename_i hscan
      simp only [Prod.mk.injEq, true_and] at h
      subst h
      exact hscan
    · simp at h
    · exact ih _ h

theorem findAndMergeBIs_of_done (Cfg : List Edge) (S : Section)
    (h : scanByteIntervals Cfg S 0 S.byteIntervals = MergeScan.done) :
    findAndMergeBIs Cfg S = (true, S) := by
  rw [findAndMergeBIs_eq, h]

/-! ## Adding blocks with new UUIDs -/

theorem blocksExtend_refl (N : Nat) (L : List Block) : blocksExtend N L L :=
  ⟨fun _ h => h, fun _ h => Or.inl h, Or.inl rfl⟩

theorem blocksExtend_trans (N : Nat) (L L1 L2 : List Block) (h1 : blocksExtend N L L1)
    (h2 : blocksExtend N L1 L2) : blocksExtend N L L2 := by
  obtain ⟨a1, b1, c1⟩ := h1
  obtain ⟨a2, b2, c2⟩ := h2
  refine ⟨fun C hC => a2 C (a1 C hC), ?_, ?_⟩
  · intro C hC
    rcases b2 C hC with h | h
    · exact b1 C h
    · exact Or.inr h
  · rcases c2 with h | ⟨F, hF, hN⟩
    · rcases c1 with h3 | ⟨F, hF, hN⟩
      · exact Or.inl (h.trans h3)
      · exact Or.inr ⟨F, h.trans hF, hN⟩
    · exact Or.inr ⟨F, hF, hN⟩

theorem blocksExtend_mono (N N1 : Nat) (hN : N ≤ N1) (L L1 : List Block)
    (h : blocksExtend N1 L L1) : blocksExtend N L L1 := by
  obtain ⟨a, b, c⟩ := h
  refine ⟨a, ?_, ?_⟩
  · intro C hC
    rcases b C hC with h | h
    · exact Or.inl h
    · exact Or.inr (le_trans hN h)
  · rcases c with h | ⟨F, hF, hF1⟩
    · exact Or.inl h
    · exact Or.inr ⟨F, hF, le_trans hN hF1⟩

theorem head?_filter_insertBlock (N : Nat) (B : Block) (hB : N ≤ B.uuid) (L : List Block) :
    ((insertBlock B L).filter (fun B => B.kind = BlockKind.code)).head? =
        (L.filter (fun B => B.kind = BlockKind.code)).head? ∨
      ∃ F, ((insertBlock B L).filter (fun B => B.kind = BlockKind.code)).head? = some F ∧
        N ≤ F.uuid := by
  induction L with
  | nil =>
    by_cases hk : B.kind = BlockKind.code
    · exact Or.inr ⟨B, by simp [insertBlock, hk], hB⟩
    · exact Or.inl (by simp [insertBlock, hk])
  | cons X Xs ih =>
    simp only [insertBlock]
    split
    · by_cases hk : B.kind = BlockKind.code
      · exact Or.inr ⟨B, by simp [hk], hB⟩
      · exact Or.inl (by simp [List.filter_cons, hk])
    · by_cases hx : X.kind = BlockKind.code
      · exact Or.inl (by simp [List.filter_cons, hx])
      · simpa [List.filter_cons, hx] using ih

theorem blocksExtend_insertBlock (N : Nat) (B : Block) (hB : N ≤ B.uuid) (L : List Block) :
    blocksExtend N L (insertBlock B L) := by
  refine ⟨?_, ?_, head?_filter_insertBlock N B hB L⟩
  · intro C hC
    exact (mem_insertBlock B C L).mpr (Or.inr hC)
  · intro C hC
    rcases (mem_insertBlock B C L).mp hC with rfl | h
    · exact Or.inr hB
    · exact Or.inl h

theorem intervalExtends_refl (N : Nat) (BI : ByteInterval) : intervalExtends N BI BI :=
  ⟨rfl, blocksExtend_refl N _⟩

theorem intervalExtends_trans (N : Nat) (X Y Z : ByteInterval) (h1 : intervalExtends N X Y)
    (h2 : intervalExtends N Y Z) : intervalExtends N X Z :=
  ⟨h2.1.trans h1.1, blocksExtend_trans N _ _ _ h1.2 h2.2⟩

theorem intervalExtends_mono (N N1 : Nat) (hN : N ≤ N1) (X Y : ByteInterval)
    (h : intervalExtends N1 X Y) : intervalExtends N X Y :=
  ⟨h.1, blocksExtend_mono N N1 hN _ _ h.2⟩

theorem forall₂_refl_of {α : Type} (R : α → α → Prop) (h : ∀ x, R x x) (l : List α) :
    List.Forall₂ R l l :=
  List.forall₂_same.mpr (fun x _ => h x)

theorem forall₂_trans_of {α : Type} (R : α → α → Prop) (h : ∀ x y z, R x y → R y z → R x z)
    (l1 l2 l3 : List α) (h1 : List.Forall₂ R l1 l2) (h2 : List.Forall₂ R l2 l3) :
    List.Forall₂ R l1 l3 := by
  induction h1 generalizing l3 with
  | nil => cases h2; exact List.Forall₂.nil
  | cons hab _ ih =>
    cases h2 with
    | cons hbc htl => exact List.Forall₂.cons (h _ _ _ hab hbc) (ih _ htl)

theorem sectionsExtend_refl (N : Nat) (Ss : List Section) : sectionsExtend N Ss Ss :=
  forall₂_refl_of _
    (fun S => ⟨rfl, rfl, forall₂_refl_of _ (intervalExtends_refl N) S.byteIntervals⟩) Ss

theorem sectionsExtend_trans (N : Nat) (A B C : List Section) (h1 : sectionsExtend N A B)
    (h2 : sectionsExtend N B C) : sectionsExtend N A C := by
  refine forall₂_trans_of _ ?_ A B C h1 h2
  intro X Y Z hXY hYZ
  exact ⟨hYZ.1.trans hXY.1, hYZ.2.1.trans hXY.2.1,
    forall₂_trans_of _ (intervalExtends_trans N) _ _ _ hXY.2.2 hYZ.2.2⟩

theorem sectionsExtend_mono (N N1 : Nat) (hN : N ≤ N1) (A B : List Section)
    (h : sectionsExtend N1 A B) : sectionsExtend N A B := by
  refine List.Forall₂.imp ?_ h
  intro X Y hXY
  exact ⟨hXY.1, hXY.2.1,
    List.Forall₂.imp (fun a b hab => intervalExtends_mono N N1 hN a b hab) hXY.2.2⟩

theorem modifyFirst_forall₂ {α : Type} (R : α → α → Prop) (hrefl : ∀ x, R x x)
    (P : α → Bool) (F : α → α) (hF : ∀ x, R x (F x)) (l : List α) :
    List.Forall₂ R l (modifyFirst P F l) := by
  induction l with
  | nil => exact List.Forall₂.nil
  | cons X Xs ih =>
    simp only [modifyFirst]
    split
    · exact List.Forall₂.cons (hF X) (forall₂_refl_of R hrefl Xs)
    · exact List.Forall₂.cons (hrefl X) ih

theorem modifyByteIntervalOn_extends (N X : Nat) (F : ByteInterval → ByteInterval)
    (hF : ∀ BI, intervalExtends N BI (F BI)) (Secs : List Section) :
    sectionsExtend N Secs (modifyByteIntervalOn X F Secs) := by
  induction Secs with
  | nil => exact List.Forall₂.nil
  | cons S Ss ih =>
    simp only [modifyByteIntervalOn]
    split
    · exact List.Forall₂.cons
        ⟨rfl, rfl, modifyFirst_forall₂ _ (intervalExtends_refl N) _ _ hF _⟩
        (sectionsExtend_refl N Ss)
    · exact List.Forall₂.cons
        ⟨rfl, rfl, forall₂_refl_of _ (intervalExtends_refl N) _⟩ ih

theorem addNewBlock_extends (Ctx : Context) (BI : ByteInterval) (K : BlockKind) (Off : Nat) :
    intervalExtends Ctx.nextUUID BI (BI.addNewBlock Ctx K Off).2.1 :=
  ⟨rfl, blocksExtend_insertBlock _ _ (le_refl _) _⟩

theorem resolveInInterval_extends (Ctx : Context) (BI : ByteInterval) (Addr : Nat) :
    intervalExtends Ctx.nextUUID BI (resolveInInterval Ctx BI Addr).2.1 := by
  unfold resolveInInterval
  split
  · exact intervalExtends_refl _ _
  · split
    · exact addNewBlock_extends _ _ _ _
    · exact addNewBlock_extends _ _ _ _

theorem resolveInInterval_ctx (Ctx : Context) (BI : ByteInterval) (Addr : Nat) :
    Ctx.nextUUID ≤ (resolveInInterval Ctx BI Addr).1.nextUUID := by
  unfold resolveInInterval
  split
  · exact le_refl _
  · split <;> exact Nat.le_succ _

theorem fixIntegralSymbol_extends (Ctx : Context) (Secs : List Section) (Sym : Symbol)
    (Addr : Nat) :
    sectionsExtend Ctx.nextUUID Secs (fixIntegralSymbol Ctx Secs Sym Addr).2.1 ∧
      Ctx.nextUUID ≤ (fixIntegralSymbol Ctx Secs Sym Addr).1.nextUUID := by
  unfold fixIntegralSymbol
  split
  · exact ⟨modifyByteIntervalOn_extends _ _ _ (fun BI => resolveInInterval_extends Ctx BI Addr) _,
      resolveInInterval_ctx _ _ _⟩
  · split
    · exact ⟨modifyByteIntervalOn_extends _ _ _ (fun BI => addNewBlock_extends Ctx BI _ _) _,
        Nat.le_succ _⟩
    · exact ⟨sectionsExtend_refl _ _, le_refl _⟩

theorem fixIntegralSymbolsLoop_extends (Ctx : Context) (Secs : List Section)
    (Syms : List Symbol) :
    sectionsExtend Ctx.nextUUID Secs (fixIntegralSymbolsLoop Ctx Secs Syms).2.1 ∧
      Ctx.nextUUID ≤ (fixIntegralSymbolsLoop Ctx Secs Syms).1.nextUUID := by
  induction Syms generalizing Ctx Secs with
  | nil => exact ⟨sectionsExtend_refl _ _, le_refl _⟩
  | cons Sym Syms ih =>
    simp only [fixIntegralSymbolsLoop]
    split
    · rename_i Addr _
      obtain ⟨h1, h2⟩ := fixIntegralSymbol_extends Ctx Secs Sym Addr
      obtain ⟨h3, h4⟩ := ih (fixIntegralSymbol Ctx Secs Sym Addr).1
        (fixIntegralSymbol Ctx Secs Sym Addr).2.1
      exact ⟨sectionsExtend_trans _ _ _ _ h1 (sectionsExtend_mono _ _ h2 _ _ h3),
        le_trans h2 h4⟩
    · exact ih Ctx Secs

theorem fixIntegralSymbols_extends (Ctx : Context) (M : Module) :
    sectionsExtend Ctx.nextUUID M.sections (fixIntegralSymbols Ctx M).2.sections ∧
      Ctx.nextUUID ≤ (fixIntegralSymbols Ctx M).1.nextUUID :=
  fixIntegralSymbolsLoop_extends Ctx M.sections M.symbols

/-! ## A second application of layoutModule -/

theorem find?_code_extends (N T : Nat) (hT : T < N) (L L1 : List Block)
    (h : blocksExtend N L L1) :
    ((L1.filter (fun B => B.kind = BlockKind.code)).find? (fun B => B.uuid = T)).isSome =
      ((L.filter (fun B => B.kind = BlockKind.code)).find? (fun B => B.uuid = T)).isSome := by
  rw [Bool.eq_iff_iff, List.find?_isSome, List.find?_isSome]
  simp only [List.mem_filter, decide_eq_true_eq]
  constructor
  · rintro ⟨C, ⟨hC, hk⟩, hu⟩
    rcases h.2.1 C hC with h1 | h1
    · exact ⟨C, ⟨h1, hk⟩, hu⟩
    · omega
  · rintro ⟨C, ⟨hC, hk⟩, hu⟩
    exact ⟨C, ⟨h.1 C hC, hk⟩, hu⟩

theorem findCodeBlock_fst_extends (N T : Nat) (hT : T < N) (l l1 : List ByteInterval)
    (h : List.Forall₂ (fun BI BI1 => blocksExtend N BI.blocks BI1.blocks) l l1) (K : Nat) :
    (findCodeBlock T K l1).map (fun R => R.1) = (findCodeBlock T K l).map (fun R => R.1) := by
  induction h generalizing K with
  | nil => rfl
  | @cons a b as bs hab _ ih =>
    have hfind := find?_code_extends N T hT _ _ hab
    simp only [findCodeBlock, ByteInterval.code_blocks]
    cases h1 : (a.blocks.filter (fun B => B.kind = BlockKind.code)).find? (fun B => B.uuid = T) <;>
      cases h2 : (b.blocks.filter (fun B => B.kind = BlockKind.code)).find?
        (fun B => B.uuid = T) <;>
      simp only [h1, h2, Option.isSome_none, Option.isSome_some] at hfind ⊢
    · exact ih _
    · exact absurd hfind (by decide)
    · exact absurd hfind (by decide)
    · rfl

theorem getOutgoingEdges_new (Cfg : List Edge) (N : Nat) (hC : cfgBelow Cfg N) (F : Block)
    (hF : N ≤ F.uuid) : getOutgoingEdges Cfg F = [] := by
  unfold getOutgoingEdges
  rw [List.filter_eq_nil_iff]
  intro E hE hsrc
  simp only [decide_eq_true_eq] at hsrc
  have := (hC E hE).1
  rw [hsrc] at this
  simp only [CfgNode.uuid] at this
  omega

theorem stableInterval_extends (Cfg : List Edge) (N : Nat) (hC : cfgBelow Cfg N)
    (l l1 : List ByteInterval)
    (h : List.Forall₂ (fun BI BI1 => blocksExtend N BI.blocks BI1.blocks) l l1)
    (I : Nat) (BI BI1 : ByteInterval) (hBI : blocksExtend N BI.blocks BI1.blocks)
    (hs : stableInterval Cfg l I BI) : stableInterval Cfg l1 I BI1 := by
  intro First hFirst E hE hFT
  unfold ByteInterval.code_blocks at hFirst
  rcases hBI.2.2 with hsame | ⟨F, hF, hFN⟩
  · rw [hsame] at hFirst
    obtain ⟨T, hT, X, B, hfind⟩ := hs First hFirst E hE hFT
    refine ⟨T, hT, ?_⟩
    have hEmem : E ∈ Cfg := (List.mem_filter.mp hE).1
    have hTN : T < N := by
      have := (hC E hEmem).2
      rw [hT] at this
      exact this
    have hfst := findCodeBlock_fst_extends N T hTN l l1 h 0
    rw [hfind] at hfst
    cases h1 : findCodeBlock T 0 l1 with
    | none => rw [h1] at hfst; simp at hfst
    | some R =>
      rw [h1] at hfst
      simp only [Option.map_some', Option.some.injEq] at hfst
      obtain ⟨J, X1, B1⟩ := R
      simp only at hfst
      subst hfst
      exact ⟨X1, B1, rfl⟩
  · rw [hF] at hFirst
    cases hFirst
    rw [getOutgoingEdges_new Cfg N hC _ hFN] at hE
    simp at hE

theorem scan_done_extends (Cfg : List Edge) (N : Nat) (hC : cfgBelow Cfg N) (S S1 : Section)
    (h : List.Forall₂ (fun BI BI1 => blocksExtend N BI.blocks BI1.blocks)
      S.byteIntervals S1.byteIntervals)
    (hd : scanByteIntervals Cfg S 0 S.byteIntervals = MergeScan.done) :
    scanByteIntervals Cfg S1 0 S1.byteIntervals = MergeScan.done := by
  rw [scanByteIntervals_done_iff] at hd ⊢
  intro i hi
  have hlen := h.length_eq
  have hi0 : i < S.byteIntervals.length := by omega
  have hrel := h.get hi0 hi
  simp only [List.get_eq_getElem] at hrel
  exact stableInterval_extends Cfg N hC _ _ h _ _ _ hrel (hd i hi0)

theorem assignAddresses_blocks (N A : Nat) (BIs : List ByteInterval) :
    List.Forall₂ (fun BI BI1 => blocksExtend N BI.blocks BI1.blocks) BIs
      (assignAddresses A BIs).2 := by
  induction BIs generalizing A with
  | nil => exact List.Forall₂.nil
  | cons BI BIs ih =>
    simp only [assignAddresses]
    exact List.Forall₂.cons (blocksExtend_refl N _) (ih _)

theorem layoutSections_true_done (Cfg : List Edge) (N : Nat) (hC : cfgBelow Cfg N) (A : Nat)
    (Ss Ss1 : List Section) (h : layoutSections Cfg A Ss = (true, Ss1)) :
    ∀ S ∈ Ss1, scanByteIntervals Cfg S 0 S.byteIntervals = MergeScan.done := by
  induction Ss generalizing A Ss1 with
  | nil =>
    simp only [layoutSections, Prod.mk.injEq, true_and] at h
    subst h
    simp
  | cons S Ss ih =>
    simp only [layoutSections] at h
    split at h
    · simp at h
    · rename_i S1 hS1
      simp only [Prod.mk.injEq] at h
      obtain ⟨h1, h2⟩ := h
      subst h2
      have hrest : layoutSections Cfg (assignAddresses A S1.byteIntervals).1 Ss =
          (true, (layoutSections Cfg (assignAddresses A S1.byteIntervals).1 Ss).2) := by
        rw [← h1]
      intro T hT
      rcases List.mem_cons.mp hT with rfl | hT
      · exact scan_done_extends Cfg N hC S1 _ (assignAddresses_blocks N A _)
          (findAndMergeBIs_true_done Cfg S S1 hS1)
      · exact ih _ _ hrest T hT

theorem setAddress_of_address (BI : ByteInterval) (A : Nat) (h : BI.address = some A) :
    BI.setAddress (some A) = BI := by
  cases BI
  simp only [ByteInterval.setAddress] at h ⊢
  subst h
  rfl

theorem assignAddresses_of_laidOutFrom (A : Nat) (Xs Ys : List ByteInterval)
    (h : laidOutFrom A (Xs ++ Ys)) :
    (assignAddresses A Xs).2 = Xs ∧ laidOutFrom (assignAddresses A Xs).1 Ys := by
  induction Xs generalizing A with
  | nil => exact ⟨rfl, h⟩
  | cons X Xs ih =>
    obtain ⟨h1, h2⟩ := h
    obtain ⟨ih1, ih2⟩ := ih _ h2
    constructor
    · simp only [assignAddresses, ih1, setAddress_of_address X A h1]
    · simp only [assignAddresses]
      exact ih2

theorem layoutSections_of_done (Cfg : List Edge) (A : Nat) (Ss : List Section)
    (hd : ∀ S ∈ Ss, scanByteIntervals Cfg S 0 S.byteIntervals = MergeScan.done)
    (hl : laidOutFrom A (intervalsOf Ss)) : layoutSections Cfg A Ss = (true, Ss) := by
  induction Ss generalizing A with
  | nil => rfl
  | cons S Ss ih =>
    rw [intervalsOf_cons] at hl
    obtain ⟨h1, h2⟩ := assignAddresses_of_laidOutFrom A _ _ hl
    have hS := findAndMergeBIs_of_done Cfg S (hd S (List.mem_cons_self _ _))
    have hrest := ih _ (fun T hT => hd T (List.mem_cons_of_mem _ hT)) h2
    simp only [layoutSections, hS, hrest, h1]

theorem laidOutFrom_withoutBlocks (A : Nat) (BIs : List ByteInterval) :
    laidOutFrom A (BIs.map ByteInterval.withoutBlocks) ↔ laidOutFrom A BIs := by
  induction BIs generalizing A with
  | nil => exact Iff.rfl
  | cons BI BIs ih =>
    simp only [List.map_cons, laidOutFrom, ih]
    exact Iff.rfl

theorem intervalsOf_withoutBlocks (Ss : List Section) :
    intervalsOf (Ss.map Section.withoutBlocks) =
      (intervalsOf Ss).map ByteInterval.withoutBlocks := by
  induction Ss with
  | nil => rfl
  | cons S Ss ih =>
    simp only [List.map_cons, intervalsOf_cons, ih, List.map_append]
    rfl

theorem overlapStep_ctx (M : Module) (St : OverlapState) (P : ByteInterval × Block) :
    St.Ctx.nextUUID ≤ (overlapStep M St P).Ctx.nextUUID := by
  unfold overlapStep
  simp only
  split_ifs <;> first | exact le_refl _ | exact Nat.le_succ _

theorem addOverlapDisambiguationSymbols_ctx (Ctx : Context) (M : Module) :
    Ctx.nextUUID ≤ (addOverlapDisambiguationSymbols Ctx M).1.nextUUID := by
  unfold addOverlapDisambiguationSymbols
  simp only
  apply foldl_invariant (overlapStep M) (fun St : OverlapState => Ctx.nextUUID ≤ St.Ctx.nextUUID)
  · intro St P hSt
    exact le_trans hSt (overlapStep_ctx M St P)
  · exact le_refl _

theorem layoutModule_ctx (Cfg : List Edge) (Ctx : Context) (M : Module) :
    Ctx.nextUUID ≤ (layoutModule Cfg Ctx M).2.1.nextUUID := by
  unfold layoutModule
  simp only
  have h1 := (fixIntegralSymbols_extends Ctx M).2
  split
  · exact h1
  · exact le_trans h1 (addOverlapDisambiguationSymbols_ctx _ _)

theorem cfgBelow_mono (Cfg : List Edge) (N N1 : Nat) (h : N ≤ N1) (hC : cfgBelow Cfg N) :
    cfgBelow Cfg N1 := by
  intro E hE
  have := hC E hE
  exact ⟨by omega, by omega⟩

theorem sectionsExtend_done (Cfg : List Edge) (N : Nat) (hC : cfgBelow Cfg N)
    (Ss Ss1 : List Section) (h : sectionsExtend N Ss Ss1)
    (hd : ∀ S ∈ Ss, scanByteIntervals Cfg S 0 S.byteIntervals = MergeScan.done) :
    ∀ S ∈ Ss1, scanByteIntervals Cfg S 0 S.byteIntervals = MergeScan.done := by
  unfold sectionsExtend at h
  induction h with
  | nil => simp
  | @cons a b as bs hab _ ih =>
    intro T hT
    rcases List.mem_cons.mp hT with rfl | hT
    · exact scan_done_extends Cfg N hC a _ (List.Forall₂.imp (fun _ _ hxy => hxy.2) hab.2.2)
        (hd a (List.mem_cons_self _ _))
    · exact ih (fun S hS => hd S (List.mem_cons_of_mem _ hS)) T hT

/-! ## Idempotence: C2 -/

/-- C2, as stated, fails: on `lateSymbolModule` both applications succeed and the
addresses are the same, but the second application adds a block and a symbol that the
first had not produced, because only now the address of the symbol `s` lies in an
addressed interval. -/
theorem layoutModule_twice_adds_block_and_symbol :
    layoutModule [] { nextUUID := 1000 } lateSymbolModule =
      (true, { nextUUID := 1000 }, lateSymbolLaidOut) ∧
    layoutModule [] { nextUUID := 1000 } lateSymbolLaidOut =
      (true, { nextUUID := 1002 }, lateSymbolLaidOutTwice) ∧
    (allBlocks lateSymbolLaidOut.sections).length = 1 ∧
    (allBlocks lateSymbolLaidOutTwice.sections).length = 2 ∧
    lateSymbolLaidOut.symbols.length = 1 ∧
    lateSymbolLaidOutTwice.symbols.length = 2 := by
  decide

/-- C2, amended: let the UUIDs that the context hands out be new to the CFG.  For every
module on which `layoutModule` succeeds, a second application to the result succeeds
as well and yields the same byte-interval addresses: the same sections with the same
byte intervals at the same addresses, with the same sizes, bytes and symbolic
expressions.  Every block of the first result is kept, and what the second
application adds to the intervals are only blocks with new UUIDs. -/
theorem layoutModule_twice_same_addresses (Cfg : List Edge) (Ctx Ctx1 : Context)
    (M M1 : Module) (hC : cfgBelow Cfg Ctx.nextUUID)
    (h : layoutModule Cfg Ctx M = (true, Ctx1, M1)) :
    ∃ Ctx2 M2, layoutModule Cfg Ctx1 M1 = (true, Ctx2, M2) ∧
      (intervalsOf M2.sections).map (fun BI => BI.address) =
        (intervalsOf M1.sections).map (fun BI => BI.address) ∧
      M2.sections.map Section.withoutBlocks = M1.sections.map Section.withoutBlocks ∧
      sectionsExtend Ctx1.nextUUID M1.sections M2.sections := by
  have hmono : Ctx.nextUUID ≤ Ctx1.nextUUID := by
    have := layoutModule_ctx Cfg Ctx M
    rw [h] at this
    exact this
  have hC1 := cfgBelow_mono Cfg _ _ hmono hC
  have hsec := layoutModule_true_sections Cfg Ctx Ctx1 M M1 h
  have hdone1 := layoutSections_true_done Cfg Ctx1.nextUUID hC1 0 _ _ hsec
  have hlaid1 := layoutModule_true_laidOutFrom Cfg Ctx Ctx1 M M1 h
  obtain ⟨hext, _⟩ := fixIntegralSymbols_extends Ctx1 M1
  have hwb := fixIntegralSymbols_withoutBlocks Ctx1 M1
  have hdone2 := sectionsExtend_done Cfg Ctx1.nextUUID hC1 _ _ hext hdone1
  have hlaid2 : laidOutFrom 0 (intervalsOf (fixIntegralSymbols Ctx1 M1).2.sections) := by
    rw [← laidOutFrom_withoutBlocks, ← intervalsOf_withoutBlocks, hwb,
      intervalsOf_withoutBlocks, laidOutFrom_withoutBlocks]
    exact hlaid1
  have hls := layoutSections_of_done Cfg 0 _ hdone2 hlaid2
  refine ⟨(layoutModule Cfg Ctx1 M1).2.1, (layoutModule Cfg Ctx1 M1).2.2, ?_, ?_, ?_, ?_⟩
  · unfold layoutModule
    simp only [hls]
  · have haddr : ∀ Ss : List Section, (intervalsOf Ss).map (fun BI => BI.address) =
        (intervalsOf (Ss.map Section.withoutBlocks)).map (fun BI => BI.address) := by
      intro Ss
      rw [intervalsOf_withoutBlocks, List.map_map]
      rfl
    unfold layoutModule
    simp only [hls]
    rw [haddr, haddr M1.sections]
    exact congrArg _ (congrArg _ hwb)
  · unfold layoutModule
    simp only [hls]
    exact hwb
  · unfold layoutModule
    simp only [hls]
    exact hext

/-- A second application to the result of Scenario A. -/
theorem layoutModule_twice_same_addresses_witness :
    ∃ Ctx2 M2, layoutModule scenarioACfg { nextUUID := 1000 } scenarioALaidOut =
        (true, Ctx2, M2) ∧
      (intervalsOf M2.sections).map (fun BI => BI.address) =
        (intervalsOf scenarioALaidOut.sections).map (fun BI => BI.address) ∧
      M2.sections.map Section.withoutBlocks =
        scenarioALaidOut.sections.map Section.withoutBlocks ∧
      sectionsExtend 1000 scenarioALaidOut.sections M2.sections :=
  layoutModule_twice_same_addresses scenarioACfg { nextUUID := 1000 } { nextUUID := 1000 }
    scenarioA scenarioALaidOut (by unfold cfgBelow; decide) scenarioA_layout

/-! ## Sizes beyond the 64-bit address space -/

/-- C6, as stated, fails: two intervals of size `2 ^ 63` are merged into one interval
whose size is 0, not `2 ^ 63 + 2 ^ 63`. -/
theorem merge_size_wraps :
    (findAndMergeBIs [fallthroughEdge 100 101] wrapSection).1 = true ∧
    (findAndMergeBIs [fallthroughEdge 100 101] wrapSection).2.byteIntervals.map
      (fun BI => BI.size) = [0] ∧
    (0 : Nat) ≠ 2 ^ 63 + 2 ^ 63 := by
  decide

/-- C7, as stated, fails: the data block at offset `2 ^ 63` of the absorbed interval is
afterwards at offset 0 of the surviving interval, not at `2 ^ 63 + 2 ^ 63`. -/
theorem merge_offset_wraps :
    (findAndMergeBIs [fallthroughEdge 100 101] wrapSection).1 = true ∧
    (findAndMergeBIs [fallthroughEdge 100 101] wrapSection).2.byteIntervals.map
      (fun BI => BI.blocks) =
      [[{ uuid := 100, kind := BlockKind.code, offset := 0, size := 2 ^ 63 },
        { uuid := 102, kind := BlockKind.data, offset := 0, size := 0 },
        { uuid := 101, kind := BlockKind.code, offset := 2 ^ 63, size := 2 ^ 63 }]] ∧
    (0 : Nat) ≠ 2 ^ 63 + 2 ^ 63 := by
  decide

/-- C9, as stated, fails: on `wrapModule` the call succeeds and the span of the third
section, `[0, 1)`, lies in the span of the first, `[0, 2 ^ 63)`. -/
theorem layoutModule_sections_wrap :
    layoutModule [] { nextUUID := 1000 } wrapModule =
      (true, { nextUUID := 1000 }, wrapLaidOut) ∧
    wrapLaidOut.sections.map (fun S => (S.lowAddress, S.highEnd)) =
      [(some 0, some (2 ^ 63)), (some (2 ^ 63), some (2 ^ 64)), (some 0, some 1)] ∧
    ¬ sectionsDisjoint wrapLaidOut.sections[0] wrapLaidOut.sections[2] := by
  refine ⟨by decide, by decide, ?_⟩
  intro h
  exact h 0 (2 ^ 63) 0 1 (by decide) (by decide) (by decide) (by decide) 0 (by decide)

/-! ## The loop of fixIntegralSymbols, symbol by symbol -/

theorem fixIntegralSymbolsLoop_append (Ctx : Context) (Secs : List Section)
    (Xs Ys : List Symbol) :
    fixIntegralSymbolsLoop Ctx Secs (Xs ++ Ys) =
      ((fixIntegralSymbolsLoop (fixIntegralSymbolsLoop Ctx Secs Xs).1
          (fixIntegralSymbolsLoop Ctx Secs Xs).2.1 Ys).1,
       (fixIntegralSymbolsLoop (fixIntegralSymbolsLoop Ctx Secs Xs).1
          (fixIntegralSymbolsLoop Ctx Secs Xs).2.1 Ys).2.1,
       (fixIntegralSymbolsLoop Ctx Secs Xs).2.2 ++
         (fixIntegralSymbolsLoop (fixIntegralSymbolsLoop Ctx Secs Xs).1
           (fixIntegralSymbolsLoop Ctx Secs Xs).2.1 Ys).2.2) := by
  induction Xs generalizing Ctx Secs with
  | nil => rfl
  | cons X Xs ih =>
    simp only [List.cons_append, fixIntegralSymbolsLoop]
    split
    · simp only [List.append_eq, ih, List.cons_append]
    · simp only [List.append_eq, ih, List.cons_append]

theorem fixIntegralSymbolsLoop_length (Ctx : Context) (Secs : List Section)
    (Syms : List Symbol) : (fixIntegralSymbolsLoop Ctx Secs Syms).2.2.length = Syms.length := by
  induction Syms generalizing Ctx Secs with
  | nil => rfl
  | cons X Xs ih =>
    simp only [fixIntegralSymbolsLoop]
    split <;> simp [ih]

/-- What the loop does with a symbol that has an address and no referent: the symbol at
position `K` of the result is the one the loop body returns in the state that the
loop has reached, and the state after it is the one the loop body leaves. -/
theorem fixIntegralSymbols_at_address (Ctx : Context) (M : Module) (K : Nat) (Sym : Symbol)
    (A : Nat) (hK : M.symbols[K]? = some Sym) (hA : Sym.payload = SymbolPayload.address A) :
    (fixIntegralSymbols Ctx M).2.symbols[K]? =
        some (fixIntegralSymbol (fixIntegralSymbolsUpTo Ctx M K).1
          (fixIntegralSymbolsUpTo Ctx M K).2 Sym A).2.2 ∧
      fixIntegralSymbolsUpTo Ctx M (K + 1) =
        ((fixIntegralSymbol (fixIntegralSymbolsUpTo Ctx M K).1
            (fixIntegralSymbolsUpTo Ctx M K).2 Sym A).1,
         (fixIntegralSymbol (fixIntegralSymbolsUpTo Ctx M K).1
            (fixIntegralSymbolsUpTo Ctx M K).2 Sym A).2.1) := by
  obtain ⟨hlt, hget⟩ := List.getElem?_eq_some.mp hK
  have hsplit : M.symbols = M.symbols.take K ++ Sym :: M.symbols.drop (K + 1) := by
    rw [← hget, ← List.drop_eq_getElem_cons hlt, List.take_append_drop]
  have hlen : (M.symbols.take K).length = K := by
    rw [List.length_take]; omega
  constructor
  · unfold fixIntegralSymbols fixIntegralSymbolsUpTo
    simp only
    conv_lhs => rw [hsplit]
    rw [fixIntegralSymbolsLoop_append]
    simp only
    rw [List.getElem?_append_right (by rw [fixIntegralSymbolsLoop_length, hlen])]
    rw [fixIntegralSymbolsLoop_length, hlen, Nat.sub_self]
    simp only [fixIntegralSymbolsLoop, hA, List.getElem?_cons_zero]
  · unfold fixIntegralSymbolsUpTo
    have htake : M.symbols.take (K + 1) = M.symbols.take K ++ [Sym] := by
      rw [List.take_succ, hK]; rfl
    rw [htake, fixIntegralSymbolsLoop_append]
    simp only [fixIntegralSymbolsLoop, hA]

/-- What the loop does with any other symbol: nothing. -/
theorem fixIntegralSymbols_at_other (Ctx : Context) (M : Module) (K : Nat) (Sym : Symbol)
    (hK : M.symbols[K]? = some Sym) (hA : ∀ A, Sym.payload ≠ SymbolPayload.address A) :
    (fixIntegralSymbols Ctx M).2.symbols[K]? = some Sym ∧
      fixIntegralSymbolsUpTo Ctx M (K + 1) = fixIntegralSymbolsUpTo Ctx M K := by
  obtain ⟨hlt, hget⟩ := List.getElem?_eq_some.mp hK
  have hsplit : M.symbols = M.symbols.take K ++ Sym :: M.symbols.drop (K + 1) := by
    rw [← hget, ← List.drop_eq_getElem_cons hlt, List.take_append_drop]
  have hlen : (M.symbols.take K).length = K := by
    rw [List.length_take]; omega
  have hstep : ∀ (C : Context) (Ss : List Section) (Rest : List Symbol),
      fixIntegralSymbolsLoop C Ss (Sym :: Rest) =
        ((fixIntegralSymbolsLoop C Ss Rest).1, (fixIntegralSymbolsLoop C Ss Rest).2.1,
          Sym :: (fixIntegralSymbolsLoop C Ss Rest).2.2) := by
    intro C Ss Rest
    cases hP : Sym.payload with
    | address Addr => exact absurd hP (hA Addr)
    | none => simp only [fixIntegralSymbolsLoop, hP]
    | referent Blk => simp only [fixIntegralSymbolsLoop, hP]
  constructor
  · unfold fixIntegralSymbols
    simp only
    conv_lhs => rw [hsplit]
    rw [fixIntegralSymbolsLoop_append]
    simp only
    rw [List.getElem?_append_right (by rw [fixIntegralSymbolsLoop_length, hlen])]
    rw [fixIntegralSymbolsLoop_length, hlen, Nat.sub_self, hstep]
    simp only [List.getElem?_cons_zero]
  · unfold fixIntegralSymbolsUpTo
    have htake : M.symbols.take (K + 1) = M.symbols.take K ++ [Sym] := by
      rw [List.take_succ, hK]; rfl
    rw [htake, fixIntegralSymbolsLoop_append, hstep]
    rfl

/-- Before the first symbol the state is that of the call. -/
theorem fixIntegralSymbolsUpTo_zero (Ctx : Context) (M : Module) :
    fixIntegralSymbolsUpTo Ctx M 0 = (Ctx, M.sections) := rfl

/-- Up to the first symbol that has an address and no referent the state is that of
the call. -/
theorem fixIntegralSymbolsUpTo_first (Ctx : Context) (M : Module) (K : Nat)
    (hK : K ≤ M.symbols.length)
    (h : ∀ J Sym, J < K → M.symbols[J]? = some Sym → ∀ A, Sym.payload ≠ SymbolPayload.address A) :
    fixIntegralSymbolsUpTo Ctx M K = (Ctx, M.sections) := by
  induction K with
  | zero => rfl
  | succ K ih =>
    have hlt : K < M.symbols.length := by omega
    have hget : M.symbols[K]? = some (M.symbols[K]) := List.getElem?_eq_getElem hlt
    rw [(fixIntegralSymbols_at_other Ctx M K _ hget (h K _ (Nat.lt_succ_self K) hget)).2]
    exact ih (by omega) (fun J Sym hJ hS => h J Sym (by omega) hS)

/-- After the last symbol the state is that of the result. -/
theorem fixIntegralSymbolsUpTo_length (Ctx : Context) (M : Module) :
    fixIntegralSymbolsUpTo Ctx M M.symbols.length =
      ((fixIntegralSymbols Ctx M).1, (fixIntegralSymbols Ctx M).2.sections) := by
  unfold fixIntegralSymbolsUpTo fixIntegralSymbols
  rw [List.take_length]

/-! ## The interval that findByteIntervalsOn yields first -/

theorem findByteIntervalOn_some (X : Nat) (Secs : List Section) (BI : ByteInterval)
    (h : findByteIntervalOn X Secs = some BI) :
    BI ∈ intervalsOf Secs ∧ BI.containsAddr X = true := by
  induction Secs with
  | nil => simp [findByteIntervalOn] at h
  | cons S Ss ih =>
    simp only [findByteIntervalOn] at h
    cases hf : S.byteIntervals.find? (fun BI => BI.containsAddr X) with
    | some BI0 =>
      rw [hf] at h
      simp only [Option.some.injEq] at h
      subst h
      have hc : BI0.containsAddr X = true :=
        @List.find?_some _ (fun BI : ByteInterval => BI.containsAddr X) BI0 _ hf
      refine ⟨?_, hc⟩
      simp only [intervalsOf, List.map_cons, List.flatten_cons, List.mem_append]
      exact Or.inl (List.mem_of_find?_eq_some hf)
    | none =>
      rw [hf] at h
      obtain ⟨h1, h2⟩ := ih h
      refine ⟨?_, h2⟩
      simp only [intervalsOf, List.map_cons, List.flatten_cons, List.mem_append]
      exact Or.inr h1

theorem findByteIntervalOn_none_iff (X : Nat) (Secs : List Section) :
    findByteIntervalOn X Secs = none ↔
      ∀ BI ∈ intervalsOf Secs, BI.containsAddr X = false := by
  induction Secs with
  | nil => simp [findByteIntervalOn, intervalsOf]
  | cons S Ss ih =>
    simp only [findByteIntervalOn]
    cases hf : S.byteIntervals.find? (fun BI => BI.containsAddr X) with
    | some BI0 =>
      simp only [false_iff, reduceCtorEq]
      intro hall
      have h1 : BI0.containsAddr X = true :=
        @List.find?_some _ (fun BI : ByteInterval => BI.containsAddr X) BI0 _ hf
      have h2 : BI0 ∈ intervalsOf (S :: Ss) := by
        simp only [intervalsOf, List.map_cons, List.flatten_cons, List.mem_append]
        exact Or.inl (List.mem_of_find?_eq_some hf)
      rw [hall BI0 h2] at h1
      exact Bool.false_ne_true h1
    | none =>
      simp only
      rw [ih]
      rw [List.find?_eq_none] at hf
      simp only [intervalsOf, List.map_cons, List.flatten_cons, List.mem_append]
      constructor
      · intro h BI hBI
        rcases hBI with hBI | hBI
        · simpa using hf BI hBI
        · exact h BI hBI
      · intro h BI hBI
        exact h BI (Or.inr hBI)

theorem modifyFirst_congr {α : Type} (P : α → Bool) (F G : α → α) (l : List α) (x : α)
    (hf : l.find? P = some x) (h : F x = G x) : modifyFirst P F l = modifyFirst P G l := by
  induction l with
  | nil => rfl
  | cons Y Ys ih =>
    simp only [modifyFirst]
    by_cases hP : P Y = true
    · simp only [List.find?_cons, hP, Option.some.injEq] at hf
      subst hf
      simp only [hP, if_true, h]
    · simp only [Bool.not_eq_true] at hP
      simp only [List.find?_cons, hP] at hf
      simp only [hP, Bool.false_eq_true, if_false, ih hf]

theorem modifyFirst_none {α : Type} (P : α → Bool) (F : α → α) (l : List α)
    (hf : l.find? P = none) : modifyFirst P F l = l := by
  induction l with
  | nil => rfl
  | cons Y Ys ih =>
    simp only [modifyFirst]
    by_cases hP : P Y = true
    · simp [List.find?_cons, hP] at hf
    · simp only [Bool.not_eq_true] at hP
      simp only [List.find?_cons, hP] at hf
      simp only [hP, Bool.false_eq_true, if_false, ih hf]

theorem any_eq_find?_isSome {α : Type} (P : α → Bool) (l : List α) :
    l.any P = (l.find? P).isSome := by
  induction l with
  | nil => rfl
  | cons Y Ys ih =>
    by_cases hP : P Y = true
    · simp [List.find?_cons, hP]
    · simp only [Bool.not_eq_true] at hP
      simp [List.find?_cons, hP, ih]

/-- The update in place depends only on what the function does to the interval found. -/
theorem modifyByteIntervalOn_congr (X : Nat) (F G : ByteInterval → ByteInterval)
    (Secs : List Section) (BI : ByteInterval) (hf : findByteIntervalOn X Secs = some BI)
    (h : F BI = G BI) : modifyByteIntervalOn X F Secs = modifyByteIntervalOn X G Secs := by
  induction Secs with
  | nil => rfl
  | cons S Ss ih =>
    simp only [modifyByteIntervalOn, any_eq_find?_isSome]
    simp only [findByteIntervalOn] at hf
    cases hs : S.byteIntervals.find? (fun BI => BI.containsAddr X) with
    | some BI0 =>
      rw [hs] at hf
      simp only [Option.some.injEq] at hf
      subst hf
      simp only [Option.isSome_some, if_true, modifyFirst_congr _ F G _ _ hs h]
    | none =>
      rw [hs] at hf
      simp only [Option.isSome_none, Bool.false_eq_true, if_false, ih hf]

theorem modifyFirst_id {α : Type} (P : α → Bool) (l : List α) :
    modifyFirst P (fun x => x) l = l := by
  induction l with
  | nil => rfl
  | cons Y Ys ih =>
    simp only [modifyFirst]
    split
    · rfl
    · rw [ih]

theorem modifyByteIntervalOn_id (X : Nat) (Secs : List Section) :
    modifyByteIntervalOn X (fun BI => BI) Secs = Secs := by
  induction Secs with
  | nil => rfl
  | cons S Ss ih =>
    simp only [modifyByteIntervalOn]
    split
    · rw [modifyFirst_id]
    · rw [ih]

theorem containsAddr_of_withoutBlocks (BI BI1 : ByteInterval)
    (h : BI1.withoutBlocks = BI.withoutBlocks) (X : Nat) :
    BI1.containsAddr X = BI.containsAddr X := by
  have ha : BI1.withoutBlocks.address = BI.withoutBlocks.address := by rw [h]
  have hs : BI1.withoutBlocks.size = BI.withoutBlocks.size := by rw [h]
  simp only [ByteInterval.withoutBlocks] at ha hs
  simp only [ByteInterval.containsAddr, ha, hs]

theorem find?_containsAddr_extends (N X : Nat) (l l1 : List ByteInterval)
    (h : List.Forall₂ (intervalExtends N) l l1) :
    (l.find? (fun BI => BI.containsAddr X) = none →
        l1.find? (fun BI => BI.containsAddr X) = none) ∧
      (∀ BI, l.find? (fun BI => BI.containsAddr X) = some BI →
        ∃ BI1, l1.find? (fun BI => BI.containsAddr X) = some BI1 ∧ intervalExtends N BI BI1) := by
  induction h with
  | nil => simp
  | @cons a b as bs hab _ ih =>
    have hc := containsAddr_of_withoutBlocks a b hab.1 X
    by_cases hP : a.containsAddr X = true
    · have hPb : b.containsAddr X = true := by rw [hc]; exact hP
      simp only [List.find?_cons, hP, hPb, reduceCtorEq, false_implies, Option.some.injEq,
        true_and]
      intro BI hBI
      subst hBI
      exact ⟨b, rfl, hab⟩
    · simp only [Bool.not_eq_true] at hP
      have hPb : b.containsAddr X = false := by rw [hc]; exact hP
      simp only [List.find?_cons, hP, hPb]
      exact ih

/-- Adding blocks to intervals does not change which interval is found first. -/
theorem findByteIntervalOn_extends (N X : Nat) (Ss Ss1 : List Section)
    (h : sectionsExtend N Ss Ss1) :
    (findByteIntervalOn X Ss = none → findByteIntervalOn X Ss1 = none) ∧
      (∀ BI, findByteIntervalOn X Ss = some BI →
        ∃ BI1, findByteIntervalOn X Ss1 = some BI1 ∧ intervalExtends N BI BI1) := by
  induction h with
  | nil => simp [findByteIntervalOn]
  | @cons a b as bs hab _ ih =>
    obtain ⟨h1, h2⟩ := find?_containsAddr_extends N X _ _ hab.2.2
    simp only [findByteIntervalOn]
    cases hf : a.byteIntervals.find? (fun BI => BI.containsAddr X) with
    | none =>
      rw [h1 hf]
      exact ih
    | some BI0 =>
      obtain ⟨BI1, hBI1, hext⟩ := h2 BI0 hf
      rw [hBI1]
      simp only [reduceCtorEq, false_implies, Option.some.injEq, true_and]
      intro BI hBI
      subst hBI
      exact ⟨BI1, rfl, hext⟩

/-- The sections that the loop has reached are the sections of the call with blocks
added to their intervals. -/
theorem fixIntegralSymbolsUpTo_extends (Ctx : Context) (M : Module) (K : Nat) :
    sectionsExtend Ctx.nextUUID M.sections (fixIntegralSymbolsUpTo Ctx M K).2 :=
  (fixIntegralSymbolsLoop_extends Ctx M.sections (M.symbols.take K)).1

theorem mem_findBlocksAt_extends (N : Nat) (BI BI1 : ByteInterval)
    (h : intervalExtends N BI BI1) (X : Nat) (B : Block) (hB : B ∈ BI.findBlocksAt X) :
    B ∈ BI1.findBlocksAt X := by
  have ha : BI1.withoutBlocks.address = BI.withoutBlocks.address := by rw [h.1]
  simp only [ByteInterval.withoutBlocks] at ha
  unfold ByteInterval.findBlocksAt at hB ⊢
  rw [ha]
  cases hA : BI.address with
  | none => rw [hA] at hB; simp at hB
  | some A =>
    rw [hA] at hB
    simp only [List.mem_filter] at hB ⊢
    exact ⟨h.2.1 B hB.1, hB.2⟩

/-- When the interval found holds a block at the address, the loop body attaches the
symbol to the first such block and changes nothing else. -/
theorem fixIntegralSymbol_exact (Ctx : Context) (Secs : List Section) (Sym : Symbol)
    (A : Nat) (BI : ByteInterval) (B : Block) (hBI : findByteIntervalOn A Secs = some BI)
    (hB : (BI.findBlocksAt A).head? = some B) :
    fixIntegralSymbol Ctx Secs Sym A =
      (Ctx, Secs, { Sym with payload := SymbolPayload.referent B.uuid }) := by
  have hres : resolveInInterval Ctx BI A = (Ctx, BI, B.uuid) := by
    simp only [resolveInInterval, hB]
  unfold fixIntegralSymbol
  simp only [hBI, hres]
  have h1 := modifyByteIntervalOn_congr A (fun BI1 => (resolveInInterval Ctx BI1 A).2.1)
    (fun BI1 => BI1) Secs BI hBI (by simp only [hres])
  rw [h1, modifyByteIntervalOn_id]

/-! ## fixIntegralSymbols: a block starts at the address -/

/-- The step for a symbol at whose address a block starts.  Let `Sym`, the symbol at
position `K`, have the address `A` and no referent, let `BI` be the first byte interval
of the module that contains `A`, and let `BI` hold a block that starts at `A`.  Then
`fixIntegralSymbols` attaches the symbol to the first block starting at `A` that this
interval holds when the loop reaches the symbol, and the step creates nothing: the
context and the sections are after the symbol what they were before it. -/
theorem fixIntegralSymbols_step_exact (Ctx : Context) (M : Module) (K : Nat) (Sym : Symbol)
    (A : Nat) (BI : ByteInterval) (B : Block)
    (hK : M.symbols[K]? = some Sym) (hA : Sym.payload = SymbolPayload.address A)
    (hBI : findByteIntervalOn A M.sections = some BI) (hB : B ∈ BI.findBlocksAt A) :
    ∃ BI1 B1, findByteIntervalOn A (fixIntegralSymbolsUpTo Ctx M K).2 = some BI1 ∧
      BI1.uuid = BI.uuid ∧ (BI1.findBlocksAt A).head? = some B1 ∧
      (fixIntegralSymbols Ctx M).2.symbols[K]? =
        some { Sym with payload := SymbolPayload.referent B1.uuid } ∧
      fixIntegralSymbolsUpTo Ctx M (K + 1) = fixIntegralSymbolsUpTo Ctx M K := by
  obtain ⟨hsym, hstate⟩ := fixIntegralSymbols_at_address Ctx M K Sym A hK hA
  obtain ⟨BI1, hBI1, hext⟩ :=
    (findByteIntervalOn_extends Ctx.nextUUID A _ _ (fixIntegralSymbolsUpTo_extends Ctx M K)).2
      BI hBI
  have hmem := mem_findBlocksAt_extends _ BI BI1 hext A B hB
  have hu : BI1.withoutBlocks.uuid = BI.withoutBlocks.uuid := by rw [hext.1]
  simp only [ByteInterval.withoutBlocks] at hu
  cases hhead : (BI1.findBlocksAt A).head? with
  | none =>
    rw [List.head?_eq_none_iff] at hhead
    rw [hhead] at hmem
    exact absurd hmem (List.not_mem_nil B)
  | some B1 =>
    have hstep := fixIntegralSymbol_exact (fixIntegralSymbolsUpTo Ctx M K).1
      (fixIntegralSymbolsUpTo Ctx M K).2 Sym A BI1 B1 hBI1 hhead
    rw [hstep] at hsym hstate
    exact ⟨BI1, B1, hBI1, hu, hhead, hsym, hstate⟩

/-- C11, as stated, fails.  In `endBlockModule` the zero-length block 101 starts at
`0x1008`, the address of the symbol `end`, one past the last byte of its interval, so
no interval contains the address.  `fixIntegralSymbols` passes the block by: it makes
the new block 1000 at offset 8 and attaches the symbol to it. -/
theorem fixIntegralSymbols_ignores_block_at_end :
    (∃ P ∈ allBlocks endBlockModule.sections, P.2.uuid = 101 ∧ blockAddr P = 0x1008) ∧
      fixIntegralSymbols { nextUUID := 1000 } endBlockModule =
        ({ nextUUID := 1001 },
         { sections := [
             { uuid := 1, name := ".data", byteIntervals := [
                 { uuid := 10, address := some 0x1000, size := 8,
                   bytes := [0, 0, 0, 0, 0, 0, 0, 0],
                   blocks := [{ uuid := 100, kind := BlockKind.data, offset := 0, size := 8 },
                              { uuid := 101, kind := BlockKind.data, offset := 8, size := 0 },
                              { uuid := 1000, kind := BlockKind.data, offset := 8, size := 0 }],
                   symbolicExpressions := [] }] }],
           symbols := [{ uuid := 200, name := "end",
                         payload := SymbolPayload.referent 1000 }] }) := by
  decide

/-! ## fixIntegralSymbols: no block starts at the address -/

theorem sub64_of_le {a b : Nat} (hb : b ≤ a) (ha : a < addrModulus) : sub64 a b = a - b := by
  unfold sub64
  have hb1 : b % addrModulus = b := Nat.mod_eq_of_lt (lt_of_le_of_lt hb ha)
  rw [hb1]
  have h1 : a + (addrModulus - b) = (a - b) + addrModulus := by omega
  rw [h1, Nat.add_mod_right]
  exact Nat.mod_eq_of_lt (by omega)

theorem containsAddr_iff (BI : ByteInterval) (X : Nat) :
    BI.containsAddr X = true ↔ ∃ Ab, BI.address = some Ab ∧ Ab ≤ X ∧ X < Ab + BI.size := by
  unfold ByteInterval.containsAddr
  cases BI.address with
  | none => simp
  | some Ab => simp

/-- The loop body when the interval found holds no block at the address: a block is
added at offset `A - Ab`, of the kind of the first block whose range contains the
address, a data block when there is none. -/
theorem fixIntegralSymbol_new_block (Ctx : Context) (Secs : List Section) (Sym : Symbol)
    (A Ab : Nat) (BI : ByteInterval) (hlt : A < addrModulus)
    (hBI : findByteIntervalOn A Secs = some BI) (hAb : BI.address = some Ab)
    (hnone : BI.findBlocksAt A = []) :
    fixIntegralSymbol Ctx Secs Sym A =
      ({ nextUUID := Ctx.nextUUID + 1 },
       insertBlockOn A
         { uuid := Ctx.nextUUID,
           kind := ((BI.findBlocksOn A).head?.map (fun B => B.kind)).getD BlockKind.data,
           offset := A - Ab, size := 0 } Secs,
       { Sym with payload := SymbolPayload.referent Ctx.nextUUID }) := by
  obtain ⟨Ab1, hAb1, hle, _⟩ := (containsAddr_iff BI A).mp (findByteIntervalOn_some A Secs BI hBI).2
  rw [hAb] at hAb1
  simp only [Option.some.injEq] at hAb1
  subst hAb1
  have hsub : sub64 A (BI.address.getD 0) = A - Ab := by
    rw [hAb]
    exact sub64_of_le hle hlt
  have hres : resolveInInterval Ctx BI A =
      ({ nextUUID := Ctx.nextUUID + 1 },
       BI.withBlock { uuid := Ctx.nextUUID,
                      kind := ((BI.findBlocksOn A).head?.map (fun B => B.kind)).getD
                        BlockKind.data,
                      offset := A - Ab, size := 0 },
       Ctx.nextUUID) := by
    unfold resolveInInterval
    rw [hnone]
    simp only [List.head?_nil]
    cases (BI.findBlocksOn A).head? with
    | some B => simp only [ByteInterval.addNewBlock, ByteInterval.withBlock, hsub,
        Option.map_some', Option.getD_some]
    | none => simp only [ByteInterval.addNewBlock, ByteInterval.withBlock, hsub,
        Option.map_none', Option.getD_none]
  unfold fixIntegralSymbol insertBlockOn
  simp only [hBI, hres]
  rw [modifyByteIntervalOn_congr A (fun BI1 => (resolveInInterval Ctx BI1 A).2.1)
    (fun BI1 => BI1.withBlock
      { uuid := Ctx.nextUUID,
        kind := ((BI.findBlocksOn A).head?.map (fun B => B.kind)).getD BlockKind.data,
        offset := A - Ab, size := 0 })
    Secs BI hBI (by simp only [hres])]

/-- The second loop of the loop body: no interval contains the address, and the
interval found for the address before it receives a data block at offset `A - Ab`. -/
theorem fixIntegralSymbol_at_end (Ctx : Context) (Secs : List Section) (Sym : Symbol)
    (A Ab : Nat) (BI : ByteInterval) (hlt : A < addrModulus) (hle : Ab ≤ A)
    (hno : findByteIntervalOn A Secs = none)
    (hBI : findByteIntervalOn (sub64 A 1) Secs = some BI) (hAb : BI.address = some Ab) :
    fixIntegralSymbol Ctx Secs Sym A =
      ({ nextUUID := Ctx.nextUUID + 1 },
       insertBlockOn (sub64 A 1)
         { uuid := Ctx.nextUUID, kind := BlockKind.data, offset := A - Ab, size := 0 } Secs,
       { Sym with payload := SymbolPayload.referent Ctx.nextUUID }) := by
  have hsub : sub64 A (BI.address.getD 0) = A - Ab := by
    rw [hAb]
    exact sub64_of_le hle hlt
  unfold fixIntegralSymbol insertBlockOn
  simp only [hno, hBI, ByteInterval.addNewBlock, hsub]
  rw [modifyByteIntervalOn_congr (sub64 A 1) _
    (fun BI1 => BI1.withBlock
      { uuid := Ctx.nextUUID, kind := BlockKind.data, offset := A - Ab, size := 0 })
    Secs BI hBI (by simp only [hsub, ByteInterval.withBlock])]

/-- The loop body when neither loop finds an interval: nothing changes. -/
theorem fixIntegralSymbol_unresolved (Ctx : Context) (Secs : List Section) (Sym : Symbol)
    (A : Nat) (hno : findByteIntervalOn A Secs = none)
    (hno1 : findByteIntervalOn (sub64 A 1) Secs = none) :
    fixIntegralSymbol Ctx Secs Sym A = (Ctx, Secs, Sym) := by
  unfold fixIntegralSymbol
  simp only [hno, hno1]

theorem mem_modifyFirst {α : Type} (P : α → Bool) (F : α → α) (l : List α) (x : α)
    (hf : l.find? P = some x) : F x ∈ modifyFirst P F l := by
  induction l with
  | nil => simp at hf
  | cons Y Ys ih =>
    simp only [modifyFirst]
    by_cases hP : P Y = true
    · simp only [List.find?_cons, hP, Option.some.injEq] at hf
      subst hf
      simp only [hP, if_true, List.mem_cons, true_or]
    · simp only [Bool.not_eq_true] at hP
      simp only [List.find?_cons, hP] at hf
      simp only [hP, Bool.false_eq_true, if_false, List.mem_cons]
      exact Or.inr (ih hf)

/-- The interval that was found is, after the update in place, its image. -/
theorem mem_modifyByteIntervalOn (X : Nat) (F : ByteInterval → ByteInterval)
    (Secs : List Section) (BI : ByteInterval) (hf : findByteIntervalOn X Secs = some BI) :
    F BI ∈ intervalsOf (modifyByteIntervalOn X F Secs) := by
  induction Secs with
  | nil => simp [findByteIntervalOn] at hf
  | cons S Ss ih =>
    simp only [modifyByteIntervalOn, any_eq_find?_isSome]
    simp only [findByteIntervalOn] at hf
    cases hs : S.byteIntervals.find? (fun BI => BI.containsAddr X) with
    | some BI0 =>
      rw [hs] at hf
      simp only [Option.some.injEq] at hf
      subst hf
      simp only [Option.isSome_some, if_true, intervalsOf, List.map_cons, List.flatten_cons,
        List.mem_append]
      exact Or.inl (mem_modifyFirst _ F _ _ hs)
    | none =>
      rw [hs] at hf
      simp only [Option.isSome_none, Bool.false_eq_true, if_false, intervalsOf, List.map_cons,
        List.flatten_cons, List.mem_append]
      exact Or.inr (ih hf)

theorem forall₂_exists_of_mem {α : Type} (R : α → α → Prop) (l l1 : List α)
    (h : List.Forall₂ R l l1) (x : α) (hx : x ∈ l) : ∃ y ∈ l1, R x y := by
  induction h with
  | nil => simp at hx
  | @cons a b as bs hab _ ih =>
    rcases List.mem_cons.mp hx with hx | hx
    · subst hx
      exact ⟨b, List.mem_cons_self _ _, hab⟩
    · obtain ⟨y, hy, hR⟩ := ih hx
      exact ⟨y, List.mem_cons_of_mem _ hy, hR⟩

theorem mem_intervalsOf_extends (N : Nat) (Ss Ss1 : List Section) (h : sectionsExtend N Ss Ss1)
    (BI : ByteInterval) (hBI : BI ∈ intervalsOf Ss) :
    ∃ BI1 ∈ intervalsOf Ss1, intervalExtends N BI BI1 := by
  induction h with
  | nil => simp [intervalsOf] at hBI
  | @cons a b as bs hab _ ih =>
    simp only [intervalsOf, List.map_cons, List.flatten_cons, List.mem_append] at hBI ⊢
    rcases hBI with hBI | hBI
    · obtain ⟨BI1, h1, h2⟩ := forall₂_exists_of_mem _ _ _ hab.2.2 BI hBI
      exact ⟨BI1, Or.inl h1, h2⟩
    · obtain ⟨BI1, h1, h2⟩ := ih hBI
      exact ⟨BI1, Or.inr h1, h2⟩

/-- A block that an interval holds when the loop reaches position `K` is held by the
interval with the same UUID in the result. -/
theorem fixIntegralSymbolsUpTo_block_kept (Ctx : Context) (M : Module) (K : Nat)
    (BI : ByteInterval) (N : Block) (hBI : BI ∈ intervalsOf (fixIntegralSymbolsUpTo Ctx M K).2)
    (hN : N ∈ BI.blocks) :
    ∃ BI2 ∈ intervalsOf (fixIntegralSymbols Ctx M).2.sections,
      BI2.uuid = BI.uuid ∧ N ∈ BI2.blocks := by
  have hfinal : (fixIntegralSymbols Ctx M).2.sections =
      (fixIntegralSymbolsLoop (fixIntegralSymbolsUpTo Ctx M K).1
        (fixIntegralSymbolsUpTo Ctx M K).2 (M.symbols.drop K)).2.1 := by
    unfold fixIntegralSymbols fixIntegralSymbolsUpTo
    simp only
    conv_lhs => rw [← List.take_append_drop K M.symbols]
    rw [fixIntegralSymbolsLoop_append]
  have hext := (fixIntegralSymbolsLoop_extends (fixIntegralSymbolsUpTo Ctx M K).1
    (fixIntegralSymbolsUpTo Ctx M K).2 (M.symbols.drop K)).1
  rw [← hfinal] at hext
  obtain ⟨BI2, h1, h2⟩ := mem_intervalsOf_extends _ _ _ hext BI hBI
  have hu : BI2.withoutBlocks.uuid = BI.withoutBlocks.uuid := by rw [h2.1]
  simp only [ByteInterval.withoutBlocks] at hu
  exact ⟨BI2, h1, hu, h2.2.1 N hN⟩

theorem mem_withBlock (BI : ByteInterval) (N : Block) : N ∈ (BI.withBlock N).blocks := by
  unfold ByteInterval.withBlock
  simp only [mem_insertBlock, true_or]

/-- The step for a symbol inside a block.  Let `Sym`, the symbol at position `K`, have
the address `A < 2 ^ 64` and no referent, and take the module as the loop finds it when
it reaches the symbol.  If `BI`, at address `Ab`, is the first byte interval that
contains `A`, no block of `BI` starts at `A`, and `B` is the first block of `BI` whose
range contains `A`, then the step makes one new block, zero-length, of the kind of `B`,
at offset `A - Ab` of that interval, with the next free UUID, and sets the symbol's
referent to it; the block is in the interval with the UUID of `BI` in the result. -/
theorem fixIntegralSymbols_step_inside_block (Ctx : Context) (M : Module) (K : Nat) (Sym : Symbol)
    (A Ab : Nat) (BI : ByteInterval) (B : Block)
    (hK : M.symbols[K]? = some Sym) (hA : Sym.payload = SymbolPayload.address A)
    (hlt : A < addrModulus)
    (hBI : findByteIntervalOn A (fixIntegralSymbolsUpTo Ctx M K).2 = some BI)
    (hAb : BI.address = some Ab) (hnone : BI.findBlocksAt A = [])
    (hB : (BI.findBlocksOn A).head? = some B) :
    (fixIntegralSymbols Ctx M).2.symbols[K]? =
        some { Sym with
          payload := SymbolPayload.referent (fixIntegralSymbolsUpTo Ctx M K).1.nextUUID } ∧
      fixIntegralSymbolsUpTo Ctx M (K + 1) =
        ({ nextUUID := (fixIntegralSymbolsUpTo Ctx M K).1.nextUUID + 1 },
         insertBlockOn A
           { uuid := (fixIntegralSymbolsUpTo Ctx M K).1.nextUUID, kind := B.kind,
             offset := A - Ab, size := 0 }
           (fixIntegralSymbolsUpTo Ctx M K).2) ∧
      ∃ BI2 ∈ intervalsOf (fixIntegralSymbols Ctx M).2.sections, BI2.uuid = BI.uuid ∧
        { uuid := (fixIntegralSymbolsUpTo Ctx M K).1.nextUUID, kind := B.kind,
          offset := A - Ab, size := 0 } ∈ BI2.blocks := by
  obtain ⟨hsym, hstate⟩ := fixIntegralSymbols_at_address Ctx M K Sym A hK hA
  have hstep := fixIntegralSymbol_new_block (fixIntegralSymbolsUpTo Ctx M K).1
    (fixIntegralSymbolsUpTo Ctx M K).2 Sym A Ab BI hlt hBI hAb hnone
  rw [hB] at hstep
  simp only [Option.map_some', Option.getD_some] at hstep
  rw [hstep] at hsym hstate
  refine ⟨hsym, hstate, ?_⟩
  have hmem := mem_modifyByteIntervalOn A
    (fun BI1 => BI1.withBlock
      { uuid := (fixIntegralSymbolsUpTo Ctx M K).1.nextUUID, kind := B.kind,
        offset := A - Ab, size := 0 })
    (fixIntegralSymbolsUpTo Ctx M K).2 BI hBI
  have hmem1 : BI.withBlock
      { uuid := (fixIntegralSymbolsUpTo Ctx M K).1.nextUUID, kind := B.kind,
        offset := A - Ab, size := 0 } ∈ intervalsOf (fixIntegralSymbolsUpTo Ctx M (K + 1)).2 := by
    rw [hstate]
    exact hmem
  obtain ⟨BI2, h1, h2, h3⟩ := fixIntegralSymbolsUpTo_block_kept Ctx M (K + 1)
    (BI.withBlock
      { uuid := (fixIntegralSymbolsUpTo Ctx M K).1.nextUUID, kind := B.kind,
        offset := A - Ab, size := 0 }) _ hmem1 (mem_withBlock BI _)
  exact ⟨BI2, h1, h2, h3⟩

/-- Scenario B in full: what `fixIntegralSymbols` returns for it. -/
theorem scenarioB_fixed :
    fixIntegralSymbols { nextUUID := 1000 } scenarioB =
      ({ nextUUID := 1001 },
       { sections := [
           { uuid := 1, name := ".data", byteIntervals := [
               { uuid := 10, address := some 0x1000, size := 8,
                 bytes := [0, 0, 0, 0, 0, 0, 0, 0],
                 blocks := [{ uuid := 100, kind := BlockKind.data, offset := 0, size := 8 },
                            { uuid := 1000, kind := BlockKind.data, offset := 4, size := 0 }],
                 symbolicExpressions := [] }] }],
         symbols := [{ uuid := 200, name := "S", payload := SymbolPayload.referent 1000 }] }) := by
  decide

/-- C12, as stated, fails.  In `overlapIntervalsModule` no block starts at `0x1004`, the
address of the symbol, and the code block 100 of the second interval contains it.
`fixIntegralSymbols` looks at the first interval that contains the address only, which
holds no block: the new block 1000 is a data block, not a code block, and it is made
in the first interval, at offset 4, not in the interval of the code block. -/
theorem fixIntegralSymbols_other_interval :
    (∀ P ∈ allBlocks overlapIntervalsModule.sections, blockAddr P ≠ 0x1004) ∧
      (∃ P ∈ allBlocks overlapIntervalsModule.sections, P.1.uuid = 11 ∧
        P.2.kind = BlockKind.code ∧ blockAddr P ≤ 0x1004 ∧ 0x1004 < blockAddr P + P.2.size) ∧
      fixIntegralSymbols { nextUUID := 1000 } overlapIntervalsModule =
        ({ nextUUID := 1001 },
         { sections := [
             { uuid := 1, name := ".text", byteIntervals := [
                 { uuid := 10, address := some 0x1000, size := 16, bytes := [],
                   blocks := [{ uuid := 1000, kind := BlockKind.data, offset := 4, size := 0 }],
                   symbolicExpressions := [] },
                 { uuid := 11, address := some 0x1002, size := 8,
                   bytes := [0, 0, 0, 0, 0, 0, 0, 0],
                   blocks := [{ uuid := 100, kind := BlockKind.code, offset := 0, size := 8 }],
                   symbolicExpressions := [] }] }],
           symbols := [{ uuid := 200, name := "S",
                         payload := SymbolPayload.referent 1000 }] }) := by
  decide

/-! ## fixIntegralSymbols: no block at the address or around it -/

/-- The step for a symbol at whose address no block starts and which no block
contains.  Let `Sym`, the symbol at position `K`, have the address `A < 2 ^ 64` and no
referent, and take the module as the loop finds it when it reaches the symbol.
First part: if `BI`, at address `Ab`, is the first byte interval that contains `A` and no
block of `BI` starts at `A` or contains `A`, the symbol is attached to a new zero-length
data block at offset `A - Ab` of that interval.
Second part: if no byte interval contains `A` and `A` is the end of a byte interval of
non-zero size, the symbol is attached to a new zero-length data block in the first
interval `BI` that contains `A - 1`; that interval ends at `A` and the offset of the
block is its size. -/
theorem fixIntegralSymbols_step_no_block (Ctx : Context) (M : Module) (K : Nat) (Sym : Symbol)
    (A : Nat) (hK : M.symbols[K]? = some Sym) (hA : Sym.payload = SymbolPayload.address A)
    (hlt : A < addrModulus) :
    (∀ BI Ab, findByteIntervalOn A (fixIntegralSymbolsUpTo Ctx M K).2 = some BI →
      BI.address = some Ab → BI.findBlocksAt A = [] → BI.findBlocksOn A = [] →
      (fixIntegralSymbols Ctx M).2.symbols[K]? =
          some { Sym with
            payload := SymbolPayload.referent (fixIntegralSymbolsUpTo Ctx M K).1.nextUUID } ∧
        fixIntegralSymbolsUpTo Ctx M (K + 1) =
          ({ nextUUID := (fixIntegralSymbolsUpTo Ctx M K).1.nextUUID + 1 },
           insertBlockOn A
             { uuid := (fixIntegralSymbolsUpTo Ctx M K).1.nextUUID, kind := BlockKind.data,
               offset := A - Ab, size := 0 }
             (fixIntegralSymbolsUpTo Ctx M K).2) ∧
        ∃ BI2 ∈ intervalsOf (fixIntegralSymbols Ctx M).2.sections, BI2.uuid = BI.uuid ∧
          { uuid := (fixIntegralSymbolsUpTo Ctx M K).1.nextUUID, kind := BlockKind.data,
            offset := A - Ab, size := 0 } ∈ BI2.blocks) ∧
    (∀ I Ai, findByteIntervalOn A (fixIntegralSymbolsUpTo Ctx M K).2 = none →
      I ∈ intervalsOf (fixIntegralSymbolsUpTo Ctx M K).2 → I.address = some Ai →
      A = Ai + I.size → 0 < I.size →
      ∃ BI Ab, findByteIntervalOn (A - 1) (fixIntegralSymbolsUpTo Ctx M K).2 = some BI ∧
        BI.address = some Ab ∧ Ab + BI.size = A ∧
        (fixIntegralSymbols Ctx M).2.symbols[K]? =
          some { Sym with
            payload := SymbolPayload.referent (fixIntegralSymbolsUpTo Ctx M K).1.nextUUID } ∧
        fixIntegralSymbolsUpTo Ctx M (K + 1) =
          ({ nextUUID := (fixIntegralSymbolsUpTo Ctx M K).1.nextUUID + 1 },
           insertBlockOn (A - 1)
             { uuid := (fixIntegralSymbolsUpTo Ctx M K).1.nextUUID, kind := BlockKind.data,
               offset := BI.size, size := 0 }
             (fixIntegralSymbolsUpTo Ctx M K).2) ∧
        ∃ BI2 ∈ intervalsOf (fixIntegralSymbols Ctx M).2.sections, BI2.uuid = BI.uuid ∧
          { uuid := (fixIntegralSymbolsUpTo Ctx M K).1.nextUUID, kind := BlockKind.data,
            offset := BI.size, size := 0 } ∈ BI2.blocks) := by
  obtain ⟨hsym, hstate⟩ := fixIntegralSymbols_at_address Ctx M K Sym A hK hA
  constructor
  · intro BI Ab hBI hAb hnone hon
    have hstep := fixIntegralSymbol_new_block (fixIntegralSymbolsUpTo Ctx M K).1
      (fixIntegralSymbolsUpTo Ctx M K).2 Sym A Ab BI hlt hBI hAb hnone
    rw [hon] at hstep
    simp only [List.head?_nil, Option.map_none', Option.getD_none] at hstep
    rw [hstep] at hsym hstate
    refine ⟨hsym, hstate, ?_⟩
    have hmem := mem_modifyByteIntervalOn A
      (fun BI1 => BI1.withBlock
        { uuid := (fixIntegralSymbolsUpTo Ctx M K).1.nextUUID, kind := BlockKind.data,
          offset := A - Ab, size := 0 })
      (fixIntegralSymbolsUpTo Ctx M K).2 BI hBI
    have hmem1 : BI.withBlock
        { uuid := (fixIntegralSymbolsUpTo Ctx M K).1.nextUUID, kind := BlockKind.data,
          offset := A - Ab, size := 0 } ∈
          intervalsOf (fixIntegralSymbolsUpTo Ctx M (K + 1)).2 := by
      rw [hstate]
      exact hmem
    obtain ⟨BI2, h1, h2, h3⟩ := fixIntegralSymbolsUpTo_block_kept Ctx M (K + 1)
      (BI.withBlock
        { uuid := (fixIntegralSymbolsUpTo Ctx M K).1.nextUUID, kind := BlockKind.data,
          offset := A - Ab, size := 0 }) _ hmem1 (mem_withBlock BI _)
    exact ⟨BI2, h1, h2, h3⟩
  · intro I Ai hno hI hAi hend hpos
    have hA1 : 1 ≤ A := by omega
    have hsub1 : sub64 A 1 = A - 1 := sub64_of_le hA1 hlt
    have hIc : I.containsAddr (A - 1) = true := by
      rw [containsAddr_iff]
      exact ⟨Ai, hAi, by omega, by omega⟩
    cases hBI : findByteIntervalOn (A - 1) (fixIntegralSymbolsUpTo Ctx M K).2 with
    | none =>
      rw [findByteIntervalOn_none_iff] at hBI
      rw [hBI I hI] at hIc
      exact absurd hIc Bool.false_ne_true
    | some BI =>
      obtain ⟨hBImem, hBIc⟩ := findByteIntervalOn_some _ _ _ hBI
      obtain ⟨Ab, hAb, hle, hlt1⟩ := (containsAddr_iff BI (A - 1)).mp hBIc
      have hnotin := (findByteIntervalOn_none_iff A _).mp hno BI hBImem
      have hge : Ab + BI.size ≤ A := by
        by_contra hcon
        have : BI.containsAddr A = true := by
          rw [containsAddr_iff]
          exact ⟨Ab, hAb, by omega, by omega⟩
        rw [hnotin] at this
        exact Bool.false_ne_true this
      have hendB : Ab + BI.size = A := by omega
      have hoff : A - Ab = BI.size := by omega
      have hstep := fixIntegralSymbol_at_end (fixIntegralSymbolsUpTo Ctx M K).1
        (fixIntegralSymbolsUpTo Ctx M K).2 Sym A Ab BI hlt (by omega) hno
        (by rw [hsub1]; exact hBI) hAb
      rw [hsub1, hoff] at hstep
      rw [hstep] at hsym hstate
      refine ⟨BI, Ab, rfl, hAb, hendB, hsym, hstate, ?_⟩
      have hmem := mem_modifyByteIntervalOn (A - 1)
        (fun BI1 => BI1.withBlock
          { uuid := (fixIntegralSymbolsUpTo Ctx M K).1.nextUUID, kind := BlockKind.data,
            offset := BI.size, size := 0 })
        (fixIntegralSymbolsUpTo Ctx M K).2 BI hBI
      have hmem1 : BI.withBlock
          { uuid := (fixIntegralSymbolsUpTo Ctx M K).1.nextUUID, kind := BlockKind.data,
            offset := BI.size, size := 0 } ∈
            intervalsOf (fixIntegralSymbolsUpTo Ctx M (K + 1)).2 := by
        rw [hstate]
        exact hmem
      obtain ⟨BI2, h1, h2, h3⟩ := fixIntegralSymbolsUpTo_block_kept Ctx M (K + 1)
        (BI.withBlock
          { uuid := (fixIntegralSymbolsUpTo Ctx M K).1.nextUUID, kind := BlockKind.data,
            offset := BI.size, size := 0 }) _ hmem1 (mem_withBlock BI _)
      exact ⟨BI2, h1, h2, h3⟩

/-- The module `gapModule` in full: what `fixIntegralSymbols` returns for it. -/
theorem gapModule_fixed :
    fixIntegralSymbols { nextUUID := 1000 } gapModule =
      ({ nextUUID := 1002 },
       { sections := [
           { uuid := 1, name := ".data", byteIntervals := [
               { uuid := 10, address := some 0x1000, size := 8,
                 bytes := [0, 0, 0, 0, 0, 0, 0, 0],
                 blocks := [{ uuid := 100, kind := BlockKind.data, offset := 0, size := 4 },
                            { uuid := 1000, kind := BlockKind.data, offset := 6, size := 0 },
                            { uuid := 1001, kind := BlockKind.data, offset := 8, size := 0 }],
                 symbolicExpressions := [] }] }],
         symbols := [{ uuid := 200, name := "gap", payload := SymbolPayload.referent 1000 },
                     { uuid := 201, name := "end",
                       payload := SymbolPayload.referent 1001 }] }) := by
  decide

/-- C13, as stated, fails.  In `emptyIntervalModule` the address `0x1000` of the symbol is
in no interval and in no block, and it is the end, address plus size, of the interval
of size 0 at `0x1000`.  The second loop looks for an interval that contains `0xFFF` and
finds none: the symbol keeps its address and no block is made. -/
theorem fixIntegralSymbols_skips_empty_interval :
    (∀ BI ∈ intervalsOf emptyIntervalModule.sections, BI.containsAddr 0x1000 = false) ∧
      (∃ BI ∈ intervalsOf emptyIntervalModule.sections,
        BI.address.map (fun Ab => Ab + BI.size) = some 0x1000) ∧
      fixIntegralSymbols { nextUUID := 1000 } emptyIntervalModule =
        ({ nextUUID := 1000 }, emptyIntervalModule) := by
  decide

/-! ## fixIntegralSymbols: nothing at the address -/

/-- A symbol whose address is in no interval, and whose address less one is in none,
is passed over: the symbol, the context and the sections stay what they were. -/
theorem fixIntegralSymbols_unresolved_unchanged (Ctx : Context) (M : Module) (K : Nat)
    (Sym : Symbol) (A : Nat) (hK : M.symbols[K]? = some Sym)
    (hA : Sym.payload = SymbolPayload.address A)
    (hno : ∀ BI ∈ intervalsOf M.sections, BI.containsAddr A = false)
    (hno1 : ∀ BI ∈ intervalsOf M.sections, BI.containsAddr (sub64 A 1) = false) :
    (fixIntegralSymbols Ctx M).2.symbols[K]? = some Sym ∧
      fixIntegralSymbolsUpTo Ctx M (K + 1) = fixIntegralSymbolsUpTo Ctx M K := by
  obtain ⟨hsym, hstate⟩ := fixIntegralSymbols_at_address Ctx M K Sym A hK hA
  have hext := fixIntegralSymbolsUpTo_extends Ctx M K
  have h1 := (findByteIntervalOn_extends Ctx.nextUUID A _ _ hext).1
    ((findByteIntervalOn_none_iff A _).mpr hno)
  have h2 := (findByteIntervalOn_extends Ctx.nextUUID (sub64 A 1) _ _ hext).1
    ((findByteIntervalOn_none_iff (sub64 A 1) _).mpr hno1)
  rw [fixIntegralSymbol_unresolved _ _ Sym A h1 h2] at hsym hstate
  exact ⟨hsym, hstate⟩

/-- C14 on the failing input.  The symbol of `strayModule` has the address `0x5000`, which
is in no interval and is the end of none.  `fixIntegralSymbols` returns the context and
the module as they were, the symbol still with its address and no referent; the
function yields nothing else, so the failure to resolve the symbol is not reported. -/
theorem fixIntegralSymbols_stray_symbol_silent :
    (∀ BI ∈ intervalsOf strayModule.sections, BI.containsAddr 0x5000 = false ∧
        BI.address.map (fun Ab => Ab + BI.size) ≠ some 0x5000) ∧
      fixIntegralSymbols { nextUUID := 1000 } strayModule =
        ({ nextUUID := 1000 }, strayModule) := by
  decide

/-! ## addOverlapDisambiguationSymbols, block by block -/

/-- The loop body in three cases: the block is skipped, a symbol is made for it, or
the flag is cleared. -/
theorem overlapStep_eq (M : Module) (St : OverlapState) (P : ByteInterval × Block) :
    overlapStep M St P =
      if St.Found = true ∧ St.FoundAt = blockAddr P then St
      else if 1 < (overlapRange P).length ∧ (M.findSymbols P.2).isEmpty = true then
        { Found := true, FoundAt := blockAddr P,
          SymsToAdd := St.SymsToAdd ++ [overlapSymbol St.Ctx.nextUUID P],
          Ctx := { nextUUID := St.Ctx.nextUUID + 1 } }
      else { St with Found := false } := by
  unfold overlapStep overlapRange overlapSymbol
  simp only
  split_ifs <;> first | rfl | tauto

/-- What one step adds: nothing, or the symbol of the block, which then has no symbol
of its own, counts more than one block in its range, and is not at the address of
the flag. -/
theorem overlapStep_cases (M : Module) (St : OverlapState) (P : ByteInterval × Block) :
    ((overlapStep M St P).SymsToAdd = St.SymsToAdd ∧
        (overlapStep M St P = St ∨ (overlapStep M St P).Found = false)) ∨
      ((overlapStep M St P).SymsToAdd = St.SymsToAdd ++ [overlapSymbol St.Ctx.nextUUID P] ∧
        (overlapStep M St P).Found = true ∧ (overlapStep M St P).FoundAt = blockAddr P ∧
        1 < (overlapRange P).length ∧ M.findSymbols P.2 = [] ∧
        ¬ (St.Found = true ∧ St.FoundAt = blockAddr P)) := by
  rw [overlapStep_eq]
  by_cases h1 : St.Found = true ∧ St.FoundAt = blockAddr P
  · rw [if_pos h1]
    exact Or.inl ⟨rfl, Or.inl rfl⟩
  · rw [if_neg h1]
    by_cases h2 : 1 < (overlapRange P).length ∧ (M.findSymbols P.2).isEmpty = true
    · rw [if_pos h2]
      exact Or.inr ⟨rfl, rfl, rfl, h2.1, List.isEmpty_iff.mp h2.2, h1⟩
    · rw [if_neg h2]
      exact Or.inl ⟨rfl, Or.inr rfl⟩

/-- The symbols that the loop adds over a list of blocks: each is the symbol of one of
the blocks, a block without a symbol of its own and with more than one block in its
range. -/
theorem overlapFold_added (M : Module) (L : List (ByteInterval × Block)) (St : OverlapState) :
    ∃ New, (L.foldl (overlapStep M) St).SymsToAdd = St.SymsToAdd ++ New ∧
      ∀ S ∈ New, ∃ U, ∃ P ∈ L, S = overlapSymbol U P ∧ 1 < (overlapRange P).length ∧
        M.findSymbols P.2 = [] := by
  induction L generalizing St with
  | nil => exact ⟨[], by simp, by simp⟩
  | cons P Ps ih =>
    obtain ⟨New, hNew, hall⟩ := ih (overlapStep M St P)
    rw [List.foldl_cons, hNew]
    rcases overlapStep_cases M St P with ⟨h1, _⟩ | ⟨h1, _, _, h2, h3, _⟩
    · refine ⟨New, by rw [h1], ?_⟩
      intro S hS
      obtain ⟨U, Q, hQ, hrest⟩ := hall S hS
      exact ⟨U, Q, List.mem_cons_of_mem _ hQ, hrest⟩
    · refine ⟨overlapSymbol St.Ctx.nextUUID P :: New, by rw [h1]; simp, ?_⟩
      intro S hS
      rcases List.mem_cons.mp hS with hS | hS
      · exact ⟨St.Ctx.nextUUID, P, List.mem_cons_self _ _, hS, h2, h3⟩
      · obtain ⟨U, Q, hQ, hrest⟩ := hall S hS
        exact ⟨U, Q, List.mem_cons_of_mem _ hQ, hrest⟩

/-- The symbols of the result are the symbols of the module followed by the added ones. -/
theorem addOverlapDisambiguationSymbols_symbols (Ctx : Context) (M : Module) :
    (addOverlapDisambiguationSymbols Ctx M).2.symbols = M.symbols ++ addedSymbols Ctx M := by
  unfold addedSymbols addOverlapDisambiguationSymbols
  simp only [List.drop_left]

theorem addedSymbols_eq (Ctx : Context) (M : Module) :
    addedSymbols Ctx M =
      (M.blocks.foldl (overlapStep M)
        { Found := false, FoundAt := 0, SymsToAdd := [], Ctx := Ctx }).SymsToAdd := by
  unfold addedSymbols addOverlapDisambiguationSymbols
  simp only [List.drop_left]

theorem filter_length_le_of_imp {α : Type} (p q : α → Bool) (h : ∀ a, p a = true → q a = true)
    (l : List α) : (l.filter p).length ≤ (l.filter q).length := by
  induction l with
  | nil => simp
  | cons a as ih =>
    by_cases hp : p a = true
    · simp only [List.filter_cons, hp, h a hp, if_true, List.length_cons]
      omega
    · simp only [Bool.not_eq_true] at hp
      simp only [List.filter_cons, hp, Bool.false_eq_true, if_false]
      split
      · simp only [List.length_cons]
        omega
      · exact ih

/-- When two blocks of the interval start at the address of the block and the end
of the block does not pass `2 ^ 64`, the range that the loop body counts has more
than one block. -/
theorem overlapRange_length (P : ByteInterval × Block)
    (hsame : 2 ≤ (P.1.findBlocksAt (blockAddr P)).length)
    (hwrap : blockAddr P + P.2.size < addrModulus) : 1 < (overlapRange P).length := by
  unfold overlapRange
  split
  · omega
  · rename_i hsize
    rw [add64_eq hwrap]
    unfold ByteInterval.findBlocksAt at hsame
    unfold ByteInterval.findBlocksAtRange
    cases hA : P.1.address with
    | none => rw [hA] at hsame; simp at hsame
    | some A =>
      rw [hA] at hsame
      simp only at hsame ⊢
      refine lt_of_lt_of_le hsame (filter_length_le_of_imp _ _ ?_ _)
      intro B hB
      simp only [decide_eq_true_eq] at hB ⊢
      omega

/-- The loop over blocks none of which is at `X`, entered with the flag not set at `X`:
every symbol added is the symbol of a block at another address, and the flag is
not set at `X` afterwards. -/
theorem overlapFold_before (M : Module) (X : Nat) (L : List (ByteInterval × Block))
    (St : OverlapState) (hL : ∀ Q ∈ L, blockAddr Q ≠ X)
    (hSt : St.Found = true → St.FoundAt ≠ X) :
    ∃ New, (L.foldl (overlapStep M) St).SymsToAdd = St.SymsToAdd ++ New ∧
      (∀ S ∈ New, ∃ U, ∃ Q ∈ L, blockAddr Q ≠ X ∧ S = overlapSymbol U Q) ∧
      ((L.foldl (overlapStep M) St).Found = true →
        (L.foldl (overlapStep M) St).FoundAt ≠ X) := by
  induction L generalizing St with
  | nil => exact ⟨[], by simp, by simp, hSt⟩
  | cons P Ps ih =>
    have hP : blockAddr P ≠ X := hL P (List.mem_cons_self _ _)
    have hPs : ∀ Q ∈ Ps, blockAddr Q ≠ X := fun Q hQ => hL Q (List.mem_cons_of_mem _ hQ)
    have hSt1 : (overlapStep M St P).Found = true → (overlapStep M St P).FoundAt ≠ X := by
      rcases overlapStep_cases M St P with ⟨_, h | h⟩ | ⟨_, _, h, _⟩
      · rw [h]; exact hSt
      · rw [h]; intro hc; exact absurd hc Bool.false_ne_true
      · rw [h]; intro _; exact hP
    obtain ⟨New, hNew, hall, hfin⟩ := ih (overlapStep M St P) hPs hSt1
    rw [List.foldl_cons]
    rcases overlapStep_cases M St P with ⟨h1, _⟩ | ⟨h1, _⟩
    · refine ⟨New, by rw [hNew, h1], ?_, hfin⟩
      intro S hS
      obtain ⟨U, Q, hQ, hrest⟩ := hall S hS
      exact ⟨U, Q, List.mem_cons_of_mem _ hQ, hrest⟩
    · refine ⟨overlapSymbol St.Ctx.nextUUID P :: New, by rw [hNew, h1]; simp, ?_, hfin⟩
      intro S hS
      rcases List.mem_cons.mp hS with hS | hS
      · exact ⟨St.Ctx.nextUUID, P, List.mem_cons_self _ _, hP, hS⟩
      · obtain ⟨U, Q, hQ, hrest⟩ := hall S hS
        exact ⟨U, Q, List.mem_cons_of_mem _ hQ, hrest⟩

/-- The loop over blocks in address order, none below `X`, entered with the flag set
at `X` or with no block at `X` left: every symbol added is the symbol of a block at
another address. -/
theorem overlapFold_after (M : Module) (X : Nat) (L : List (ByteInterval × Block))
    (St : OverlapState) (hsorted : L.Pairwise (fun P Q => blockAddr P ≤ blockAddr Q))
    (hlow : ∀ Q ∈ L, X ≤ blockAddr Q)
    (hSt : (St.Found = true ∧ St.FoundAt = X) ∨ ∀ Q ∈ L, blockAddr Q ≠ X) :
    ∃ New, (L.foldl (overlapStep M) St).SymsToAdd = St.SymsToAdd ++ New ∧
      ∀ S ∈ New, ∃ U, ∃ Q ∈ L, blockAddr Q ≠ X ∧ S = overlapSymbol U Q := by
  induction L generalizing St with
  | nil => exact ⟨[], by simp, by simp⟩
  | cons P Ps ih =>
    rw [List.pairwise_cons] at hsorted
    have hlowPs : ∀ Q ∈ Ps, X ≤ blockAddr Q := fun Q hQ => hlow Q (List.mem_cons_of_mem _ hQ)
    rw [List.foldl_cons]
    by_cases hP : blockAddr P = X
    · have hflag : St.Found = true ∧ St.FoundAt = X := by
        rcases hSt with h | h
        · exact h
        · exact absurd hP (h P (List.mem_cons_self _ _))
      have hstep : overlapStep M St P = St := by
        rw [overlapStep_eq, if_pos ⟨hflag.1, by rw [hflag.2, hP]⟩]
      rw [hstep]
      obtain ⟨New, hNew, hall⟩ := ih St hsorted.2 hlowPs (Or.inl hflag)
      refine ⟨New, hNew, ?_⟩
      intro S hS
      obtain ⟨U, Q, hQ, hrest⟩ := hall S hS
      exact ⟨U, Q, List.mem_cons_of_mem _ hQ, hrest⟩
    · have hgt : X < blockAddr P :=
        lt_of_le_of_ne (hlow P (List.mem_cons_self _ _)) (Ne.symm hP)
      have hPs : ∀ Q ∈ Ps, blockAddr Q ≠ X := by
        intro Q hQ
        have := hsorted.1 Q hQ
        omega
      obtain ⟨New, hNew, hall⟩ := ih (overlapStep M St P) hsorted.2 hlowPs (Or.inr hPs)
      rcases overlapStep_cases M St P with ⟨h1, _⟩ | ⟨h1, _⟩
      · refine ⟨New, by rw [hNew, h1], ?_⟩
        intro S hS
        obtain ⟨U, Q, hQ, hrest⟩ := hall S hS
        exact ⟨U, Q, List.mem_cons_of_mem _ hQ, hrest⟩
      · refine ⟨overlapSymbol St.Ctx.nextUUID P :: New, by rw [hNew, h1]; simp, ?_⟩
        intro S hS
        rcases List.mem_cons.mp hS with hS | hS
        · exact ⟨St.Ctx.nextUUID, P, List.mem_cons_self _ _, hP, hS⟩
        · obtain ⟨U, Q, hQ, hrest⟩ := hall S hS
          exact ⟨U, Q, List.mem_cons_of_mem _ hQ, hrest⟩

/-- The blocks of a module are iterated in address order. -/
theorem blocks_sorted (M : Module) :
    M.blocks.Pairwise (fun P Q => blockAddr P ≤ blockAddr Q) := by
  haveI : IsTotal (ByteInterval × Block) (fun P Q => blockAddr P ≤ blockAddr Q) :=
    ⟨fun a b => Nat.le_total _ _⟩
  haveI : IsTrans (ByteInterval × Block) (fun P Q => blockAddr P ≤ blockAddr Q) :=
    ⟨fun a b c hab hbc => Nat.le_trans hab hbc⟩
  exact List.sorted_insertionSort (fun P Q => blockAddr P ≤ blockAddr Q) (allBlocks M.sections)

/-! ## addOverlapDisambiguationSymbols: one symbol for an address -/

/-- C15, amended.  Let `P1` be the first block at address `X` in the block
iteration order of the module.  If two or more blocks of the byte interval of `P1`
start at `X`, no block at `X` has an attached symbol, and the end `X + size` of `P1`
is below `2 ^ 64`, then `addOverlapDisambiguationSymbols` adds exactly one symbol for
`X`: the symbols of the result are those of the module, then added symbols `As`, the
symbol `S`, and added symbols `Bs`, where `S` has `P1` as its referent and the name made
from `X`, and every symbol of `As` and `Bs` was made for a block at another address. -/
theorem addOverlapDisambiguationSymbols_one_for_address (Ctx : Context) (M : Module) (X : Nat)
    (Pre Rest : List (ByteInterval × Block)) (P1 : ByteInterval × Block)
    (hsplit : M.blocks = Pre ++ P1 :: Rest) (hpre : ∀ Q ∈ Pre, blockAddr Q ≠ X)
    (hP1 : blockAddr P1 = X) (hsame : 2 ≤ (P1.1.findBlocksAt X).length)
    (hnosym : ∀ Q ∈ M.blocks, blockAddr Q = X → M.findSymbols Q.2 = [])
    (hwrap : X + P1.2.size < addrModulus) :
    ∃ As S Bs, (addOverlapDisambiguationSymbols Ctx M).2.symbols = M.symbols ++ As ++ S :: Bs ∧
      S.payload = SymbolPayload.referent P1.2.uuid ∧ S.name = overlapSymbolName X ∧
      ∀ T ∈ As ++ Bs, ∃ Q ∈ M.blocks, blockAddr Q ≠ X ∧
        T.payload = SymbolPayload.referent Q.2.uuid ∧
        T.name = overlapSymbolName (blockAddr Q) := by
  have hsorted := blocks_sorted M
  rw [hsplit] at hsorted
  obtain ⟨_, hsorted1, _⟩ := List.pairwise_append.mp hsorted
  rw [List.pairwise_cons] at hsorted1
  obtain ⟨As, hAs, hAsall, hflag⟩ := overlapFold_before M X Pre
    { Found := false, FoundAt := 0, SymsToAdd := [], Ctx := Ctx } hpre
    (fun h => absurd h Bool.false_ne_true)
  have hP1mem : P1 ∈ M.blocks := by rw [hsplit]; simp
  have hstep : (overlapStep M (Pre.foldl (overlapStep M)
        { Found := false, FoundAt := 0, SymsToAdd := [], Ctx := Ctx }) P1).SymsToAdd =
      (Pre.foldl (overlapStep M)
        { Found := false, FoundAt := 0, SymsToAdd := [], Ctx := Ctx }).SymsToAdd ++
        [overlapSymbol (Pre.foldl (overlapStep M)
          { Found := false, FoundAt := 0, SymsToAdd := [], Ctx := Ctx }).Ctx.nextUUID P1] ∧
      (overlapStep M (Pre.foldl (overlapStep M)
        { Found := false, FoundAt := 0, SymsToAdd := [], Ctx := Ctx }) P1).Found = true ∧
      (overlapStep M (Pre.foldl (overlapStep M)
        { Found := false, FoundAt := 0, SymsToAdd := [], Ctx := Ctx }) P1).FoundAt = X := by
    rw [overlapStep_eq]
    have hnot : ¬ ((Pre.foldl (overlapStep M)
        { Found := false, FoundAt := 0, SymsToAdd := [], Ctx := Ctx }).Found = true ∧
        (Pre.foldl (overlapStep M)
        { Found := false, FoundAt := 0, SymsToAdd := [], Ctx := Ctx }).FoundAt = blockAddr P1) := by
      rintro ⟨h1, h2⟩
      rw [hP1] at h2
      exact hflag h1 h2
    rw [if_neg hnot]
    have hrange : 1 < (overlapRange P1).length :=
      overlapRange_length P1 (by rw [hP1]; exact hsame) (by rw [hP1]; exact hwrap)
    have hempty : (M.findSymbols P1.2).isEmpty = true := by
      rw [hnosym P1 hP1mem hP1]
      rfl
    rw [if_pos ⟨hrange, hempty⟩]
    exact ⟨rfl, rfl, hP1⟩
  obtain ⟨Bs, hBs, hBsall⟩ := overlapFold_after M X Rest
    (overlapStep M (Pre.foldl (overlapStep M)
      { Found := false, FoundAt := 0, SymsToAdd := [], Ctx := Ctx }) P1)
    hsorted1.2 (fun Q hQ => by rw [← hP1]; exact hsorted1.1 Q hQ)
    (Or.inl ⟨hstep.2.1, hstep.2.2⟩)
  refine ⟨As, overlapSymbol (Pre.foldl (overlapStep M)
      { Found := false, FoundAt := 0, SymsToAdd := [], Ctx := Ctx }).Ctx.nextUUID P1, Bs,
    ?_, rfl, by rw [← hP1]; rfl, ?_⟩
  · unfold addOverlapDisambiguationSymbols
    simp only
    rw [hsplit, List.foldl_append, List.foldl_cons, hBs, hstep.1, hAs]
    simp
  · intro T hT
    rcases List.mem_append.mp hT with hT | hT
    · obtain ⟨U, Q, hQ, hne, hS⟩ := hAsall T hT
      refine ⟨Q, by rw [hsplit]; simp [hQ], hne, ?_, ?_⟩ <;> rw [hS] <;> rfl
    · obtain ⟨U, Q, hQ, hne, hS⟩ := hBsall T hT
      refine ⟨Q, by rw [hsplit]; simp [hQ], hne, ?_, ?_⟩ <;> rw [hS] <;> rfl

/-- Scenario C: exactly one symbol is added, for the code block `c`, which iterates
first, with the name made from `0x2000`. -/
theorem addOverlapDisambiguationSymbols_one_for_address_witness :
    ∃ As S Bs, (addOverlapDisambiguationSymbols { nextUUID := 1000 } scenarioC).2.symbols =
        scenarioC.symbols ++ As ++ S :: Bs ∧
      S.payload = SymbolPayload.referent 100 ∧ S.name = overlapSymbolName 0x2000 ∧
      ∀ T ∈ As ++ Bs, ∃ Q ∈ scenarioC.blocks, blockAddr Q ≠ 0x2000 ∧
        T.payload = SymbolPayload.referent Q.2.uuid ∧
        T.name = overlapSymbolName (blockAddr Q) :=
  addOverlapDisambiguationSymbols_one_for_address { nextUUID := 1000 } scenarioC 0x2000 []
    [({ uuid := 10, address := some 0x2000, size := 8, bytes := [0, 0, 0, 0, 0, 0, 0, 0],
        blocks := [{ uuid := 100, kind := BlockKind.code, offset := 0, size := 8 },
                   { uuid := 101, kind := BlockKind.data, offset := 0, size := 8 }],
        symbolicExpressions := [] },
      { uuid := 101, kind := BlockKind.data, offset := 0, size := 8 })]
    ({ uuid := 10, address := some 0x2000, size := 8, bytes := [0, 0, 0, 0, 0, 0, 0, 0],
       blocks := [{ uuid := 100, kind := BlockKind.code, offset := 0, size := 8 },
                  { uuid := 101, kind := BlockKind.data, offset := 0, size := 8 }],
       symbolicExpressions := [] },
     { uuid := 100, kind := BlockKind.code, offset := 0, size := 8 })
    (by decide) (by decide) (by decide) (by decide) (by decide) (by decide)

/-- Scenario C in full: what `addOverlapDisambiguationSymbols` returns for it. -/
theorem scenarioC_symbols :
    addOverlapDisambiguationSymbols { nextUUID := 1000 } scenarioC =
      ({ nextUUID := 1001 },
       { sections := scenarioC.sections,
         symbols := [{ uuid := 1000, name := ".gtirb_layout_8192",
                       payload := SymbolPayload.referent 100 }] }) := by
  decide

/-- C15, as stated, fails.  In `adjacentIntervalsModule` the blocks 101 and 102 both
start at address 4 and the module has no symbol, but they lie in different byte
intervals, and the loop body counts the blocks of the interval of the block at hand
only: each is alone in its range and no symbol is added. -/
theorem addOverlapDisambiguationSymbols_misses_shared_address :
    (∃ P ∈ adjacentIntervalsModule.blocks, ∃ Q ∈ adjacentIntervalsModule.blocks,
        P.2.uuid = 101 ∧ Q.2.uuid = 102 ∧ blockAddr P = 4 ∧ blockAddr Q = 4) ∧
      adjacentIntervalsModule.symbols = [] ∧
      (addOverlapDisambiguationSymbols { nextUUID := 1000 }
        adjacentIntervalsModule).2.symbols = [] := by
  decide

/-- The end `Addr + Size` of the range is computed modulo `2 ^ 64`.  For the two
blocks of `topOfMemoryModule`, which start at `2 ^ 64 - 8` and have size 8, it
is 0: the range holds no block and no symbol is added. -/
theorem overlapRange_top_of_memory :
    (∀ P ∈ topOfMemoryModule.blocks, blockAddr P = 2 ^ 64 - 8 ∧ overlapRange P = []) ∧
      (addOverlapDisambiguationSymbols { nextUUID := 1000 }
        topOfMemoryModule).2.symbols = [] := by
  decide

/-! ## addOverlapDisambiguationSymbols: which blocks receive a symbol -/

/-- The added symbols are what follows the symbols of the module in the result. -/
theorem addedSymbols_of_append (Ctx : Context) (M : Module) (New : List Symbol)
    (hNew : (addOverlapDisambiguationSymbols Ctx M).2.symbols = M.symbols ++ New) :
    New = addedSymbols Ctx M := by
  rw [addOverlapDisambiguationSymbols_symbols] at hNew
  exact (List.append_cancel_left hNew).symm

/-- Every added symbol is the symbol of a block of the module that has no symbol of
its own and more than one block in its range. -/
theorem addedSymbols_spec (Ctx : Context) (M : Module) (S : Symbol)
    (hS : S ∈ addedSymbols Ctx M) :
    ∃ U, ∃ P ∈ M.blocks, S = overlapSymbol U P ∧ 1 < (overlapRange P).length ∧
      M.findSymbols P.2 = [] := by
  rw [addedSymbols_eq] at hS
  obtain ⟨New, hNew, hall⟩ := overlapFold_added M M.blocks
    { Found := false, FoundAt := 0, SymsToAdd := [], Ctx := Ctx }
  rw [hNew] at hS
  simp only [List.nil_append] at hS
  exact hall S hS

/-- C16, amended: `addOverlapDisambiguationSymbols` synthesizes a symbol only for a block
that has no attached symbol itself.  If the block `B` has a symbol before the call, no
symbol `S` among the added symbols `New` has `B` as its referent. -/
theorem addOverlapDisambiguationSymbols_only_bare_blocks (Ctx : Context) (M : Module)
    (New : List Symbol) (B : Block) (S : Symbol)
    (hNew : (addOverlapDisambiguationSymbols Ctx M).2.symbols = M.symbols ++ New)
    (hB : M.findSymbols B ≠ []) (hS : S ∈ New) :
    S.payload ≠ SymbolPayload.referent B.uuid := by
  intro hpay
  rw [addedSymbols_of_append Ctx M New hNew] at hS
  obtain ⟨U, P, _, hSP, _, hnone⟩ := addedSymbols_spec Ctx M S hS
  rw [hSP] at hpay
  simp only [overlapSymbol, SymbolPayload.referent.injEq] at hpay
  apply hB
  unfold Module.findSymbols at hnone ⊢
  rw [← hpay]
  exact hnone

/-- In `scenarioCWithSymbol` the code block `c` has a symbol, and the one symbol that is
added does not refer to `c`. -/
theorem addOverlapDisambiguationSymbols_only_bare_blocks_witness :
    (addOverlapDisambiguationSymbols { nextUUID := 1000 } scenarioCWithSymbol).2.symbols =
        scenarioCWithSymbol.symbols ++
          [{ uuid := 1000, name := ".gtirb_layout_8192",
             payload := SymbolPayload.referent 101 }] ∧
      SymbolPayload.referent 101 ≠ SymbolPayload.referent 100 :=
  ⟨by decide,
   addOverlapDisambiguationSymbols_only_bare_blocks { nextUUID := 1000 } scenarioCWithSymbol
    [{ uuid := 1000, name := ".gtirb_layout_8192", payload := SymbolPayload.referent 101 }]
    { uuid := 100, kind := BlockKind.code, offset := 0, size := 8 }
    { uuid := 1000, name := ".gtirb_layout_8192", payload := SymbolPayload.referent 101 }
    (by decide) (by decide) (by decide)⟩

/-- C16, as stated, fails.  In `scenarioCWithSymbol` the blocks `c` and `d` start at
`0x2000` and `c` has the symbol `c` before the call; the loop body asks whether the
block at hand has a symbol, not whether a block at its address has one, and a new
symbol is added for `d`. -/
theorem addOverlapDisambiguationSymbols_adds_beside_symbol :
    (∃ P ∈ scenarioCWithSymbol.blocks, ∃ Q ∈ scenarioCWithSymbol.blocks,
        P.2.uuid = 100 ∧ Q.2.uuid = 101 ∧ blockAddr P = 0x2000 ∧ blockAddr Q = 0x2000 ∧
        scenarioCWithSymbol.findSymbols P.2 ≠ []) ∧
      (addOverlapDisambiguationSymbols { nextUUID := 1000 } scenarioCWithSymbol).2.symbols =
        [{ uuid := 200, name := "c", payload := SymbolPayload.referent 100 },
         { uuid := 1000, name := ".gtirb_layout_8192",
           payload := SymbolPayload.referent 101 }] := by
  decide

/-! ## addOverlapDisambiguationSymbols: the names -/

/-- C17: every symbol `S` among the symbols `New` that `addOverlapDisambiguationSymbols`
adds has a block of the module as its referent, the interval of that block has an
address, the address of the block is below `2 ^ 64`, and the name of `S` is the prefix `.gtirb_layout_` followed by the decimal
digits of that address, so the name is a function of the address alone. -/
theorem addOverlapDisambiguationSymbols_name (Ctx : Context) (M : Module)
    (New : List Symbol) (S : Symbol)
    (hNew : (addOverlapDisambiguationSymbols Ctx M).2.symbols = M.symbols ++ New)
    (hS : S ∈ New) :
    ∃ P ∈ M.blocks, ∃ Ab, S.payload = SymbolPayload.referent P.2.uuid ∧
      P.1.address = some Ab ∧ blockAddr P = add64 Ab P.2.offset ∧
      blockAddr P < addrModulus ∧
      S.name = ".gtirb_layout_" ++ String.mk (Nat.toDigits 10 (blockAddr P)) := by
  rw [addedSymbols_of_append Ctx M New hNew] at hS
  obtain ⟨U, P, hP, hSP, hrange, _⟩ := addedSymbols_spec Ctx M S hS
  cases hAb : P.1.address with
  | none =>
    unfold overlapRange ByteInterval.findBlocksAt ByteInterval.findBlocksAtRange at hrange
    rw [hAb] at hrange
    simp at hrange
  | some Ab =>
    refine ⟨P, hP, Ab, by rw [hSP]; rfl, hAb, ?_, add64_lt _ _, ?_⟩
    · unfold blockAddr blockAddress
      rw [hAb]
      rfl
    · rw [hSP]
      rfl

/-- Scenario C: the symbol added for the block at `0x2000` is named
`.gtirb_layout_8192`. -/
theorem addOverlapDisambiguationSymbols_name_witness :
    ∃ P ∈ scenarioC.blocks, ∃ Ab,
      SymbolPayload.referent 100 = SymbolPayload.referent P.2.uuid ∧
      P.1.address = some Ab ∧ blockAddr P = add64 Ab P.2.offset ∧
      blockAddr P < addrModulus ∧
      ".gtirb_layout_8192" = ".gtirb_layout_" ++ String.mk (Nat.toDigits 10 (blockAddr P)) :=
  addOverlapDisambiguationSymbols_name { nextUUID := 1000 } scenarioC
    [{ uuid := 1000, name := ".gtirb_layout_8192", payload := SymbolPayload.referent 100 }]
    { uuid := 1000, name := ".gtirb_layout_8192", payload := SymbolPayload.referent 100 }
    (by decide) (by decide)

/-! ## layoutModule and the composition of its four steps -/

/-- The loop of `layoutModule` against merging first and assigning addresses
afterwards: the flags agree, on success the sections agree, and in every case the
sections agree once the addresses are cleared. -/
theorem layoutSections_mergeSections (Cfg : List Edge) (A : Nat) (Ss : List Section) :
    (layoutSections Cfg A Ss).1 = (mergeSections Cfg Ss).1 ∧
      ((mergeSections Cfg Ss).1 = true →
        (layoutSections Cfg A Ss).2 = assignSections A (mergeSections Cfg Ss).2) ∧
      (layoutSections Cfg A Ss).2.map Section.clearAddresses =
        (mergeSections Cfg Ss).2.map Section.clearAddresses := by
  induction Ss generalizing A with
  | nil => exact ⟨rfl, fun _ => rfl, rfl⟩
  | cons S Ss ih =>
    simp only [layoutSections, mergeSections]
    cases hm : findAndMergeBIs Cfg S with
    | mk b S1 =>
      cases b with
      | false => exact ⟨rfl, fun h => absurd h Bool.false_ne_true, rfl⟩
      | true =>
        obtain ⟨h1, h2, h3⟩ := ih (assignAddresses A S1.byteIntervals).1
        refine ⟨h1, ?_, ?_⟩
        · intro hok
          simp only at hok
          simp only [assignSections, h2 hok]
        · simp only [List.map_cons, h3, Section.clearAddresses,
            assignAddresses_map_setAddress]

theorem removeModuleLayout_eq (M : Module) :
    removeModuleLayout M = (true, { M with sections := M.sections.map Section.clearAddresses }) :=
  rfl

/-- C18, amended.  `layoutModule` and the sequential composition
`layoutModuleComposed` return the same flag; when the flag is `true` they leave the same
context and the same module; and in every case they leave the same context and, once
the addresses of the intervals are cleared, the same module. -/
theorem layoutModule_composition (Cfg : List Edge) (Ctx : Context) (M : Module) :
    (layoutModule Cfg Ctx M).1 = (layoutModuleComposed Cfg Ctx M).1 ∧
      ((layoutModule Cfg Ctx M).1 = true →
        layoutModule Cfg Ctx M = layoutModuleComposed Cfg Ctx M) ∧
      (layoutModule Cfg Ctx M).2.1 = (layoutModuleComposed Cfg Ctx M).2.1 ∧
      removeModuleLayout (layoutModule Cfg Ctx M).2.2 =
        removeModuleLayout (layoutModuleComposed Cfg Ctx M).2.2 := by
  obtain ⟨h1, h2, h3⟩ := layoutSections_mergeSections Cfg 0 (fixIntegralSymbols Ctx M).2.sections
  unfold layoutModule layoutModuleComposed
  simp only
  cases hl : layoutSections Cfg 0 (fixIntegralSymbols Ctx M).2.sections with
  | mk b Secs =>
    cases hm : mergeSections Cfg (fixIntegralSymbols Ctx M).2.sections with
    | mk b1 Secs1 =>
      rw [hl, hm] at h1 h3
      rw [hl, hm] at h2
      simp only at h1 h2 h3
      subst h1
      cases b with
      | false =>
        refine ⟨rfl, fun h => absurd h Bool.false_ne_true, rfl, ?_⟩
        simp only [removeModuleLayout_eq, h3]
      | true =>
        have hSecs := h2 rfl
        subst hSecs
        exact ⟨rfl, fun _ => rfl, rfl, rfl⟩

/-- Scenario A, where the layout succeeds: the code and the composition agree. -/
theorem layoutModule_composition_witness :
    layoutModule scenarioACfg { nextUUID := 1000 } scenarioA =
      layoutModuleComposed scenarioACfg { nextUUID := 1000 } scenarioA :=
  (layoutModule_composition scenarioACfg { nextUUID := 1000 } scenarioA).2.1 (by decide)

/-- C18, as stated, fails.  With the edge of `backwardEdgeCfg` the merging of the second
section of `crossSectionModule` fails.  `layoutModule` has by then given the interval
of the first section the address 0; the composition merges every section before it
assigns an address and leaves that interval without one.  Both return `false`. -/
theorem layoutModule_differs_from_composition :
    (layoutModule backwardEdgeCfg { nextUUID := 1000 } crossSectionModule).1 = false ∧
      (layoutModuleComposed backwardEdgeCfg { nextUUID := 1000 } crossSectionModule).1 = false ∧
      (layoutModule backwardEdgeCfg { nextUUID := 1000 }
          crossSectionModule).2.2.sections.map
        (fun S : Section => S.byteIntervals.map (fun BI : ByteInterval => BI.address)) =
          [[some 0], [none]] ∧
      (layoutModuleComposed backwardEdgeCfg { nextUUID := 1000 }
          crossSectionModule).2.2.sections.map
        (fun S : Section => S.byteIntervals.map (fun BI : ByteInterval => BI.address)) =
          [[none], [none]] := by
  decide

/-! ## What the layout keeps -/

theorem forall₂_map_right {α : Type} (R : α → α → Prop) (f : α → α) (h : ∀ x, R x (f x))
    (l : List α) : List.Forall₂ R l (l.map f) := by
  induction l with
  | nil => exact List.Forall₂.nil
  | cons x xs ih => exact List.Forall₂.cons (h x) ih

/-- C20: `removeModuleLayout` returns `true` and leaves every byte interval of the module
without an address.  The symbols are unchanged, and the sections are the same sections
in the same order, each with the same intervals in the same order, and every interval
has its UUID, size, bytes, blocks and symbolic expressions as before: nothing but the
addresses is changed, so no merge and no added symbol is undone. -/
theorem removeModuleLayout_clears_addresses_only (M : Module) :
    (removeModuleLayout M).1 = true ∧
      (∀ BI ∈ intervalsOf (removeModuleLayout M).2.sections, BI.address = none) ∧
      (removeModuleLayout M).2.symbols = M.symbols ∧
      List.Forall₂
        (fun S S1 : Section => S1.uuid = S.uuid ∧ S1.name = S.name ∧
          List.Forall₂
            (fun BI BI1 : ByteInterval => BI1.uuid = BI.uuid ∧ BI1.size = BI.size ∧
              BI1.bytes = BI.bytes ∧ BI1.blocks = BI.blocks ∧
              BI1.symbolicExpressions = BI.symbolicExpressions)
            S.byteIntervals S1.byteIntervals)
        M.sections (removeModuleLayout M).2.sections := by
  refine ⟨rfl, ?_, rfl, ?_⟩
  · intro BI hBI
    simp only [removeModuleLayout, intervalsOf, List.map_map, List.mem_flatten, List.mem_map,
      Function.comp_apply] at hBI
    obtain ⟨l, ⟨S, _, hl⟩, hBIl⟩ := hBI
    rw [← hl] at hBIl
    simp only [List.mem_map] at hBIl
    obtain ⟨BI0, _, hBI0⟩ := hBIl
    rw [← hBI0]
    rfl
  · unfold removeModuleLayout
    simp only
    apply forall₂_map_right
    intro S
    refine ⟨rfl, rfl, ?_⟩
    apply forall₂_map_right
    intro BI
    exact ⟨rfl, rfl, rfl, rfl, rfl⟩

/-- The laid-out scenario A after `removeModuleLayout`: the merged interval of 10 bytes
stays one interval, with both blocks, and has no address. -/
theorem removeModuleLayout_scenarioA :
    removeModuleLayout scenarioALaidOut =
      (true,
       { sections := [
           { uuid := 1, name := ".text", byteIntervals := [
               { uuid := 10, address := none, size := 10,
                 bytes := [1, 2, 3, 4, 5, 6, 7, 8, 9, 10],
                 blocks := [{ uuid := 100, kind := BlockKind.code, offset := 0, size := 4 },
                            { uuid := 101, kind := BlockKind.code, offset := 4, size := 6 }],
                 symbolicExpressions := [] }] }],
         symbols := [] }) := by
  decide

/-! ## What fixIntegralSymbols finds at one address while the loop runs -/

theorem addressesIn64_lt (Syms : List Symbol) (h : addressesIn64 Syms) (S : Symbol)
    (hS : S ∈ Syms) (A : Nat) (hA : S.payload = SymbolPayload.address A) : A < addrModulus := by
  have := h S hS
  unfold Symbol.addressIn64 at this
  rw [hA] at this
  simpa using this

theorem add64_sub64 (a b : Nat) : add64 b (sub64 a b) = a % addrModulus := by
  unfold add64 sub64 addrModulus
  omega

theorem filter_insertBlock_neg (p : Block → Bool) (N : Block) (l : List Block)
    (h : p N = false) : (insertBlock N l).filter p = l.filter p := by
  induction l with
  | nil => simp [insertBlock, h]
  | cons X Xs ih =>
    simp only [insertBlock]
    split
    · simp only [List.filter_cons, h, Bool.false_eq_true, if_false]
    · simp only [List.filter_cons, ih]

theorem filter_insertBlock_pos (p : Block → Bool) (N : Block) (l : List Block)
    (h : p N = true) (hl : l.filter p = []) : (insertBlock N l).filter p = [N] := by
  induction l with
  | nil => simp [insertBlock, h]
  | cons X Xs ih =>
    have hX : p X = false := by
      by_contra hc
      simp only [Bool.not_eq_false] at hc
      simp [List.filter_cons, hc] at hl
    have hXs : Xs.filter p = [] := by
      simpa [List.filter_cons, hX] using hl
    simp only [insertBlock]
    split
    · simp only [List.filter_cons, h, hX, if_true, Bool.false_eq_true, if_false, hXs]
    · simp only [List.filter_cons, hX, Bool.false_eq_true, if_false, ih hXs]

theorem withBlock_withoutBlocks (BI1 : ByteInterval) (N : Block) :
    (BI1.withBlock N).withoutBlocks = BI1.withoutBlocks := rfl

theorem withBlock_findBlocksAt_ne (BI1 : ByteInterval) (N : Block) (X : Nat)
    (h : ∀ Ab1, BI1.address = some Ab1 → blockAddress Ab1 N ≠ X) :
    (BI1.withBlock N).findBlocksAt X = BI1.findBlocksAt X := by
  unfold ByteInterval.findBlocksAt ByteInterval.withBlock
  simp only
  cases hA : BI1.address with
  | none => rfl
  | some Ab1 =>
    simp only
    apply filter_insertBlock_neg
    simp only [decide_eq_false_iff_not]
    exact h Ab1 hA

theorem withBlock_findBlocksAt_eq (BI1 : ByteInterval) (N : Block) (X Ab1 : Nat)
    (hA : BI1.address = some Ab1) (h : blockAddress Ab1 N = X)
    (hnone : BI1.findBlocksAt X = []) : (BI1.withBlock N).findBlocksAt X = [N] := by
  unfold ByteInterval.findBlocksAt ByteInterval.withBlock at *
  simp only [hA] at hnone ⊢
  apply filter_insertBlock_pos _ _ _ _ hnone
  simp only [decide_eq_true_eq]
  exact h

theorem withBlock_findBlocksOn_zero (BI1 : ByteInterval) (N : Block) (X : Nat)
    (h : N.size = 0) : (BI1.withBlock N).findBlocksOn X = BI1.findBlocksOn X := by
  unfold ByteInterval.findBlocksOn ByteInterval.withBlock
  simp only
  cases hA : BI1.address with
  | none => rfl
  | some Ab1 =>
    simp only
    apply filter_insertBlock_neg
    simp only [decide_eq_false_iff_not, h]
    omega

/-- Adding a zero-length block that starts at another address keeps the view at `A`. -/
theorem keepsViewAt_withBlock (A : Nat) (Nf : ByteInterval → Block)
    (hsize : ∀ BI1, (Nf BI1).size = 0)
    (haddr : ∀ BI1 Ab1, BI1.address = some Ab1 → blockAddress Ab1 (Nf BI1) ≠ A) :
    keepsViewAt A (fun BI1 => BI1.withBlock (Nf BI1)) := by
  intro BI1
  exact ⟨rfl, withBlock_findBlocksAt_ne BI1 _ A (haddr BI1),
    withBlock_findBlocksOn_zero BI1 _ A (hsize BI1)⟩

theorem find?_modifyFirst_other {α : Type} (c d : α → Bool) (F : α → α)
    (hF : ∀ x, c (F x) = c x) (l : List α) :
    (l.find? c = none → (modifyFirst d F l).find? c = none) ∧
      (∀ x, l.find? c = some x →
        (modifyFirst d F l).find? c = some x ∨ (modifyFirst d F l).find? c = some (F x)) := by
  induction l with
  | nil => simp [modifyFirst]
  | cons Y Ys ih =>
    simp only [modifyFirst]
    by_cases hd : d Y = true
    · simp only [hd, if_true]
      by_cases hc : c Y = true
      · have hcF : c (F Y) = true := by rw [hF]; exact hc
        simp only [List.find?_cons, hc, hcF, reduceCtorEq, false_implies, Option.some.injEq,
          true_and]
        intro x hx
        subst hx
        exact Or.inr rfl
      · simp only [Bool.not_eq_true] at hc
        have hcF : c (F Y) = false := by rw [hF]; exact hc
        simp only [List.find?_cons, hc, hcF]
        exact ⟨fun h => h, fun x hx => Or.inl hx⟩
    · simp only [hd, Bool.false_eq_true, if_false]
      by_cases hc : c Y = true
      · simp only [List.find?_cons, hc, reduceCtorEq, false_implies, Option.some.injEq,
          true_and]
        intro x hx
        exact Or.inl hx
      · simp only [Bool.not_eq_true] at hc
        simp only [List.find?_cons, hc]
        exact ih

theorem find?_modifyFirst_same {α : Type} (c : α → Bool) (F : α → α)
    (hF : ∀ x, c (F x) = c x) (l : List α) (x : α) (h : l.find? c = some x) :
    (modifyFirst c F l).find? c = some (F x) := by
  induction l with
  | nil => simp at h
  | cons Y Ys ih =>
    simp only [modifyFirst]
    by_cases hc : c Y = true
    · have hcF : c (F Y) = true := by rw [hF]; exact hc
      simp only [List.find?_cons, hc, Option.some.injEq] at h
      subst h
      simp only [hc, if_true, List.find?_cons, hcF]
    · simp only [Bool.not_eq_true] at hc
      simp only [List.find?_cons, hc] at h
      simp only [hc, Bool.false_eq_true, if_false, List.find?_cons, ih h]

theorem findByteIntervalOn_modify_other (A X : Nat) (F : ByteInterval → ByteInterval)
    (hF : ∀ BI1, (F BI1).withoutBlocks = BI1.withoutBlocks) (Secs : List Section) :
    (findByteIntervalOn A Secs = none →
        findByteIntervalOn A (modifyByteIntervalOn X F Secs) = none) ∧
      (∀ BI, findByteIntervalOn A Secs = some BI →
        findByteIntervalOn A (modifyByteIntervalOn X F Secs) = some BI ∨
          findByteIntervalOn A (modifyByteIntervalOn X F Secs) = some (F BI)) := by
  have hc : ∀ BI1 : ByteInterval, (F BI1).containsAddr A = BI1.containsAddr A :=
    fun BI1 => containsAddr_of_withoutBlocks BI1 (F BI1) (hF BI1) A
  induction Secs with
  | nil => simp [modifyByteIntervalOn, findByteIntervalOn]
  | cons S Ss ih =>
    simp only [modifyByteIntervalOn]
    split
    · obtain ⟨h1, h2⟩ := find?_modifyFirst_other (fun BI : ByteInterval => BI.containsAddr A)
        (fun BI : ByteInterval => BI.containsAddr X) F hc S.byteIntervals
      simp only [findByteIntervalOn]
      cases hf : S.byteIntervals.find? (fun BI => BI.containsAddr A) with
      | none =>
        rw [h1 hf]
        exact ⟨fun h => h, fun BI h => Or.inl h⟩
      | some BI0 =>
        simp only [reduceCtorEq, false_implies, Option.some.injEq, true_and]
        intro BI hBI
        subst hBI
        rcases h2 BI0 hf with h | h
        · rw [h]; exact Or.inl rfl
        · rw [h]; exact Or.inr rfl
    · simp only [findByteIntervalOn]
      cases hf : S.byteIntervals.find? (fun BI => BI.containsAddr A) with
      | none => exact ih
      | some BI0 =>
        simp only [reduceCtorEq, false_implies, Option.some.injEq, true_and]
        intro BI hBI
        exact Or.inl hBI

theorem findByteIntervalOn_modify_same (A : Nat) (F : ByteInterval → ByteInterval)
    (hF : ∀ BI1, (F BI1).withoutBlocks = BI1.withoutBlocks) (Secs : List Section)
    (BI : ByteInterval) (h : findByteIntervalOn A Secs = some BI) :
    findByteIntervalOn A (modifyByteIntervalOn A F Secs) = some (F BI) := by
  have hc : ∀ BI1 : ByteInterval, (F BI1).containsAddr A = BI1.containsAddr A :=
    fun BI1 => containsAddr_of_withoutBlocks BI1 (F BI1) (hF BI1) A
  induction Secs with
  | nil => simp [findByteIntervalOn] at h
  | cons S Ss ih =>
    simp only [modifyByteIntervalOn, any_eq_find?_isSome]
    simp only [findByteIntervalOn] at h
    cases hf : S.byteIntervals.find? (fun BI => BI.containsAddr A) with
    | none =>
      rw [hf] at h
      simp only [Option.isSome_none, Bool.false_eq_true, if_false, findByteIntervalOn, hf]
      exact ih h
    | some BI0 =>
      rw [hf] at h
      simp only [Option.some.injEq] at h
      subst h
      simp only [Option.isSome_some, if_true, findByteIntervalOn]
      rw [find?_modifyFirst_same (fun BI : ByteInterval => BI.containsAddr A) F hc _ _ hf]

/-- An update in place that keeps the view at `A` in every interval keeps it in the
sections. -/
theorem viewAt_modify (A X : Nat) (BI0 : ByteInterval) (L : List Block)
    (F : ByteInterval → ByteInterval) (hF : keepsViewAt A F) (Secs : List Section)
    (h : viewAt A BI0 L Secs) : viewAt A BI0 L (modifyByteIntervalOn X F Secs) := by
  obtain ⟨BI1, hfind, hwo, hon, hat⟩ := h
  rcases (findByteIntervalOn_modify_other A X F (fun B => (hF B).1) Secs).2 BI1 hfind with h | h
  · exact ⟨BI1, h, hwo, hon, hat⟩
  · obtain ⟨h1, h2, h3⟩ := hF BI1
    exact ⟨F BI1, h, h1.trans hwo, h3.trans hon, h2.trans hat⟩

theorem keepsViewAt_addNewBlock (A A1 : Nat) (hne : A1 % addrModulus ≠ A) (Ctx : Context)
    (k : ByteInterval → BlockKind) :
    keepsViewAt A (fun BI1 =>
      (BI1.addNewBlock Ctx (k BI1) (sub64 A1 (BI1.address.getD 0))).2.1) := by
  apply keepsViewAt_withBlock A
    (fun BI1 => { uuid := Ctx.nextUUID, kind := k BI1,
                  offset := sub64 A1 (BI1.address.getD 0), size := 0 })
  · intro BI1
    rfl
  · intro BI1 Ab1 hAb1
    simp only [blockAddress, hAb1, Option.getD_some, add64_sub64]
    exact hne

theorem keepsViewAt_resolveInInterval (A A1 : Nat) (hne : A1 % addrModulus ≠ A)
    (Ctx : Context) : keepsViewAt A (fun BI1 => (resolveInInterval Ctx BI1 A1).2.1) := by
  intro BI1
  simp only
  unfold resolveInInterval
  cases (BI1.findBlocksAt A1).head? with
  | some ExactMatch => exact ⟨rfl, rfl, rfl⟩
  | none =>
    cases (BI1.findBlocksOn A1).head? with
    | some ApproxMatch =>
      exact keepsViewAt_addNewBlock A A1 hne Ctx (fun _ => ApproxMatch.kind) BI1
    | none => exact keepsViewAt_addNewBlock A A1 hne Ctx (fun _ => BlockKind.data) BI1

/-- The loop body for a symbol at another address keeps the view at `A`. -/
theorem viewAt_fixIntegralSymbol_other (A A1 : Nat) (hne : A1 % addrModulus ≠ A)
    (BI0 : ByteInterval) (L : List Block) (Ctx : Context) (Secs : List Section) (Sym : Symbol)
    (h : viewAt A BI0 L Secs) : viewAt A BI0 L (fixIntegralSymbol Ctx Secs Sym A1).2.1 := by
  unfold fixIntegralSymbol
  split
  · exact viewAt_modify A A1 BI0 L _ (keepsViewAt_resolveInInterval A A1 hne Ctx) Secs h
  · split
    · exact viewAt_modify A (sub64 A1 1) BI0 L _
        (keepsViewAt_addNewBlock A A1 hne Ctx (fun _ => BlockKind.data)) Secs h
    · exact h

/-- The loop body for a symbol at `A` when a block starts at `A` in the interval found:
the symbol is attached to the first such block and nothing else changes. -/
theorem viewAt_fixIntegralSymbol_exact (A : Nat) (BI0 : ByteInterval) (L : List Block)
    (Ctx : Context) (Secs : List Section) (Sym : Symbol) (B : Block)
    (h : viewAt A BI0 L Secs) (hL : L.head? = some B) :
    fixIntegralSymbol Ctx Secs Sym A =
      (Ctx, Secs, { Sym with payload := SymbolPayload.referent B.uuid }) := by
  obtain ⟨BI1, hfind, _, _, hat⟩ := h
  exact fixIntegralSymbol_exact Ctx Secs Sym A BI1 B hfind (by rw [hat]; exact hL)

theorem address_of_withoutBlocks (BI BI1 : ByteInterval)
    (h : BI1.withoutBlocks = BI.withoutBlocks) :
    BI1.address = BI.address ∧ BI1.size = BI.size ∧ BI1.uuid = BI.uuid := by
  have ha : BI1.withoutBlocks.address = BI.withoutBlocks.address := by rw [h]
  have hs : BI1.withoutBlocks.size = BI.withoutBlocks.size := by rw [h]
  have hu : BI1.withoutBlocks.uuid = BI.withoutBlocks.uuid := by rw [h]
  exact ⟨ha, hs, hu⟩

/-- The loop body for a symbol at `A` when no block starts at `A` in the interval found:
a block is added at `A`, and it is then the one block that starts at `A`. -/
theorem viewAt_fixIntegralSymbol_new (A Ab : Nat) (BI0 : ByteInterval) (Ctx : Context)
    (Secs : List Section) (Sym : Symbol) (hlt : A < addrModulus)
    (hAb : BI0.address = some Ab) (h : viewAt A BI0 [] Secs) :
    fixIntegralSymbol Ctx Secs Sym A =
        ({ nextUUID := Ctx.nextUUID + 1 },
         insertBlockOn A
           { uuid := Ctx.nextUUID, kind := kindAt BI0 A, offset := A - Ab, size := 0 } Secs,
         { Sym with payload := SymbolPayload.referent Ctx.nextUUID }) ∧
      viewAt A BI0
        [{ uuid := Ctx.nextUUID, kind := kindAt BI0 A, offset := A - Ab, size := 0 }]
        (insertBlockOn A
          { uuid := Ctx.nextUUID, kind := kindAt BI0 A, offset := A - Ab, size := 0 } Secs) := by
  obtain ⟨BI1, hfind, hwo, hon, hat⟩ := h
  have hAb1 : BI1.address = some Ab := by
    rw [(address_of_withoutBlocks BI0 BI1 hwo).1, hAb]
  obtain ⟨Ab2, hAb2, hle, _⟩ := (containsAddr_iff BI1 A).mp (findByteIntervalOn_some A Secs BI1 hfind).2
  rw [hAb1] at hAb2
  simp only [Option.some.injEq] at hAb2
  subst hAb2
  have hstep := fixIntegralSymbol_new_block Ctx Secs Sym A Ab BI1 hlt hfind hAb1 hat
  rw [hon] at hstep
  refine ⟨hstep, ?_⟩
  unfold insertBlockOn
  refine ⟨BI1.withBlock
      { uuid := Ctx.nextUUID, kind := kindAt BI0 A, offset := A - Ab, size := 0 },
    findByteIntervalOn_modify_same A
      (fun BI => BI.withBlock
        { uuid := Ctx.nextUUID, kind := kindAt BI0 A, offset := A - Ab, size := 0 })
      (fun _ => rfl) Secs BI1 hfind, hwo, ?_, ?_⟩
  · rw [withBlock_findBlocksOn_zero BI1 _ A rfl, hon]
  · apply withBlock_findBlocksAt_eq BI1 _ A Ab hAb1 _ hat
    unfold blockAddress
    simp only
    rw [add64_eq (by omega)]
    omega

/-- Once a block starts at `A` in the interval found, the loop changes the view at `A`
no more. -/
theorem viewAt_loop_keep (A : Nat) (BI0 : ByteInterval) (L : List Block) (hL : L ≠ [])
    (Syms : List Symbol) (hwf : addressesIn64 Syms) (Ctx : Context) (Secs : List Section)
    (h : viewAt A BI0 L Secs) : viewAt A BI0 L (fixIntegralSymbolsLoop Ctx Secs Syms).2.1 := by
  induction Syms generalizing Ctx Secs with
  | nil => exact h
  | cons Sym Syms ih =>
    have hwf1 : addressesIn64 Syms := fun S hS => hwf S (List.mem_cons_of_mem _ hS)
    simp only [fixIntegralSymbolsLoop]
    split
    · rename_i A1 hA1
      simp only
      apply ih hwf1
      by_cases hAA : A1 = A
      · subst hAA
        obtain ⟨B, hB⟩ : ∃ B, L.head? = some B := by
          cases L with
          | nil => exact absurd rfl hL
          | cons B _ => exact ⟨B, rfl⟩
        rw [viewAt_fixIntegralSymbol_exact A1 BI0 L Ctx Secs Sym B h hB]
        exact h
      · have hlt := addressesIn64_lt _ hwf Sym (List.mem_cons_self _ _) A1 hA1
        exact viewAt_fixIntegralSymbol_other A A1
          (by rw [Nat.mod_eq_of_lt hlt]; exact hAA) BI0 L Ctx Secs Sym h
    · simp only
      exact ih hwf1 Ctx Secs h

/-- While no block starts at `A` in the interval found, the loop leaves the view at `A`
as it is or makes one block at `A`, with a UUID that the context hands out. -/
theorem viewAt_loop_create (A Ab : Nat) (BI0 : ByteInterval) (hlt : A < addrModulus)
    (hAb : BI0.address = some Ab) (Syms : List Symbol) (hwf : addressesIn64 Syms)
    (Ctx : Context) (Secs : List Section) (h : viewAt A BI0 [] Secs) :
    viewAt A BI0 [] (fixIntegralSymbolsLoop Ctx Secs Syms).2.1 ∨
      ∃ U, Ctx.nextUUID ≤ U ∧
        viewAt A BI0 [{ uuid := U, kind := kindAt BI0 A, offset := A - Ab, size := 0 }]
          (fixIntegralSymbolsLoop Ctx Secs Syms).2.1 := by
  induction Syms generalizing Ctx Secs with
  | nil => exact Or.inl h
  | cons Sym Syms ih =>
    have hwf1 : addressesIn64 Syms := fun S hS => hwf S (List.mem_cons_of_mem _ hS)
    simp only [fixIntegralSymbolsLoop]
    split
    · rename_i A1 hA1
      simp only
      by_cases hAA : A1 = A
      · subst hAA
        obtain ⟨hstep, hview⟩ := viewAt_fixIntegralSymbol_new A1 Ab BI0 Ctx Secs Sym hlt hAb h
        rw [hstep]
        exact Or.inr ⟨Ctx.nextUUID, le_refl _,
          viewAt_loop_keep A1 BI0 _ (List.cons_ne_nil _ _) Syms hwf1 _ _ hview⟩
      · have hlt1 := addressesIn64_lt _ hwf Sym (List.mem_cons_self _ _) A1 hA1
        have hview := viewAt_fixIntegralSymbol_other A A1
          (by rw [Nat.mod_eq_of_lt hlt1]; exact hAA) BI0 [] Ctx Secs Sym h
        rcases ih hwf1 (fixIntegralSymbol Ctx Secs Sym A1).1 _ hview with h1 | ⟨U, hU, h1⟩
        · exact Or.inl h1
        · exact Or.inr ⟨U, le_trans (fixIntegralSymbol_extends Ctx Secs Sym A1).2 hU, h1⟩
    · simp only
      exact ih hwf1 Ctx Secs h

theorem fixIntegralSymbols_sections_from (Ctx : Context) (M : Module) (K : Nat) :
    (fixIntegralSymbols Ctx M).2.sections =
      (fixIntegralSymbolsLoop (fixIntegralSymbolsUpTo Ctx M K).1
        (fixIntegralSymbolsUpTo Ctx M K).2 (M.symbols.drop K)).2.1 := by
  unfold fixIntegralSymbols fixIntegralSymbolsUpTo
  simp only
  conv_lhs => rw [← List.take_append_drop K M.symbols]
  rw [fixIntegralSymbolsLoop_append]

theorem addressesIn64_take (Syms : List Symbol) (h : addressesIn64 Syms) (K : Nat) :
    addressesIn64 (Syms.take K) :=
  fun S hS => h S (List.mem_of_mem_take hS)

theorem addressesIn64_drop (Syms : List Symbol) (h : addressesIn64 Syms) (K : Nat) :
    addressesIn64 (Syms.drop K) :=
  fun S hS => h S (List.mem_of_mem_drop hS)

theorem fixIntegralSymbolsUpTo_ctx (Ctx : Context) (M : Module) (K : Nat) :
    Ctx.nextUUID ≤ (fixIntegralSymbolsUpTo Ctx M K).1.nextUUID :=
  (fixIntegralSymbolsLoop_extends Ctx M.sections (M.symbols.take K)).2

/-- A symbol at whose address a block starts in the first interval that contains the
address: the symbol is attached to the first such block of the module, the step
changes nothing else, and in the result the view at the address is what it was. -/
theorem fixIntegralSymbols_exact_view (Ctx : Context) (M : Module) (K : Nat) (Sym : Symbol)
    (A : Nat) (BI : ByteInterval) (B : Block)
    (hK : M.symbols[K]? = some Sym) (hA : Sym.payload = SymbolPayload.address A)
    (hwf : addressesIn64 M.symbols)
    (hBI : findByteIntervalOn A M.sections = some BI)
    (hB : (BI.findBlocksAt A).head? = some B) :
    (fixIntegralSymbols Ctx M).2.symbols[K]? =
        some { Sym with payload := SymbolPayload.referent B.uuid } ∧
      fixIntegralSymbolsUpTo Ctx M (K + 1) = fixIntegralSymbolsUpTo Ctx M K ∧
      viewAt A BI (BI.findBlocksAt A) (fixIntegralSymbols Ctx M).2.sections := by
  have hne : BI.findBlocksAt A ≠ [] := by
    intro hc
    rw [hc] at hB
    simp at hB
  have view0 : viewAt A BI (BI.findBlocksAt A) M.sections := ⟨BI, hBI, rfl, rfl, rfl⟩
  have viewK : viewAt A BI (BI.findBlocksAt A) (fixIntegralSymbolsUpTo Ctx M K).2 :=
    viewAt_loop_keep A BI _ hne _ (addressesIn64_take _ hwf K) Ctx M.sections view0
  obtain ⟨hsym, hstate⟩ := fixIntegralSymbols_at_address Ctx M K Sym A hK hA
  have hstep := viewAt_fixIntegralSymbol_exact A BI _ (fixIntegralSymbolsUpTo Ctx M K).1
    (fixIntegralSymbolsUpTo Ctx M K).2 Sym B viewK hB
  rw [hstep] at hsym hstate
  refine ⟨hsym, hstate, ?_⟩
  rw [fixIntegralSymbols_sections_from Ctx M K]
  exact viewAt_loop_keep A BI _ hne _ (addressesIn64_drop _ hwf K) _ _ viewK

/-- A symbol at whose address no block starts in the first interval that contains the
address: the symbol is attached to a block with a UUID that the context hands out,
and in the result that block is the one block that starts at the address in the
interval.  It is zero-length, at offset `A - Ab`, and of the kind `kindAt BI A`. -/
theorem fixIntegralSymbols_new_view (Ctx : Context) (M : Module) (K : Nat) (Sym : Symbol)
    (A Ab : Nat) (BI : ByteInterval)
    (hK : M.symbols[K]? = some Sym) (hA : Sym.payload = SymbolPayload.address A)
    (hwf : addressesIn64 M.symbols)
    (hBI : findByteIntervalOn A M.sections = some BI) (hAb : BI.address = some Ab)
    (hnone : BI.findBlocksAt A = []) :
    ∃ U, Ctx.nextUUID ≤ U ∧
      (fixIntegralSymbols Ctx M).2.symbols[K]? =
        some { Sym with payload := SymbolPayload.referent U } ∧
      viewAt A BI [{ uuid := U, kind := kindAt BI A, offset := A - Ab, size := 0 }]
        (fixIntegralSymbols Ctx M).2.sections := by
  have hmem : Sym ∈ M.symbols := by
    obtain ⟨hlt, hget⟩ := List.getElem?_eq_some.mp hK
    rw [← hget]
    exact List.getElem_mem hlt
  have hlt : A < addrModulus := addressesIn64_lt _ hwf Sym hmem A hA
  have view0 : viewAt A BI [] M.sections := ⟨BI, hBI, rfl, rfl, hnone⟩
  obtain ⟨hsym, hstate⟩ := fixIntegralSymbols_at_address Ctx M K Sym A hK hA
  have hfinal := fixIntegralSymbols_sections_from Ctx M (K + 1)
  rcases viewAt_loop_create A Ab BI hlt hAb _ (addressesIn64_take _ hwf K) Ctx M.sections view0
    with hview | ⟨U, hU, hview⟩
  · obtain ⟨hstep, hview1⟩ := viewAt_fixIntegralSymbol_new A Ab BI
      (fixIntegralSymbolsUpTo Ctx M K).1 (fixIntegralSymbolsUpTo Ctx M K).2 Sym hlt hAb hview
    rw [hstep] at hsym hstate
    refine ⟨(fixIntegralSymbolsUpTo Ctx M K).1.nextUUID, fixIntegralSymbolsUpTo_ctx Ctx M K,
      hsym, ?_⟩
    rw [hfinal, hstate]
    exact viewAt_loop_keep A BI _ (List.cons_ne_nil _ _) _
      (addressesIn64_drop _ hwf (K + 1)) _ _ hview1
  · have hstep := viewAt_fixIntegralSymbol_exact A BI _ (fixIntegralSymbolsUpTo Ctx M K).1
      (fixIntegralSymbolsUpTo Ctx M K).2 Sym
      { uuid := U, kind := kindAt BI A, offset := A - Ab, size := 0 } hview rfl
    rw [hstep] at hsym hstate
    refine ⟨U, hU, hsym, ?_⟩
    rw [hfinal, hstate]
    exact viewAt_loop_keep A BI _ (List.cons_ne_nil _ _) _
      (addressesIn64_drop _ hwf (K + 1)) _ _ hview

/-! ## fixIntegralSymbols: the four cases, on the module passed in -/

/-- C11, amended.  Let the addresses of the symbols be below `2 ^ 64`, let `Sym`, the
symbol at position `K`, have the address `A` and no referent, let `BI` be the first
byte interval of the module that contains `A`, and let `B` be the first block of `BI`
that starts at `A`.  Then `fixIntegralSymbols` attaches the symbol to `B`, the step for
the symbol creates nothing (the context and the sections are after it what they
were before it), and in the result the blocks that start at `A` in that interval are
those that started there before the call. -/
theorem fixIntegralSymbols_exact_start (Ctx : Context) (M : Module) (K : Nat) (Sym : Symbol)
    (A : Nat) (BI : ByteInterval) (B : Block)
    (hK : M.symbols[K]? = some Sym) (hA : Sym.payload = SymbolPayload.address A)
    (hwf : addressesIn64 M.symbols)
    (hBI : findByteIntervalOn A M.sections = some BI)
    (hB : (BI.findBlocksAt A).head? = some B) :
    (fixIntegralSymbols Ctx M).2.symbols[K]? =
        some { Sym with payload := SymbolPayload.referent B.uuid } ∧
      fixIntegralSymbolsUpTo Ctx M (K + 1) = fixIntegralSymbolsUpTo Ctx M K ∧
      ∃ BI2, findByteIntervalOn A (fixIntegralSymbols Ctx M).2.sections = some BI2 ∧
        BI2.uuid = BI.uuid ∧ BI2.findBlocksAt A = BI.findBlocksAt A := by
  obtain ⟨h1, h2, BI2, h3, h4, _, h5⟩ :=
    fixIntegralSymbols_exact_view Ctx M K Sym A BI B hK hA hwf hBI hB
  exact ⟨h1, h2, BI2, h3, (address_of_withoutBlocks BI BI2 h4).2.2, h5⟩

/-- The symbol `entry` of `exactMatchModule`, at position 1, is attached to the code
block 101 that starts at its address, and no block is made for it. -/
theorem fixIntegralSymbols_exact_start_witness :
    (fixIntegralSymbols { nextUUID := 1000 } exactMatchModule).2.symbols[1]? =
        some { uuid := 201, name := "entry", payload := SymbolPayload.referent 101 } ∧
      fixIntegralSymbolsUpTo { nextUUID := 1000 } exactMatchModule 2 =
        fixIntegralSymbolsUpTo { nextUUID := 1000 } exactMatchModule 1 ∧
      ∃ BI2, findByteIntervalOn 0x1004
          (fixIntegralSymbols { nextUUID := 1000 } exactMatchModule).2.sections = some BI2 ∧
        BI2.uuid = 10 ∧
        BI2.findBlocksAt 0x1004 = [{ uuid := 101, kind := BlockKind.code, offset := 4, size := 4 }] :=
  fixIntegralSymbols_exact_start { nextUUID := 1000 } exactMatchModule 1
    { uuid := 201, name := "entry", payload := SymbolPayload.address 0x1004 } 0x1004
    { uuid := 10, address := some 0x1000, size := 8, bytes := [0, 0, 0, 0, 0, 0, 0, 0],
      blocks := [{ uuid := 100, kind := BlockKind.data, offset := 0, size := 4 },
                 { uuid := 101, kind := BlockKind.code, offset := 4, size := 4 }],
      symbolicExpressions := [] }
    { uuid := 101, kind := BlockKind.code, offset := 4, size := 4 }
    (by decide) (by decide) (by unfold addressesIn64; decide) (by decide) (by decide)

/-- C12, amended.  Let the addresses of the symbols be below `2 ^ 64`, let `Sym`, the
symbol at position `K`, have the address `A` and no referent, let `BI`, at address `Ab`,
be the first byte interval of the module that contains `A`, let no block of `BI` start
at `A`, and let `B` be the first block of `BI` whose range contains `A`.  Then
`fixIntegralSymbols` sets the referent of the symbol to a block with a UUID `U` that
the context hands out, and in the result the one block that starts at `A` in that
interval is this block: zero-length, of the kind of `B`, at offset `A - Ab`. -/
theorem fixIntegralSymbols_inside_block (Ctx : Context) (M : Module) (K : Nat) (Sym : Symbol)
    (A Ab : Nat) (BI : ByteInterval) (B : Block)
    (hK : M.symbols[K]? = some Sym) (hA : Sym.payload = SymbolPayload.address A)
    (hwf : addressesIn64 M.symbols)
    (hBI : findByteIntervalOn A M.sections = some BI) (hAb : BI.address = some Ab)
    (hnone : BI.findBlocksAt A = []) (hB : (BI.findBlocksOn A).head? = some B) :
    ∃ U, Ctx.nextUUID ≤ U ∧
      (fixIntegralSymbols Ctx M).2.symbols[K]? =
        some { Sym with payload := SymbolPayload.referent U } ∧
      ∃ BI2, findByteIntervalOn A (fixIntegralSymbols Ctx M).2.sections = some BI2 ∧
        BI2.uuid = BI.uuid ∧
        BI2.findBlocksAt A = [{ uuid := U, kind := B.kind, offset := A - Ab, size := 0 }] := by
  obtain ⟨U, hU, hsym, BI2, h3, h4, _, h5⟩ :=
    fixIntegralSymbols_new_view Ctx M K Sym A Ab BI hK hA hwf hBI hAb hnone
  have hkind : kindAt BI A = B.kind := by
    unfold kindAt
    rw [hB]
    rfl
  rw [hkind] at h5
  exact ⟨U, hU, hsym, BI2, h3, (address_of_withoutBlocks BI BI2 h4).2.2, h5⟩

/-- Scenario B: the symbol at `0x1004`, inside the data block at `[0x1000, 0x1008)`, is
attached to a new block, which in the result is the zero-length data block at offset 4
of the interval. -/
theorem fixIntegralSymbols_inside_block_witness :
    ∃ U, 1000 ≤ U ∧
      (fixIntegralSymbols { nextUUID := 1000 } scenarioB).2.symbols[0]? =
        some { uuid := 200, name := "S", payload := SymbolPayload.referent U } ∧
      ∃ BI2, findByteIntervalOn 0x1004
          (fixIntegralSymbols { nextUUID := 1000 } scenarioB).2.sections = some BI2 ∧
        BI2.uuid = 10 ∧
        BI2.findBlocksAt 0x1004 = [{ uuid := U, kind := BlockKind.data, offset := 4, size := 0 }] :=
  fixIntegralSymbols_inside_block { nextUUID := 1000 } scenarioB 0
    { uuid := 200, name := "S", payload := SymbolPayload.address 0x1004 } 0x1004 0x1000
    { uuid := 10, address := some 0x1000, size := 8, bytes := [0, 0, 0, 0, 0, 0, 0, 0],
      blocks := [{ uuid := 100, kind := BlockKind.data, offset := 0, size := 8 }],
      symbolicExpressions := [] }
    { uuid := 100, kind := BlockKind.data, offset := 0, size := 8 }
    (by decide) (by decide) (by unfold addressesIn64; decide) (by decide) (by decide)
    (by decide) (by decide)

/-- C13, amended.  Let the addresses of the symbols be below `2 ^ 64` and let `Sym`, the
symbol at position `K`, have the address `A` and no referent.
First part: if `BI`, at address `Ab`, is the first byte interval of the module that
contains `A` and no block of `BI` starts at `A` or contains `A`, the referent of the
symbol is set to a block with a UUID `U` that the context hands out, and in the result
the one block that starts at `A` in that interval is this block: a zero-length data
block at offset `A - Ab`.
Second part: if no byte interval contains `A` and `A` is the end of a byte interval of
non-zero size, then the first interval `BI` that contains `A - 1` ends at `A`, the
referent of the symbol is set to a block with a UUID `U` that the context hands out,
and in the result that interval holds this block: a zero-length data block whose
offset is the size of the interval. -/
theorem fixIntegralSymbols_no_block (Ctx : Context) (M : Module) (K : Nat) (Sym : Symbol)
    (A : Nat) (hK : M.symbols[K]? = some Sym) (hA : Sym.payload = SymbolPayload.address A)
    (hwf : addressesIn64 M.symbols) :
    (∀ BI Ab, findByteIntervalOn A M.sections = some BI → BI.address = some Ab →
      BI.findBlocksAt A = [] → BI.findBlocksOn A = [] →
      ∃ U, Ctx.nextUUID ≤ U ∧
        (fixIntegralSymbols Ctx M).2.symbols[K]? =
          some { Sym with payload := SymbolPayload.referent U } ∧
        ∃ BI2, findByteIntervalOn A (fixIntegralSymbols Ctx M).2.sections = some BI2 ∧
          BI2.uuid = BI.uuid ∧
          BI2.findBlocksAt A =
            [{ uuid := U, kind := BlockKind.data, offset := A - Ab, size := 0 }]) ∧
    (∀ I Ai, findByteIntervalOn A M.sections = none → I ∈ intervalsOf M.sections →
      I.address = some Ai → A = Ai + I.size → 0 < I.size →
      ∃ BI Ab U, findByteIntervalOn (A - 1) M.sections = some BI ∧
        BI.address = some Ab ∧ Ab + BI.size = A ∧ Ctx.nextUUID ≤ U ∧
        (fixIntegralSymbols Ctx M).2.symbols[K]? =
          some { Sym with payload := SymbolPayload.referent U } ∧
        ∃ BI2 ∈ intervalsOf (fixIntegralSymbols Ctx M).2.sections, BI2.uuid = BI.uuid ∧
          { uuid := U, kind := BlockKind.data, offset := BI.size, size := 0 } ∈ BI2.blocks) := by
  have hmem : Sym ∈ M.symbols := by
    obtain ⟨hlt, hget⟩ := List.getElem?_eq_some.mp hK
    rw [← hget]
    exact List.getElem_mem hlt
  have hlt : A < addrModulus := addressesIn64_lt _ hwf Sym hmem A hA
  constructor
  · intro BI Ab hBI hAb hnone hon
    obtain ⟨U, hU, hsym, BI2, h3, h4, _, h5⟩ :=
      fixIntegralSymbols_new_view Ctx M K Sym A Ab BI hK hA hwf hBI hAb hnone
    have hkind : kindAt BI A = BlockKind.data := by
      unfold kindAt
      rw [hon]
      rfl
    rw [hkind] at h5
    exact ⟨U, hU, hsym, BI2, h3, (address_of_withoutBlocks BI BI2 h4).2.2, h5⟩
  · intro I Ai hno hI hAi hend hpos
    have hext := fixIntegralSymbolsUpTo_extends Ctx M K
    have hnoK := (findByteIntervalOn_extends Ctx.nextUUID A _ _ hext).1 hno
    obtain ⟨I1, hI1, hI1ext⟩ := mem_intervalsOf_extends _ _ _ hext I hI
    obtain ⟨hI1a, hI1s, _⟩ := address_of_withoutBlocks I I1 hI1ext.1
    obtain ⟨BIK, Ab, hBIK, hAbK, hendK, hsym, _, BI2, hBI2, hu2, hblock⟩ :=
      (fixIntegralSymbols_step_no_block Ctx M K Sym A hK hA hlt).2 I1 Ai hnoK hI1
        (by rw [hI1a, hAi]) (by rw [hI1s]; exact hend) (by rw [hI1s]; exact hpos)
    cases hBI : findByteIntervalOn (A - 1) M.sections with
    | none =>
      have := (findByteIntervalOn_extends Ctx.nextUUID (A - 1) _ _ hext).1 hBI
      rw [this] at hBIK
      exact absurd hBIK (by simp)
    | some BI =>
      obtain ⟨BI1, hBI1, hBI1ext⟩ :=
        (findByteIntervalOn_extends Ctx.nextUUID (A - 1) _ _ hext).2 BI hBI
      rw [hBI1] at hBIK
      simp only [Option.some.injEq] at hBIK
      subst hBIK
      obtain ⟨ha, hs, hu⟩ := address_of_withoutBlocks BI BI1 hBI1ext.1
      refine ⟨BI, Ab, (fixIntegralSymbolsUpTo Ctx M K).1.nextUUID, rfl, by rw [← ha]; exact hAbK,
        by rw [← hs]; exact hendK, fixIntegralSymbolsUpTo_ctx Ctx M K, hsym, BI2, hBI2,
        hu2.trans hu, ?_⟩
      rw [← hs]
      exact hblock

/-- In `gapModule` the symbol `gap`, at `0x1006`, is attached to a new data block at
offset 6, and the symbol `end`, at `0x1008`, to a new data block at offset 8, the size
of the interval. -/
theorem fixIntegralSymbols_no_block_witness :
    (∃ U, 1000 ≤ U ∧
        (fixIntegralSymbols { nextUUID := 1000 } gapModule).2.symbols[0]? =
          some { uuid := 200, name := "gap", payload := SymbolPayload.referent U } ∧
        ∃ BI2, findByteIntervalOn 0x1006
            (fixIntegralSymbols { nextUUID := 1000 } gapModule).2.sections = some BI2 ∧
          BI2.uuid = 10 ∧
          BI2.findBlocksAt 0x1006 =
            [{ uuid := U, kind := BlockKind.data, offset := 6, size := 0 }]) ∧
      (∃ BI Ab U, findByteIntervalOn 0x1007 gapModule.sections = some BI ∧
        BI.address = some Ab ∧ Ab + BI.size = 0x1008 ∧ 1000 ≤ U ∧
        (fixIntegralSymbols { nextUUID := 1000 } gapModule).2.symbols[1]? =
          some { uuid := 201, name := "end", payload := SymbolPayload.referent U } ∧
        ∃ BI2 ∈ intervalsOf (fixIntegralSymbols { nextUUID := 1000 } gapModule).2.sections,
          BI2.uuid = BI.uuid ∧
          { uuid := U, kind := BlockKind.data, offset := BI.size, size := 0 } ∈ BI2.blocks) :=
  ⟨(fixIntegralSymbols_no_block { nextUUID := 1000 } gapModule 0
      { uuid := 200, name := "gap", payload := SymbolPayload.address 0x1006 } 0x1006
      (by decide) (by decide) (by unfold addressesIn64; decide)).1
      { uuid := 10, address := some 0x1000, size := 8, bytes := [0, 0, 0, 0, 0, 0, 0, 0],
        blocks := [{ uuid := 100, kind := BlockKind.data, offset := 0, size := 4 }],
        symbolicExpressions := [] }
      0x1000 (by decide) (by decide) (by decide) (by decide),
   (fixIntegralSymbols_no_block { nextUUID := 1000 } gapModule 1
      { uuid := 201, name := "end", payload := SymbolPayload.address 0x1008 } 0x1008
      (by decide) (by decide) (by unfold addressesIn64; decide)).2
      { uuid := 10, address := some 0x1000, size := 8, bytes := [0, 0, 0, 0, 0, 0, 0, 0],
        blocks := [{ uuid := 100, kind := BlockKind.data, offset := 0, size := 4 }],
        symbolicExpressions := [] }
      0x1000 (by decide) (by decide) (by decide) (by decide) (by decide)⟩

/-! ## The printers write at the end of the stream -/

theorem printShift_append (os : String) (type : arm64_shifter) (value : Nat) :
    AArch64PrettyPrinter.printShift os type value =
      os ++ AArch64PrettyPrinter.printShift "" type value := by
  cases type <;> simp [AArch64PrettyPrinter.printShift, String.append_assoc]

theorem printPrefix_append_acc (env : PrinterEnv) (os acc : String) (inst : cs_insn)
    (index : Nat) :
    AArch64PrettyPrinter.printPrefix env (os ++ acc) inst index =
      os ++ AArch64PrettyPrinter.printPrefix env acc inst index := by
  unfold AArch64PrettyPrinter.printPrefix
  generalize env.symbolicOperandInfo = table
  induction table generalizing acc with
  | nil => rfl
  | cons p ps ih =>
    simp only [List.foldl_cons]
    split_ifs
    · rw [String.append_assoc]; exact ih _
    · exact ih _

theorem printPrefix_append (env : PrinterEnv) (os : String) (inst : cs_insn) (index : Nat) :
    AArch64PrettyPrinter.printPrefix env os inst index =
      os ++ AArch64PrettyPrinter.printPrefix env "" inst index := by
  have h := printPrefix_append_acc env os "" inst index
  rwa [String.append_empty] at h

theorem printExtender_append (os : String) (ext : arm64_extender) (shiftType : arm64_shifter)
    (shiftValue : Nat) :
    AArch64PrettyPrinter.printExtender os ext shiftType shiftValue =
      os ++ AArch64PrettyPrinter.printExtender "" ext shiftType shiftValue := by
  cases ext <;> simp only [AArch64PrettyPrinter.printExtender] <;> split_ifs <;>
    simp [String.append_assoc]

theorem printOpImmediate_append (env : PrinterEnv) (os : String)
    (symbolic : Option SymbolicExpression) (inst : cs_insn) (index : Nat) :
    AArch64PrettyPrinter.printOpImmediate env os symbolic inst index =
      os ++ AArch64PrettyPrinter.printOpImmediate env "" symbolic inst index := by
  simp only [AArch64PrettyPrinter.printOpImmediate]
  cases env.getSymbolicImmediate symbolic with
  | some s =>
    simp only []
    rw [printPrefix_append env (if (!inst.is_jump) = true then os ++ " " else os),
      printPrefix_append env (if (!inst.is_jump) = true then "" ++ " " else "")]
    split_ifs <;> simp [String.append_assoc]
  | none =>
    simp only []
    split_ifs
    · rw [printShift_append (os ++ "#" ++ toString (inst.operand index).imm ++ ","),
        printShift_append ("" ++ "#" ++ toString (inst.operand index).imm ++ ",")]
      simp [String.append_assoc]
    · simp [String.append_assoc]

theorem indirectBase_append (env : PrinterEnv) (op : cs_arm64_op) (first : Bool)
    (os acc : String) :
    AArch64PrettyPrinter.indirectBase env op first (os ++ acc) =
      ((AArch64PrettyPrinter.indirectBase env op first acc).1,
        os ++ (AArch64PrettyPrinter.indirectBase env op first acc).2) := by
  unfold AArch64PrettyPrinter.indirectBase
  split_ifs <;> simp [String.append_assoc]

theorem indirectDisplacement_append (env : PrinterEnv) (symbolic : Option SymbolicExpression)
    (inst : cs_insn) (index : Nat) (first : Bool) (os acc : String) :
    AArch64PrettyPrinter.indirectDisplacement env symbolic inst index first (os ++ acc) =
      ((AArch64PrettyPrinter.indirectDisplacement env symbolic inst index first acc).1,
        os ++ (AArch64PrettyPrinter.indirectDisplacement env symbolic inst index first acc).2) := by
  simp only [AArch64PrettyPrinter.indirectDisplacement]
  by_cases hd : (inst.operand index).mem.disp ≠ 0
  · rw [if_pos hd, if_pos hd]
    cases getIfSymAddrConst symbolic <;> cases first <;>
      simp [String.append_assoc, printPrefix_append_acc]
  · rw [if_neg hd, if_neg hd]

theorem indirectIndex_append (env : PrinterEnv) (op : cs_arm64_op) (first : Bool)
    (os acc : String) :
    AArch64PrettyPrinter.indirectIndex env op first (os ++ acc) =
      os ++ AArch64PrettyPrinter.indirectIndex env op first acc := by
  simp only [AArch64PrettyPrinter.indirectIndex]
  split_ifs <;> simp [String.append_assoc]

theorem indirectShift_append (op : cs_arm64_op) (os acc : String) :
    AArch64PrettyPrinter.indirectShift op (os ++ acc) =
      os ++ AArch64PrettyPrinter.indirectShift op acc := by
  simp only [AArch64PrettyPrinter.indirectShift]
  split_ifs
  · rw [printShift_append (os ++ acc ++ ","), printShift_append (acc ++ ",")]
    simp [String.append_assoc]
  · rfl

theorem printOpIndirect_append (env : PrinterEnv) (os : String)
    (symbolic : Option SymbolicExpression) (inst : cs_insn) (index : Nat) :
    AArch64PrettyPrinter.printOpIndirect env os symbolic inst index =
      os ++ AArch64PrettyPrinter.printOpIndirect env "" symbolic inst index := by
  simp only [AArch64PrettyPrinter.printOpIndirect]
  rw [indirectBase_append env _ true os "["]
  simp only [String.empty_append]
  rw [indirectDisplacement_append, indirectIndex_append, indirectShift_append]
  split_ifs <;> simp [String.append_assoc]

theorem printOpRawValue_append (os : String) (inst : cs_insn) (index : Nat) :
    AArch64PrettyPrinter.printOpRawValue os inst index =
      os ++ AArch64PrettyPrinter.printOpRawValue "" inst index := by
  simp [AArch64PrettyPrinter.printOpRawValue]

/-- `printOpBarrier` writes a name after `os` and returns, or exits with status 1 and
leaves `os` as it is. -/
theorem printOpBarrier_append (os : String) (barrier : arm64_barrier_op) :
    AArch64PrettyPrinter.printOpBarrier os barrier =
      match AArch64PrettyPrinter.printOpBarrier "" barrier with
      | Run.returned r => Run.returned (os ++ r)
      | Run.exited _ _ => Run.exited os 1 := by
  cases barrier <;> simp [AArch64PrettyPrinter.printOpBarrier]

theorem printOpPrefetch_append (os : String) (prefetch : arm64_prefetch_op) :
    AArch64PrettyPrinter.printOpPrefetch os prefetch =
      match AArch64PrettyPrinter.printOpPrefetch "" prefetch with
      | Run.returned r => Run.returned (os ++ r)
      | Run.exited _ _ => Run.exited os 1 := by
  cases prefetch <;> simp [AArch64PrettyPrinter.printOpPrefetch]

theorem printOperand_append (env : PrinterEnv) (os : String) (inst : cs_insn) (index : Nat) :
    AArch64PrettyPrinter.printOperand env os inst index =
      match AArch64PrettyPrinter.printOperand env "" inst index with
      | Run.returned r => Run.returned (os ++ r)
      | Run.exited _ _ => Run.exited os 1 := by
  simp only [AArch64PrettyPrinter.printOperand]
  cases (inst.operand index).type with
  | ARM64_OP_REG =>
    simp only [AArch64PrettyPrinter.printOpRegdirect]
    split_ifs
    · rw [printExtender_append (os ++ _ ++ ", "), printExtender_append ("" ++ _ ++ ", ")]
      simp [String.append_assoc]
    · simp
  | ARM64_OP_IMM => simp only []; rw [printOpImmediate_append]
  | ARM64_OP_MEM => simp only []; rw [printOpIndirect_append]
  | ARM64_OP_FP => simp [String.append_assoc]
  | ARM64_OP_PREFETCH => simp only []; rw [printOpPrefetch_append]
  | ARM64_OP_BARRIER => simp only []; rw [printOpBarrier_append]
  | ARM64_OP_INVALID => simp
  | unlisted v => simp
  | _ => simp only []; rw [printOpRawValue_append]

/-! ## The operand list: C21 -/

theorem printOperand_of_rendering (env : PrinterEnv) (os : String) (inst : cs_insn) (i : Nat)
    (r : String) (h : AArch64PrettyPrinter.rendering env inst i = some r) :
    AArch64PrettyPrinter.printOperand env os inst i = Run.returned (os ++ r) := by
  rw [printOperand_append]
  unfold AArch64PrettyPrinter.rendering at h
  cases hp : AArch64PrettyPrinter.printOperand env "" inst i with
  | returned r1 =>
    rw [hp] at h
    simp only [Option.some.injEq] at h
    rw [h]
  | exited os1 st =>
    rw [hp] at h
    simp at h

theorem printOperand_of_no_rendering (env : PrinterEnv) (os : String) (inst : cs_insn)
    (i : Nat) (h : AArch64PrettyPrinter.rendering env inst i = none) :
    AArch64PrettyPrinter.printOperand env os inst i = Run.exited os 1 := by
  rw [printOperand_append]
  unfold AArch64PrettyPrinter.rendering at h
  cases hp : AArch64PrettyPrinter.printOperand env "" inst i with
  | returned r1 =>
    rw [hp] at h
    simp at h
  | exited os1 st => rfl

theorem intercalate_go_append (a b s : String) (l : List String) :
    String.intercalate.go (a ++ b) s l = a ++ String.intercalate.go b s l := by
  induction l generalizing b with
  | nil => rfl
  | cons x xs ih =>
    simp only [String.intercalate.go]
    rw [String.append_assoc, String.append_assoc, ← String.append_assoc b]
    exact ih _

/-- The loop of `printOperandList` from an operand other than the first: every
operand is written after a comma. -/
theorem printOperandListFrom_go (env : PrinterEnv) (inst : cs_insn) (n i : Nat) (acc : String)
    (hi : i ≠ 0)
    (h : ∀ k, k < n → (AArch64PrettyPrinter.rendering env inst (i + k)).isSome = true) :
    AArch64PrettyPrinter.printOperandListFrom env inst n i acc =
      Run.returned (String.intercalate.go acc ","
        ((List.range' i n).map
          (fun j => (AArch64PrettyPrinter.rendering env inst j).getD ""))) := by
  induction n generalizing i acc with
  | zero => rfl
  | succ n ih =>
    have h0 := h 0 (Nat.succ_pos n)
    rw [Nat.add_zero, Option.isSome_iff_exists] at h0
    obtain ⟨r, hr⟩ := h0
    simp only [AArch64PrettyPrinter.printOperandListFrom, hi, ne_eq, not_false_eq_true, if_true]
    rw [printOperand_of_rendering env _ inst i r hr]
    simp only [List.range'_succ, List.map_cons, hr, Option.getD_some, String.intercalate.go]
    apply ih (i + 1) _ (Nat.succ_ne_zero i)
    intro k hk
    have := h (k + 1) (Nat.succ_lt_succ hk)
    rwa [show i + (k + 1) = i + 1 + k by omega] at this

/-- C21: for every decoded instruction whose operands all have a rendering,
`printOperandList` returns with the stream extended by the renderings of the operands
`0 .. op_count - 1` in index order, joined by single commas, without a separator at
the start or at the end; nothing is written when `op_count` is 0. -/
theorem printOperandList_comma_joined (env : PrinterEnv) (os : String) (inst : cs_insn)
    (h : AArch64PrettyPrinter.rendersAll env inst = true) :
    AArch64PrettyPrinter.printOperandList env os inst =
      Run.returned (os ++ ",".intercalate (AArch64PrettyPrinter.renderings env inst)) := by
  unfold AArch64PrettyPrinter.rendersAll at h
  rw [List.all_eq_true] at h
  unfold AArch64PrettyPrinter.printOperandList AArch64PrettyPrinter.renderings
  cases hn : inst.op_count with
  | zero =>
    simp [AArch64PrettyPrinter.printOperandListFrom, String.intercalate]
  | succ n =>
    rw [hn] at h
    have h0 := h 0 (List.mem_range.mpr (Nat.succ_pos n))
    rw [Option.isSome_iff_exists] at h0
    obtain ⟨r, hr⟩ := h0
    simp only [AArch64PrettyPrinter.printOperandListFrom, ne_eq, not_true_eq_false, if_false]
    rw [printOperand_of_rendering env os inst 0 r hr]
    simp only []
    rw [printOperandListFrom_go env inst n (0 + 1) (os ++ r) (Nat.succ_ne_zero 0)]
    · rw [List.range_eq_range', List.range'_succ]
      simp only [List.map_cons, hr, Option.getD_some, String.intercalate]
      rw [intercalate_go_append]
    · intro k hk
      apply h
      rw [List.mem_range]
      omega

/-- C21, witness: `ldr x2, [x1, #16]` with its symbolic displacement, and the
instruction without operands. -/
theorem printOperandList_comma_joined_witness :
    AArch64PrettyPrinter.rendersAll sampleEnv ldrLo12Sixteen = true ∧
    AArch64PrettyPrinter.printOperandList sampleEnv "ldr " ldrLo12Sixteen =
      Run.returned ("ldr " ++
        ",".intercalate (AArch64PrettyPrinter.renderings sampleEnv ldrLo12Sixteen)) ∧
    AArch64PrettyPrinter.renderings sampleEnv ldrLo12Sixteen = ["x2", "[x1,:lo12:sym7]"] :=
  ⟨by decide, printOperandList_comma_joined sampleEnv "ldr " ldrLo12Sixteen (by decide),
    by decide⟩

/-- An instruction without operands: `printOperandList` writes nothing. -/
theorem printOperandList_no_operand (env : PrinterEnv) (os : String) (inst : cs_insn)
    (h : inst.op_count = 0) :
    AArch64PrettyPrinter.printOperandList env os inst = Run.returned os := by
  unfold AArch64PrettyPrinter.printOperandList
  rw [h]
  rfl

/-- The operand lists of the example instructions. -/
theorem printOperandList_examples :
    AArch64PrettyPrinter.printOperandList sampleEnv "add " addImmediate =
      Run.returned "add x2,x1,#4" ∧
    AArch64PrettyPrinter.printOperandList sampleEnv "ret" retInstruction =
      Run.returned "ret" ∧
    AArch64PrettyPrinter.printOperandList sampleEnv "dmb " dmbIsh = Run.returned "dmb ish" ∧
    AArch64PrettyPrinter.printOperandList sampleEnv "mrs " mrsInstruction =
      Run.returned "mrs x2,nzcv" := by
  decide

/-- The loop of `printOperandList` ends the process with status 1 when one of the
operands still to be written has no rendering. -/
theorem printOperandListFrom_exits (env : PrinterEnv) (inst : cs_insn) (n i : Nat)
    (acc : String)
    (h : ∃ k, k < n ∧ AArch64PrettyPrinter.rendering env inst (i + k) = none) :
    ∃ os1, AArch64PrettyPrinter.printOperandListFrom env inst n i acc = Run.exited os1 1 := by
  induction n generalizing i acc with
  | zero =>
    obtain ⟨k, hk, _⟩ := h
    omega
  | succ n ih =>
    simp only [AArch64PrettyPrinter.printOperandListFrom]
    cases hr : AArch64PrettyPrinter.rendering env inst i with
    | none =>
      rw [printOperand_of_no_rendering env _ inst i hr]
      exact ⟨_, rfl⟩
    | some r =>
      rw [printOperand_of_rendering env _ inst i r hr]
      simp only []
      obtain ⟨k, hk, hnone⟩ := h
      cases k with
      | zero =>
        rw [Nat.add_zero, hr] at hnone
        simp at hnone
      | succ k =>
        apply ih
        exact ⟨k, by omega, by rwa [show i + 1 + k = i + (k + 1) by omega]⟩

/-- When some operand of the instruction has no rendering, `printOperandList` does not
return: the process ends with status 1. -/
theorem printOperandList_exits (env : PrinterEnv) (os : String) (inst : cs_insn)
    (h : AArch64PrettyPrinter.rendersAll env inst = false) :
    ∃ os1, AArch64PrettyPrinter.printOperandList env os inst = Run.exited os1 1 := by
  unfold AArch64PrettyPrinter.rendersAll at h
  rw [List.all_eq_false] at h
  obtain ⟨k, hk, hnone⟩ := h
  apply printOperandListFrom_exits
  refine ⟨k, List.mem_range.mp hk, ?_⟩
  rw [Nat.zero_add]
  simpa using hnone

/-- The operand list of `prfmInvalid` is not written: the process ends at its first
operand. -/
theorem printOperandList_prfmInvalid :
    AArch64PrettyPrinter.printOperandList sampleEnv "prfm " prfmInvalid =
      Run.exited "prfm " 1 := by
  decide

/-! ## The memory operand of AArch64: C22 -/

/-- With a displacement other than 0 and a `SymAddrConst` supplied, the part
"displacement (constant)" of `printOpIndirect` writes the prefix and the symbolic
expression, after a comma when a base register was written, and no number. -/
theorem indirectDisplacement_symbolic (env : PrinterEnv) (Offset : Int) (Sym : Nat)
    (inst : cs_insn) (index : Nat) (first : Bool) (os : String)
    (hdisp : (inst.operand index).mem.disp ≠ 0) :
    AArch64PrettyPrinter.indirectDisplacement env
        (some (SymbolicExpression.SymAddrConst Offset Sym)) inst index first os =
      (false, os ++ (if first then "" else ",") ++
        AArch64PrettyPrinter.printPrefix env "" inst index ++
        env.printSymbolicExpression Offset Sym false) := by
  simp only [AArch64PrettyPrinter.indirectDisplacement, getIfSymAddrConst]
  rw [if_pos hdisp]
  cases first
  · simp only [Bool.not_false, if_true, Bool.false_eq_true, if_false]
    rw [printPrefix_append]
  · simp only [Bool.not_true, Bool.false_eq_true, if_false, if_true, String.append_empty]
    rw [printPrefix_append]

/-- With displacement 0 the part "displacement (constant)" of `printOpIndirect` writes
nothing, whatever symbolic expression is supplied. -/
theorem indirectDisplacement_zero (env : PrinterEnv) (symbolic : Option SymbolicExpression)
    (inst : cs_insn) (index : Nat) (first : Bool) (os : String)
    (hdisp : (inst.operand index).mem.disp = 0) :
    AArch64PrettyPrinter.indirectDisplacement env symbolic inst index first os = (first, os) := by
  simp only [AArch64PrettyPrinter.indirectDisplacement]
  rw [if_neg (by simpa using hdisp)]

/-- C22: when the decoded displacement of the memory operand is 0, the AArch64
`printOpIndirect` writes the same text with a symbolic expression supplied as with
none: the symbolic expression is dropped, and what is written is the bracket with the
registers and the shift only. -/
theorem printOpIndirect_drops_symbolic_at_zero (env : PrinterEnv) (os : String)
    (symbolic : Option SymbolicExpression) (inst : cs_insn) (index : Nat)
    (hdisp : (inst.operand index).mem.disp = 0) :
    AArch64PrettyPrinter.printOpIndirect env os symbolic inst index =
      AArch64PrettyPrinter.printOpIndirect env os none inst index := by
  simp only [AArch64PrettyPrinter.printOpIndirect]
  rw [indirectDisplacement_zero env symbolic inst index _ _ hdisp,
    indirectDisplacement_zero env none inst index _ _ hdisp]

/-- C22, failing input: for `ldr x2, [x1, :lo12:foo]` decoded with displacement 0 the
memory operand is written as `[x1]`, without the symbolic expression that is
supplied. -/
theorem printOpIndirect_drops_symbolic_at_zero_witness :
    (ldrLo12Zero.operand 1).mem.disp = 0 ∧
    AArch64PrettyPrinter.printOpIndirect sampleEnv ""
        (some (SymbolicExpression.SymAddrConst 0 7)) ldrLo12Zero 1 =
      AArch64PrettyPrinter.printOpIndirect sampleEnv "" none ldrLo12Zero 1 ∧
    AArch64PrettyPrinter.printOpIndirect sampleEnv "" none ldrLo12Zero 1 = "[x1]" ∧
    AArch64PrettyPrinter.printOperandList sampleEnv "ldr " ldrLo12Zero =
      Run.returned "ldr x2,[x1]" :=
  ⟨by decide,
    printOpIndirect_drops_symbolic_at_zero sampleEnv ""
      (some (SymbolicExpression.SymAddrConst 0 7)) ldrLo12Zero 1 (by decide),
    by decide, by decide⟩

/-- With a displacement other than 0 the AArch64 `printOpIndirect` writes the symbolic
expression in the place of the number: the text does not depend on the value of the
displacement. -/
theorem printOpIndirect_symbolic_nonzero (env : PrinterEnv) (os : String) (Offset : Int)
    (Sym : Nat) (inst : cs_insn) (index : Nat)
    (hdisp : (inst.operand index).mem.disp ≠ 0) :
    AArch64PrettyPrinter.printOpIndirect env os
        (some (SymbolicExpression.SymAddrConst Offset Sym)) inst index =
      (let op := inst.operand index
       let R1 := AArch64PrettyPrinter.indirectBase env op true (os ++ "[")
       let os2 := R1.2 ++ (if R1.1 then "" else ",") ++
         AArch64PrettyPrinter.printPrefix env "" inst index ++
         env.printSymbolicExpression Offset Sym false
       let os4 := AArch64PrettyPrinter.indirectShift op
         (AArch64PrettyPrinter.indirectIndex env op false os2)
       if inst.writeback ∧ add64 index 1 = inst.op_count then os4 ++ "]" ++ "!"
       else os4 ++ "]") := by
  simp only [AArch64PrettyPrinter.printOpIndirect]
  rw [indirectDisplacement_symbolic env Offset Sym inst index _ _ hdisp]

/-- The AT&T `printOpIndirect` writes the symbolic expression whatever the decoded
displacement is: for `mov foo(%rbx), %rax` with displacement 0 the symbol is written. -/
theorem att_printOpIndirect_keeps_symbolic_at_zero :
    (movIndirectZero.operand 0).mem.disp = 0 ∧
    AttPrettyPrinter.printOpIndirect sampleEnv "mov "
        (some (SymbolicExpression.SymAddrConst 0 7)) movIndirectZero 0 = "mov sym7(%r3)" ∧
    AttPrettyPrinter.printOpIndirect sampleEnv "mov " none movIndirectZero 0 = "mov (%r3)" := by
  decide

/-- The example with displacement 16: the symbolic expression is written with its
prefix. -/
theorem printOpIndirect_sixteen :
    AArch64PrettyPrinter.printOperandList sampleEnv "ldr " ldrLo12Sixteen =
      Run.returned "ldr x2,[x1,:lo12:sym7]" := by
  decide

/-! ## The immediate operand: C23 -/

/-- C23: in the AT&T and in the AArch64 `printOpImmediate`, when `getSymbolicImmediate`
yields a `SymAddrConst` for the symbolic expression supplied, the operand written is
the text of `printSymbolicExpression` for it (after `$` in AT&T and after a blank and
the prefix of the operand in AArch64, both left out for a call or a jump as the code
has it), and the immediate of the operand is not read; when
`getSymbolicImmediate` yields nothing, the number is written: in AT&T in decimal, or in
base 16 for a call or a jump, and in AArch64 after `#`, with the shift if there is
one. -/
theorem printOpImmediate_symbolic_override (env : PrinterEnv) (os : String)
    (symbolic : Option SymbolicExpression) (instX : cs_insn_x86) (instA : cs_insn)
    (index : Nat) :
    (∀ s, env.getSymbolicImmediate symbolic = some s →
      AttPrettyPrinter.printOpImmediate env os symbolic instX index =
        os ++ (if !instX.is_call && !instX.is_jump then "$" else "") ++
          env.printSymbolicExpression s.1 s.2 (!instX.is_call && !instX.is_jump) ∧
      AArch64PrettyPrinter.printOpImmediate env os symbolic instA index =
        os ++ (if !instA.is_jump then " " else "") ++
          AArch64PrettyPrinter.printPrefix env "" instA index ++
          env.printSymbolicExpression s.1 s.2 (!instA.is_jump)) ∧
    (env.getSymbolicImmediate symbolic = none →
      AttPrettyPrinter.printOpImmediate env os symbolic instX index =
        os ++ (if !instX.is_call && !instX.is_jump then "$" else "") ++
          (if instX.is_call || instX.is_jump then showHexBase (instX.operand index).imm
           else toString (instX.operand index).imm) ∧
      AArch64PrettyPrinter.printOpImmediate env os symbolic instA index =
        os ++ "#" ++ toString (instA.operand index).imm ++
          (if (instA.operand index).shift_type ≠ arm64_shifter.ARM64_SFT_INVALID ∧
              (instA.operand index).shift_value ≠ 0 then
            "," ++ AArch64PrettyPrinter.printShift "" (instA.operand index).shift_type
              (instA.operand index).shift_value
           else "")) := by
  constructor
  · intro s hs
    constructor
    · simp only [AttPrettyPrinter.printOpImmediate, hs]
      cases instX.is_call <;> cases instX.is_jump <;> simp
    · simp only [AArch64PrettyPrinter.printOpImmediate, hs]
      rw [printPrefix_append]
      cases instA.is_jump <;> simp
  · intro hs
    constructor
    · simp only [AttPrettyPrinter.printOpImmediate, hs]
      cases instX.is_call <;> cases instX.is_jump <;> simp
    · simp only [AArch64PrettyPrinter.printOpImmediate, hs]
      split_ifs
      · rw [printShift_append]
        simp [String.append_assoc]
      · simp

/-- C23, witness: the immediate 4 of `mov $4, %eax` and of `add x2, x1, #4` with the
symbolic expression for symbol 7 supplied, and without it. -/
theorem printOpImmediate_symbolic_override_witness :
    AttPrettyPrinter.printOpImmediate sampleEnv "mov "
        (some (SymbolicExpression.SymAddrConst 0 7)) movImmediate 0 =
      "mov " ++ (if !movImmediate.is_call && !movImmediate.is_jump then "$" else "") ++
        sampleEnv.printSymbolicExpression 0 7 (!movImmediate.is_call && !movImmediate.is_jump) ∧
    AArch64PrettyPrinter.printOpImmediate sampleEnv "add x2,x1,"
        (some (SymbolicExpression.SymAddrConst 0 7)) addLo12 2 =
      "add x2,x1," ++ (if !addLo12.is_jump then " " else "") ++
        AArch64PrettyPrinter.printPrefix sampleEnv "" addLo12 2 ++
        sampleEnv.printSymbolicExpression 0 7 (!addLo12.is_jump) ∧
    AttPrettyPrinter.printOpImmediate sampleEnv "mov "
      (some (SymbolicExpression.SymAddrConst 0 7)) movImmediate 0 = "mov $sym7" ∧
    AArch64PrettyPrinter.printOpImmediate sampleEnv "add x2,x1,"
      (some (SymbolicExpression.SymAddrConst 0 7)) addLo12 2 = "add x2,x1, sym7" ∧
    AttPrettyPrinter.printOpImmediate sampleEnv "mov " none movImmediate 0 = "mov $4" ∧
    AArch64PrettyPrinter.printOpImmediate sampleEnv "add x2,x1," none addLo12 2 =
      "add x2,x1,#4" :=
  ⟨((printOpImmediate_symbolic_override sampleEnv "mov "
      (some (SymbolicExpression.SymAddrConst 0 7)) movImmediate addLo12 0).1 (0, 7) rfl).1,
    ((printOpImmediate_symbolic_override sampleEnv "add x2,x1,"
      (some (SymbolicExpression.SymAddrConst 0 7)) movImmediate addLo12 2).1 (0, 7) rfl).2,
    by decide, by decide, by decide, by decide⟩

/-- The numbers that the AT&T `printOpImmediate` writes for a call: in base 16 with
`0x`, a plain `0` for zero, and the two's complement for a negative immediate. -/
theorem att_printOpImmediate_call :
    AttPrettyPrinter.printOpImmediate sampleEnv "call " none callImmediate 0 =
      "call 0x401000" ∧
    showHexBase 0 = "0" ∧ showHexBase (-1) = "0xffffffffffffffff" := by
  decide

/-! ## Operands that end the process: C24 -/

theorem printOpPrefetch_exits_iff (os : String) (prefetch : arm64_prefetch_op) :
    (∃ os1 status, AArch64PrettyPrinter.printOpPrefetch os prefetch = Run.exited os1 status) ↔
      prefetch.named = false := by
  cases prefetch <;>
    simp [AArch64PrettyPrinter.printOpPrefetch, arm64_prefetch_op.named]

theorem printOpBarrier_exits_iff (os : String) (barrier : arm64_barrier_op) :
    (∃ os1 status, AArch64PrettyPrinter.printOpBarrier os barrier = Run.exited os1 status) ↔
      barrier.named = false := by
  cases barrier <;>
    simp [AArch64PrettyPrinter.printOpBarrier, arm64_barrier_op.named]

/-- When `printOperand` ends the process, the status is 1 and the stream is as it was
when `printOperand` was called. -/
theorem printOperand_exited (env : PrinterEnv) (os : String) (inst : cs_insn) (index : Nat)
    (os1 : String) (status : Nat)
    (h : AArch64PrettyPrinter.printOperand env os inst index = Run.exited os1 status) :
    os1 = os ∧ status = 1 := by
  rw [printOperand_append] at h
  cases hp : AArch64PrettyPrinter.printOperand env "" inst index with
  | returned r =>
    rw [hp] at h
    simp at h
  | exited os2 st =>
    rw [hp] at h
    simp only [Run.exited.injEq] at h
    exact ⟨h.1.symm, h.2.symm⟩

/-- C24 (as amended): for every instruction and operand index, `printOperand` ends the
process exactly when the kind of the operand is invalid or none of the kinds that are
formatted, or the operand is a prefetch operand whose prefetch operation is invalid or
unknown, or a barrier operand whose barrier operation is invalid or unknown; the
status is then 1 and nothing has been written for the operand. -/
theorem printOperand_exits_iff (env : PrinterEnv) (os : String) (inst : cs_insn)
    (index : Nat) :
    ((∃ os1 status,
        AArch64PrettyPrinter.printOperand env os inst index = Run.exited os1 status) ↔
      ((inst.operand index).type.formatted = false ∨
       ((inst.operand index).type = arm64_op_type.ARM64_OP_PREFETCH ∧
         (inst.operand index).prefetch.named = false) ∨
       ((inst.operand index).type = arm64_op_type.ARM64_OP_BARRIER ∧
         (inst.operand index).barrier.named = false))) ∧
    ((∃ os1 status,
        AArch64PrettyPrinter.printOperand env os inst index = Run.exited os1 status) ↔
      AArch64PrettyPrinter.printOperand env os inst index = Run.exited os 1) := by
  constructor
  · simp only [AArch64PrettyPrinter.printOperand]
    cases (inst.operand index).type with
    | ARM64_OP_PREFETCH =>
      simp only [printOpPrefetch_exits_iff]
      simp [arm64_op_type.formatted]
    | ARM64_OP_BARRIER =>
      simp only [printOpBarrier_exits_iff]
      simp [arm64_op_type.formatted]
    | ARM64_OP_REG =>
      simp only [arm64_op_type.formatted]
      split_ifs <;> simp
    | _ => simp [arm64_op_type.formatted]
  · constructor
    · rintro ⟨os1, status, h⟩
      obtain ⟨h1, h2⟩ := printOperand_exited env os inst index os1 status h
      rw [h, h1, h2]
    · intro h
      exact ⟨os, 1, h⟩

/-- C24, counterexample: the operand 0 of `prfmInvalid` is of the kind prefetch, which
is formatted, and `printOperand` ends the process on it with status 1, because its
prefetch operation is `ARM64_PRFM_INVALID`; and so it does on the barrier operand of
`dsbUnlisted`, whose barrier operation is none of those listed. -/
theorem printOperand_exits_on_invalid_prefetch :
    (prfmInvalid.operand 0).type = arm64_op_type.ARM64_OP_PREFETCH ∧
    (prfmInvalid.operand 0).type.formatted = true ∧
    AArch64PrettyPrinter.printOperand sampleEnv "prfm " prfmInvalid 0 =
      Run.exited "prfm " 1 ∧
    (dsbUnlisted.operand 0).type = arm64_op_type.ARM64_OP_BARRIER ∧
    (dsbUnlisted.operand 0).type.formatted = true ∧
    AArch64PrettyPrinter.printOperand sampleEnv "dsb " dsbUnlisted 0 = Run.exited "dsb " 1 := by
  decide

/-- An operand slot that is not filled, beyond the operands of the instruction, is of
the invalid kind: `printOperand` ends the process. -/
theorem printOperand_exits_on_invalid_kind :
    AArch64PrettyPrinter.printOperand sampleEnv "dmb " dmbIsh 1 = Run.exited "dmb " 1 ∧
    AArch64PrettyPrinter.printOperand sampleEnv "dmb " dmbIsh 0 = Run.returned "dmb ish" := by
  decide

/-! ## Forwarded symbols: C25 -/

theorem find?_of_nodup_keys (table : List (Nat × Nat)) (key dest : Nat)
    (hkeys : (table.map Prod.fst).Nodup) (hentry : (key, dest) ∈ table) :
    table.find? (fun entry => entry.1 = key) = some (key, dest) := by
  induction table with
  | nil => simp at hentry
  | cons e es ih =>
    simp only [List.map_cons, List.nodup_cons] at hkeys
    rcases List.mem_cons.mp hentry with h | h
    · subst h
      simp
    · have hne : e.1 ≠ key := by
        intro heq
        apply hkeys.1
        rw [heq]
        exact List.mem_map.mpr ⟨(key, dest), h, rfl⟩
      rw [List.find?_cons_of_neg _ (by simpa using hne)]
      exact ih hkeys.2 h

/-- C25: for a symbol with an entry in the table `SymbolForwarding`, whose keys are
distinct as those of a map, `getForwardedSymbolName` returns the name of the symbol
that the entry gives as destination; for a symbol without an entry, and when the
table is absent, it returns no name. -/
theorem getForwardedSymbolName_destination (env : PrinterEnv) (symbol : Symbol) :
    (∀ table dest destSymbol, env.symbolForwarding = some table →
      (table.map Prod.fst).Nodup → (symbol.uuid, dest) ∈ table →
      env.getByUUID dest = some (Node.symbol destSymbol) →
      AArch64PrettyPrinter.getForwardedSymbolName env symbol = some (some destSymbol.name)) ∧
    (∀ table, env.symbolForwarding = some table → symbol.uuid ∉ table.map Prod.fst →
      AArch64PrettyPrinter.getForwardedSymbolName env symbol = some none) ∧
    (env.symbolForwarding = none →
      AArch64PrettyPrinter.getForwardedSymbolName env symbol = some none) := by
  refine ⟨?_, ?_, ?_⟩
  · intro table dest destSymbol htable hkeys hentry hdest
    simp only [AArch64PrettyPrinter.getForwardedSymbolName, htable,
      find?_of_nodup_keys table symbol.uuid dest hkeys hentry, hdest]
  · intro table htable hno
    have hfind : table.find? (fun entry => entry.1 = symbol.uuid) = none := by
      rw [List.find?_eq_none]
      intro entry hentry heq
      apply hno
      exact List.mem_map.mpr ⟨entry, hentry, by simpa using heq⟩
    simp only [AArch64PrettyPrinter.getForwardedSymbolName, htable, hfind]
  · intro htable
    simp only [AArch64PrettyPrinter.getForwardedSymbolName, htable]

/-- C25, witness: `foo` is forwarded to `foo@PLT`, whose name is returned; `foo@PLT`
has no entry, and without the table `foo` has no forwarded name. -/
theorem getForwardedSymbolName_destination_witness :
    AArch64PrettyPrinter.getForwardedSymbolName sampleEnv fooSymbol =
      some (some fooPltSymbol.name) ∧
    fooPltSymbol.name = "foo@PLT" ∧ fooSymbol.name = "foo" ∧
    AArch64PrettyPrinter.getForwardedSymbolName sampleEnv fooPltSymbol = some none ∧
    AArch64PrettyPrinter.getForwardedSymbolName sampleEnvNoForwarding fooSymbol = some none :=
  ⟨(getForwardedSymbolName_destination sampleEnv fooSymbol).1 [(7, 8)] 8 fooPltSymbol rfl
      (by decide) (by decide) rfl,
    rfl, rfl,
    (getForwardedSymbolName_destination sampleEnv fooPltSymbol).2.1 [(7, 8)] rfl (by decide),
    (getForwardedSymbolName_destination sampleEnvNoForwarding fooSymbol).2.2 rfl⟩

/-! ## printBlockOrWarning: C29 -/

/-- C29: `printBlockOrWarning` on a block that starts below the cursor `last` writes
the overlap warning, not the block, and returns `last`; on any other block it prints
the block and returns the address at which the block ends, start plus size. -/
theorem printBlockOrWarning_spec (printBlock : String → Nat → Block → String)
    (printOverlapWarning : String → Nat → String) (os : String) (addr : Nat) (x : Block)
    (last : Nat) :
    (addr < last →
      printBlockOrWarning printBlock printOverlapWarning os addr x last =
        (printOverlapWarning os addr, last)) ∧
    (¬ addr < last →
      printBlockOrWarning printBlock printOverlapWarning os addr x last =
        (printBlock os addr x, addr + x.size)) := by
  unfold printBlockOrWarning
  constructor
  · intro h
    rw [if_pos h]
  · intro h
    rw [if_neg h]

/-- C29, witness: with the cursor at `0x1004`, a block of 8 bytes at `0x1000` is
answered with the warning and the cursor stays; at `0x1004` it is printed and the
cursor moves to `0x100c`. -/
theorem printBlockOrWarning_spec_witness :
    printBlockOrWarning (fun os _ _ => os ++ "block\n") (fun os _ => os ++ "# WARNING\n") ""
        0x1000 { uuid := 100, kind := BlockKind.code, offset := 0, size := 8 } 0x1004 =
      ("# WARNING\n", 0x1004) ∧
    printBlockOrWarning (fun os _ _ => os ++ "block\n") (fun os _ => os ++ "# WARNING\n") ""
        0x1004 { uuid := 100, kind := BlockKind.code, offset := 0, size := 8 } 0x1004 =
      ("block\n", 0x100c) :=
  ⟨(printBlockOrWarning_spec _ _ "" 0x1000 _ 0x1004).1 (by decide),
    (printBlockOrWarning_spec _ _ "" 0x1004 _ 0x1004).2 (by decide)⟩

/-- The cursor that `printBlockOrWarning` returns is never below the cursor it was
given. -/
theorem printBlockOrWarning_cursor (printBlock : String → Nat → Block → String)
    (printOverlapWarning : String → Nat → String) (os : String) (addr : Nat) (x : Block)
    (last : Nat) :
    last ≤ (printBlockOrWarning printBlock printOverlapWarning os addr x last).2 := by
  unfold printBlockOrWarning
  split_ifs with h
  · exact Nat.le_refl _
  · simp only []
    omega

/-! ## The driver: the loop over the modules -/

theorem section_getAddress_none_of_interval (S : Section) (BI : ByteInterval)
    (hBI : BI ∈ S.byteIntervals) (h : BI.address = none) : S.getAddress = none := by
  unfold Section.getAddress
  rw [if_neg]
  intro hall
  have := List.all_eq_true.mp hall BI hBI
  rw [h] at this
  simp at this

theorem module_getAddress_none_of_section (M : Module) (S : Section) (hS : S ∈ M.sections)
    (h : S.getAddress = none) : M.getAddress = none := by
  unfold Module.getAddress
  rw [if_neg]
  intro hall
  have := List.all_eq_true.mp hall S hS
  rw [h] at this
  simp at this

/-- A module in which the module, a section or a byte interval lacks an address is a
module without an address, which is what the driver tests. -/
theorem module_getAddress_none_of_lack (M : Module)
    (hlack : M.getAddress = none ∨ (∃ S ∈ M.sections, S.getAddress = none) ∨
      (∃ S ∈ M.sections, ∃ BI ∈ S.byteIntervals, BI.address = none)) :
    M.getAddress = none := by
  rcases hlack with h | ⟨S, hS, h⟩ | ⟨S, hS, BI, hBI, h⟩
  · exact h
  · exact module_getAddress_none_of_section M S hS h
  · exact module_getAddress_none_of_section M S hS
      (section_getAddress_none_of_interval S BI hBI h)

/-- The loop over the modules writes to the log and calls `layoutModule`; it neither
sets the target nor links. -/
theorem layoutModules_beforePrinting (w : DriverWorld) (Cfg : List Edge) (Ctx : Context)
    (Ms : List Module) :
    ∀ e ∈ (layoutModules w Cfg Ctx Ms).1, e.beforePrinting = true := by
  induction Ms generalizing Ctx with
  | nil => intro e he; simp [layoutModules] at he
  | cons M Ms ih =>
    intro e he
    simp only [layoutModules] at he
    split_ifs at he
    · simp only [List.mem_cons] at he
      rcases he with h | h | h
      · subst h; rfl
      · subst h; rfl
      · exact ih _ e h
    · exact ih _ e he

/-- The loop over the modules calls `layoutModule` on every module without an
address. -/
theorem layoutModules_calls (w : DriverWorld) (Cfg : List Edge) (Ctx : Context)
    (Ms : List Module) (M : Module) (hM : M ∈ Ms) (hnone : M.getAddress = none) :
    ∃ pre post Ctx1, (layoutModules w Cfg Ctx Ms).1 =
      pre ++ DriverEvent.layoutModule M (layoutModule Cfg Ctx1 M).1 :: post := by
  induction Ms generalizing Ctx with
  | nil => simp at hM
  | cons X Xs ih =>
    rcases List.mem_cons.mp hM with h | h
    · subst h
      simp only [layoutModules, hnone, Option.isNone_none, if_true]
      exact ⟨[DriverEvent.logInfo [LogItem.text "Module ", LogItem.text (w.getUUIDText M),
          LogItem.text " has invalid layout; laying out module automatically...",
          LogItem.endl]],
        (layoutModules w Cfg (layoutModule Cfg Ctx M).2.1 Xs).1, Ctx, rfl⟩
    · simp only [layoutModules]
      split_ifs
      · obtain ⟨pre, post, Ctx1, heq⟩ := ih (layoutModule Cfg Ctx X).2.1 h
        refine ⟨DriverEvent.logInfo [LogItem.text "Module ", LogItem.text (w.getUUIDText X),
            LogItem.text " has invalid layout; laying out module automatically...",
            LogItem.endl] ::
          DriverEvent.layoutModule X (layoutModule Cfg Ctx X).1 :: pre, post, Ctx1, ?_⟩
        simp only [heq, List.cons_append]
      · exact ih Ctx h

/-- The run of `main` up to line 77, when the command line parses, no help is asked
for and the IR is loaded. -/
theorem main_eq_mainLoaded (w : DriverWorld) (vm : ProgramOptions) (ir : IR)
    (hparse : w.parse = Except.ok vm) (hhelp : vm.help = false)
    (hload : loadedIR w vm = some ir) :
    ∃ before, main w = mainLoaded w vm ir before ∧
      ∀ e ∈ before, e.beforePrinting = true := by
  unfold loadedIR at hload
  simp only [main, hparse, hhelp, Bool.false_eq_true, if_false]
  cases hir : vm.ir with
  | none =>
    rw [hir] at hload
    simp only [Option.some.injEq] at hload
    subst hload
    exact ⟨[], rfl, by simp⟩
  | some irPath =>
    rw [hir] at hload
    simp only [] at hload
    split_ifs at hload with hex
    simp only [Option.some.injEq] at hload
    subst hload
    simp only [hex, if_true]
    refine ⟨_, rfl, ?_⟩
    intro e he
    simp only [List.mem_singleton] at he
    subst he
    rfl

/-- The events of `mainLoaded` on an IR with a module: those so far, those of the loop
over the modules, `setDebug`, and then the report of the unsupported combination or
the events of `printAndLink`. -/
theorem mainLoaded_eq (w : DriverWorld) (vm : ProgramOptions) (ir : IR)
    (before : List DriverEvent) (hne : ir.modules ≠ []) :
    mainLoaded w vm ir before =
      if requestedTarget w vm (laidOutIR w ir) ∉ w.getRegisteredTargets then
        { status := EXIT_FAILURE,
          events := before ++ (layoutModules w ir.cfg w.Ctx ir.modules).1 ++
            [DriverEvent.setDebug 0] ++
            reportUnsupported w (requestedTarget w vm (laidOutIR w ir)).1
              (requestedTarget w vm (laidOutIR w ir)).2 }
      else
        { status := EXIT_SUCCESS,
          events := before ++ (layoutModules w ir.cfg w.Ctx ir.modules).1 ++
            [DriverEvent.setDebug 0] ++
            (printAndLink vm (laidOutIR w ir) (requestedTarget w vm (laidOutIR w ir)).1
              (requestedTarget w vm (laidOutIR w ir)).2).events } := by
  have hemp : ir.modules.isEmpty = false := by
    cases hm : ir.modules with
    | nil => exact absurd hm hne
    | cons _ _ => rfl
  simp only [mainLoaded, hemp, Bool.false_eq_true, if_false, laidOutIR]
  split_ifs <;> rfl

/-- A module with all its addresses is passed on as it is: the driver does not call
`layoutModule` on the laid out module of scenario A. -/
theorem main_skips_layout_of_addressed_module :
    (main (sampleWorld sampleOptions scenarioALaidOutIR)).events =
      [DriverEvent.setDebug 0, DriverEvent.setTarget "elf" "aarch64",
        DriverEvent.link "a.out" [] [] scenarioALaidOutIR] := by
  decide

/-! ## The driver after a layout failure: C27 -/

/-- C27: on an IR whose module cannot be laid out, `layoutModule` returns false, and
the driver goes on: it sets the target, calls `link` on the IR and returns
`EXIT_SUCCESS`. -/
theorem main_links_after_layout_failure :
    (layoutModule crossSectionIR.cfg (sampleWorld sampleOptions crossSectionIR).Ctx
      crossSectionModule).1 = false ∧
    main (sampleWorld sampleOptions crossSectionIR) =
      { status := EXIT_SUCCESS,
        events := [
          DriverEvent.logInfo [LogItem.text "Module ",
            LogItem.text "00000000-0000-0000-0000-000000000001",
            LogItem.text " has invalid layout; laying out module automatically...",
            LogItem.endl],
          DriverEvent.layoutModule crossSectionModule false,
          DriverEvent.setDebug 0,
          DriverEvent.setTarget "elf" "aarch64",
          DriverEvent.link "a.out" [] [] crossSectionIR] } := by
  decide

/-! ## The driver and the registered targets: C28 -/

theorem mem_reportUnsupported (w : DriverWorld) (format syntaxName : String) :
    unsupportedLine format syntaxName ∈ reportUnsupported w format syntaxName ∧
    (∀ t ∈ w.getRegisteredTargets, combinationLine w t ∈ reportUnsupported w format syntaxName) ∧
    ∀ e ∈ reportUnsupported w format syntaxName, e.beforePrinting = true := by
  refine ⟨?_, ?_, ?_⟩
  · simp [reportUnsupported, unsupportedLine]
  · intro t ht
    simp only [reportUnsupported, List.mem_append, List.mem_map]
    exact Or.inr ⟨t, ht, rfl⟩
  · intro e he
    simp only [reportUnsupported, List.mem_append, List.mem_map, List.mem_cons,
      List.mem_singleton, List.not_mem_nil, or_false] at he
    rcases he with (h | h | h) | ⟨t, _, h⟩ <;> subst h <;> rfl

theorem printAndLink_events (vm : ProgramOptions) (ir : IR) (format syntaxName : String) :
    DriverEvent.setTarget format syntaxName ∈ (printAndLink vm ir format syntaxName).events ∧
    (∀ binaryPath, vm.binary = some binaryPath →
      DriverEvent.link binaryPath (vm.compiler_args.getD []) (vm.library_paths.getD []) ir ∈
        (printAndLink vm ir format syntaxName).events) ∧
    (vm.binary = none →
      DriverEvent.logInfo [LogItem.text "Please specify a binary name", LogItem.endl] ∈
        (printAndLink vm ir format syntaxName).events ∧
      ∀ e ∈ (printAndLink vm ir format syntaxName).events, e.isLink = false) := by
  refine ⟨?_, ?_, ?_⟩
  · simp [printAndLink]
  · intro binaryPath hb
    simp [printAndLink, hb]
  · intro hb
    constructor
    · simp [printAndLink, hb]
    · intro e he
      simp only [printAndLink, hb, List.mem_cons, List.mem_append, List.mem_map,
        List.mem_singleton, List.not_mem_nil, or_false] at he
      rcases he with h | (⟨x, _, h⟩ | ⟨x, _, h⟩) | h <;> subst h <;> rfl

/-- C28 (as amended): when the driver has loaded an IR with a module and the pair of
the format and the syntax asked for is not among the registered targets, it reports
the unsupported combination and every registered combination, returns `EXIT_FAILURE`
and calls neither `setTarget` nor `link`; for a registered pair it calls `setTarget`
with the pair and returns `EXIT_SUCCESS`, and it prints and links when the name of a
binary was given, while without that name it writes "Please specify a binary name" to
the log and does not print. -/
theorem main_target_check (w : DriverWorld) (vm : ProgramOptions) (ir : IR)
    (hparse : w.parse = Except.ok vm) (hhelp : vm.help = false)
    (hload : loadedIR w vm = some ir) (hne : ir.modules ≠ []) :
    (requestedTarget w vm (laidOutIR w ir) ∉ w.getRegisteredTargets →
      (main w).status = EXIT_FAILURE ∧
      unsupportedLine (requestedTarget w vm (laidOutIR w ir)).1
        (requestedTarget w vm (laidOutIR w ir)).2 ∈ (main w).events ∧
      (∀ t ∈ w.getRegisteredTargets, combinationLine w t ∈ (main w).events) ∧
      (∀ e ∈ (main w).events, e.isSetTarget = false ∧ e.isLink = false)) ∧
    (requestedTarget w vm (laidOutIR w ir) ∈ w.getRegisteredTargets →
      (main w).status = EXIT_SUCCESS ∧
      DriverEvent.setTarget (requestedTarget w vm (laidOutIR w ir)).1
        (requestedTarget w vm (laidOutIR w ir)).2 ∈ (main w).events ∧
      (∀ binaryPath, vm.binary = some binaryPath →
        DriverEvent.link binaryPath (vm.compiler_args.getD []) (vm.library_paths.getD [])
          (laidOutIR w ir) ∈ (main w).events) ∧
      (vm.binary = none →
        DriverEvent.logInfo [LogItem.text "Please specify a binary name", LogItem.endl] ∈
          (main w).events ∧
        ∀ e ∈ (main w).events, e.isLink = false)) := by
  obtain ⟨before, hmain, hbefore⟩ := main_eq_mainLoaded w vm ir hparse hhelp hload
  rw [hmain, mainLoaded_eq w vm ir before hne]
  have hlay := layoutModules_beforePrinting w ir.cfg w.Ctx ir.modules
  constructor
  · intro hnot
    rw [if_pos hnot]
    obtain ⟨h1, h2, h3⟩ := mem_reportUnsupported w (requestedTarget w vm (laidOutIR w ir)).1
      (requestedTarget w vm (laidOutIR w ir)).2
    refine ⟨rfl, List.mem_append_right _ h1, fun t ht => List.mem_append_right _ (h2 t ht), ?_⟩
    intro e he
    have hb : e.beforePrinting = true := by
      simp only [List.mem_append, List.mem_singleton] at he
      rcases he with ((h | h) | h) | h
      · exact hbefore e h
      · exact hlay e h
      · subst h; rfl
      · exact h3 e h
    simpa [DriverEvent.beforePrinting] using hb
  · intro hreg
    rw [if_neg (not_not.mpr hreg)]
    obtain ⟨h1, h2, h3⟩ := printAndLink_events vm (laidOutIR w ir)
      (requestedTarget w vm (laidOutIR w ir)).1 (requestedTarget w vm (laidOutIR w ir)).2
    refine ⟨rfl, List.mem_append_right _ h1,
      fun p hp => List.mem_append_right _ (h2 p hp), ?_⟩
    intro hb
    refine ⟨List.mem_append_right _ (h3 hb).1, ?_⟩
    intro e he
    simp only [List.mem_append, List.mem_singleton] at he
    rcases he with ((h | h) | h) | h
    · have := hbefore e h
      simp only [DriverEvent.beforePrinting, Bool.and_eq_true, Bool.not_eq_true'] at this
      exact this.2
    · have := hlay e h
      simp only [DriverEvent.beforePrinting, Bool.and_eq_true, Bool.not_eq_true'] at this
      exact this.2
    · subst h; rfl
    · exact (h3 hb).2 e h

/-- C28, witness: with the syntax `masm` asked for on an ELF module the driver
reports the combination and the two registered ones and returns `EXIT_FAILURE`; with
the default syntax it sets the target and links. -/
theorem main_target_check_witness :
    requestedTarget (sampleWorld { sampleOptions with syntaxOpt := some "masm" } scenarioALaidOutIR)
      { sampleOptions with syntaxOpt := some "masm" }
      (laidOutIR (sampleWorld { sampleOptions with syntaxOpt := some "masm" } scenarioALaidOutIR)
        scenarioALaidOutIR) = ("elf", "masm") ∧
    (main (sampleWorld { sampleOptions with syntaxOpt := some "masm" }
      scenarioALaidOutIR)).status = EXIT_FAILURE ∧
    unsupportedLine "elf" "masm" ∈
      (main (sampleWorld { sampleOptions with syntaxOpt := some "masm" }
        scenarioALaidOutIR)).events ∧
    (main (sampleWorld sampleOptions scenarioALaidOutIR)).status = EXIT_SUCCESS ∧
    DriverEvent.setTarget "elf" "aarch64" ∈
      (main (sampleWorld sampleOptions scenarioALaidOutIR)).events :=
  ⟨by decide,
    ((main_target_check (sampleWorld { sampleOptions with syntaxOpt := some "masm" }
      scenarioALaidOutIR) { sampleOptions with syntaxOpt := some "masm" } scenarioALaidOutIR
      rfl rfl rfl (by decide)).1 (by decide)).1,
    ((main_target_check (sampleWorld { sampleOptions with syntaxOpt := some "masm" }
      scenarioALaidOutIR) { sampleOptions with syntaxOpt := some "masm" } scenarioALaidOutIR
      rfl rfl rfl (by decide)).1 (by decide)).2.1,
    ((main_target_check (sampleWorld sampleOptions scenarioALaidOutIR) sampleOptions
      scenarioALaidOutIR rfl rfl rfl (by decide)).2 (by decide)).1,
    ((main_target_check (sampleWorld sampleOptions scenarioALaidOutIR) sampleOptions
      scenarioALaidOutIR rfl rfl rfl (by decide)).2 (by decide)).2.1⟩

/-- C28, counterexample: the pair of `elf` and `aarch64` is registered, and without the
name of a binary the driver sets the target, asks for the name in the log and returns
`EXIT_SUCCESS` without a call of `link`: nothing is printed. -/
theorem main_registered_target_without_binary :
    ("elf", "aarch64") ∈
      (sampleWorld { sampleOptions with binary := none } scenarioALaidOutIR).getRegisteredTargets ∧
    main (sampleWorld { sampleOptions with binary := none } scenarioALaidOutIR) =
      { status := EXIT_SUCCESS,
        events := [DriverEvent.setDebug 0, DriverEvent.setTarget "elf" "aarch64",
          DriverEvent.logInfo [LogItem.text "Please specify a binary name", LogItem.endl]] } := by
  decide

/-- The report for the syntax `masm` in full. -/
theorem main_unsupported_report :
    main (sampleWorld { sampleOptions with syntaxOpt := some "masm" } scenarioALaidOutIR) =
      { status := EXIT_FAILURE,
        events := [DriverEvent.setDebug 0, unsupportedLine "elf" "masm",
          DriverEvent.logError [LogItem.text "Available combinations:\n"],
          DriverEvent.logError [LogItem.text "    ", LogItem.setw 9, LogItem.text "format",
            LogItem.text "syntax\n"],
          DriverEvent.logError [LogItem.text "    ", LogItem.setw 9, LogItem.text "elf",
            LogItem.text "aarch64", LogItem.text "\n"],
          DriverEvent.logError [LogItem.text "    ", LogItem.setw 9, LogItem.text "elf",
            LogItem.text "att", LogItem.text "\n"]] } := by
  decide

/-! ## The number of calls of findAndMergeBIs: C30 -/

/-- The counted recursion returns, within a bound of one call more than the section
has intervals, what `findAndMergeBIsFuel` returns; every merge has removed one
interval, and there is one invocation more than there are merges. -/
theorem findAndMergeBIsCounted_spec (Cfg : List Edge) (Fuel : Nat) (S : Section)
    (hFuel : S.byteIntervals.length < Fuel) :
    ∃ Merges, findAndMergeBIsCounted Cfg Fuel S =
        some (Merges + 1, Merges, findAndMergeBIsFuel Cfg Fuel S) ∧
      (findAndMergeBIsFuel Cfg Fuel S).2.byteIntervals.length + Merges =
        S.byteIntervals.length ∧
      Merges ≤ S.byteIntervals.length - 1 := by
  induction Fuel generalizing S with
  | zero => omega
  | succ Fuel ih =>
    simp only [findAndMergeBIsCounted, findAndMergeBIsFuel]
    cases hscan : scanByteIntervals Cfg S 0 S.byteIntervals with
    | done => exact ⟨0, rfl, rfl, Nat.zero_le _⟩
    | failed => exact ⟨0, rfl, rfl, Nat.zero_le _⟩
    | merge I J =>
      obtain ⟨hI, hJ, hne⟩ := scan_merge_facts Cfg S I J hscan
      have hlen := mergeAt_length S I J hI hJ
      obtain ⟨Merges, h1, h2, h3⟩ := ih (S.mergeAt I J) (by omega)
      refine ⟨Merges + 1, ?_, ?_, ?_⟩
      · simp only [h1]
      · simp only []
        omega
      · have : 2 ≤ S.byteIntervals.length := by omega
        omega

/-- C30 (as amended): the recursion of `findAndMergeBIs` on a section with `n` byte
intervals comes to an end within `n + 1` invocations and returns what
`findAndMergeBIs` returns; it has made one invocation more than merges, every merge
has removed one interval from the section, there are at most `n - 1` merges, and
there are at most `n` invocations, or one when the section has no interval. -/
theorem findAndMergeBIs_terminates (Cfg : List Edge) (S : Section) :
    ∃ Calls Merges,
      findAndMergeBIsCounted Cfg (S.byteIntervals.length + 1) S =
        some (Calls, Merges, findAndMergeBIs Cfg S) ∧
      Calls = Merges + 1 ∧
      (findAndMergeBIs Cfg S).2.byteIntervals.length + Merges = S.byteIntervals.length ∧
      Merges ≤ S.byteIntervals.length - 1 ∧
      Calls ≤ max S.byteIntervals.length 1 := by
  obtain ⟨Merges, h1, h2, h3⟩ :=
    findAndMergeBIsCounted_spec Cfg (S.byteIntervals.length + 1) S (Nat.lt_succ_self _)
  refine ⟨Merges + 1, Merges, h1, rfl, h2, h3, ?_⟩
  rcases Nat.eq_zero_or_pos S.byteIntervals.length with h | h
  · rw [h] at h3 ⊢
    simp only [Nat.zero_sub, Nat.le_zero_eq] at h3
    subst h3
    simp
  · have : max S.byteIntervals.length 1 = S.byteIntervals.length := Nat.max_eq_left h
    omega

/-- C30, counterexample: a section without byte intervals has `n = 0`, and
`findAndMergeBIs` is invoked once on it, which is more than `n` times. -/
theorem findAndMergeBIs_one_call_on_empty_section :
    emptySection.byteIntervals.length = 0 ∧
    findAndMergeBIsCounted [] (emptySection.byteIntervals.length + 1) emptySection =
      some (1, 0, true, emptySection) ∧
    findAndMergeBIs [] emptySection = (true, emptySection) := by
  decide

/-- The section of scenario A takes two invocations and one merge. -/
theorem findAndMergeBIs_scenarioA_calls :
    ∀ S ∈ scenarioA.sections, findAndMergeBIsCounted scenarioACfg 3 S =
      some (2, 1, findAndMergeBIs scenarioACfg S) := by
  decide

/-! ## What fixIntegralSymbols changes: C31 -/

theorem sublist_insertBlock (B : Block) (l : List Block) : l.Sublist (insertBlock B l) := by
  induction l with
  | nil => exact List.nil_sublist _
  | cons X Xs ih =>
    simp only [insertBlock]
    split
    · exact List.sublist_cons_self _ _
    · exact List.Sublist.cons₂ _ ih

theorem intervalGrows_refl (N : Nat) (BI : ByteInterval) : intervalGrows N BI BI :=
  ⟨rfl, List.Sublist.refl _, fun _ hC => Or.inl hC⟩

theorem intervalGrows_trans (N N1 : Nat) (hN : N ≤ N1) (X Y Z : ByteInterval)
    (h1 : intervalGrows N X Y) (h2 : intervalGrows N1 Y Z) : intervalGrows N X Z := by
  refine ⟨h2.1.trans h1.1, h1.2.1.trans h2.2.1, ?_⟩
  intro C hC
  rcases h2.2.2 C hC with h | ⟨hs, hu⟩
  · exact h1.2.2 C h
  · exact Or.inr ⟨hs, le_trans hN hu⟩

theorem sectionsGrow_refl (N : Nat) (Ss : List Section) : sectionsGrow N Ss Ss :=
  forall₂_refl_of _
    (fun S => ⟨rfl, rfl, forall₂_refl_of _ (intervalGrows_refl N) S.byteIntervals⟩) Ss

theorem forall₂_trans_of₂ {α : Type} (R R1 R2 : α → α → Prop)
    (h : ∀ x y z, R x y → R1 y z → R2 x z) (l1 l2 l3 : List α)
    (h1 : List.Forall₂ R l1 l2) (h2 : List.Forall₂ R1 l2 l3) : List.Forall₂ R2 l1 l3 := by
  induction h1 generalizing l3 with
  | nil => cases h2; exact List.Forall₂.nil
  | cons hab _ ih =>
    cases h2 with
    | cons hbc htl => exact List.Forall₂.cons (h _ _ _ hab hbc) (ih _ htl)

theorem sectionsGrow_trans (N N1 : Nat) (hN : N ≤ N1) (A B C : List Section)
    (h1 : sectionsGrow N A B) (h2 : sectionsGrow N1 B C) : sectionsGrow N A C := by
  refine forall₂_trans_of₂ _ _ _ ?_ A B C h1 h2
  intro X Y Z hXY hYZ
  exact ⟨hYZ.1.trans hXY.1, hYZ.2.1.trans hXY.2.1,
    forall₂_trans_of₂ _ _ _ (intervalGrows_trans N N1 hN) _ _ _ hXY.2.2 hYZ.2.2⟩

theorem addNewBlock_grows (Ctx : Context) (BI : ByteInterval) (K : BlockKind) (Off : Nat) :
    intervalGrows Ctx.nextUUID BI (BI.addNewBlock Ctx K Off).2.1 := by
  refine ⟨rfl, sublist_insertBlock _ _, ?_⟩
  intro C hC
  rcases (mem_insertBlock _ C BI.blocks).mp hC with h | h
  · subst h
    exact Or.inr ⟨rfl, le_refl _⟩
  · exact Or.inl h

theorem resolveInInterval_grows (Ctx : Context) (BI : ByteInterval) (Addr : Nat) :
    intervalGrows Ctx.nextUUID BI (resolveInInterval Ctx BI Addr).2.1 := by
  unfold resolveInInterval
  split
  · exact intervalGrows_refl _ _
  · split
    · exact addNewBlock_grows _ _ _ _
    · exact addNewBlock_grows _ _ _ _

theorem modifyByteIntervalOn_grows (N X : Nat) (F : ByteInterval → ByteInterval)
    (hF : ∀ BI, intervalGrows N BI (F BI)) (Secs : List Section) :
    sectionsGrow N Secs (modifyByteIntervalOn X F Secs) := by
  induction Secs with
  | nil => exact List.Forall₂.nil
  | cons S Ss ih =>
    simp only [modifyByteIntervalOn]
    split
    · exact List.Forall₂.cons
        ⟨rfl, rfl, modifyFirst_forall₂ _ (intervalGrows_refl N) _ _ hF _⟩
        (sectionsGrow_refl N Ss)
    · exact List.Forall₂.cons
        ⟨rfl, rfl, forall₂_refl_of _ (intervalGrows_refl N) _⟩ ih

/-- The loop body of `fixIntegralSymbols` for one symbol with an address: blocks of size
0 are added to the sections, and the symbol is as it was or has a referent in the
place of its address. -/
theorem fixIntegralSymbol_frame (Ctx : Context) (Secs : List Section) (Sym : Symbol)
    (Addr : Nat) (hA : Sym.payload = SymbolPayload.address Addr) :
    sectionsGrow Ctx.nextUUID Secs (fixIntegralSymbol Ctx Secs Sym Addr).2.1 ∧
      symbolResolved Sym (fixIntegralSymbol Ctx Secs Sym Addr).2.2 := by
  unfold fixIntegralSymbol
  split
  · exact ⟨modifyByteIntervalOn_grows _ _ _ (fun BI => resolveInInterval_grows Ctx BI Addr) _,
      Or.inr ⟨Addr, _, hA, rfl⟩⟩
  · split
    · exact ⟨modifyByteIntervalOn_grows _ _ _ (fun BI => addNewBlock_grows Ctx BI _ _) _,
        Or.inr ⟨Addr, _, hA, rfl⟩⟩
    · exact ⟨sectionsGrow_refl _ _, Or.inl rfl⟩

theorem fixIntegralSymbolsLoop_frame (Ctx : Context) (Secs : List Section)
    (Syms : List Symbol) :
    sectionsGrow Ctx.nextUUID Secs (fixIntegralSymbolsLoop Ctx Secs Syms).2.1 ∧
      List.Forall₂ symbolResolved Syms (fixIntegralSymbolsLoop Ctx Secs Syms).2.2 := by
  induction Syms generalizing Ctx Secs with
  | nil => exact ⟨sectionsGrow_refl _ _, List.Forall₂.nil⟩
  | cons Sym Syms ih =>
    cases hP : Sym.payload with
    | address Addr =>
      simp only [fixIntegralSymbolsLoop, hP]
      obtain ⟨h1, h2⟩ := fixIntegralSymbol_frame Ctx Secs Sym Addr hP
      obtain ⟨h3, h4⟩ := ih (fixIntegralSymbol Ctx Secs Sym Addr).1
        (fixIntegralSymbol Ctx Secs Sym Addr).2.1
      exact ⟨sectionsGrow_trans _ _ (fixIntegralSymbol_extends Ctx Secs Sym Addr).2 _ _ _ h1 h3,
        List.Forall₂.cons h2 h4⟩
    | none =>
      simp only [fixIntegralSymbolsLoop, hP]
      obtain ⟨h3, h4⟩ := ih Ctx Secs
      exact ⟨h3, List.Forall₂.cons (Or.inl rfl) h4⟩
    | referent B =>
      simp only [fixIntegralSymbolsLoop, hP]
      obtain ⟨h3, h4⟩ := ih Ctx Secs
      exact ⟨h3, List.Forall₂.cons (Or.inl rfl) h4⟩

theorem containsAddr_of_no_address (BI : ByteInterval) (X : Nat) (h : BI.address = none) :
    BI.containsAddr X = false := by
  unfold ByteInterval.containsAddr
  rw [h]

/-- Where no interval has an address, the loop of `fixIntegralSymbols` changes
nothing. -/
theorem fixIntegralSymbolsLoop_unaddressed (Ctx : Context) (Secs : List Section)
    (Syms : List Symbol) (hno : ∀ BI ∈ intervalsOf Secs, BI.address = none) :
    fixIntegralSymbolsLoop Ctx Secs Syms = (Ctx, Secs, Syms) := by
  have hfind : ∀ X, findByteIntervalOn X Secs = none := by
    intro X
    rw [findByteIntervalOn_none_iff]
    intro BI hBI
    exact containsAddr_of_no_address BI X (hno BI hBI)
  induction Syms with
  | nil => rfl
  | cons Sym Syms ih =>
    cases hP : Sym.payload with
    | address Addr =>
      simp only [fixIntegralSymbolsLoop, hP,
        fixIntegralSymbol_unresolved Ctx Secs Sym Addr (hfind _) (hfind _), ih]
    | none => simp only [fixIntegralSymbolsLoop, hP, ih]
    | referent B => simp only [fixIntegralSymbolsLoop, hP, ih]

/-- C31: `fixIntegralSymbols` changes only symbols that have an address and no referent,
and only adds blocks.  Every symbol of the result is the symbol at its place in the
module, as it was or, if it had an address and no referent, with a referent in the
place of the address; a symbol with a referent and a symbol with neither referent nor
address is as it was.  The sections and the intervals are the same but for their
blocks; every block of the module is a block of the same interval afterwards, with
its offset, size and kind, and every other block has size 0 and a new UUID.  On a
module in which no interval has an address the context and the module are left as they
were. -/
theorem fixIntegralSymbols_frame (Ctx : Context) (M : Module) :
    List.Forall₂ symbolResolved M.symbols (fixIntegralSymbols Ctx M).2.symbols ∧
    (∀ (K : Nat) (Sym : Symbol), M.symbols[K]? = some Sym →
      (∀ A, Sym.payload ≠ SymbolPayload.address A) →
      (fixIntegralSymbols Ctx M).2.symbols[K]? = some Sym) ∧
    sectionsGrow Ctx.nextUUID M.sections (fixIntegralSymbols Ctx M).2.sections ∧
    ((∀ BI ∈ intervalsOf M.sections, BI.address = none) →
      fixIntegralSymbols Ctx M = (Ctx, M)) := by
  obtain ⟨h1, h2⟩ := fixIntegralSymbolsLoop_frame Ctx M.sections M.symbols
  refine ⟨h2, ?_, h1, ?_⟩
  · intro K Sym hK hA
    exact (fixIntegralSymbols_at_other Ctx M K Sym hK hA).1
  · intro hno
    unfold fixIntegralSymbols
    simp only [fixIntegralSymbolsLoop_unaddressed Ctx M.sections M.symbols hno]

/-- Scenario B and a module without addresses: in scenario B the symbol `S` receives a
new data block of size 0 as its referent and the block of the module stays; in the
module without addresses nothing changes, although two symbols have addresses. -/
theorem fixIntegralSymbols_frame_examples :
    (fixIntegralSymbols { nextUUID := 1000 } scenarioB).2.symbols =
      [{ uuid := 200, name := "S", payload := SymbolPayload.referent 1000 }] ∧
    (intervalsOf (fixIntegralSymbols { nextUUID := 1000 } scenarioB).2.sections).map
        (fun BI => BI.blocks) =
      [[{ uuid := 100, kind := BlockKind.data, offset := 0, size := 8 },
        { uuid := 1000, kind := BlockKind.data, offset := 4, size := 0 }]] ∧
    fixIntegralSymbols { nextUUID := 1000 } unaddressedModule =
      ({ nextUUID := 1000 }, unaddressedModule) := by
  decide

/-! ## The names of the added symbols are distinct: C32 -/

theorem digitChar_value : ∀ k, k < 10 → (Nat.digitChar k).toNat - 48 = k := by
  decide

theorem foldl_digits (a : Nat) (l : List Char) :
    l.foldl (fun a c => a * 10 + (c.toNat - 48)) a =
      a * 10 ^ l.length + l.foldl (fun a c => a * 10 + (c.toNat - 48)) 0 := by
  induction l generalizing a with
  | nil => simp
  | cons c cs ih =>
    simp only [List.foldl_cons, List.length_cons]
    rw [ih (a * 10 + (c.toNat - 48)), ih (0 * 10 + (c.toNat - 48))]
    ring

theorem digitsValue_toDigitsCore (fuel n : Nat) (ds : List Char) (h : n < fuel) :
    digitsValue (Nat.toDigitsCore 10 fuel n ds) = n * 10 ^ ds.length + digitsValue ds := by
  induction fuel generalizing n ds with
  | zero => omega
  | succ fuel ih =>
    simp only [Nat.toDigitsCore]
    have hd : (Nat.digitChar (n % 10)).toNat - 48 = n % 10 :=
      digitChar_value _ (Nat.mod_lt _ (by norm_num))
    have hcons : digitsValue (Nat.digitChar (n % 10) :: ds) =
        n % 10 * 10 ^ ds.length + digitsValue ds := by
      unfold digitsValue
      rw [List.foldl_cons, foldl_digits, hd]
      simp
    split_ifs with h0
    · rw [hcons]
      have : n % 10 = n := by omega
      rw [this]
    · rw [ih (n / 10) _ (by omega), hcons, List.length_cons, pow_succ]
      have hn : n = n / 10 * 10 + n % 10 := by omega
      calc n / 10 * (10 ^ ds.length * 10) + (n % 10 * 10 ^ ds.length + digitsValue ds)
          = (n / 10 * 10 + n % 10) * 10 ^ ds.length + digitsValue ds := by ring
        _ = n * 10 ^ ds.length + digitsValue ds := by rw [← hn]

/-- The decimal digits of a number give the number back. -/
theorem digitsValue_toDigits (n : Nat) : digitsValue (Nat.toDigits 10 n) = n := by
  unfold Nat.toDigits
  rw [digitsValue_toDigitsCore (n + 1) n [] (Nat.lt_succ_self n)]
  simp [digitsValue]

/-- The name made from an address is made from no other address. -/
theorem overlapSymbolName_injective (a b : Nat)
    (h : overlapSymbolName a = overlapSymbolName b) : a = b := by
  have h1 : (".gtirb_layout_" ++ String.mk (Nat.toDigits 10 a)).data =
      (".gtirb_layout_" ++ String.mk (Nat.toDigits 10 b)).data := congrArg String.data h
  rw [String.data_append, String.data_append] at h1
  have h2 : Nat.toDigits 10 a = Nat.toDigits 10 b := List.append_cancel_left h1
  rw [← digitsValue_toDigits a, ← digitsValue_toDigits b, h2]

theorem forall₂_exists_of_mem_right {α β : Type} (R : α → β → Prop) (l : List α)
    (l1 : List β) (h : List.Forall₂ R l l1) (x : α) (hx : x ∈ l) : ∃ y ∈ l1, R x y := by
  induction h with
  | nil => simp at hx
  | @cons a b as bs hab _ ih =>
    rcases List.mem_cons.mp hx with hx | hx
    · subst hx
      exact ⟨b, List.mem_cons_self _ _, hab⟩
    · obtain ⟨y, hy, hR⟩ := ih hx
      exact ⟨y, List.mem_cons_of_mem _ hy, hR⟩

/-- The blocks that the loop body counts for `P` start in the lookup range of `P`. -/
theorem overlapRange_le_lookupRange (P : ByteInterval × Block) :
    (overlapRange P).length ≤ (P.1.blocks.filter (startsInLookupRange P)).length := by
  unfold overlapRange ByteInterval.findBlocksAt ByteInterval.findBlocksAtRange
  cases hA : P.1.address with
  | none => simp
  | some A =>
    by_cases hs : P.2.size = 0
    · simp only [hs, if_true]
      apply filter_length_le_of_imp
      intro B hB
      simp only [startsInLookupRange, hA, hs, if_true]
      exact hB
    · simp only [hs, if_false]
      apply filter_length_le_of_imp
      intro B hB
      simp only [startsInLookupRange, hA, hs, if_false]
      simp only [decide_eq_true_eq] at hB ⊢
      exact ⟨hB.1, lt_of_lt_of_le hB.2 (add64_le _ _)⟩

/-- Among two or more blocks of a list without repetition that start in the lookup
range of `P`, one is another block than `P`. -/
theorem other_block_in_range (P : ByteInterval × Block) (hnodup : P.1.blocks.Nodup)
    (h : 2 ≤ (P.1.blocks.filter (startsInLookupRange P)).length) :
    ∃ B ∈ P.1.blocks, B ≠ P.2 ∧ startsInLookupRange P B = true := by
  have hnd : (P.1.blocks.filter (startsInLookupRange P)).Nodup := hnodup.filter _
  by_contra hno
  have hall : ∀ B ∈ P.1.blocks.filter (startsInLookupRange P), B = P.2 := by
    intro B hB
    by_contra hne
    rw [List.mem_filter] at hB
    exact hno ⟨B, hB.1, hne, hB.2⟩
  cases hl : P.1.blocks.filter (startsInLookupRange P) with
  | nil => rw [hl] at h; simp at h
  | cons x xs =>
    cases xs with
    | nil => rw [hl] at h; simp at h
    | cons y ys =>
      rw [hl] at hnd hall
      have hx := hall x (List.mem_cons_self _ _)
      have hy := hall y (List.mem_cons_of_mem _ (List.mem_cons_self _ _))
      rw [List.nodup_cons] at hnd
      apply hnd.1
      rw [hx, ← hy]
      exact List.mem_cons_self _ _

/-- The loop of `addOverlapDisambiguationSymbols` over blocks in address order, none of
them below the address of the flag: the symbols added were made, in this order, for
blocks `Ps` among the blocks visited whose addresses increase strictly and are above
the address of the flag; each of these blocks has no symbol in the module and counts
more than one block in its range. -/
theorem overlapFold_increasing (M : Module) (L : List (ByteInterval × Block))
    (St : OverlapState) (hsorted : L.Pairwise (fun P Q => blockAddr P ≤ blockAddr Q))
    (hSt : St.Found = true → ∀ Q ∈ L, St.FoundAt ≤ blockAddr Q) :
    ∃ New Ps, (L.foldl (overlapStep M) St).SymsToAdd = St.SymsToAdd ++ New ∧
      List.Forall₂ symbolMadeFor New Ps ∧ Ps.Sublist L ∧
      (Ps.map blockAddr).Pairwise (fun a b => a < b) ∧
      (∀ P ∈ Ps, 1 < (overlapRange P).length ∧ M.findSymbols P.2 = []) ∧
      (St.Found = true → ∀ P ∈ Ps, St.FoundAt < blockAddr P) := by
  induction L generalizing St with
  | nil =>
    exact ⟨[], [], by simp, List.Forall₂.nil, List.Sublist.refl _, List.Pairwise.nil,
      by simp, by simp⟩
  | cons P Rest ih =>
    rw [List.pairwise_cons] at hsorted
    obtain ⟨hP, hRest⟩ := hsorted
    rw [List.foldl_cons]
    by_cases h1 : St.Found = true ∧ St.FoundAt = blockAddr P
    · -- the block is skipped
      have hstep : overlapStep M St P = St := by rw [overlapStep_eq, if_pos h1]
      rw [hstep]
      obtain ⟨New, Ps, hNew, hFor, hSub, hInc, hProp, hAbove⟩ := ih St hRest
        (fun hf Q hQ => hSt hf Q (List.mem_cons_of_mem _ hQ))
      exact ⟨New, Ps, hNew, hFor, List.Sublist.cons _ hSub, hInc, hProp, hAbove⟩
    · have hlow : St.Found = true → St.FoundAt < blockAddr P := by
        intro hf
        have hle := hSt hf P (List.mem_cons_self _ _)
        have hne : St.FoundAt ≠ blockAddr P := fun he => h1 ⟨hf, he⟩
        omega
      by_cases h2 : 1 < (overlapRange P).length ∧ (M.findSymbols P.2).isEmpty = true
      · -- a symbol is made for the block
        have hstep : overlapStep M St P =
            { Found := true, FoundAt := blockAddr P,
              SymsToAdd := St.SymsToAdd ++ [overlapSymbol St.Ctx.nextUUID P],
              Ctx := { nextUUID := St.Ctx.nextUUID + 1 } } := by
          rw [overlapStep_eq, if_neg h1, if_pos h2]
        rw [hstep]
        obtain ⟨New, Ps, hNew, hFor, hSub, hInc, hProp, hAbove⟩ := ih
          { Found := true, FoundAt := blockAddr P,
            SymsToAdd := St.SymsToAdd ++ [overlapSymbol St.Ctx.nextUUID P],
            Ctx := { nextUUID := St.Ctx.nextUUID + 1 } } hRest (fun _ Q hQ => hP Q hQ)
        have hAbove1 : ∀ Q ∈ Ps, blockAddr P < blockAddr Q := hAbove rfl
        refine ⟨overlapSymbol St.Ctx.nextUUID P :: New, P :: Ps, ?_,
          List.Forall₂.cons ⟨rfl, rfl⟩ hFor, List.Sublist.cons₂ _ hSub, ?_, ?_, ?_⟩
        · rw [hNew]
          simp
        · rw [List.map_cons, List.pairwise_cons]
          refine ⟨?_, hInc⟩
          intro a ha
          obtain ⟨Q, hQ, rfl⟩ := List.mem_map.mp ha
          exact hAbove1 Q hQ
        · intro Q hQ
          rcases List.mem_cons.mp hQ with h | h
          · subst h
            exact ⟨h2.1, List.isEmpty_iff.mp h2.2⟩
          · exact hProp Q h
        · intro hf Q hQ
          rcases List.mem_cons.mp hQ with h | h
          · subst h
            exact hlow hf
          · exact lt_trans (hlow hf) (hAbove1 Q h)
      · -- the flag is cleared
        have hstep : overlapStep M St P = { St with Found := false } := by
          rw [overlapStep_eq, if_neg h1, if_neg h2]
        rw [hstep]
        obtain ⟨New, Ps, hNew, hFor, hSub, hInc, hProp, _⟩ := ih { St with Found := false }
          hRest (fun hf => absurd hf Bool.false_ne_true)
        refine ⟨New, Ps, hNew, hFor, List.Sublist.cons _ hSub, hInc, hProp, ?_⟩
        intro hf Q hQ
        exact lt_of_lt_of_le (hlow hf) (hP Q (hSub.subset hQ))

theorem mem_blocks_of_mem_allBlocks (Secs : List Section) (P : ByteInterval × Block)
    (hP : P ∈ allBlocks Secs) : P.1 ∈ intervalsOf Secs ∧ P.2 ∈ P.1.blocks := by
  unfold allBlocks at hP
  simp only [List.mem_flatten, List.mem_map] at hP
  obtain ⟨l, ⟨S, hS, rfl⟩, hP⟩ := hP
  simp only [List.mem_flatten, List.mem_map] at hP
  obtain ⟨l1, ⟨BI, hBI, rfl⟩, hP⟩ := hP
  simp only [List.mem_map] at hP
  obtain ⟨B, hB, rfl⟩ := hP
  refine ⟨?_, hB⟩
  unfold intervalsOf
  simp only [List.mem_flatten, List.mem_map]
  exact ⟨S.byteIntervals, ⟨S, hS, rfl⟩, hBI⟩

theorem pairwise_ne_of_forall₂ (New : List Symbol) (Ps : List (ByteInterval × Block))
    (hFor : List.Forall₂ symbolMadeFor New Ps)
    (hInc : (Ps.map blockAddr).Pairwise (fun a b => a < b)) :
    (New.map Symbol.name).Pairwise (fun a b => a ≠ b) := by
  induction hFor with
  | nil => exact List.Pairwise.nil
  | @cons S P Ss Qs hSP htl ih =>
    rw [List.map_cons, List.pairwise_cons] at hInc ⊢
    refine ⟨?_, ih hInc.2⟩
    intro n hn
    obtain ⟨T, hT, rfl⟩ := List.mem_map.mp hn
    obtain ⟨Q, hQ, hTQ⟩ := forall₂_exists_of_mem_right symbolMadeFor Ss Qs htl T hT
    intro heq
    rw [hSP.2, hTQ.2] at heq
    have := overlapSymbolName_injective _ _ heq
    have hlt := hInc.1 (blockAddr Q) (List.mem_map.mpr ⟨Q, hQ, rfl⟩)
    omega

/-- C32: in one call of `addOverlapDisambiguationSymbols` the symbols added were made,
in this order, for blocks `Ps` of the module, taken in the order of the iteration,
whose addresses increase strictly: at most one symbol is added for an address, and
the names of the added symbols are pairwise distinct.  Each of these blocks had no
symbol before the call, and two or more blocks of its interval start in its lookup
range, so that, the blocks of an interval being distinct, another block than it starts
there.  The symbols of the module come first in the result, unchanged, and the
sections are unchanged. -/
theorem addOverlapDisambiguationSymbols_distinct (Ctx : Context) (M : Module) :
    ∃ Ps, List.Forall₂ symbolMadeFor (addedSymbols Ctx M) Ps ∧ Ps.Sublist M.blocks ∧
      (Ps.map blockAddr).Pairwise (fun a b => a < b) ∧
      ((addedSymbols Ctx M).map Symbol.name).Pairwise (fun a b => a ≠ b) ∧
      (∀ P ∈ Ps, M.findSymbols P.2 = [] ∧ P.2 ∈ P.1.blocks ∧
        2 ≤ (P.1.blocks.filter (startsInLookupRange P)).length ∧
        (P.1.blocks.Nodup → ∃ B ∈ P.1.blocks, B ≠ P.2 ∧ startsInLookupRange P B = true)) ∧
      (addOverlapDisambiguationSymbols Ctx M).2.symbols = M.symbols ++ addedSymbols Ctx M ∧
      (addOverlapDisambiguationSymbols Ctx M).2.sections = M.sections := by
  obtain ⟨New, Ps, hNew, hFor, hSub, hInc, hProp, _⟩ := overlapFold_increasing M M.blocks
    { Found := false, FoundAt := 0, SymsToAdd := [], Ctx := Ctx } (blocks_sorted M)
    (fun hf => absurd hf Bool.false_ne_true)
  have hadded : addedSymbols Ctx M = New := by
    rw [addedSymbols_eq, hNew]
    rfl
  rw [hadded]
  refine ⟨Ps, hFor, hSub, hInc, pairwise_ne_of_forall₂ New Ps hFor hInc, ?_, ?_, rfl⟩
  · intro P hP
    obtain ⟨hrange, hnone⟩ := hProp P hP
    have hmem : P ∈ allBlocks M.sections := by
      have := hSub.subset hP
      unfold Module.blocks at this
      exact (List.perm_insertionSort _ _).subset this
    have hcount : 2 ≤ (P.1.blocks.filter (startsInLookupRange P)).length :=
      le_trans hrange (overlapRange_le_lookupRange P)
    exact ⟨hnone, (mem_blocks_of_mem_allBlocks _ P hmem).2, hcount,
      fun hnd => other_block_in_range P hnd hcount⟩
  · rw [addOverlapDisambiguationSymbols_symbols, hadded]

/-- In `threeAtOneAddress` three blocks start at `0x2000`, of which the first has a
symbol, and two at `0x2008`: one symbol is added for each of the two addresses, for
the second block at `0x2000` and for the first at `0x2008`. -/
theorem addOverlapDisambiguationSymbols_distinct_example :
    (addOverlapDisambiguationSymbols { nextUUID := 1000 } threeAtOneAddress).2.symbols =
      threeAtOneAddress.symbols ++
        [{ uuid := 1000, name := ".gtirb_layout_8192", payload := SymbolPayload.referent 101 },
         { uuid := 1001, name := ".gtirb_layout_8200", payload := SymbolPayload.referent 103 }] ∧
    threeAtOneAddress.blocks.map (fun P => (P.2.uuid, blockAddr P)) =
      [(100, 0x2000), (101, 0x2000), (102, 0x2000), (103, 0x2008), (104, 0x2008)] := by
  decide

/-! ## The raw value of an operand: C33 -/

theorem headD_consHead (c : Char) (l : List (List Char)) :
    (consHead c l).headD [] = c :: l.headD [] := by
  cases l <;> rfl

theorem getD_succ_consHead (c : Char) (l : List (List Char)) (k : Nat) :
    (consHead c l).getD (k + 1) [] = l.getD (k + 1) [] := by
  cases l <;> rfl

theorem topLevelOperandsFrom_open (b : Bool) (cs : List Char) :
    topLevelOperandsFrom b ('[' :: cs) = consHead '[' (topLevelOperandsFrom true cs) := by
  simp [topLevelOperandsFrom]

theorem topLevelOperandsFrom_close (b : Bool) (cs : List Char) :
    topLevelOperandsFrom b (']' :: cs) = consHead ']' (topLevelOperandsFrom false cs) := by
  simp [topLevelOperandsFrom]

theorem topLevelOperandsFrom_comma (cs : List Char) :
    topLevelOperandsFrom false (',' :: cs) = [] :: topLevelOperandsFrom false cs := by
  simp [topLevelOperandsFrom]

theorem topLevelOperandsFrom_comma_inside (cs : List Char) :
    topLevelOperandsFrom true (',' :: cs) = consHead ',' (topLevelOperandsFrom true cs) := by
  simp [topLevelOperandsFrom]

theorem topLevelOperandsFrom_other (b : Bool) (c : Char) (cs : List Char) (h1 : c ≠ '[')
    (h2 : c ≠ ']') (h3 : c ≠ ',') :
    topLevelOperandsFrom b (c :: cs) = consHead c (topLevelOperandsFrom b cs) := by
  simp [topLevelOperandsFrom, h1, h2, h3]

theorem rawValueLength_open (b : Bool) (cs : List Char) :
    rawValueLength b ('[' :: cs) = rawValueLength true cs + 1 := by
  simp [rawValueLength]

theorem rawValueLength_close (b : Bool) (cs : List Char) :
    rawValueLength b (']' :: cs) = rawValueLength false cs + 1 := by
  simp [rawValueLength]

theorem rawValueLength_comma (cs : List Char) : rawValueLength false (',' :: cs) = 0 := by
  simp [rawValueLength]

theorem rawValueLength_comma_inside (cs : List Char) :
    rawValueLength true (',' :: cs) = rawValueLength true cs + 1 := by
  simp [rawValueLength]

theorem rawValueLength_other (b : Bool) (c : Char) (cs : List Char) (h1 : c ≠ '[')
    (h2 : c ≠ ']') (h3 : c ≠ ',') :
    rawValueLength b (c :: cs) = rawValueLength b cs + 1 := by
  simp [rawValueLength, h1, h2, h3]

/-- The five cases of a character of the operand string. -/
theorem operand_char_cases (b : Bool) (c : Char) :
    c = '[' ∨ c = ']' ∨ (c = ',' ∧ b = false) ∨ (c = ',' ∧ b = true) ∨
      (c ≠ '[' ∧ c ≠ ']' ∧ c ≠ ',') := by
  by_cases h1 : c = '['
  · exact Or.inl h1
  · by_cases h2 : c = ']'
    · exact Or.inr (Or.inl h2)
    · by_cases h3 : c = ','
      · cases b
        · exact Or.inr (Or.inr (Or.inl ⟨h3, rfl⟩))
        · exact Or.inr (Or.inr (Or.inr (Or.inl ⟨h3, rfl⟩)))
      · exact Or.inr (Or.inr (Or.inr (Or.inr ⟨h1, h2, h3⟩)))

theorem topLevelOperandsFrom_ne_nil (b : Bool) (cs : List Char) :
    topLevelOperandsFrom b cs ≠ [] := by
  cases cs with
  | nil => simp [topLevelOperandsFrom]
  | cons c cs =>
    have hcons : ∀ l, consHead c l ≠ [] := by intro l; cases l <;> simp [consHead]
    rcases operand_char_cases b c with h | h | ⟨h, hb⟩ | ⟨h, hb⟩ | ⟨h1, h2, h3⟩
    · subst h; rw [topLevelOperandsFrom_open]; exact hcons _
    · subst h; rw [topLevelOperandsFrom_close]; exact hcons _
    · subst h; subst hb; rw [topLevelOperandsFrom_comma]; simp
    · subst h; subst hb; rw [topLevelOperandsFrom_comma_inside]; exact hcons _
    · rw [topLevelOperandsFrom_other b c cs h1 h2 h3]; exact hcons _

/-- The second loop of `printOpRawValue` stops at the end of the first top-level
operand. -/
theorem take_rawValueLength (b : Bool) (cs : List Char) :
    cs.take (rawValueLength b cs) = (topLevelOperandsFrom b cs).headD [] := by
  induction cs generalizing b with
  | nil => rfl
  | cons c cs ih =>
    rcases operand_char_cases b c with h | h | ⟨h, hb⟩ | ⟨h, hb⟩ | ⟨h1, h2, h3⟩
    · subst h
      rw [rawValueLength_open, topLevelOperandsFrom_open, List.take_succ_cons, ih,
        headD_consHead]
    · subst h
      rw [rawValueLength_close, topLevelOperandsFrom_close, List.take_succ_cons, ih,
        headD_consHead]
    · subst h; subst hb
      rw [rawValueLength_comma, topLevelOperandsFrom_comma]
      rfl
    · subst h; subst hb
      rw [rawValueLength_comma_inside, topLevelOperandsFrom_comma_inside, List.take_succ_cons,
        ih, headD_consHead]
    · rw [rawValueLength_other b c cs h1 h2 h3, topLevelOperandsFrom_other b c cs h1 h2 h3,
        List.take_succ_cons, ih, headD_consHead]

/-- The skipping of the whitespace: the characters printed are the operand without the
whitespace at its start. -/
theorem drop_takeWhile_rawValue (b : Bool) (cs : List Char) :
    (cs.take (rawValueLength b cs)).drop (cs.takeWhile isspace).length =
      (cs.take (rawValueLength b cs)).dropWhile isspace := by
  induction cs generalizing b with
  | nil => rfl
  | cons c cs ih =>
    have hstep : ∀ b1, rawValueLength b (c :: cs) = rawValueLength b1 cs + 1 →
        ((c :: cs).take (rawValueLength b (c :: cs))).drop ((c :: cs).takeWhile isspace).length =
          ((c :: cs).take (rawValueLength b (c :: cs))).dropWhile isspace := by
      intro b1 hb1
      rw [hb1, List.take_succ_cons]
      by_cases hsp : isspace c = true
      · rw [List.takeWhile_cons_of_pos hsp, List.dropWhile_cons_of_pos hsp, List.length_cons,
          List.drop_succ_cons]
        exact ih b1
      · rw [List.takeWhile_cons_of_neg hsp, List.dropWhile_cons_of_neg hsp]
        rfl
    rcases operand_char_cases b c with h | h | ⟨h, hb⟩ | ⟨h, hb⟩ | ⟨h1, h2, h3⟩
    · subst h; exact hstep true (rawValueLength_open b cs)
    · subst h; exact hstep false (rawValueLength_close b cs)
    · subst h; subst hb
      rw [rawValueLength_comma]
      simp
    · subst h; subst hb; exact hstep true (rawValueLength_comma_inside cs)
    · exact hstep b (rawValueLength_other b c cs h1 h2 h3)

theorem rawValueSkip_here (index : Nat) (b : Bool) (cs : List Char) :
    rawValueSkip index index b cs = (b, cs) := by
  cases cs <;> simp [rawValueSkip]

theorem rawValueSkip_step (index curr : Nat) (b : Bool) (c : Char) (cs : List Char)
    (hne : curr ≠ index) :
    rawValueSkip index curr b (c :: cs) =
      if c = '[' then rawValueSkip index curr true cs
      else if c = ']' then rawValueSkip index curr false cs
      else if c = ',' ∧ b = false then rawValueSkip index (curr + 1) false cs
      else rawValueSkip index curr b cs := by
  simp only [rawValueSkip, hne, if_false]
  cases b <;> by_cases h3 : c = ',' <;> simp [h3]

/-- The first loop of `printOpRawValue` stops at the start of the top-level operand
with the index asked for, or at the end of the string when there is none. -/
theorem rawValueSkip_operand (index curr : Nat) (b : Bool) (cs : List Char)
    (hcurr : curr ≤ index) :
    ((rawValueSkip index curr b cs).2.take
        (rawValueLength (rawValueSkip index curr b cs).1 (rawValueSkip index curr b cs).2)) =
      (topLevelOperandsFrom b cs).getD (index - curr) [] := by
  induction cs generalizing curr b with
  | nil =>
    simp only [rawValueSkip, rawValueLength, topLevelOperandsFrom, List.take_nil]
    cases index - curr <;> rfl
  | cons c cs ih =>
    by_cases heq : curr = index
    · subst heq
      rw [rawValueSkip_here, Nat.sub_self, take_rawValueLength]
      cases h : topLevelOperandsFrom b (c :: cs) with
      | nil => exact absurd h (topLevelOperandsFrom_ne_nil _ _)
      | cons x xs => rfl
    · obtain ⟨k, hk⟩ : ∃ k, index - curr = k + 1 := ⟨index - curr - 1, by omega⟩
      rw [rawValueSkip_step index curr b c cs heq, hk]
      rcases operand_char_cases b c with h | h | ⟨h, hb⟩ | ⟨h, hb⟩ | ⟨h1, h2, h3⟩
      · subst h
        rw [if_pos rfl, topLevelOperandsFrom_open, getD_succ_consHead, ← hk]
        exact ih curr true hcurr
      · subst h
        rw [if_neg (by decide), if_pos rfl, topLevelOperandsFrom_close, getD_succ_consHead,
          ← hk]
        exact ih curr false hcurr
      · subst h; subst hb
        rw [if_neg (by decide), if_neg (by decide), if_pos ⟨rfl, rfl⟩,
          topLevelOperandsFrom_comma, ih (curr + 1) false (by omega),
          show index - (curr + 1) = k by omega]
        rfl
      · subst h; subst hb
        rw [if_neg (by decide), if_neg (by decide), if_neg (by simp),
          topLevelOperandsFrom_comma_inside, getD_succ_consHead, ← hk]
        exact ih curr true hcurr
      · rw [if_neg h1, if_neg h2, if_neg (by simp [h3]),
          topLevelOperandsFrom_other b c cs h1 h2 h3, getD_succ_consHead, ← hk]
        exact ih curr b hcurr

/-- The top-level operands joined by commas are the operand string: the cut loses
nothing but the commas. -/
theorem intercalate_topLevelOperandsFrom (b : Bool) (cs : List Char) :
    [','].intercalate (topLevelOperandsFrom b cs) = cs := by
  have hcons : ∀ (c : Char) (l : List (List Char)),
      [','].intercalate (consHead c l) = c :: [','].intercalate l := by
    intro c l
    cases l with
    | nil => rfl
    | cons x xs =>
      cases xs <;> simp [consHead, List.intercalate, List.intersperse]
  induction cs generalizing b with
  | nil => rfl
  | cons c cs ih =>
    rcases operand_char_cases b c with h | h | ⟨h, hb⟩ | ⟨h, hb⟩ | ⟨h1, h2, h3⟩
    · subst h; rw [topLevelOperandsFrom_open, hcons, ih]
    · subst h; rw [topLevelOperandsFrom_close, hcons, ih]
    · subst h; subst hb
      rw [topLevelOperandsFrom_comma]
      have := ih false
      cases hl : topLevelOperandsFrom false cs with
      | nil => exact absurd hl (topLevelOperandsFrom_ne_nil _ _)
      | cons x xs =>
        rw [hl] at this
        simp only [List.intercalate, List.intersperse, List.flatten_cons, List.nil_append,
          List.singleton_append] at this ⊢
        rw [this]
    · subst h; subst hb; rw [topLevelOperandsFrom_comma_inside, hcons, ih]
    · rw [topLevelOperandsFrom_other b c cs h1 h2 h3, hcons, ih]

theorem string_intercalate_go_mk (acc : String) (l : List (List Char)) :
    String.intercalate.go acc "," (l.map String.mk) =
      acc ++ String.mk ((l.map (fun x => ',' :: x)).flatten) := by
  induction l generalizing acc with
  | nil => simp [String.intercalate.go]
  | cons x xs ih =>
    simp only [List.map_cons, String.intercalate.go, ih, List.flatten_cons]
    apply String.ext
    simp [String.data_append]

theorem list_intercalate_cons (x : List Char) (xs : List (List Char)) :
    [','].intercalate (x :: xs) = x ++ (xs.map (fun y => ',' :: y)).flatten := by
  induction xs generalizing x with
  | nil => simp [List.intercalate, List.intersperse]
  | cons y ys ih =>
    have := ih y
    simp only [List.intercalate, List.intersperse, List.flatten_cons, List.map_cons,
      List.singleton_append] at this ⊢
    rw [this]
    simp

/-- Texts joined by commas as strings are the lists of their characters joined by
commas. -/
theorem string_intercalate_mk (l : List (List Char)) :
    ",".intercalate (l.map String.mk) = String.mk ([','].intercalate l) := by
  cases l with
  | nil => rfl
  | cons x xs =>
    rw [list_intercalate_cons]
    simp only [List.map_cons, String.intercalate, string_intercalate_go_mk]
    apply String.ext
    simp [String.data_append]

theorem map_range_getD {α β : Type} (l : List α) (d : α) (f : α → β) :
    (List.range l.length).map (fun i => f (l.getD i d)) = l.map f := by
  apply List.ext_getElem
  · simp
  · intro i h1 h2
    simp only [List.length_map, List.length_range] at h1
    simp [List.getD_eq_getElem?_getD, List.getElem?_eq_getElem h1]

/-- C33: the AArch64 `printOpRawValue` writes the top-level operand of the operand
string that has the index asked for, that is the text between two successive commas
outside the groups `[...]`, or the start or the end of the string, without the
whitespace at its start, and nothing when there is no such operand; the top-level
operands joined by commas are the operand string, so the texts written for the
indices `0 .. n - 1`, joined by commas, are the operand string with the whitespace at
the start of each operand removed. -/
theorem printOpRawValue_operand (os : String) (inst : cs_insn) (index : Nat) :
    AArch64PrettyPrinter.printOpRawValue os inst index =
      os ++ String.mk (trimStart ((topLevelOperands inst).getD index [])) ∧
    [','].intercalate (topLevelOperands inst) = cString inst.op_str ∧
    ",".intercalate ((List.range (topLevelOperands inst).length).map
        (fun i => AArch64PrettyPrinter.printOpRawValue "" inst i)) =
      String.mk ([','].intercalate ((topLevelOperands inst).map trimStart)) := by
  have hone : ∀ (os1 : String) (i : Nat), AArch64PrettyPrinter.printOpRawValue os1 inst i =
      os1 ++ String.mk (trimStart ((topLevelOperands inst).getD i [])) := by
    intro os1 i
    simp only [AArch64PrettyPrinter.printOpRawValue, topLevelOperands, trimStart]
    rw [drop_takeWhile_rawValue, rawValueSkip_operand i 0 false _ (Nat.zero_le _), Nat.sub_zero]
  refine ⟨hone os index, intercalate_topLevelOperandsFrom false _, ?_⟩
  simp only [hone, String.empty_append]
  rw [map_range_getD (topLevelOperands inst) [] (fun x => String.mk (trimStart x)),
    ← string_intercalate_mk, List.map_map]
  rfl

/-- The raw values of the operands of some operand strings: `mrs x2, nzcv`, a string
with a group before the operand, and an index without operand. -/
theorem printOpRawValue_examples :
    AArch64PrettyPrinter.printOpRawValue "" mrsInstruction 1 = "nzcv" ∧
    topLevelOperands mrsInstruction = ["x2".toList, " nzcv".toList] ∧
    topLevelOperands ldrIndexShift = ["x2".toList, " [x1, x3, lsl #3]".toList] ∧
    AArch64PrettyPrinter.printOpRawValue "" ldrIndexShift 1 = "[x1, x3, lsl #3]" ∧
    AArch64PrettyPrinter.printOpRawValue "" ldrIndexShift 2 = "" ∧
    AArch64PrettyPrinter.printOpRawValue "" ldpPostIndex 3 = "#16" := by
  decide

/-- A group is taken to end at the first `]`: in the string `[[x1],x2],x3`, in which
brackets are nested, the comma after `[[x1]` counts as outside the groups, for
`printOpRawValue` as for `topLevelOperands`. -/
theorem printOpRawValue_nested_brackets :
    topLevelOperandsFrom false "[[x1],x2],x3".toList =
      ["[[x1]".toList, "x2]".toList, "x3".toList] ∧
    AArch64PrettyPrinter.printOpRawValue ""
      { address := 0, op_str := "[[x1],x2],x3", op_count := 2, operands := [],
        writeback := false, is_jump := false } 1 = "x2]" := by
  decide

/-! ## The shift, the memory operand and the immediate of AArch64: C37, C38 -/

/-- The part "add shift" of the AArch64 printers for a shift type that is an
enumerator: the text of the shift is written at the end of the stream. -/
theorem shift_part_eq (op : cs_arm64_op) (os : String)
    (hshift : op.shift_type.isEnumerator = true) :
    (if op.shift_type ≠ arm64_shifter.ARM64_SFT_INVALID ∧ op.shift_value ≠ 0 then
      AArch64PrettyPrinter.printShift (os ++ ",") op.shift_type op.shift_value
     else os) = os ++ shiftText op := by
  unfold shiftText
  cases ht : op.shift_type <;> rw [ht] at hshift <;>
    by_cases hv : op.shift_value = 0 <;>
    simp [arm64_shifter.mnemonic, arm64_shifter.isEnumerator, AArch64PrettyPrinter.printShift,
      hv, String.append_assoc, -String.reduceAppend] at hshift ⊢

/-- The brackets of the AArch64 memory operand hold the present components joined by
single commas: the three parts of `printOpIndirect` before the shift. -/
theorem indirect_components_eq (env : PrinterEnv) (os : String)
    (symbolic : Option SymbolicExpression) (inst : cs_insn) (index : Nat) :
    AArch64PrettyPrinter.indirectIndex env (inst.operand index)
        (AArch64PrettyPrinter.indirectDisplacement env symbolic inst index
          (AArch64PrettyPrinter.indirectBase env (inst.operand index) true (os ++ "[")).1
          (AArch64PrettyPrinter.indirectBase env (inst.operand index) true (os ++ "[")).2).1
        (AArch64PrettyPrinter.indirectDisplacement env symbolic inst index
          (AArch64PrettyPrinter.indirectBase env (inst.operand index) true (os ++ "[")).1
          (AArch64PrettyPrinter.indirectBase env (inst.operand index) true (os ++ "[")).2).2 =
      os ++ "[" ++
        ",".intercalate (AArch64PrettyPrinter.indirectComponents env symbolic inst index) := by
  simp only [AArch64PrettyPrinter.indirectIndex, AArch64PrettyPrinter.indirectDisplacement,
    AArch64PrettyPrinter.indirectBase, AArch64PrettyPrinter.indirectComponents,
    AArch64PrettyPrinter.displacementText]
  by_cases hb : (inst.operand index).mem.base = REG_INVALID <;>
  by_cases hd : (inst.operand index).mem.disp = 0 <;>
  by_cases hi : (inst.operand index).mem.index = REG_INVALID <;>
  cases getIfSymAddrConst symbolic <;>
  simp [hb, hd, hi, String.intercalate, String.intercalate.go, String.append_assoc,
    printPrefix_append_acc, printPrefix_append env "[", printPrefix_append env ",",
    -String.reduceAppend]

/-- C37: the AArch64 `printOpIndirect` writes `[`, then the components that are
present in the order base register, displacement, index register, joined by single
commas, where the displacement is present only when its number is not 0 and is written
as `#` and the number or as the symbolic expression with its prefix; then a comma and
the shift (mnemonic, blank, `#`, amount) when the shift type is valid and the amount
is not 0; then `]`; then `!` exactly when the instruction has writeback and the
operand is the last one. -/
theorem printOpIndirect_format (env : PrinterEnv) (os : String)
    (symbolic : Option SymbolicExpression) (inst : cs_insn) (index : Nat)
    (hshift : (inst.operand index).shift_type.isEnumerator = true)
    (hindex : index + 1 < addrModulus) :
    AArch64PrettyPrinter.printOpIndirect env os symbolic inst index =
      os ++ "[" ++
        ",".intercalate (AArch64PrettyPrinter.indirectComponents env symbolic inst index) ++
        shiftText (inst.operand index) ++ "]" ++
        (if inst.writeback = true ∧ index + 1 = inst.op_count then "!" else "") := by
  have hadd : add64 index 1 = index + 1 := add64_eq hindex
  simp only [AArch64PrettyPrinter.printOpIndirect, AArch64PrettyPrinter.indirectShift]
  rw [indirect_components_eq, shift_part_eq _ _ hshift, hadd]
  split_ifs <;> simp [String.append_assoc]

/-- C38: with no symbolic expression the AArch64 `printOpImmediate` writes `#` and the
immediate in decimal, and then, exactly when the shift type is valid and the amount is
not 0, a comma, the mnemonic of the shift (`lsl`, `msl`, `lsr`, `asr` or `ror`), a
blank, `#` and the amount; with the amount 0 or the shift type invalid nothing is
added. -/
theorem printOpImmediate_numeric (env : PrinterEnv) (os : String)
    (symbolic : Option SymbolicExpression) (inst : cs_insn) (index : Nat)
    (hnone : env.getSymbolicImmediate symbolic = none)
    (hshift : (inst.operand index).shift_type.isEnumerator = true) :
    AArch64PrettyPrinter.printOpImmediate env os symbolic inst index =
        os ++ "#" ++ toString (inst.operand index).imm ++ shiftText (inst.operand index) ∧
    (((inst.operand index).shift_type = arm64_shifter.ARM64_SFT_INVALID ∨
        (inst.operand index).shift_value = 0) → shiftText (inst.operand index) = "") ∧
    (((inst.operand index).shift_type ≠ arm64_shifter.ARM64_SFT_INVALID ∧
        (inst.operand index).shift_value ≠ 0) →
      ∃ m ∈ ["lsl", "msl", "lsr", "asr", "ror"],
        (inst.operand index).shift_type.mnemonic = some m ∧
        shiftText (inst.operand index) =
          "," ++ m ++ " #" ++ toString (inst.operand index).shift_value) := by
  refine ⟨?_, ?_, ?_⟩
  · simp only [AArch64PrettyPrinter.printOpImmediate, hnone]
    exact shift_part_eq _ _ hshift
  · rintro (h | h)
    · simp [shiftText, h, arm64_shifter.mnemonic]
    · unfold shiftText
      cases (inst.operand index).shift_type.mnemonic <;> simp [h]
  · rintro ⟨ht, hv⟩
    unfold shiftText
    cases hty : (inst.operand index).shift_type <;> rw [hty] at hshift ht <;>
      simp [arm64_shifter.mnemonic, arm64_shifter.isEnumerator, hv] at hshift ht ⊢

/-- C37, witness: `ldr x2, [x1, x3, lsl #3]` has the components base and index and a
shift; `ldr x2, [x1, #16]!` has base and displacement, and writeback on the last
operand. -/
theorem printOpIndirect_format_witness :
    (ldrIndexShift.operand 1).shift_type.isEnumerator = true ∧ 1 + 1 < addrModulus ∧
    AArch64PrettyPrinter.printOpIndirect sampleEnv "ldr x2," none ldrIndexShift 1 =
      "ldr x2," ++ "[" ++
        ",".intercalate (AArch64PrettyPrinter.indirectComponents sampleEnv none ldrIndexShift 1) ++
        shiftText (ldrIndexShift.operand 1) ++ "]" ++
        (if ldrIndexShift.writeback = true ∧ 1 + 1 = ldrIndexShift.op_count then "!" else "") ∧
    AArch64PrettyPrinter.indirectComponents sampleEnv none ldrIndexShift 1 = ["x1", "x3"] ∧
    shiftText (ldrIndexShift.operand 1) = ",lsl #3" ∧
    AArch64PrettyPrinter.printOpIndirect sampleEnv "ldr x2," none ldrIndexShift 1 =
      "ldr x2,[x1,x3,lsl #3]" ∧
    AArch64PrettyPrinter.printOpIndirect sampleEnv "ldr x2," none ldrWriteback 1 =
      "ldr x2,[x1,#16]!" ∧
    AArch64PrettyPrinter.printOpIndirect sampleEnv "ldp x2,x3," none ldpPostIndex 2 =
      "ldp x2,x3,[x1]" :=
  ⟨by decide, by decide,
    printOpIndirect_format sampleEnv "ldr x2," none ldrIndexShift 1 (by decide) (by decide),
    by decide, by decide, by decide, by decide, by decide⟩

/-- C38, witness: the immediate of `add x2, x1, #4, lsl #12` is written with its shift,
that of `add x2, x1, #4` without. -/
theorem printOpImmediate_numeric_witness :
    sampleEnv.getSymbolicImmediate none = none ∧
    (addShifted.operand 2).shift_type.isEnumerator = true ∧
    AArch64PrettyPrinter.printOpImmediate sampleEnv "add x2,x1," none addShifted 2 =
      "add x2,x1," ++ "#" ++ toString (addShifted.operand 2).imm ++
        shiftText (addShifted.operand 2) ∧
    AArch64PrettyPrinter.printOpImmediate sampleEnv "add x2,x1," none addShifted 2 =
      "add x2,x1,#4,lsl #12" ∧
    AArch64PrettyPrinter.printOpImmediate sampleEnv "add x2,x1," none addImmediate 2 =
      "add x2,x1,#4" :=
  ⟨rfl, by decide,
    (printOpImmediate_numeric sampleEnv "add x2,x1," none addShifted 2 rfl (by decide)).1,
    by decide, by decide⟩

/-- A shift type that is none of the enumerators, which the `default` of `printShift`
meets with an `assert` only, is written without a mnemonic. -/
theorem printShift_unlisted :
    AArch64PrettyPrinter.printShift "," (arm64_shifter.unlisted 7) 3 = ", #3" := by
  decide

/-! ## The symbolic expression goes to the last operand only: C34 -/

/-- C34: for an operand of an instruction that is not the last one, `printOperand` looks
up no symbolic expression; an immediate operand is then written as `#` and the number,
with its shift, and a memory operand as `printOpIndirect` writes it without a symbolic
expression, its displacement being `#` and the number; and what is written is the same
whatever module the printer has. -/
theorem printOperand_symbolic_last_only (env : PrinterEnv) (os : String) (inst : cs_insn)
    (index : Nat) (M : Module) (hcount : inst.op_count < addrModulus)
    (hindex : index < inst.op_count) (hlast : index + 1 ≠ inst.op_count)
    (hnull : env.getSymbolicImmediate none = none) :
    AArch64PrettyPrinter.operandSymbolic env inst index = none ∧
    ((inst.operand index).type = arm64_op_type.ARM64_OP_IMM →
      AArch64PrettyPrinter.printOperand env os inst index =
        Run.returned (os ++ "#" ++ toString (inst.operand index).imm ++
          (if (inst.operand index).shift_type ≠ arm64_shifter.ARM64_SFT_INVALID ∧
              (inst.operand index).shift_value ≠ 0 then
            "," ++ AArch64PrettyPrinter.printShift "" (inst.operand index).shift_type
              (inst.operand index).shift_value
           else ""))) ∧
    ((inst.operand index).type = arm64_op_type.ARM64_OP_MEM →
      AArch64PrettyPrinter.printOperand env os inst index =
        Run.returned (AArch64PrettyPrinter.printOpIndirect env os none inst index) ∧
      AArch64PrettyPrinter.displacementText env none inst index =
        "#" ++ toString (inst.operand index).mem.disp) ∧
    AArch64PrettyPrinter.printOperand { env with module := M } os inst index =
      AArch64PrettyPrinter.printOperand env os inst index := by
  have hadd : add64 index 1 = index + 1 := add64_eq (by omega)
  have hsym : ∀ env1 : PrinterEnv, AArch64PrettyPrinter.operandSymbolic env1 inst index = none := by
    intro env1
    simp only [AArch64PrettyPrinter.operandSymbolic, hadd, hlast, decide_False,
      Bool.false_eq_true, if_false]
  refine ⟨hsym env, ?_, ?_, ?_⟩
  · intro ht
    simp only [AArch64PrettyPrinter.printOperand, ht, hsym env,
      AArch64PrettyPrinter.printOpImmediate, hnull]
    split_ifs
    · rw [printShift_append]
      simp [String.append_assoc]
    · simp
  · intro ht
    refine ⟨?_, rfl⟩
    simp only [AArch64PrettyPrinter.printOperand, ht, hsym env]
  · simp only [AArch64PrettyPrinter.printOperand, hsym env,
      hsym { env with module := M }]
    rfl

/-- C34, witness: in `ccmp x1, #4, #0, eq` at `0x1000`, where the module has a symbolic
expression for symbol 7, the immediate 4 is not the last operand and is written as
`#4`; the last operand receives the symbolic expression. -/
theorem printOperand_symbolic_last_only_witness :
    ccmpImmediates.op_count < addrModulus ∧ 1 < ccmpImmediates.op_count ∧
    1 + 1 ≠ ccmpImmediates.op_count ∧
    sampleEnv.module.findSymbolicExpressionsAt ccmpImmediates.address =
      [SymbolicExpression.SymAddrConst 0 7] ∧
    AArch64PrettyPrinter.operandSymbolic sampleEnv ccmpImmediates 1 = none ∧
    AArch64PrettyPrinter.printOperand sampleEnv "ccmp x1," ccmpImmediates 1 =
      Run.returned "ccmp x1,#4" ∧
    AArch64PrettyPrinter.printOperand sampleEnv "ccmp x1,#4," ccmpImmediates 2 =
      Run.returned "ccmp x1,#4, sym7" :=
  ⟨by decide, by decide, by decide, by decide,
    (printOperand_symbolic_last_only sampleEnv "ccmp x1," ccmpImmediates 1 printerModule
      (by decide) (by decide) (by decide) rfl).1,
    by decide, by decide⟩

/-- The memory operand of `ldr x2, [x1], #16` is not the last operand: it is written
without the symbolic expression that the module has at the address. -/
theorem printOperand_memory_not_last :
    AArch64PrettyPrinter.operandSymbolic sampleEnv ldrPostIndex 1 = none ∧
    AArch64PrettyPrinter.printOperandList sampleEnv "ldr " ldrPostIndex =
      Run.returned "ldr x2,[x1], sym7" := by
  decide

/-! ## The memory operand of AT&T: C35 -/

/-- C35: the AT&T `printOpIndirect` writes `*` for a call or a jump; then the name of
the segment register and `:` when there is a segment; then the displacement, which is
the symbolic expression when a `SymAddrConst` is supplied, else `0x` and the
displacement in base 16 when there is no segment, base or index, else the
displacement in decimal when it is not 0 or there is a segment, else nothing; then,
when there is a base or an index, `(`, the base when there is one, `,` and the index
when there is one, followed by `,` and the scale when the scale is not 1, and `)`. -/
theorem att_printOpIndirect_format (env : PrinterEnv) (os : String)
    (symbolic : Option SymbolicExpression) (inst : cs_insn_x86) (index : Nat) :
    AttPrettyPrinter.printOpIndirect env os symbolic inst index =
      os ++ (if inst.is_call ∨ inst.is_jump then "*" else "") ++
        (if (inst.operand index).mem.segment ≠ REG_INVALID then
          AttPrettyPrinter.getRegisterName env (inst.operand index).mem.segment ++ ":"
         else "") ++
        (match getIfSymAddrConst symbolic with
         | some s => env.printSymbolicExpression s.1 s.2 false
         | none =>
           if (inst.operand index).mem.segment = REG_INVALID ∧
               (inst.operand index).mem.base = REG_INVALID ∧
               (inst.operand index).mem.index = REG_INVALID then
             "0x" ++ showHex (inst.operand index).mem.disp
           else if (inst.operand index).mem.disp ≠ 0 ∨
               (inst.operand index).mem.segment ≠ REG_INVALID then
             toString (inst.operand index).mem.disp
           else "") ++
        (if (inst.operand index).mem.base ≠ REG_INVALID ∨
            (inst.operand index).mem.index ≠ REG_INVALID then
          "(" ++
            (if (inst.operand index).mem.base ≠ REG_INVALID then
              AttPrettyPrinter.getRegisterName env (inst.operand index).mem.base
             else "") ++
            (if (inst.operand index).mem.index ≠ REG_INVALID then
              "," ++ AttPrettyPrinter.getRegisterName env (inst.operand index).mem.index ++
                (if (inst.operand index).mem.scale ≠ 1 then
                  "," ++ toString (inst.operand index).mem.scale
                 else "")
             else "") ++ ")"
         else "") := by
  simp only [AttPrettyPrinter.printOpIndirect]
  cases getIfSymAddrConst symbolic <;>
  by_cases hs : (inst.operand index).mem.segment = REG_INVALID <;>
  by_cases hb : (inst.operand index).mem.base = REG_INVALID <;>
  by_cases hi : (inst.operand index).mem.index = REG_INVALID <;>
  by_cases hd : (inst.operand index).mem.disp = 0 <;>
  by_cases hsc : (inst.operand index).mem.scale = 1 <;>
  cases inst.is_call <;> cases inst.is_jump <;>
  simp [hs, hb, hi, hd, hsc, String.append_assoc, -String.reduceAppend]

/-- The AT&T memory operands of some instructions: a base alone, a symbolic
displacement, a segment with a displacement, base with index and scale, an index
with scale 1, an absolute address, and an indirect call. -/
theorem att_printOpIndirect_examples :
    AttPrettyPrinter.printOpIndirect sampleEnv "mov " none movIndirectZero 0 = "mov (%r3)" ∧
    AttPrettyPrinter.printOpIndirect sampleEnv "mov "
      (some (SymbolicExpression.SymAddrConst 0 7)) movIndirectZero 0 = "mov sym7(%r3)" ∧
    AttPrettyPrinter.printOpIndirect sampleEnv "mov " none
      { address := 0, operands := [{ cs_x86_op.zero with
          type := x86_op_type.X86_OP_MEM,
          mem := { segment := 9, base := 0, index := 0, scale := 1, disp := 40 } }],
        is_call := false, is_jump := false } 0 = "mov %r9:40" ∧
    AttPrettyPrinter.printOpIndirect sampleEnv "lea " none
      { address := 0, operands := [{ cs_x86_op.zero with
          type := x86_op_type.X86_OP_MEM,
          mem := { segment := 0, base := 3, index := 4, scale := 8, disp := -16 } }],
        is_call := false, is_jump := false } 0 = "lea -16(%r3,%r4,8)" ∧
    AttPrettyPrinter.printOpIndirect sampleEnv "lea " none
      { address := 0, operands := [{ cs_x86_op.zero with
          type := x86_op_type.X86_OP_MEM,
          mem := { segment := 0, base := 0, index := 4, scale := 1, disp := 0 } }],
        is_call := false, is_jump := false } 0 = "lea (,%r4)" ∧
    AttPrettyPrinter.printOpIndirect sampleEnv "mov " none
      { address := 0, operands := [{ cs_x86_op.zero with
          type := x86_op_type.X86_OP_MEM,
          mem := { segment := 0, base := 0, index := 0, scale := 1, disp := 4096 } }],
        is_call := false, is_jump := false } 0 = "mov 0x1000" ∧
    AttPrettyPrinter.printOpIndirect sampleEnv "call " none
      { address := 0, operands := [{ cs_x86_op.zero with
          type := x86_op_type.X86_OP_MEM,
          mem := { segment := 0, base := 3, index := 0, scale := 1, disp := 8 } }],
        is_call := true, is_jump := false } 0 = "call *8(%r3)" := by
  decide

/-! ## The immediate of AT&T and the flags of the stream: C36 -/

/-- An integer written under `std::setbase(16)` and `std::showbase`, without
`uppercase`: the digits in base 16 after `0x`, and the single digit `0` for zero. -/
theorem putInteger_hex_showbase (fl : fmtflags) (v : Int) (hupper : fl.uppercase = false) :
    putInteger { fl with basefield := Basefield.hex, showbase := true } v =
      if toUnsigned64 v = 0 then "0"
      else "0x" ++ String.mk (Nat.toDigits 16 (toUnsigned64 v)) := by
  simp only [putInteger, hupper, Bool.false_eq_true, if_false, true_and]
  by_cases h0 : toUnsigned64 v = 0
  · rw [if_neg (not_not.mpr h0), if_pos h0, h0]
    rfl
  · rw [if_pos h0, if_neg h0]

/-- An integer written under plain flags: the signed decimal number. -/
theorem putInteger_plain (fl : fmtflags) (v : Int) (hplain : fl.plain = true) :
    putInteger fl v = toString v := by
  simp only [fmtflags.plain, Bool.and_eq_true, Bool.or_eq_true, decide_eq_true_eq,
    Bool.not_eq_true'] at hplain
  obtain ⟨⟨hbase, hpos⟩, _⟩ := hplain
  rcases hbase with hb | hb <;>
    simp [putInteger, hb, hpos]

theorem showHexBase_eq (v : Int) :
    showHexBase v =
      if toUnsigned64 v = 0 then "0"
      else "0x" ++ String.mk (Nat.toDigits 16 (toUnsigned64 v)) := rfl

/-- On a stream whose flags are plain, the text that the AT&T `printOpImmediate` writes
is the text of the embedding that leaves the flags out, when `printSymbolicExpression`
appends its text. -/
theorem att_printOpImmediateOn_text (env : PrinterEnv)
    (printSymbolicExpression : ostream → Int → Nat → Bool → ostream) (os : ostream)
    (symbolic : Option SymbolicExpression) (inst : cs_insn_x86) (index : Nat)
    (hplain : os.flags.plain = true)
    (hsym : ∀ os1 Offset Sym inData, (printSymbolicExpression os1 Offset Sym inData).text =
      os1.text ++ env.printSymbolicExpression Offset Sym inData) :
    (AttPrettyPrinter.printOpImmediateOn env printSymbolicExpression os symbolic inst index).text =
      AttPrettyPrinter.printOpImmediate env os.text symbolic inst index := by
  have hupper : os.flags.uppercase = false := by
    simp only [fmtflags.plain, Bool.and_eq_true, Bool.not_eq_true'] at hplain
    exact hplain.2
  simp only [AttPrettyPrinter.printOpImmediateOn, AttPrettyPrinter.printOpImmediate]
  cases env.getSymbolicImmediate symbolic with
  | some s =>
    simp only [hsym]
    cases inst.is_call <;> cases inst.is_jump <;> rfl
  | none =>
    cases inst.is_call <;> cases inst.is_jump <;>
      simp only [Bool.not_true, Bool.not_false, Bool.and_self, Bool.and_false, Bool.and_true,
        Bool.or_self, Bool.or_false, Bool.or_true, Bool.false_eq_true, if_true, if_false,
        putInteger_hex_showbase _ _ hupper, putInteger_plain _ _ hplain, showHexBase_eq]

/-- C36 (as amended): the AT&T `printOpImmediate` with no symbolic expression leaves
the format flags of the stream as they were; on a stream with plain flags it writes,
for a call or a jump, no `$` and the immediate in base 16 after `0x`, or the single
digit `0` when the immediate is 0, and for every other instruction `$` and the
immediate as a signed decimal number. -/
theorem att_printOpImmediate_numeric (env : PrinterEnv)
    (printSymbolicExpression : ostream → Int → Nat → Bool → ostream) (os : ostream)
    (symbolic : Option SymbolicExpression) (inst : cs_insn_x86) (index : Nat)
    (hnone : env.getSymbolicImmediate symbolic = none)
    (hplain : os.flags.plain = true) :
    (AttPrettyPrinter.printOpImmediateOn env printSymbolicExpression os symbolic inst
      index).flags = os.flags ∧
    ((inst.is_call = true ∨ inst.is_jump = true) →
      (AttPrettyPrinter.printOpImmediateOn env printSymbolicExpression os symbolic inst
        index).text =
        os.text ++ (if toUnsigned64 (inst.operand index).imm = 0 then "0"
          else "0x" ++ String.mk (Nat.toDigits 16 (toUnsigned64 (inst.operand index).imm)))) ∧
    (¬ (inst.is_call = true ∨ inst.is_jump = true) →
      (AttPrettyPrinter.printOpImmediateOn env printSymbolicExpression os symbolic inst
        index).text = os.text ++ "$" ++ toString (inst.operand index).imm) := by
  have hupper : os.flags.uppercase = false := by
    simp only [fmtflags.plain, Bool.and_eq_true, Bool.not_eq_true'] at hplain
    exact hplain.2
  refine ⟨?_, ?_, ?_⟩
  · simp only [AttPrettyPrinter.printOpImmediateOn, hnone]
    cases inst.is_call <;> cases inst.is_jump <;> rfl
  · intro hcj
    simp only [AttPrettyPrinter.printOpImmediateOn, hnone]
    rcases hcj with h | h <;> rw [h] <;> cases inst.is_call <;> cases inst.is_jump <;>
      simp only [Bool.not_true, Bool.not_false, Bool.and_self, Bool.and_false, Bool.and_true,
        Bool.or_self, Bool.or_false, Bool.or_true, Bool.false_eq_true, if_true, if_false,
        putInteger_hex_showbase _ _ hupper]
  · intro hcj
    simp only [not_or, Bool.not_eq_true] at hcj
    simp only [AttPrettyPrinter.printOpImmediateOn, hnone, hcj.1, hcj.2, Bool.not_false,
      Bool.and_self, Bool.or_self, Bool.false_eq_true, if_true, if_false,
      putInteger_plain _ _ hplain]

/-- C36, witness: on a stream with the initial flags, `call 0x401000` is written in
base 16 and `mov $-4, %eax` as `$-4`; the flags stay. -/
theorem att_printOpImmediate_numeric_witness :
    sampleEnv.getSymbolicImmediate none = none ∧ fmtflags.initial.plain = true ∧
    (AttPrettyPrinter.printOpImmediateOn sampleEnv (fun os1 _ _ _ => os1)
      { text := "call ", flags := fmtflags.initial } none callImmediate 0).flags =
        fmtflags.initial ∧
    AttPrettyPrinter.printOpImmediateOn sampleEnv (fun os1 _ _ _ => os1)
      { text := "call ", flags := fmtflags.initial } none callImmediate 0 =
        { text := "call 0x401000", flags := fmtflags.initial } ∧
    AttPrettyPrinter.printOpImmediateOn sampleEnv (fun os1 _ _ _ => os1)
      { text := "mov ", flags := fmtflags.initial } none movNegative 0 =
        { text := "mov $-4", flags := fmtflags.initial } :=
  ⟨rfl, by decide,
    (att_printOpImmediate_numeric sampleEnv (fun os1 _ _ _ => os1)
      { text := "call ", flags := fmtflags.initial } none callImmediate 0 rfl (by decide)).1,
    by decide, by decide⟩

/-- C36, counterexample: for `jmp 0` the AT&T `printOpImmediate` writes the single
digit `0`, without the prefix `0x`: under `showbase` the prefix is written for a value
other than zero only. -/
theorem att_printOpImmediate_zero_without_prefix :
    (jmpZero.operand 0).imm = 0 ∧ jmpZero.is_jump = true ∧
    AttPrettyPrinter.printOpImmediateOn sampleEnv (fun os1 _ _ _ => os1)
      { text := "jmp ", flags := fmtflags.initial } none jmpZero 0 =
        { text := "jmp 0", flags := fmtflags.initial } ∧
    AttPrettyPrinter.printOpImmediate sampleEnv "jmp " none jmpZero 0 = "jmp 0" := by
  decide

/-- The flags are restored whatever they were: on a stream left in base 16 with upper
case, the immediate of a call is written with `0X` and the flags stay. -/
theorem att_printOpImmediate_restores_any_flags (env : PrinterEnv)
    (printSymbolicExpression : ostream → Int → Nat → Bool → ostream) (os : ostream)
    (symbolic : Option SymbolicExpression) (inst : cs_insn_x86) (index : Nat)
    (hnone : env.getSymbolicImmediate symbolic = none) :
    (AttPrettyPrinter.printOpImmediateOn env printSymbolicExpression os symbolic inst
      index).flags = os.flags := by
  simp only [AttPrettyPrinter.printOpImmediateOn, hnone]
  cases inst.is_call <;> cases inst.is_jump <;> rfl

/-! ## The properties of an ELF section: C39 -/

/-- C39: `printSectionProperties` writes nothing when the table `elfSectionProperties`
is absent or has no entry for the section; for a section with the entry of type `type`
and flags `flags`, in a table whose keys are distinct, it writes ` ,"`, then the
letters `w`, `a` and `x` in this order, each exactly when the bit `SHF_WRITE`,
`SHF_ALLOC` or `SHF_EXECINSTR` of the flags is set, then `"`, then `,@progbits` when
the type is `SHT_PROGBITS` and `,@nobits` when it is `SHT_NOBITS`, and nothing for
another type; flags that agree in the three bits give the same text. -/
theorem printSectionProperties_format (K : ElfConstants) (os : String) (S : Section) :
    ElfPrettyPrinter.printSectionProperties K none os S = os ∧
    (∀ table, S.uuid ∉ table.map Prod.fst →
      ElfPrettyPrinter.printSectionProperties K (some table) os S = os) ∧
    (∀ table type flags, (table.map Prod.fst).Nodup → (S.uuid, type, flags) ∈ table →
      ElfPrettyPrinter.printSectionProperties K (some table) os S =
        os ++ " ,\x22" ++ (if flags &&& K.SHF_WRITE ≠ 0 then "w" else "") ++
          (if flags &&& K.SHF_ALLOC ≠ 0 then "a" else "") ++
          (if flags &&& K.SHF_EXECINSTR ≠ 0 then "x" else "") ++ "\x22" ++
          (if type = K.SHT_PROGBITS then ",@progbits" else "") ++
          (if type = K.SHT_NOBITS then ",@nobits" else "")) ∧
    (∀ table1 table2 type flags1 flags2,
      (table1.map Prod.fst).Nodup → (S.uuid, type, flags1) ∈ table1 →
      (table2.map Prod.fst).Nodup → (S.uuid, type, flags2) ∈ table2 →
      flags1 &&& K.SHF_WRITE = flags2 &&& K.SHF_WRITE →
      flags1 &&& K.SHF_ALLOC = flags2 &&& K.SHF_ALLOC →
      flags1 &&& K.SHF_EXECINSTR = flags2 &&& K.SHF_EXECINSTR →
      ElfPrettyPrinter.printSectionProperties K (some table1) os S =
        ElfPrettyPrinter.printSectionProperties K (some table2) os S) := by
  have hfind : ∀ (table : List (Nat × Nat × Nat)) type flags, (table.map Prod.fst).Nodup →
      (S.uuid, type, flags) ∈ table →
      table.find? (fun entry => entry.1 = S.uuid) = some (S.uuid, type, flags) := by
    intro table type flags hkeys hentry
    induction table with
    | nil => simp at hentry
    | cons e es ih =>
      simp only [List.map_cons, List.nodup_cons] at hkeys
      rcases List.mem_cons.mp hentry with h | h
      · subst h
        simp
      · have hne : e.1 ≠ S.uuid := by
          intro heq
          apply hkeys.1
          rw [heq]
          exact List.mem_map.mpr ⟨(S.uuid, type, flags), h, rfl⟩
        rw [List.find?_cons_of_neg _ (by simpa using hne)]
        exact ih hkeys.2 h
  have hform : ∀ (table : List (Nat × Nat × Nat)) type flags, (table.map Prod.fst).Nodup →
      (S.uuid, type, flags) ∈ table →
      ElfPrettyPrinter.printSectionProperties K (some table) os S =
        os ++ " ,\x22" ++ (if flags &&& K.SHF_WRITE ≠ 0 then "w" else "") ++
          (if flags &&& K.SHF_ALLOC ≠ 0 then "a" else "") ++
          (if flags &&& K.SHF_EXECINSTR ≠ 0 then "x" else "") ++ "\x22" ++
          (if type = K.SHT_PROGBITS then ",@progbits" else "") ++
          (if type = K.SHT_NOBITS then ",@nobits" else "") := by
    intro table type flags hkeys hentry
    simp only [ElfPrettyPrinter.printSectionProperties, hfind table type flags hkeys hentry]
    split_ifs <;> simp [String.append_assoc, -String.reduceAppend]
  refine ⟨rfl, ?_, hform, ?_⟩
  · intro table hno
    have hnone : table.find? (fun entry => entry.1 = S.uuid) = none := by
      rw [List.find?_eq_none]
      intro entry hentry heq
      apply hno
      exact List.mem_map.mpr ⟨entry, hentry, by simpa using heq⟩
    simp only [ElfPrettyPrinter.printSectionProperties, hnone]
  · intro table1 table2 type flags1 flags2 hk1 he1 hk2 he2 hw ha hx
    rw [hform table1 type flags1 hk1 he1, hform table2 type flags2 hk2 he2, hw, ha, hx]

/-- C39, witness: with the constants of the System V ABI, a section of type
`SHT_PROGBITS` with the flags `SHF_ALLOC` and `SHF_EXECINSTR` is given `,"ax",@progbits`,
also when further bits of the flags are set; a writable `SHT_NOBITS` section is given
`,"wa",@nobits`; a section of another type has the flags only; a section without entry
has nothing. -/
theorem printSectionProperties_format_witness :
    ElfPrettyPrinter.printSectionProperties elfConstants (some [(1, 1, 6), (2, 8, 3)])
      ".section .text" { uuid := 1, name := ".text", byteIntervals := [] } =
      ".section .text" ++ " ,\x22" ++ (if 6 &&& elfConstants.SHF_WRITE ≠ 0 then "w" else "") ++
        (if 6 &&& elfConstants.SHF_ALLOC ≠ 0 then "a" else "") ++
        (if 6 &&& elfConstants.SHF_EXECINSTR ≠ 0 then "x" else "") ++ "\x22" ++
        (if 1 = elfConstants.SHT_PROGBITS then ",@progbits" else "") ++
        (if 1 = elfConstants.SHT_NOBITS then ",@nobits" else "") ∧
    ElfPrettyPrinter.printSectionProperties elfConstants (some [(1, 1, 6), (2, 8, 3)])
      ".section .text" { uuid := 1, name := ".text", byteIntervals := [] } =
      ".section .text ,\x22ax\x22,@progbits" ∧
    ElfPrettyPrinter.printSectionProperties elfConstants (some [(1, 1, 0x36), (2, 8, 3)])
      ".section .text" { uuid := 1, name := ".text", byteIntervals := [] } =
      ".section .text ,\x22ax\x22,@progbits" ∧
    ElfPrettyPrinter.printSectionProperties elfConstants (some [(1, 1, 6), (2, 8, 3)])
      ".section .bss" { uuid := 2, name := ".bss", byteIntervals := [] } =
      ".section .bss ,\x22wa\x22,@nobits" ∧
    ElfPrettyPrinter.printSectionProperties elfConstants (some [(1, 14, 3)])
      ".section .init_array" { uuid := 1, name := ".init_array", byteIntervals := [] } =
      ".section .init_array ,\x22wa\x22" ∧
    ElfPrettyPrinter.printSectionProperties elfConstants (some [(1, 1, 6), (2, 8, 3)])
      ".section .data" { uuid := 3, name := ".data", byteIntervals := [] } =
      ".section .data" :=
  ⟨(printSectionProperties_format elfConstants ".section .text"
      { uuid := 1, name := ".text", byteIntervals := [] }).2.2.1 [(1, 1, 6), (2, 8, 3)] 1 6
      (by decide) (by decide),
    by decide, by decide, by decide, by decide, by decide⟩

/-! ## The driver lays out what it links: C26 -/

/-- The modules that the loop over the modules leaves: at every place the module that
was there, laid out with the context that the modules before it have left if it had no
address. -/
theorem layoutModules_getElem (w : DriverWorld) (Cfg : List Edge) (Ctx : Context)
    (Ms : List Module) (K : Nat) :
    (layoutModules w Cfg Ctx Ms).2.2[K]? =
      (Ms[K]?).map (fun M =>
        if M.getAddress.isNone then
          (layoutModule Cfg (contextAfter Cfg Ctx (Ms.take K)) M).2.2
        else M) := by
  induction Ms generalizing Ctx K with
  | nil => simp [layoutModules]
  | cons X Xs ih =>
    cases K with
    | zero =>
      simp only [layoutModules]
      split_ifs with h
      · simp only [List.getElem?_cons_zero, Option.map_some', List.take_zero, contextAfter,
          List.foldl_nil, h, if_true]
      · simp only [List.getElem?_cons_zero, Option.map_some', List.take_zero, contextAfter,
          List.foldl_nil, h, Bool.false_eq_true, if_false]
    | succ K =>
      simp only [layoutModules]
      split_ifs with h
      · simp only [List.getElem?_cons_succ, List.take_succ_cons, contextAfter,
          List.foldl_cons, h, if_true]
        exact ih (layoutModule Cfg Ctx X).2.1 K
      · simp only [List.getElem?_cons_succ, List.take_succ_cons, contextAfter,
          List.foldl_cons, h, if_false]
        exact ih Ctx K

theorem layoutModules_length (w : DriverWorld) (Cfg : List Edge) (Ctx : Context)
    (Ms : List Module) : (layoutModules w Cfg Ctx Ms).2.2.length = Ms.length := by
  induction Ms generalizing Ctx with
  | nil => simp [layoutModules]
  | cons X Xs ih =>
    simp only [layoutModules]
    split_ifs <;> simp [ih]

/-- The loop over the modules calls `layoutModule` on the module at the place `K` when
it has no address, with the context that the modules before it have left. -/
theorem layoutModules_calls_at (w : DriverWorld) (Cfg : List Edge) (Ctx : Context)
    (Ms : List Module) (K : Nat) (M : Module) (hM : Ms[K]? = some M)
    (hnone : M.getAddress = none) :
    ∃ pre post, (layoutModules w Cfg Ctx Ms).1 =
      pre ++ DriverEvent.layoutModule M
        (layoutModule Cfg (contextAfter Cfg Ctx (Ms.take K)) M).1 :: post := by
  induction Ms generalizing Ctx K with
  | nil => simp at hM
  | cons X Xs ih =>
    cases K with
    | zero =>
      simp only [List.getElem?_cons_zero, Option.some.injEq] at hM
      subst hM
      simp only [layoutModules, hnone, Option.isNone_none, if_true]
      exact ⟨[DriverEvent.logInfo [LogItem.text "Module ", LogItem.text (w.getUUIDText X),
          LogItem.text " has invalid layout; laying out module automatically...",
          LogItem.endl]],
        (layoutModules w Cfg (layoutModule Cfg Ctx X).2.1 Xs).1, rfl⟩
    | succ K =>
      simp only [List.getElem?_cons_succ] at hM
      simp only [layoutModules]
      split_ifs with h
      · obtain ⟨pre, post, heq⟩ := ih (layoutModule Cfg Ctx X).2.1 K hM
        refine ⟨DriverEvent.logInfo [LogItem.text "Module ", LogItem.text (w.getUUIDText X),
            LogItem.text " has invalid layout; laying out module automatically...",
            LogItem.endl] ::
          DriverEvent.layoutModule X (layoutModule Cfg Ctx X).1 :: pre, post, ?_⟩
        simp only [heq, List.cons_append, List.take_succ_cons, contextAfter, List.foldl_cons,
          h, if_true]
      · obtain ⟨pre, post, heq⟩ := ih Ctx K hM
        refine ⟨pre, post, ?_⟩
        simp only [heq, List.take_succ_cons, contextAfter, List.foldl_cons, h]
        rfl

/-- The IR of a call of `link` among the events of `printAndLink` is the IR that
`printAndLink` was given. -/
theorem printAndLink_link_ir (vm : ProgramOptions) (ir ir1 : IR) (format syntaxName : String)
    (binaryPath : String) (args paths : List String)
    (h : DriverEvent.link binaryPath args paths ir1 ∈
      (printAndLink vm ir format syntaxName).events) : ir1 = ir := by
  cases hb : vm.binary with
  | none =>
    have := (printAndLink_events vm ir format syntaxName).2.2 hb
    have hl := this.2 _ h
    simp [DriverEvent.isLink] at hl
  | some p =>
    simp only [printAndLink, hb, List.mem_cons, List.mem_append, List.mem_map,
      List.mem_singleton, List.not_mem_nil, or_false] at h
    rcases h with h | (⟨x, _, h⟩ | ⟨x, _, h⟩) | h
    · cases h
    · cases h
    · cases h
    · injection h with _ _ _ h4

/-- C26: when the driver has loaded an IR, then for every module of it in which the
module, some section or some byte interval lacks an address, the driver calls
`layoutModule` on that module, with the static context as the modules before it have
left it, and no call of `setTarget` or of `link` comes before that call; every call of
`link` comes after it and is given the IR in which the module that `layoutModule` has
left stands at the place of that module; and `link` is called when the name of a binary
is given and the target is registered. -/
theorem main_lays_out_before_printing (w : DriverWorld) (vm : ProgramOptions) (ir : IR)
    (K : Nat) (M : Module) (hparse : w.parse = Except.ok vm) (hhelp : vm.help = false)
    (hload : loadedIR w vm = some ir) (hM : ir.modules[K]? = some M)
    (hlack : M.getAddress = none ∨ (∃ S ∈ M.sections, S.getAddress = none) ∨
      (∃ S ∈ M.sections, ∃ BI ∈ S.byteIntervals, BI.address = none)) :
    ∃ pre post,
      (main w).events =
        pre ++ DriverEvent.layoutModule M
          (layoutModule ir.cfg (contextAfter ir.cfg w.Ctx (ir.modules.take K)) M).1 :: post ∧
      (∀ e ∈ pre, e.isSetTarget = false ∧ e.isLink = false) ∧
      (∀ binaryPath args paths ir1,
        DriverEvent.link binaryPath args paths ir1 ∈ (main w).events →
          DriverEvent.link binaryPath args paths ir1 ∈ post ∧ ir1.cfg = ir.cfg ∧
          ir1.modules.length = ir.modules.length ∧
          ir1.modules[K]? =
            some (layoutModule ir.cfg (contextAfter ir.cfg w.Ctx (ir.modules.take K)) M).2.2) ∧
      (∀ binaryPath, vm.binary = some binaryPath →
        requestedTarget w vm (laidOutIR w ir) ∈ w.getRegisteredTargets →
        ∃ ir1, DriverEvent.link binaryPath (vm.compiler_args.getD [])
          (vm.library_paths.getD []) ir1 ∈ post) := by
  obtain ⟨before, hmain, hbefore⟩ := main_eq_mainLoaded w vm ir hparse hhelp hload
  have hne : ir.modules ≠ [] := by
    intro h
    rw [h] at hM
    simp at hM
  have hnone : M.getAddress = none := module_getAddress_none_of_lack M hlack
  obtain ⟨pre, post, hev⟩ := layoutModules_calls_at w ir.cfg w.Ctx ir.modules K M hM hnone
  have hpre : ∀ e ∈ before ++ pre, e.isSetTarget = false ∧ e.isLink = false := by
    intro e he
    have hb : e.beforePrinting = true := by
      rcases List.mem_append.mp he with h | h
      · exact hbefore e h
      · apply layoutModules_beforePrinting w ir.cfg w.Ctx ir.modules e
        rw [hev]
        exact List.mem_append_left _ h
    simpa [DriverEvent.beforePrinting] using hb
  have hlaid : (laidOutIR w ir).cfg = ir.cfg ∧
      (laidOutIR w ir).modules.length = ir.modules.length ∧
      (laidOutIR w ir).modules[K]? =
        some (layoutModule ir.cfg (contextAfter ir.cfg w.Ctx (ir.modules.take K)) M).2.2 := by
    refine ⟨rfl, layoutModules_length w ir.cfg w.Ctx ir.modules, ?_⟩
    simp only [laidOutIR]
    rw [layoutModules_getElem, hM]
    simp only [Option.map_some', hnone, Option.isNone_none, if_true]
  have hnolink : ∀ (l : List DriverEvent), (∀ e ∈ l, e.beforePrinting = true) →
      ∀ binaryPath args paths ir1, DriverEvent.link binaryPath args paths ir1 ∉ l := by
    intro l hl binaryPath args paths ir1 hmem
    have := hl _ hmem
    simp [DriverEvent.beforePrinting, DriverEvent.isLink] at this
  rw [hmain, mainLoaded_eq w vm ir before hne]
  split_ifs with hreg
  · -- the pair is registered
    refine ⟨before ++ pre, post ++ [DriverEvent.setDebug 0] ++
        (printAndLink vm (laidOutIR w ir) (requestedTarget w vm (laidOutIR w ir)).1
          (requestedTarget w vm (laidOutIR w ir)).2).events, ?_, hpre, ?_, ?_⟩
    · simp only [hev, List.append_assoc, List.cons_append]
    · intro binaryPath args paths ir1 hmem
      simp only [List.mem_append, List.mem_singleton] at hmem
      rcases hmem with ((h | h) | h) | h
      · exact absurd h (hnolink _ hbefore binaryPath args paths ir1)
      · exact absurd h (hnolink _
          (layoutModules_beforePrinting w ir.cfg w.Ctx ir.modules) binaryPath args paths ir1)
      · cases h
      · have hir := printAndLink_link_ir vm _ ir1 _ _ binaryPath args paths h
        subst hir
        exact ⟨List.mem_append_right _ h, hlaid⟩
    · intro binaryPath hb _
      exact ⟨laidOutIR w ir, List.mem_append_right _
        ((printAndLink_events vm (laidOutIR w ir) _ _).2.1 binaryPath hb)⟩
  · -- the pair is not registered: nothing is linked
    refine ⟨before ++ pre, post ++ [DriverEvent.setDebug 0] ++
        reportUnsupported w (requestedTarget w vm (laidOutIR w ir)).1
          (requestedTarget w vm (laidOutIR w ir)).2, ?_, hpre, ?_, ?_⟩
    · simp only [hev, List.append_assoc, List.cons_append]
    · intro binaryPath args paths ir1 hmem
      exfalso
      refine hnolink _ ?_ binaryPath args paths ir1 hmem
      intro e he
      simp only [List.mem_append, List.mem_singleton] at he
      rcases he with ((h | h) | h) | h
      · exact hbefore e h
      · exact layoutModules_beforePrinting w ir.cfg w.Ctx ir.modules e h
      · subst h; rfl
      · exact (mem_reportUnsupported w _ _).2.2 e h
    · intro binaryPath _ hyes
      exact absurd hyes hreg

/-- C26, witness: in the IR of three modules the third has no address; the driver calls
`layoutModule` on it with the context that the layout of the first module has left, and
links afterwards the IR in which the first and the third module are laid out, with the
symbols `1000` and `1001`, and the second is as it was. -/
theorem main_lays_out_before_printing_witness :
    threeModuleIR.modules[2]? = some (sharedStartModule 4 40 400) ∧
    (sharedStartModule 4 40 400).getAddress = none ∧
    contextAfter threeModuleIR.cfg (sampleWorld sampleOptions threeModuleIR).Ctx
      (threeModuleIR.modules.take 2) = { nextUUID := 1001 } ∧
    (∃ pre post,
      (main (sampleWorld sampleOptions threeModuleIR)).events =
        pre ++ DriverEvent.layoutModule (sharedStartModule 4 40 400)
          (layoutModule threeModuleIR.cfg
            (contextAfter threeModuleIR.cfg (sampleWorld sampleOptions threeModuleIR).Ctx
              (threeModuleIR.modules.take 2)) (sharedStartModule 4 40 400)).1 :: post ∧
      (∀ e ∈ pre, e.isSetTarget = false ∧ e.isLink = false) ∧
      (∀ binaryPath args paths ir1,
        DriverEvent.link binaryPath args paths ir1 ∈
            (main (sampleWorld sampleOptions threeModuleIR)).events →
          DriverEvent.link binaryPath args paths ir1 ∈ post ∧
          ir1.cfg = threeModuleIR.cfg ∧
          ir1.modules.length = threeModuleIR.modules.length ∧
          ir1.modules[2]? =
            some (layoutModule threeModuleIR.cfg
              (contextAfter threeModuleIR.cfg (sampleWorld sampleOptions threeModuleIR).Ctx
                (threeModuleIR.modules.take 2)) (sharedStartModule 4 40 400)).2.2) ∧
      (∀ binaryPath, sampleOptions.binary = some binaryPath →
        requestedTarget (sampleWorld sampleOptions threeModuleIR) sampleOptions
            (laidOutIR (sampleWorld sampleOptions threeModuleIR) threeModuleIR) ∈
          (sampleWorld sampleOptions threeModuleIR).getRegisteredTargets →
        ∃ ir1, DriverEvent.link binaryPath (sampleOptions.compiler_args.getD [])
          (sampleOptions.library_paths.getD []) ir1 ∈ post)) ∧
    (main (sampleWorld sampleOptions threeModuleIR)).events.map DriverEvent.isLink =
      [false, false, false, false, false, false, true] ∧
    (main (sampleWorld sampleOptions threeModuleIR)).events[6]? =
      some (DriverEvent.link "a.out" [] []
        { modules := [sharedStartLaidOut 3 30 300 1000, scenarioALaidOut,
            sharedStartLaidOut 4 40 400 1001],
          cfg := scenarioACfg }) :=
  ⟨by decide, by decide, by decide,
    main_lays_out_before_printing (sampleWorld sampleOptions threeModuleIR) sampleOptions
      threeModuleIR 2 (sharedStartModule 4 40 400) rfl rfl rfl (by decide)
      (Or.inl (by decide)),
    by decide, by decide⟩

end GtirbLayout
